import Mathlib

/-!
# Sqlite3CreateTableParser: the lexer and parser of `parser/sqlite_create_table.go`

A shallow embedding of the Go source.  Every Go function becomes a Lean
function of the same name.  Functions that read or move the scan cursor run
in the monad `M`, which threads the `State` explicitly and records the ways
a Go call can fail to return: a runtime panic (index or slice bounds out of
range) and, for the model only, an exhausted loop budget.

What the source takes from outside the repository is left open: `GoEnv`
holds the part of Go's Unicode tables beyond ASCII, and an outcome that
depends on the capacity the runtime gave to the `[]rune(sql)` slice is
recorded as such (`Res.ifCap`).
-/

namespace Sqlite3CreateTableParser

/-! ## Tokens and the data model -/

/-- The token kinds: the constant block `tokEOF ... tokIMMEDIATE`. -/
inductive tokenT where
  | tokEOF | tokERROR | tokIDENTIFIER | tokCOMMENT
  | tokCREATE | tokTEMP | tokTABLE | tokIF | tokNOT | tokEXISTS | tokAS | tokWITHOUT | tokROWID
  | tokDOT | tokSEMICOLON | tokCOMMA | tokOPENparenthesis | tokCLOSEDparenthesis
  | tokCONSTRAINT | tokPRIMARY | tokKEY | tokUNIQUE | tokCHECK | tokFOREIGN | tokON
  | tokCONFLICT | tokROLLBACK | tokABORT | tokFAIL | tokIGNORE | tokREPLACE | tokCOLLATE
  | tokASC | tokDESC | tokAUTOINCREMENT
  | tokREFERENCES | tokDELETE | tokUPDATE | tokSET | tokNULL | tokDEFAULT | tokCASCADE
  | tokRESTRICT | tokNO | tokACTION | tokMATCH | tokDEFERRABLE | tokINITIALLY | tokDEFERRED
  | tokIMMEDIATE
  deriving DecidableEq, Repr

open tokenT

/-- Modelled from the spec: the declaration of `ErrorCode` is not among the
source files; the spec names three kinds, none, syntax and
unsupported-construct, and the source uses the three constants below. -/
inductive ErrorCode where
  | ERROR_NONE | ERROR_SYNTAX | ERROR_UNSUPPORTEDSQL
  deriving DecidableEq, Repr

/-- Modelled from the spec: the declaration of `OrderClause` is not among the
source files; sort order is ascending, descending or unspecified. -/
inductive OrderClause where
  | ORDER_NONE | ORDER_ASC | ORDER_DESC
  deriving DecidableEq, Repr

/-- Modelled from the spec: the declaration of `ConflictClause` is not among
the source files; ROLLBACK, ABORT, FAIL, IGNORE, REPLACE, or none.  The
spelling `CONFLICT_ROOLBACK` is the one the source uses. -/
inductive ConflictClause where
  | CONFLICT_NONE | CONFLICT_ROOLBACK | CONFLICT_ABORT | CONFLICT_FAIL | CONFLICT_IGNORE
  | CONFLICT_REPLACE
  deriving DecidableEq, Repr

/-- Modelled from the spec: the declaration of `FkAction` is not among the
source files; the five actions the source assigns, and `FKACTION_NONE` for the
distinguished value of an absent clause (the zero value of a fresh
`ForeignKey`). -/
inductive FkAction where
  | FKACTION_NONE | FKACTION_SETNULL | FKACTION_SETDEFAULT | FKACTION_CASCADE
  | FKACTION_RESTRICT | FKACTION_NOACTION
  deriving DecidableEq, Repr

/-- Modelled from the spec: the declaration of `FkDefType` is not among the
source files; six deferrability classifications and `DEFTYPE_NONE` for
absence. -/
inductive FkDefType where
  | DEFTYPE_NONE | DEFTYPE_DEFERRABLE | DEFTYPE_DEFERRABLE_INITIALLY_DEFERRED
  | DEFTYPE_DEFERRABLE_INITIALLY_IMMEDIATE | DEFTYPE_NOTDEFERRABLE
  | DEFTYPE_NOTDEFERRABLE_INITIALLY_DEFERRED | DEFTYPE_NOTDEFERRABLE_INITIALLY_IMMEDIATE
  deriving DecidableEq, Repr

/-- Modelled from the spec: the declaration of `ConstraintType` is not among
the source files; the four kinds the source assigns, and `TABLECONSTRAINT_ZERO`
for the value a fresh `TableConstraint` holds before any kind is assigned. -/
inductive ConstraintType where
  | TABLECONSTRAINT_ZERO | TABLECONSTRAINT_PRIMARYKEY | TABLECONSTRAINT_UNIQUE
  | TABLECONSTRAINT_CHECK | TABLECONSTRAINT_FOREIGNKEY
  deriving DecidableEq, Repr

open ErrorCode OrderClause ConflictClause FkAction FkDefType ConstraintType

/-- The struct `ForeignKey`; the default values are Go's zero values. -/
structure ForeignKey where
  Table : String := ""
  NumColumns : Int := 0
  ColumnName : List String := []
  OnDelete : FkAction := FKACTION_NONE
  OnUpdate : FkAction := FKACTION_NONE
  Match : String := ""
  Deferrable : FkDefType := DEFTYPE_NONE
  deriving DecidableEq, Repr

/-- The struct `Column`; a nil `*ForeignKey` is `none`, and the field `Type`
is written `Type_`, `Type` being a Lean keyword. -/
structure Column where
  Name : String := ""
  Type_ : String := ""
  Length : String := ""
  ConstraintName : String := ""
  IsPrimaryKey : Bool := false
  IsAutoincrement : Bool := false
  IsNotnull : Bool := false
  IsUnique : Bool := false
  PkOrder : OrderClause := ORDER_NONE
  PkConflictClause : ConflictClause := CONFLICT_NONE
  NotNullConflictClause : ConflictClause := CONFLICT_NONE
  UniqueConflictClause : ConflictClause := CONFLICT_NONE
  CheckExpr : String := ""
  DefaultExpr : String := ""
  CollateName : String := ""
  ForeignKeyClause : Option ForeignKey := none
  deriving DecidableEq, Repr

/-- The struct `IdxColumn`. -/
structure IdxColumn where
  Name : String := ""
  CollateName : String := ""
  Order : OrderClause := ORDER_NONE
  deriving DecidableEq, Repr

/-- The struct `TableConstraint`. -/
structure TableConstraint where
  Type_ : ConstraintType := TABLECONSTRAINT_ZERO
  Name : String := ""
  NumIndexed : Int := 0
  IndexedColumns : List IdxColumn := []
  ConflictClause : ConflictClause := CONFLICT_NONE
  CheckExpr : String := ""
  ForeignKeyNum : Int := 0
  ForeignKeyName : List String := []
  ForeignKeyClause : Option ForeignKey := none
  deriving DecidableEq, Repr

/-- The struct `Table`; a nil slice and an empty slice are both `[]`. -/
structure Table where
  Name : String := ""
  Schema : String := ""
  IsTemporary : Bool := false
  IsIfNotExists : Bool := false
  IsWithoutRowid : Bool := false
  NumColumns : Int := 0
  Columns : List Column := []
  NumConstraint : Int := 0
  Constraints : List TableConstraint := []
  deriving DecidableEq, Repr

/-- The struct `State`.  `buffer` is the rune slice.  `size` is a Go `int` and
can be negative; `offset` starts at 0 and is only ever incremented. -/
structure State where
  buffer : List Char
  size : Int
  offset : Nat := 0
  identifier : String := ""
  table : Table := {}
  deriving DecidableEq, Repr

/-! ## What lies outside the repository -/

/-- The part of the Go library the source relies on and that is not fixed by
the source: the Unicode tables beyond ASCII behind `unicode.IsLetter`,
`unicode.IsDigit` and `unicode.ToLower`. -/
structure GoEnv where
  letter : Char → Bool
  digit : Char → Bool
  lower : Char → Char

/-- Go's `unicode.IsLetter`: on ASCII exactly `A`-`Z` and `a`-`z`. -/
def unicodeIsLetter (E : GoEnv) (r : Char) : Bool :=
  if r.toNat < 128 then r.isAlpha else E.letter r

/-- Go's `unicode.IsDigit`: on ASCII exactly `0`-`9`. -/
def unicodeIsDigit (E : GoEnv) (r : Char) : Bool :=
  if r.toNat < 128 then r.isDigit else E.digit r

/-- Go's `unicode.ToLower`: on ASCII it maps `A`-`Z` to `a`-`z` and fixes the
rest. -/
def unicodeToLower (E : GoEnv) (r : Char) : Char :=
  if r.toNat < 128 then r.toLower else E.lower r

/-- Go's `strings.ToLower` on a valid UTF-8 string: every rune is mapped by
`unicode.ToLower`. -/
def stringsToLower (E : GoEnv) (s : String) : String :=
  String.mk (s.data.map (unicodeToLower E))

/-- The bytes of a Go string: the UTF-8 encoding of its runes. -/
def goBytes (s : String) : List UInt8 :=
  s.data.flatMap String.utf8EncodeChar

/-- Go's `len(s)` of a string: its number of bytes. -/
def goLen (s : String) : Nat :=
  (goBytes s).length

/-! ## The execution monad -/

/-- How a Go call ends: it returns, it panics at run time, or (in the model
only) a loop used up its budget of iterations.  `ifCap n r` is an outcome that
depends on the capacity of the rune slice, which the Go runtime chooses: the
call panics unless `n <= cap(buffer)`, and ends as `r` when it is. -/
inductive Res (α : Type) where
  | ok : α → Res α
  | panic : Res α
  | timeout : Res α
  | ifCap : Nat → Res α → Res α
  deriving DecidableEq, Repr

/-- Continue a call that returned; a panic or timeout ends the whole. -/
def Res.bind {α β : Type} : Res α → (α → Res β) → Res β
  | Res.ok a, f => f a
  | Res.panic, _ => Res.panic
  | Res.timeout, _ => Res.timeout
  | Res.ifCap n r, f => Res.ifCap n (Res.bind r f)

/-- A computation over the scan state. -/
def M (α : Type) : Type := State → Res (α × State)

/-- Return a value, state untouched. -/
def M.pure {α : Type} (a : α) : M α := fun st => Res.ok (a, st)

/-- Sequencing. -/
def M.bind {α β : Type} (x : M α) (f : α → M β) : M β := fun st =>
  (x st).bind fun p => f p.1 p.2

instance : Monad M where
  pure := M.pure
  bind := M.bind

/-- A runtime panic. -/
def goPanic {α : Type} : M α := fun _ => Res.panic

/-- The budget of a loop is used up. -/
def outOfFuel {α : Type} : M α := fun _ => Res.timeout

/-- Read the state. -/
def getState : M State := fun st => Res.ok (st, st)

/-- The loop budget used for every loop of the lexer and parser: each
iteration that goes round again has moved the offset forward, and the offset
never passes the end of the buffer. -/
def loopFuel (st : State) : Nat := st.buffer.length + 1

/-- The slice expression `buffer[lo:hi]` turned into a string: it panics
unless `0 <= lo <= hi <= cap(buffer)`.  The capacity is at least
`len(buffer)`; positions past `len(buffer)` hold the zero rune. -/
def sliceString (lo : Int) (hi : Nat) : M String := fun st =>
  if 0 ≤ lo ∧ lo ≤ (hi : Int) then
    if hi ≤ st.buffer.length then
      Res.ok (String.mk ((st.buffer.drop lo.toNat).take (hi - lo.toNat)), st)
    else
      Res.ifCap hi (Res.ok (String.mk (((st.buffer ++
        List.replicate (hi - st.buffer.length) '\x00').drop lo.toNat).take (hi - lo.toNat)), st))
  else Res.panic

/-! ## Cursor primitives -/

/-- The function `isEOF`. -/
def isEOF (st : State) : Bool := (st.offset : Int) == st.size

/-- The function `peek`: `state.buffer[state.offset]`. -/
def peek : M Char := fun st =>
  match st.buffer.get? st.offset with
  | some c => Res.ok (c, st)
  | none => Res.panic

/-- The function `peek2`: `state.buffer[state.offset+1]`. -/
def peek2 : M Char := fun st =>
  match st.buffer.get? (st.offset + 1) with
  | some c => Res.ok (c, st)
  | none => Res.panic

/-- The function `next`: reads `state.buffer[state.offset]`, then increments
the offset. -/
def next : M Char := fun st =>
  match st.buffer.get? st.offset with
  | some c => Res.ok (c, { st with offset := st.offset + 1 })
  | none => Res.panic

/-- The function `skip1`. -/
def skip1 : M Unit := fun st => Res.ok ((), { st with offset := st.offset + 1 })

/-- Assignment to `state.offset`. -/
def setOffset (n : Nat) : M Unit := fun st => Res.ok ((), { st with offset := n })

/-- Assignment to `state.identifier`. -/
def setIdentifier (s : String) : M Unit := fun st => Res.ok ((), { st with identifier := s })

/-- Update of `*state.table`. -/
def modifyTable (f : Table → Table) : M Unit := fun st =>
  Res.ok ((), { st with table := f st.table })

/-! ## Character classes -/

/-- The inner loop of `strNoCaseNcmp` over the bytes of the two lowered
strings, `n` counting down and `index` counting up; `none` is the panic of
`sl1[index]` out of range. -/
def strNoCaseNcmpLoop (sl1 sl2 : List UInt8) : Nat → Nat → Option Int
  | 0, _ => some 0
  | n + 1, index =>
    if index < sl2.length then
      match sl1.get? index with
      | none => none
      | some b1 =>
        if some b1 = sl2.get? index then
          if b1 = 0 then some 0 else strNoCaseNcmpLoop sl1 sl2 n (index + 1)
        else some 1
    else some 1

/-- The function `strNoCaseNcmp`; `none` is a panic. -/
def strNoCaseNcmp (E : GoEnv) (s1 s2 : String) (n : Int) : Option Int :=
  if n ≤ 0 then (if n = 0 then some 0 else some 1)
  else strNoCaseNcmpLoop (goBytes (stringsToLower E s1)) (goBytes (stringsToLower E s2)) n.toNat 0

/-- The function `symbolIsSpace`. -/
def symbolIsSpace (r : Char) : Bool :=
  r = '\t' ∨ r = '\x0b' ∨ r = '\x0c' ∨ r = ' '

/-- The function `symbolIsNewline`. -/
def symbolIsNewline (r : Char) : Bool :=
  r = '\n' ∨ r = '\r'

/-- The function `symbolIsToSkip`. -/
def symbolIsToSkip (r : Char) : Bool :=
  symbolIsSpace r || symbolIsNewline r

/-- The function `symbolIsComment`: `peek2` is only evaluated when `r` is `-`
or `/`, as `&&` short-circuits. -/
def symbolIsComment (r : Char) : M Bool := do
  let dashes ← (if r = '-' then do
      let c ← peek2
      pure (decide (c = '-'))
    else pure false : M Bool)
  if dashes then pure true
  else do
    let slashStar ← (if r = '/' then do
        let c ← peek2
        pure (decide (c = '*'))
      else pure false : M Bool)
    if slashStar then pure true else pure false

/-- The function `symbolIsAlpha`. -/
def symbolIsAlpha (E : GoEnv) (r : Char) : Bool :=
  if r = '_' then true else unicodeIsLetter E r

/-- The function `symbolIsIdentifier`. -/
def symbolIsIdentifier (E : GoEnv) (r : Char) : Bool :=
  unicodeIsLetter E r || unicodeIsDigit E r || decide (r = '_')

/-- The function `symbolIsEscape`. -/
def symbolIsEscape (r : Char) : Bool :=
  r = '`' ∨ r = '\'' ∨ r = '"' ∨ r = '['

/-- The function `symbolIsPunctuation`. -/
def symbolIsPunctuation (r : Char) : Bool :=
  r = '.' ∨ r = ',' ∨ r = '(' ∨ r = ')' ∨ r = ';'

/-- The function `tokenIsColumnConstraint`. -/
def tokenIsColumnConstraint (t : tokenT) : Bool :=
  t = tokCONSTRAINT ∨ t = tokPRIMARY ∨ t = tokNOT ∨ t = tokUNIQUE ∨
    t = tokCHECK ∨ t = tokDEFAULT ∨ t = tokCOLLATE ∨ t = tokREFERENCES

/-- The function `tokenIsTableConstraint`. -/
def tokenIsTableConstraint (t : tokenT) : Bool :=
  t = tokCONSTRAINT ∨ t = tokPRIMARY ∨ t = tokUNIQUE ∨ t = tokCHECK ∨ t = tokFOREIGN

/-! ## The lexer -/

/-- One `case` of the `switch` in `lexerKeyword`: the comparisons are tried in
order and the first that gives 0 returns its token; when none does, control
leaves the `switch` and the function returns `tokIDENTIFIER`. -/
def keywordCase (E : GoEnv) (ptr : String) (length : Int) :
    List (String × tokenT) → Option tokenT
  | [] => some tokIDENTIFIER
  | (w, t) :: rest =>
    match strNoCaseNcmp E ptr w length with
    | none => none
    | some r => if r = 0 then some t else keywordCase E ptr length rest

/-- The function `lexerKeyword`; `none` is a panic inside `strNoCaseNcmp`. -/
def lexerKeyword (E : GoEnv) (ptr : String) (length : Int) : Option tokenT :=
  if length = 2 then
    keywordCase E ptr length [("if", tokIF), ("as", tokAS), ("on", tokON), ("no", tokNO)]
  else if length = 3 then
    keywordCase E ptr length [("not", tokNOT), ("key", tokKEY), ("asc", tokASC), ("set", tokSET)]
  else if length = 4 then
    keywordCase E ptr length
      [("temp", tokTEMP), ("desc", tokDESC), ("null", tokNULL), ("fail", tokFAIL)]
  else if length = 5 then
    keywordCase E ptr length
      [("table", tokTABLE), ("rowid", tokROWID), ("check", tokCHECK), ("abort", tokABORT),
        ("match", tokMATCH)]
  else if length = 6 then
    keywordCase E ptr length
      [("create", tokCREATE), ("exists", tokEXISTS), ("unique", tokUNIQUE),
        ("ignore", tokIGNORE), ("delete", tokDELETE), ("update", tokUPDATE),
        ("action", tokACTION)]
  else if length = 7 then
    keywordCase E ptr length
      [("without", tokWITHOUT), ("primary", tokPRIMARY), ("default", tokDEFAULT),
        ("collate", tokCOLLATE), ("replace", tokREPLACE), ("cascade", tokCASCADE),
        ("foreign", tokFOREIGN)]
  else if length = 8 then
    keywordCase E ptr length
      [("conflict", tokCONFLICT), ("rollback", tokROLLBACK), ("restrict", tokRESTRICT),
        ("deferred", tokDEFERRED)]
  else if length = 9 then
    keywordCase E ptr length
      [("temporary", tokTEMP), ("initially", tokINITIALLY), ("immediate", tokIMMEDIATE)]
  else if length = 10 then
    keywordCase E ptr length
      [("constraint", tokCONSTRAINT), ("references", tokREFERENCES),
        ("deferrable", tokDEFERRABLE)]
  else if length = 13 then
    keywordCase E ptr length [("autoincrement", tokAUTOINCREMENT)]
  else some tokIDENTIFIER

/-- The `for` loop of `lexerComment`: two runes are consumed per round, `c1`
is tested for NUL and (line form) newline, and the pair `c1 c2` for `*/`
(block form). -/
def lexerCommentLoop (isCComment : Bool) : Nat → M tokenT
  | 0 => outOfFuel
  | fuel + 1 => do
    let c1 ← next
    if c1 = '\x00' then
      if isCComment then pure tokERROR else pure tokCOMMENT
    else if !isCComment && symbolIsNewline c1 then pure tokCOMMENT
    else do
      let c2 ← next
      if isCComment && decide (c1 = '*') && decide (c2 = '/') then pure tokCOMMENT
      else lexerCommentLoop isCComment fuel

/-- The function `lexerComment`.  In
`isCComment := next(state) == '/' && next(state) == '*'` the second `next`
runs only when the first rune is `/`. -/
def lexerComment : M tokenT := do
  let a ← next
  let isCComment ← (if a = '/' then do
      let b ← next
      pure (decide (b = '*'))
    else pure false : M Bool)
  let st ← getState
  lexerCommentLoop isCComment (loopFuel st)

/-- The function `lexerPunctuation`. -/
def lexerPunctuation : M tokenT := do
  let c ← next
  if c = ',' then pure tokCOMMA
  else if c = '.' then pure tokDOT
  else if c = '(' then pure tokOPENparenthesis
  else if c = ')' then pure tokCLOSEDparenthesis
  else if c = ';' then pure tokSEMICOLON
  else pure tokERROR

/-- The loop `for symbolIsIdentifier(peek(state)) { skip1(state) }`. -/
def lexerAlphaLoop (E : GoEnv) : Nat → M Unit
  | 0 => outOfFuel
  | fuel + 1 => do
    let c ← peek
    if symbolIsIdentifier E c then do
      skip1
      lexerAlphaLoop E fuel
    else pure ()

/-- The function `lexerAlpha`. -/
def lexerAlpha (E : GoEnv) : M tokenT := do
  let st0 ← getState
  let offset := st0.offset
  lexerAlphaLoop E (loopFuel st0)
  let st ← getState
  let length : Int := (st.offset : Int) - (offset : Int)
  let ptr ← sliceString offset st.offset
  match lexerKeyword E ptr length with
  | none => goPanic
  | some t =>
    if t ≠ tokIDENTIFIER then pure t
    else do
      setIdentifier ptr
      pure tokIDENTIFIER

/-- The loop `for c != 0 && c != escaped { c = next(state) }` of
`lexerEscape`; it returns the last rune read. -/
def lexerEscapeLoop (escaped : Char) (c : Char) : Nat → M Char
  | 0 => outOfFuel
  | fuel + 1 =>
    if c ≠ '\x00' ∧ c ≠ escaped then do
      let c1 ← next
      lexerEscapeLoop escaped c1 fuel
    else pure c

/-- The function `lexerEscape`. -/
def lexerEscape : M tokenT := do
  let c ← next
  let escaped := if c = '[' then ']' else c
  let st0 ← getState
  let offset := st0.offset
  let c1 ← next
  let c2 ← lexerEscapeLoop escaped c1 (loopFuel st0)
  let st ← getState
  let ptr ← sliceString offset (st.offset - 1)
  if c2 ≠ escaped then pure tokERROR
  else do
    setIdentifier ptr
    pure tokIDENTIFIER

/-- The `for` loop that is the body of `lexerNext`. -/
def lexerNextLoop (E : GoEnv) : Nat → M tokenT
  | 0 => outOfFuel
  | fuel + 1 => do
    let st ← getState
    if isEOF st then pure tokEOF
    else do
      let c ← peek
      if c = '\x00' then pure tokEOF
      else if symbolIsToSkip c then do
        skip1
        lexerNextLoop E fuel
      else do
        let isComment ← symbolIsComment c
        if isComment then do
          let t ← lexerComment
          if t ≠ tokCOMMENT then pure tokERROR
          else lexerNextLoop E fuel
        else if symbolIsPunctuation c then lexerPunctuation
        else if symbolIsAlpha E c then lexerAlpha E
        else if symbolIsEscape c then lexerEscape
        else pure tokERROR

/-- The function `lexerNext`. -/
def lexerNext (E : GoEnv) : M tokenT := do
  let st ← getState
  lexerNextLoop E (loopFuel st)

/-- The function `lexerPeek`: only the offset is restored, so an identifier
text written by the look-ahead stays in `state.identifier`. -/
def lexerPeek (E : GoEnv) : M tokenT := do
  let st ← getState
  let saved := st.offset
  let token ← lexerNext E
  setOffset saved
  pure token

/-! ## The parser -/

/-- The function `parseOptionalOrder`; the clause written through the pointer
is returned beside the error code. -/
def parseOptionalOrder (E : GoEnv) : M (ErrorCode × OrderClause) := do
  let token ← lexerPeek E
  if token = tokASC ∨ token = tokDESC then do
    let _ ← lexerNext E
    if token = tokASC then pure (ERROR_NONE, ORDER_ASC)
    else pure (ERROR_NONE, ORDER_DESC)
  else pure (ERROR_NONE, ORDER_NONE)

/-- The function `parseOptionalConflictClause`; the clause written through the
pointer is returned beside the error code. -/
def parseOptionalConflictClause (E : GoEnv) : M (ErrorCode × ConflictClause) := do
  let token ← lexerPeek E
  if token = tokON then do
    let _ ← lexerNext E
    let token ← lexerNext E
    if token ≠ tokCONFLICT then pure (ERROR_SYNTAX, CONFLICT_NONE)
    else do
      let token ← lexerNext E
      if token = tokROLLBACK then pure (ERROR_NONE, CONFLICT_ROOLBACK)
      else if token = tokABORT then pure (ERROR_NONE, CONFLICT_ABORT)
      else if token = tokFAIL then pure (ERROR_NONE, CONFLICT_FAIL)
      else if token = tokIGNORE then pure (ERROR_NONE, CONFLICT_IGNORE)
      else if token = tokREPLACE then pure (ERROR_NONE, CONFLICT_REPLACE)
      else pure (ERROR_SYNTAX, CONFLICT_NONE)
  else pure (ERROR_NONE, CONFLICT_NONE)

/-- The loop `for token == tokCOMMA { ... }` over the referenced column names
in `parseForeignKeyClause`; `none` is `return nil`. -/
def fkColumnsLoop (E : GoEnv) (token : tokenT) (fk : ForeignKey) : Nat → M (Option ForeignKey)
  | 0 => outOfFuel
  | fuel + 1 =>
    if token = tokCOMMA then do
      let token ← lexerNext E
      if token ≠ tokIDENTIFIER then pure none
      else do
        let st ← getState
        let fk := { fk with NumColumns := fk.NumColumns + 1,
                            ColumnName := fk.ColumnName ++ [st.identifier] }
        let token ← lexerPeek E
        if token = tokCOMMA then do
          let _ ← lexerNext E
          pure ()
        fkColumnsLoop E token fk fuel
    else pure (some fk)

/-- The action of `ON DELETE|UPDATE` stored into the clause. -/
def setFkAction (isUpdate : Bool) (a : FkAction) (fk : ForeignKey) : ForeignKey :=
  if isUpdate then { fk with OnUpdate := a } else { fk with OnDelete := a }

/-- The final `for { ... }` loop of `parseForeignKeyClause`; `none` is
`return nil`. -/
def fkClausesLoop (E : GoEnv) (fk : ForeignKey) : Nat → M (Option ForeignKey)
  | 0 => outOfFuel
  | fuel + 1 => do
    let token ← lexerPeek E
    if token = tokON ∨ token = tokMATCH ∨ token = tokNOT ∨ token = tokDEFERRABLE then do
      let _ ← lexerNext E
      if token = tokMATCH then do
        let token ← lexerNext E
        if token ≠ tokIDENTIFIER then pure none
        else do
          let st ← getState
          fkClausesLoop E { fk with Match := st.identifier } fuel
      else if token = tokON then do
        let token ← lexerNext E
        if token ≠ tokDELETE ∧ token ≠ tokUPDATE then pure none
        else do
          let isUpdate : Bool := decide (token = tokUPDATE)
          let token ← lexerNext E
          if token = tokCASCADE then
            fkClausesLoop E (setFkAction isUpdate FKACTION_CASCADE fk) fuel
          else if token = tokRESTRICT then
            fkClausesLoop E (setFkAction isUpdate FKACTION_RESTRICT fk) fuel
          else if token = tokSET then do
            let token ← lexerNext E
            if token ≠ tokNULL ∧ token ≠ tokDEFAULT then pure none
            else if token = tokNULL then
              fkClausesLoop E (setFkAction isUpdate FKACTION_SETNULL fk) fuel
            else fkClausesLoop E (setFkAction isUpdate FKACTION_SETDEFAULT fk) fuel
          else if token = tokNO then do
            let token ← lexerNext E
            if token ≠ tokACTION then pure none
            else fkClausesLoop E (setFkAction isUpdate FKACTION_NOACTION fk) fuel
          else fkClausesLoop E fk fuel
      else do
        let (token, isNot) ← (if token = tokNOT then do
            let t ← lexerNext E
            pure (t, true)
          else pure (token, false) : M (tokenT × Bool))
        if token = tokDEFERRABLE then do
          let fk := { fk with Deferrable :=
            if isNot then DEFTYPE_NOTDEFERRABLE else DEFTYPE_DEFERRABLE }
          let p ← lexerPeek E
          if p = tokINITIALLY then do
            let _ ← lexerNext E
            let token ← lexerNext E
            if token = tokDEFERRED then
              fkClausesLoop E { fk with Deferrable :=
                if isNot then DEFTYPE_NOTDEFERRABLE_INITIALLY_DEFERRED
                else DEFTYPE_DEFERRABLE_INITIALLY_DEFERRED } fuel
            else if token = tokIMMEDIATE then
              fkClausesLoop E { fk with Deferrable :=
                if isNot then DEFTYPE_NOTDEFERRABLE_INITIALLY_IMMEDIATE
                else DEFTYPE_DEFERRABLE_INITIALLY_IMMEDIATE } fuel
            else pure none
          else fkClausesLoop E fk fuel
        else pure none
    else pure (some fk)

/-- The function `parseForeignKeyClause`; `none` is the nil result.  The
first referenced column is stored without `fk.NumColumns++`; only the loop
over the further columns increments the counter. -/
def parseForeignKeyClause (E : GoEnv) : M (Option ForeignKey) := do
  let fk : ForeignKey := {}
  let token ← lexerNext E
  if token ≠ tokIDENTIFIER then pure none
  else do
    let st ← getState
    let fk := { fk with Table := st.identifier }
    let p ← lexerPeek E
    if p = tokOPENparenthesis then do
      let _ ← lexerNext E
      let token ← lexerNext E
      if token ≠ tokIDENTIFIER then pure none
      else do
        let st ← getState
        let fk := { fk with ColumnName := [st.identifier] }
        let token ← lexerPeek E
        if token = tokCOMMA then do
          let _ ← lexerNext E
          pure ()
        let st ← getState
        match ← fkColumnsLoop E token fk (loopFuel st) with
        | none => pure none
        | some fk => do
          let close ← lexerNext E
          if close ≠ tokCLOSEDparenthesis then pure none
          else do
            let st ← getState
            fkClausesLoop E fk (loopFuel st)
    else do
      let st ← getState
      fkClausesLoop E fk (loopFuel st)

/-- One indexed column of a PRIMARY KEY or UNIQUE table constraint: the name,
the optional COLLATE and the optional order.  The source has this block twice,
before and inside the loop; `none` is `return nil`. -/
def parseIdxColumn (E : GoEnv) : M (Option IdxColumn) := do
  let column : IdxColumn := {}
  let token ← lexerNext E
  if token ≠ tokIDENTIFIER then pure none
  else do
    let st ← getState
    let column := { column with Name := st.identifier }
    let p ← lexerPeek E
    let r ← (if p = tokCOLLATE then do
        let _ ← lexerNext E
        let token ← lexerNext E
        if token ≠ tokIDENTIFIER then pure none
        else do
          let st ← getState
          pure (some { column with CollateName := st.identifier })
      else pure (some column) : M (Option IdxColumn))
    match r with
    | none => pure none
    | some column => do
      let (err, order) ← parseOptionalOrder E
      if err ≠ ERROR_NONE then pure none
      else pure (some { column with Order := order })

/-- The loop `for token == tokCOMMA { ... }` over the further indexed columns
in `parseTableConstraint`. -/
def idxColumnsLoop (E : GoEnv) (token : tokenT) (constraint : TableConstraint) :
    Nat → M (Option TableConstraint)
  | 0 => outOfFuel
  | fuel + 1 =>
    if token = tokCOMMA then do
      match ← parseIdxColumn E with
      | none => pure none
      | some column => do
        let constraint := { constraint with
          NumIndexed := constraint.NumIndexed + 1,
          IndexedColumns := constraint.IndexedColumns ++ [column] }
        let token ← lexerPeek E
        if token = tokCOMMA then do
          let _ ← lexerNext E
          pure ()
        idxColumnsLoop E token constraint fuel
    else pure (some constraint)

/-- The loop `for token == tokCOMMA { ... }` over the further column names of
a FOREIGN KEY table constraint. -/
def fkNamesLoop (E : GoEnv) (token : tokenT) (constraint : TableConstraint) :
    Nat → M (Option TableConstraint)
  | 0 => outOfFuel
  | fuel + 1 =>
    if token = tokCOMMA then do
      let token ← lexerNext E
      if token ≠ tokIDENTIFIER then pure none
      else do
        let st ← getState
        let constraint := { constraint with
          ForeignKeyNum := constraint.ForeignKeyNum + 1,
          ForeignKeyName := constraint.ForeignKeyName ++ [st.identifier] }
        let token ← lexerPeek E
        if token = tokCOMMA then do
          let _ ← lexerNext E
          pure ()
        fkNamesLoop E token constraint fuel
    else pure (some constraint)

/-- The function `parseTableConstraint`; `none` is the nil result. -/
def parseTableConstraint (E : GoEnv) : M (Option TableConstraint) := do
  let token ← lexerPeek E
  let constraint : TableConstraint := {}
  let head ← (if token = tokCONSTRAINT then do
      let _ ← lexerNext E
      let token ← lexerNext E
      if token ≠ tokIDENTIFIER then pure none
      else do
        let st ← getState
        let constraint := { constraint with Name := st.identifier }
        let token ← lexerPeek E
        if token ≠ tokCHECK ∧ token ≠ tokPRIMARY ∧ token ≠ tokUNIQUE ∧ token ≠ tokFOREIGN then
          pure none
        else pure (some (token, constraint))
    else pure (some (token, constraint)) : M (Option (tokenT × TableConstraint)))
  match head with
  | none => pure none
  | some (token, constraint) =>
    if token = tokCHECK then do
      let _ ← lexerNext E
      pure none
    else if token = tokPRIMARY ∨ token = tokUNIQUE then do
      let token ← lexerNext E
      let typed ← (if token = tokPRIMARY then do
          let k ← lexerNext E
          if k ≠ tokKEY then pure none
          else pure (some { constraint with Type_ := TABLECONSTRAINT_PRIMARYKEY })
        else pure (some { constraint with Type_ := TABLECONSTRAINT_UNIQUE }) :
          M (Option TableConstraint))
      match typed with
      | none => pure none
      | some constraint => do
        let o ← lexerNext E
        if o ≠ tokOPENparenthesis then pure none
        else do
          match ← parseIdxColumn E with
          | none => pure none
          | some column => do
            let constraint := { constraint with
              NumIndexed := constraint.NumIndexed + 1, IndexedColumns := [column] }
            let token ← lexerPeek E
            if token = tokCOMMA then do
              let _ ← lexerNext E
              pure ()
            let st ← getState
            match ← idxColumnsLoop E token constraint (loopFuel st) with
            | none => pure none
            | some constraint => do
              let close ← lexerNext E
              if close ≠ tokCLOSEDparenthesis then pure none
              else do
                let (err, conflict) ← parseOptionalConflictClause E
                if err ≠ ERROR_NONE then pure none
                else pure (some { constraint with ConflictClause := conflict })
    else if token = tokFOREIGN then do
      let _ ← lexerNext E
      let k ← lexerNext E
      if k ≠ tokKEY then pure none
      else do
        let o ← lexerNext E
        if o ≠ tokOPENparenthesis then pure none
        else do
          let constraint := { constraint with Type_ := TABLECONSTRAINT_FOREIGNKEY }
          let token ← lexerNext E
          if token ≠ tokIDENTIFIER then pure none
          else do
            let st ← getState
            let constraint := { constraint with
              ForeignKeyNum := constraint.ForeignKeyNum + 1,
              ForeignKeyName := [st.identifier] }
            let token ← lexerPeek E
            if token = tokCOMMA then do
              let _ ← lexerNext E
              pure ()
            let st ← getState
            match ← fkNamesLoop E token constraint (loopFuel st) with
            | none => pure none
            | some constraint => do
              let close ← lexerNext E
              if close ≠ tokCLOSEDparenthesis then pure none
              else do
                let r ← lexerNext E
                if r ≠ tokREFERENCES then pure none
                else do
                  match ← parseForeignKeyClause E with
                  | none => pure none
                  | some fk => pure (some { constraint with ForeignKeyClause := some fk })
    else pure (some constraint)

/-- The function `parseLiteral`. -/
def parseLiteral (E : GoEnv) : M ErrorCode := do
  let token ← lexerNext E
  if token = tokIDENTIFIER then pure ERROR_NONE else pure ERROR_SYNTAX

/-- The loop `for lexerPeek(state) == tokIDENTIFIER { ... }` of
`parseColumnType`; it returns the local `offset`, which is set from the first
identifier consumed and again from every later one as long as it is 0. -/
def columnTypeLoop (E : GoEnv) (offset : Int) : Nat → M Int
  | 0 => outOfFuel
  | fuel + 1 => do
    let p ← lexerPeek E
    if p = tokIDENTIFIER then do
      let _ ← lexerNext E
      let st ← getState
      let offset := if offset = 0 then (st.offset : Int) - (goLen st.identifier : Int) else offset
      columnTypeLoop E offset fuel
    else pure offset

/-- The loop `for c != 0x00 && c != ')' { c = next(state) }` of
`parseColumnType`; it returns the last rune read. -/
def columnLengthLoop (c : Char) : Nat → M Char
  | 0 => outOfFuel
  | fuel + 1 =>
    if c ≠ '\x00' ∧ c ≠ ')' then do
      let c1 ← next
      columnLengthLoop c1 fuel
    else pure c

/-- The function `parseColumnType`; the column written through the pointer is
returned beside the error code. -/
def parseColumnType (E : GoEnv) (column : Column) : M (ErrorCode × Column) := do
  let st0 ← getState
  let offset ← columnTypeLoop E 0 (loopFuel st0)
  let st ← getState
  let ptr ← sliceString offset st.offset
  let column := { column with Type_ := ptr }
  let p ← lexerPeek E
  if p = tokOPENparenthesis then do
    let _ ← lexerNext E
    let st1 ← getState
    let offset := st1.offset
    let c ← next
    let c ← columnLengthLoop c (loopFuel st1)
    if c ≠ ')' then pure (ERROR_SYNTAX, column)
    else do
      let st2 ← getState
      let ptr ← sliceString offset st2.offset
      pure (ERROR_NONE, { column with Length := ptr })
  else pure (ERROR_NONE, column)

/-- One constraint of `parseColumnConstraints`: the body of the `switch`, for
the token that heads the constraint.  The result is `ERROR_NONE` when the loop
goes on. -/
def columnConstraintCase (E : GoEnv) (token : tokenT) (column : Column) :
    M (ErrorCode × Column) :=
  if token = tokPRIMARY then do
    let token ← lexerNext E
    if token ≠ tokKEY then pure (ERROR_SYNTAX, column)
    else do
      let column := { column with IsPrimaryKey := true }
      let (err, order) ← parseOptionalOrder E
      let column := { column with PkOrder := order }
      if err ≠ ERROR_NONE then pure (ERROR_SYNTAX, column)
      else do
        let (err, conflict) ← parseOptionalConflictClause E
        let column := { column with PkConflictClause := conflict }
        if err ≠ ERROR_NONE then pure (ERROR_SYNTAX, column)
        else do
          let p ← lexerPeek E
          if p = tokAUTOINCREMENT then do
            let _ ← lexerNext E
            pure (ERROR_NONE, { column with IsAutoincrement := true })
          else pure (ERROR_NONE, column)
  else if token = tokNOT then do
    let token ← lexerNext E
    if token ≠ tokNULL then do
      let st ← getState
      let _ ← sliceString st.offset (st.offset + 4)
      pure (ERROR_SYNTAX, column)
    else do
      let column := { column with IsNotnull := true }
      let (err, conflict) ← parseOptionalConflictClause E
      let column := { column with NotNullConflictClause := conflict }
      if err ≠ ERROR_NONE then pure (ERROR_SYNTAX, column)
      else pure (ERROR_NONE, column)
  else if token = tokUNIQUE then do
    let column := { column with IsUnique := true }
    let (err, conflict) ← parseOptionalConflictClause E
    let column := { column with UniqueConflictClause := conflict }
    if err ≠ ERROR_NONE then pure (ERROR_SYNTAX, column)
    else pure (ERROR_NONE, column)
  else if token = tokCHECK then pure (ERROR_UNSUPPORTEDSQL, column)
  else if token = tokDEFAULT then do
    let p ← lexerPeek E
    if p = tokOPENparenthesis then pure (ERROR_UNSUPPORTEDSQL, column)
    else do
      let err ← parseLiteral E
      if err ≠ ERROR_NONE then pure (ERROR_SYNTAX, column)
      else do
        let st ← getState
        pure (ERROR_NONE, { column with DefaultExpr := st.identifier })
  else if token = tokCOLLATE then do
    let token ← lexerNext E
    if token ≠ tokIDENTIFIER then pure (ERROR_SYNTAX, column)
    else do
      let st ← getState
      pure (ERROR_NONE, { column with CollateName := st.identifier })
  else if token = tokREFERENCES then do
    match ← parseForeignKeyClause E with
    | none => pure (ERROR_SYNTAX, column)
    | some fk => pure (ERROR_NONE, { column with ForeignKeyClause := some fk })
  else pure (ERROR_SYNTAX, column)

/-- The loop of `parseColumnConstraints`. -/
def columnConstraintsLoop (E : GoEnv) (column : Column) : Nat → M (ErrorCode × Column)
  | 0 => outOfFuel
  | fuel + 1 => do
    let p ← lexerPeek E
    if tokenIsColumnConstraint p then do
      let token ← lexerNext E
      let named ← (if token = tokCONSTRAINT then do
          let token ← lexerNext E
          if token ≠ tokIDENTIFIER then pure none
          else do
            let st ← getState
            let column := { column with ConstraintName := st.identifier }
            let token ← lexerNext E
            pure (some (token, column))
        else pure (some (token, column)) : M (Option (tokenT × Column)))
      match named with
      | none => pure (ERROR_SYNTAX, column)
      | some (token, column) => do
        let (err, column) ← columnConstraintCase E token column
        if err ≠ ERROR_NONE then pure (err, column)
        else columnConstraintsLoop E column fuel
    else pure (ERROR_NONE, column)

/-- The function `parseColumnConstraints`; the column written through the
pointer is returned beside the error code. -/
def parseColumnConstraints (E : GoEnv) (column : Column) : M (ErrorCode × Column) := do
  let st ← getState
  columnConstraintsLoop E column (loopFuel st)

/-- The function `parseColumn`; `none` is the nil result. -/
def parseColumn (E : GoEnv) : M (Option Column) := do
  let column : Column := {}
  let token ← lexerNext E
  if token ≠ tokIDENTIFIER then pure none
  else do
    let st ← getState
    let column := { column with Name := st.identifier }
    let p ← lexerPeek E
    let typed ← (if p = tokIDENTIFIER then do
        let (err, column) ← parseColumnType E column
        if err ≠ ERROR_NONE then pure none else pure (some column)
      else pure (some column) : M (Option Column))
    match typed with
    | none => pure none
    | some column => do
      let p ← lexerPeek E
      if tokenIsColumnConstraint p then do
        let (err, column) ← parseColumnConstraints E column
        if err ≠ ERROR_NONE then pure none else pure (some column)
      else pure (some column)

/-- The first `for` loop of `parse`, over the column definitions: `Except.ok
token` is a `break` with the current token, `Except.error e` is `return e`. -/
def parseColumnsLoop (E : GoEnv) : Nat → M (Except ErrorCode tokenT)
  | 0 => outOfFuel
  | fuel + 1 => do
    let token ← lexerPeek E
    if token ≠ tokIDENTIFIER then pure (Except.error ERROR_SYNTAX)
    else do
      match ← parseColumn E with
      | none => pure (Except.error ERROR_SYNTAX)
      | some column => do
        modifyTable fun t =>
          { t with NumColumns := t.NumColumns + 1, Columns := t.Columns ++ [column] }
        let token ← lexerPeek E
        if token = tokCOMMA then do
          let _ ← lexerNext E
          let token ← lexerPeek E
          if tokenIsTableConstraint token then pure (Except.ok token)
          else parseColumnsLoop E fuel
        else if token = tokCLOSEDparenthesis then pure (Except.ok token)
        else pure (Except.error ERROR_SYNTAX)

/-- The second `for` loop of `parse`, over the table constraints: `some e` is
`return e`, `none` is leaving the loop. -/
def parseConstraintsLoop (E : GoEnv) (token : tokenT) : Nat → M (Option ErrorCode)
  | 0 => outOfFuel
  | fuel + 1 =>
    if tokenIsTableConstraint token then do
      match ← parseTableConstraint E with
      | none => pure (some ERROR_SYNTAX)
      | some constraint => do
        modifyTable fun t =>
          { t with NumConstraint := t.NumConstraint + 1,
                   Constraints := t.Constraints ++ [constraint] }
        let p ← lexerPeek E
        if p = tokCOMMA then do
          let _ ← lexerNext E
          let token ← lexerPeek E
          parseConstraintsLoop E token fuel
        else do
          let p ← lexerPeek E
          if p = tokCLOSEDparenthesis then pure none
          else pure (some ERROR_SYNTAX)
    else pure none

/-- The part of `parse` after the column and constraint loops. -/
def parseTail (E : GoEnv) : M ErrorCode := do
  let token ← lexerNext E
  if token ≠ tokCLOSEDparenthesis then pure ERROR_SYNTAX
  else do
    let p ← lexerPeek E
    let r ← (if p = tokWITHOUT then do
        let _ ← lexerNext E
        let t ← lexerNext E
        if t ≠ tokROWID then pure (some ERROR_SYNTAX)
        else do
          modifyTable fun t => { t with IsWithoutRowid := true }
          pure none
      else pure none : M (Option ErrorCode))
    match r with
    | some e => pure e
    | none => do
      let token ← lexerPeek E
      if token = tokSEMICOLON then do
        let _ ← lexerNext E
        pure ()
      pure ERROR_NONE

/-- The part of `parse` from the table name on. -/
def parseBody (E : GoEnv) : M ErrorCode := do
  let t ← lexerNext E
  if t ≠ tokIDENTIFIER then pure ERROR_SYNTAX
  else do
    let st ← getState
    let identifier := st.identifier
    if identifier = "" then pure ERROR_SYNTAX
    else do
      modifyTable fun t => { t with Name := st.identifier }
      let p ← lexerPeek E
      if p = tokAS then pure ERROR_UNSUPPORTEDSQL
      else do
        let token ← lexerNext E
        if token ≠ tokOPENparenthesis then pure ERROR_SYNTAX
        else do
          let st ← getState
          match ← parseColumnsLoop E (loopFuel st) with
          | Except.error e => pure e
          | Except.ok token => do
            let st ← getState
            match ← parseConstraintsLoop E token (loopFuel st) with
            | some e => pure e
            | none => parseTail E

/-- The function `parse`. -/
def parse (E : GoEnv) : M ErrorCode := do
  let token ← lexerNext E
  if token ≠ tokCREATE then pure ERROR_UNSUPPORTEDSQL
  else do
    let token ← lexerNext E
    let token ← (if token = tokTEMP then do
        modifyTable fun t => { t with IsTemporary := true }
        lexerNext E
      else pure token : M tokenT)
    if token ≠ tokTABLE then pure ERROR_UNSUPPORTEDSQL
    else do
      let p ← lexerPeek E
      let r ← (if p = tokIF then do
          let _ ← lexerNext E
          let n ← lexerNext E
          if n ≠ tokNOT then pure (some ERROR_SYNTAX)
          else do
            let e ← lexerNext E
            if e ≠ tokEXISTS then pure (some ERROR_SYNTAX)
            else do
              modifyTable fun t => { t with IsIfNotExists := true }
              pure none
        else pure none : M (Option ErrorCode))
      match r with
      | some e => pure e
      | none => parseBody E

/-- The function `ParseTable`: the returned pair, or a panic.  `sql` is a
valid UTF-8 string, `len(sql)` its number of bytes and `[]rune(sql)` its code
points; the table is nil (`none`) on the two early returns. -/
def ParseTable (E : GoEnv) (sql : String) (length : Int) : Res (Option Table × ErrorCode) :=
  if sql = "" then Res.ok (none, ERROR_NONE)
  else
    let length := if length = 0 then (goLen sql : Int) else length
    if length = 0 then Res.ok (none, ERROR_NONE)
    else
      let state : State := { buffer := sql.data, size := length, table := {} }
      (parse E state).bind fun p => Res.ok (some p.2.table, p.1)

end Sqlite3CreateTableParser

namespace Sqlite3CreateTableParser

open tokenT ErrorCode OrderClause ConflictClause FkAction FkDefType ConstraintType

/-! ## Notions used to state the properties -/

/-- The tables of an ASCII-only world: beyond ASCII nothing is a letter or a
digit and lower-casing does nothing.  On ASCII text every `GoEnv` behaves like
this one (`Cong`), which is how closed inputs are evaluated. -/
def asciiEnv : GoEnv :=
  { letter := fun _ => false, digit := fun _ => false, lower := fun c => c }

/-- Every rune is ASCII. -/
def AsciiText (l : List Char) : Prop := ∀ c ∈ l, c.toNat < 128

instance (l : List Char) : Decidable (AsciiText l) := by
  unfold AsciiText
  infer_instance

/-- Every way the call can return satisfies `P`. -/
def Res.Forall {α : Type} (P : α → Prop) : Res α → Prop
  | Res.ok a => P a
  | Res.panic => True
  | Res.timeout => True
  | Res.ifCap _ r => Res.Forall P r

/-- Two computations agree on every state whose buffer is ASCII, and leave
the buffer as it was. -/
def Cong {α : Type} (x y : M α) : Prop :=
  ∀ st : State, AsciiText st.buffer →
    x st = y st ∧ (x st).Forall (fun p => p.2.buffer = st.buffer)

/-- An ASCII letter or the underscore: what an unquoted identifier starts
with. -/
def isWordStart (c : Char) : Bool :=
  decide (c.toNat < 128) && (c.isAlpha || c == '_')

/-- An ASCII letter, digit or underscore: what an unquoted identifier is made
of. -/
def isWordChar (c : Char) : Bool :=
  decide (c.toNat < 128) && (c.isAlphanum || c == '_')

/-- An ASCII rune that ends an unquoted identifier. -/
def isDelimiter (c : Char) : Bool :=
  decide (c.toNat < 128) && !(c.isAlphanum || c == '_')

/-- An ASCII word: a letter or underscore followed by letters, digits and
underscores. -/
def isAsciiWord : List Char → Bool
  | [] => false
  | c :: cs => isWordStart c && cs.all isWordChar

/-- Blank runes: spaces, tabs and line breaks. -/
def isBlank (ws : List Char) : Bool :=
  ws.all symbolIsToSkip

/-- The token of a punctuation mark. -/
def punctToken (c : Char) : tokenT :=
  if c = ',' then tokCOMMA
  else if c = '.' then tokDOT
  else if c = '(' then tokOPENparenthesis
  else if c = ')' then tokCLOSEDparenthesis
  else if c = ';' then tokSEMICOLON
  else tokERROR

/-- An unquoted word that is no keyword for the lexer: an ASCII word that
`lexerKeyword` maps to `tokIDENTIFIER`. -/
def isPlainIdentifier (w : List Char) : Bool :=
  isAsciiWord w && decide (lexerKeyword asciiEnv (String.mk w) (w.length : Int) = some tokIDENTIFIER)

/-- What a call returns, the final state dropped. -/
def Res.val {α : Type} (r : Res (α × State)) : Res α :=
  r.bind fun p => Res.ok p.1

/-- The state `ParseTable` builds for `sql` (length 0), moved to `offset`. -/
def stateAt (sql : String) (offset : Nat) : State :=
  { buffer := sql.data, size := (goLen sql : Int), offset := offset }

/-- The DDL of the test `TestParserNonQuote`. -/
def ddlNonQuote : String :=
  "\n\tCREATE TABLE contact_groups (\n\t contact_id integer,\n\t group_id integer,\n\t PRIMARY KEY (contact_id, group_id),\n\t FOREIGN KEY (contact_id) REFERENCES contacts (contact_id)\n\t ON DELETE CASCADE ON UPDATE NO ACTION,\n\t FOREIGN KEY (group_id) REFERENCES groups (group_id)\n\t ON DELETE CASCADE ON UPDATE NO ACTION\n\t);\n\t"

/-- The DDL of the test `TestParserQouteIdentifier`. -/
def ddlQuoteIdentifier : String :=
  "\n\tCREATE TABLE \"customer\" (\n\t\t\"id\"\tINTEGER NOT NULL,\n\t\t\"first_name\"\tTEXT,\n\t\t\"last_name\"\tTEXT,\n\t\tPRIMARY KEY(\"id\", \"first_name\"),\n\t\tFOREIGN KEY (\"id\") REFERENCES \"contacts\" (\"contact_id\", \"test_field\")\n\t)\n\t"

/-- The four delimiter forms of a quoted identifier: opening and closing
rune. -/
def quoteForms : List (Char × Char) :=
  [('`', '`'), ('\'', '\''), ('"', '"'), ('[', ']')]

/-- The text `s` is what the lexer reads as an unquoted identifier: it starts
with a letter or underscore, consists of letters, digits and underscores, and
`lexerKeyword` does not map it to a keyword. -/
def IsUnquotedIdentifier (E : GoEnv) (s : List Char) : Prop :=
  (∃ c cs, s = c :: cs ∧ symbolIsAlpha E c = true) ∧
    (∀ x ∈ s, symbolIsIdentifier E x = true) ∧
    lexerKeyword E (String.mk s) (s.length : Int) = some tokIDENTIFIER

/-- The error code, table name, column names and constraint kinds of what
`ParseTable` returned, in source order; `none` when it did not return a
table. -/
def tableSummary (r : Res (Option Table × ErrorCode)) :
    Option (ErrorCode × String × List String × List ConstraintType) :=
  match r with
  | Res.ok (some tb, e) =>
    some (e, tb.Name, tb.Columns.map Column.Name, tb.Constraints.map TableConstraint.Type_)
  | _ => none

/-! ## Statements of the shape of claim C1 -/

/-- A column definition `<name> <type>`. -/
structure ColumnSpec where
  name : List Char
  type : List Char
  deriving DecidableEq, Repr

/-- A table constraint of one of the three kinds `PRIMARY KEY (...)`,
`UNIQUE (...)` and `FOREIGN KEY (...) REFERENCES r (...)`; every name list is
given by its first name and the further names. -/
inductive ConstraintSpec where
  | primaryKey (first : List Char) (more : List (List Char))
  | unique (first : List Char) (more : List (List Char))
  | foreignKey (first : List Char) (more : List (List Char)) (ref : List Char)
      (refFirst : List Char) (refMore : List (List Char))
  deriving DecidableEq, Repr

/-- The further names of a name list, each preceded by a comma and a space. -/
def renderMore : List (List Char) → List Char
  | [] => []
  | n :: ns => ',' :: ' ' :: n ++ renderMore ns

/-- The further column definitions, each preceded by a comma and a space. -/
def renderMoreColumns : List ColumnSpec → List Char
  | [] => []
  | c :: cs => ',' :: ' ' :: c.name ++ ' ' :: c.type ++ renderMoreColumns cs

/-- The text of one table constraint. -/
def renderConstraint : ConstraintSpec → List Char
  | ConstraintSpec.primaryKey f m => "PRIMARY KEY (".data ++ f ++ renderMore m ++ [')']
  | ConstraintSpec.unique f m => "UNIQUE (".data ++ f ++ renderMore m ++ [')']
  | ConstraintSpec.foreignKey f m r rf rm =>
    "FOREIGN KEY (".data ++ f ++ renderMore m ++ ") REFERENCES ".data ++ r ++ " (".data ++ rf ++
      renderMore rm ++ [')']

/-- The table constraints, each preceded by a comma and a space. -/
def renderConstraints : List ConstraintSpec → List Char
  | [] => []
  | k :: ks => ',' :: ' ' :: renderConstraint k ++ renderConstraints ks

/-- The statement `CREATE TABLE t (` columns and constraints `)` with an
optional `;`. -/
def renderStatement (t : List Char) (c : ColumnSpec) (cs : List ColumnSpec)
    (ks : List ConstraintSpec) (semicolon : Bool) : List Char :=
  "CREATE TABLE ".data ++ t ++ " (".data ++ c.name ++ ' ' :: c.type ++ renderMoreColumns cs ++
    renderConstraints ks ++ [')'] ++ (if semicolon then [';'] else [])

/-- Name and type of a column definition are unquoted ASCII identifiers that
are no keywords. -/
def ColumnSpec.ok (c : ColumnSpec) : Bool :=
  isPlainIdentifier c.name && isPlainIdentifier c.type

/-- All names of a table constraint are unquoted ASCII identifiers that are no
keywords. -/
def ConstraintSpec.ok : ConstraintSpec → Bool
  | ConstraintSpec.primaryKey f m => isPlainIdentifier f && m.all isPlainIdentifier
  | ConstraintSpec.unique f m => isPlainIdentifier f && m.all isPlainIdentifier
  | ConstraintSpec.foreignKey f m r rf rm =>
    isPlainIdentifier f && m.all isPlainIdentifier && isPlainIdentifier r &&
      isPlainIdentifier rf && rm.all isPlainIdentifier

/-- The `Column` a column definition `<name> <type>` parses into. -/
def expectedColumn (c : ColumnSpec) : Column :=
  { Name := String.mk c.name, Type_ := String.mk c.type }

/-- The `IdxColumn` a bare column name parses into. -/
def expectedIdx (n : List Char) : IdxColumn :=
  { Name := String.mk n }

/-- The `TableConstraint` a table constraint parses into.  The counter
`NumColumns` of the foreign-key clause is the number of further referenced
columns: the first one is not counted by the code. -/
def expectedConstraint : ConstraintSpec → TableConstraint
  | ConstraintSpec.primaryKey f m =>
    { Type_ := TABLECONSTRAINT_PRIMARYKEY, NumIndexed := 1 + (m.length : Int),
      IndexedColumns := (f :: m).map expectedIdx }
  | ConstraintSpec.unique f m =>
    { Type_ := TABLECONSTRAINT_UNIQUE, NumIndexed := 1 + (m.length : Int),
      IndexedColumns := (f :: m).map expectedIdx }
  | ConstraintSpec.foreignKey f m r rf rm =>
    { Type_ := TABLECONSTRAINT_FOREIGNKEY, ForeignKeyNum := 1 + (m.length : Int),
      ForeignKeyName := (f :: m).map String.mk,
      ForeignKeyClause := some { Table := String.mk r, NumColumns := (rm.length : Int),
                                 ColumnName := (rf :: rm).map String.mk } }

/-- The `Table` a statement of this shape parses into. -/
def expectedTable (t : List Char) (c : ColumnSpec) (cs : List ColumnSpec)
    (ks : List ConstraintSpec) : Table :=
  { Name := String.mk t, NumColumns := 1 + (cs.length : Int),
    Columns := (c :: cs).map expectedColumn, NumConstraint := (ks.length : Int),
    Constraints := ks.map expectedConstraint }

end Sqlite3CreateTableParser

namespace Sqlite3CreateTableParser

open tokenT ErrorCode OrderClause ConflictClause FkAction FkDefType ConstraintType

/-! ## Notions used to state the properties of keywords, foreign keys and counters -/

/-- The 42 comparisons of `lexerKeyword` in source order: each reserved word
with the token the function returns for it. -/
def reservedWords : List (String × tokenT) :=
  [("if", tokIF), ("as", tokAS), ("on", tokON), ("no", tokNO),
   ("not", tokNOT), ("key", tokKEY), ("asc", tokASC), ("set", tokSET),
   ("temp", tokTEMP), ("desc", tokDESC), ("null", tokNULL), ("fail", tokFAIL),
   ("table", tokTABLE), ("rowid", tokROWID), ("check", tokCHECK), ("abort", tokABORT),
   ("match", tokMATCH),
   ("create", tokCREATE), ("exists", tokEXISTS), ("unique", tokUNIQUE), ("ignore", tokIGNORE),
   ("delete", tokDELETE), ("update", tokUPDATE), ("action", tokACTION),
   ("without", tokWITHOUT), ("primary", tokPRIMARY), ("default", tokDEFAULT),
   ("collate", tokCOLLATE), ("replace", tokREPLACE), ("cascade", tokCASCADE),
   ("foreign", tokFOREIGN),
   ("conflict", tokCONFLICT), ("rollback", tokROLLBACK), ("restrict", tokRESTRICT),
   ("deferred", tokDEFERRED),
   ("temporary", tokTEMP), ("initially", tokINITIALLY), ("immediate", tokIMMEDIATE),
   ("constraint", tokCONSTRAINT), ("references", tokREFERENCES), ("deferrable", tokDEFERRABLE),
   ("autoincrement", tokAUTOINCREMENT)]

/-- The text `s` is the reserved word `w` up to the case of its ASCII
letters: folding `A`-`Z` to `a`-`z` in `s` gives `w`. -/
def IsCaseVariant (s : List Char) (w : String) : Prop :=
  s.map Char.toLower = w.data

instance (s : List Char) (w : String) : Decidable (IsCaseVariant s w) := by
  unfold IsCaseVariant
  infer_instance

/-- The code point U+212A KELVIN SIGN. -/
def kelvinSign : Char := Char.ofNat 0x212A

/-- The code point U+0130 LATIN CAPITAL LETTER I WITH DOT ABOVE. -/
def dottedCapitalI : Char := Char.ofNat 0x130

/-- The entries of Go's Unicode tables at U+212A and U+0130: both are letters,
`unicode.ToLower` maps the first to `k` and the second to `i`. -/
def FoldsToAscii (E : GoEnv) : Prop :=
  E.letter kelvinSign = true ∧ E.lower kelvinSign = 'k' ∧
    E.letter dottedCapitalI = true ∧ E.lower dottedCapitalI = 'i'

/-- Unicode tables that hold, beyond ASCII, just the two entries of
`FoldsToAscii`. -/
def kelvinEnv : GoEnv :=
  { letter := fun c => c = kelvinSign ∨ c = dottedCapitalI,
    digit := fun _ => false,
    lower := fun c => if c = kelvinSign then 'k' else if c = dottedCapitalI then 'i' else c }

/-- The words of the five foreign-key actions. -/
def actionText : FkAction → List Char
  | FKACTION_NONE => []
  | FKACTION_SETNULL => "SET NULL".data
  | FKACTION_SETDEFAULT => "SET DEFAULT".data
  | FKACTION_CASCADE => "CASCADE".data
  | FKACTION_RESTRICT => "RESTRICT".data
  | FKACTION_NOACTION => "NO ACTION".data

/-- One clause ` ON DELETE action` (`false`) or ` ON UPDATE action`
(`true`). -/
def renderOnClause (c : Bool × FkAction) : List Char :=
  " ON ".data ++ (if c.1 then "UPDATE".data else "DELETE".data) ++ ' ' :: actionText c.2

/-- A run of `ON DELETE` and `ON UPDATE` clauses. -/
def renderOnClauses : List (Bool × FkAction) → List Char
  | [] => []
  | c :: cs => renderOnClause c ++ renderOnClauses cs

/-- The actions a run of clauses leaves in the foreign key: each clause stores
its action, a later clause of the same kind overwriting an earlier one. -/
def applyOnClauses (fk : ForeignKey) : List (Bool × FkAction) → ForeignKey
  | [] => fk
  | c :: cs => applyOnClauses (setFkAction c.1 c.2 fk) cs

/-- The two counters of a table constraint equal the lengths of their
sequences. -/
def constraintCounted (c : TableConstraint) : Prop :=
  c.NumIndexed = (c.IndexedColumns.length : Int) ∧
    c.ForeignKeyNum = (c.ForeignKeyName.length : Int)

instance (c : TableConstraint) : Decidable (constraintCounted c) := by
  unfold constraintCounted
  infer_instance

/-- The counters of a table and of its constraints equal the lengths of their
sequences. -/
def tableCounted (t : Table) : Prop :=
  t.NumColumns = (t.Columns.length : Int) ∧ t.NumConstraint = (t.Constraints.length : Int) ∧
    ∀ c ∈ t.Constraints, constraintCounted c

instance (t : Table) : Decidable (tableCounted t) := by
  unfold tableCounted
  infer_instance

/-- A table constraint that holds no column yet. -/
def constraintFresh (c : TableConstraint) : Prop :=
  c.NumIndexed = 0 ∧ c.IndexedColumns = [] ∧ c.ForeignKeyNum = 0 ∧ c.ForeignKeyName = []

/-- What a step of `parse` does to the table: counters that were right stay
right, and columns are not lost. -/
def Grows (t t' : Table) : Prop :=
  (tableCounted t → tableCounted t') ∧ (t.Columns ≠ [] → t'.Columns ≠ [])

/-- Every way the computation returns leaves the table as it was. -/
def KeepsTable {α : Type} (x : M α) : Prop :=
  ∀ st : State, (x st).Forall fun p => p.2.table = st.table

/-- Every value the computation returns satisfies `P`. -/
def Returns {α : Type} (P : α → Prop) (x : M α) : Prop :=
  ∀ st : State, (x st).Forall fun p => P p.1

/-- Every way the run `r` returns, the table has grown from `t` and the value
and the table satisfy `V`. -/
def Post {α : Type} (V : α → Table → Prop) (t : Table) (r : Res (α × State)) : Prop :=
  r.Forall fun p => Grows t p.2.table ∧ V p.1 p.2.table

/-- The buffer `B` holds the text `T` from offset `k` on. -/
def At (B : List Char) (k : Nat) (T : List Char) : Prop :=
  ∃ pre, B = pre ++ T ∧ k = pre.length

/-- The text starts with an ASCII rune that ends an unquoted word. -/
def StartsDelim (l : List Char) : Prop :=
  ∃ d r, l = d :: r ∧ isDelimiter d = true

end Sqlite3CreateTableParser

namespace Sqlite3CreateTableParser

open tokenT ErrorCode OrderClause ConflictClause FkAction FkDefType ConstraintType

/-! ## Scenario B -/

/-- Scenario B of the specification. -/
def scenarioB : String :=
  "CREATE TABLE contact_groups (contact_id integer, group_id integer, PRIMARY KEY (contact_id, group_id), FOREIGN KEY (contact_id) REFERENCES contacts (contact_id) ON DELETE CASCADE ON UPDATE NO ACTION, FOREIGN KEY (group_id) REFERENCES groups (group_id) ON DELETE CASCADE ON UPDATE NO ACTION);"

/-- The foreign-key clause of the first `FOREIGN KEY` constraint of a table. -/
def firstForeignKey (tb : Table) : Option ForeignKey :=
  (tb.Constraints.find? fun c => c.Type_ = TABLECONSTRAINT_FOREIGNKEY).bind
    fun c => c.ForeignKeyClause

/-- The table of a call that returned a table together with `ERROR_NONE`. -/
def parsedTable (r : Res (Option Table × ErrorCode)) : Option Table :=
  match r with
  | Res.ok (some tb, ERROR_NONE) => some tb
  | _ => none

/-- The buffer of `st` holds at the offset, after blank runes, the text
`r (c)`, the `ON DELETE` and `ON UPDATE` clauses `cl` and then a comma or a
closing parenthesis; `r` and `c` are unquoted identifiers, and the size of the
state is not below the number of runes of the buffer. -/
def HoldsReference (st : State) (r c : List Char) (cl : List (Bool × FkAction)) : Prop :=
  ∃ (pre ws : List Char) (d : Char) (rest : List Char),
    st.buffer = pre ++ ws ++ r ++ " (".data ++ c ++ ")".data ++ renderOnClauses cl ++ d :: rest ∧
      st.offset = pre.length ∧ (st.buffer.length : Int) ≤ st.size ∧ isBlank ws = true ∧
      isPlainIdentifier r = true ∧ isPlainIdentifier c = true ∧ (d = ',' ∨ d = ')')

end Sqlite3CreateTableParser

namespace Sqlite3CreateTableParser

open tokenT ErrorCode OrderClause ConflictClause FkAction FkDefType ConstraintType

/-! ## Misplaced columns, optional clauses and the end of the buffer -/

/-- A statement in which the table constraints `ks` are followed by a comma, a
blank, the unquoted word `b` and the text `rest`: `b` stands where a column
definition would start. -/
def renderMisplaced (t : List Char) (c : ColumnSpec) (cs : List ColumnSpec)
    (ks : List ConstraintSpec) (b rest : List Char) : List Char :=
  "CREATE TABLE ".data ++ t ++ " (".data ++ c.name ++ ' ' :: c.type ++ renderMoreColumns cs ++
    renderConstraints ks ++ ", ".data ++ b ++ rest

/-- The computation keeps the property `R` of the table: every way it returns
from a state whose table satisfies `R`, the table satisfies `R`. -/
def Preserves {α : Type} (R : Table → Prop) (x : M α) : Prop :=
  ∀ st : State, R st.table → (x st).Forall fun p => R p.2.table

/-- The statement `CREATE [TEMP|TEMPORARY] TABLE [IF NOT EXISTS] t (a)
[WITHOUT ROWID] [;]`; `temp` is `none` (absent), `some false` (`TEMP`) or
`some true` (`TEMPORARY`). -/
def renderOptional (temp : Option Bool) (ifNotExists withoutRowid semicolon : Bool) : String :=
  "CREATE " ++
    (match temp with
      | none => ""
      | some false => "TEMP "
      | some true => "TEMPORARY ") ++
    "TABLE " ++ (if ifNotExists then "IF NOT EXISTS " else "") ++ "t (a)" ++
    (if withoutRowid then " WITHOUT ROWID" else "") ++ (if semicolon then ";" else "")

/-- The table with the name `t`, the one column `a` and the three flags. -/
def expectedOptional (temp : Option Bool) (ifNotExists withoutRowid : Bool) : Table :=
  { Name := "t", IsTemporary := temp.isSome, IsIfNotExists := ifNotExists,
    IsWithoutRowid := withoutRowid, NumColumns := 1, Columns := [{ Name := "a" }] }

/-- The statement `CREATE TABLE "s" (a INTEGER)` with the table name `s` in
double quotes. -/
def renderQuotedName (s : List Char) : List Char :=
  "CREATE TABLE \"".data ++ s ++ "\" (a INTEGER)".data

end Sqlite3CreateTableParser

set_option linter.unusedTactic false
set_option linter.unreachableTactic false

namespace Sqlite3CreateTableParser

open tokenT ErrorCode OrderClause ConflictClause FkAction FkDefType ConstraintType

/-! ## Running the monad -/

@[simp] theorem Res.bind_ok {α β : Type} (a : α) (f : α → Res β) :
    (Res.ok a).bind f = f a := rfl

@[simp] theorem Res.bind_panic {α β : Type} (f : α → Res β) :
    (Res.panic : Res α).bind f = Res.panic := rfl

@[simp] theorem Res.bind_timeout {α β : Type} (f : α → Res β) :
    (Res.timeout : Res α).bind f = Res.timeout := rfl

@[simp] theorem Res.bind_ifCap {α β : Type} (n : Nat) (r : Res α) (f : α → Res β) :
    (Res.ifCap n r).bind f = Res.ifCap n (r.bind f) := rfl

theorem bind_run {α β : Type} (x : M α) (f : α → M β) (st : State) :
    (x >>= f) st = (x st).bind fun p => f p.1 p.2 := rfl

theorem pure_run {α : Type} (a : α) (st : State) : (pure a : M α) st = Res.ok (a, st) := rfl

theorem getState_run (st : State) : getState st = Res.ok (st, st) := rfl

theorem skip1_run (st : State) :
    skip1 st = Res.ok ((), { st with offset := st.offset + 1 }) := rfl

theorem setOffset_run (n : Nat) (st : State) :
    setOffset n st = Res.ok ((), { st with offset := n }) := rfl

theorem setIdentifier_run (s : String) (st : State) :
    setIdentifier s st = Res.ok ((), { st with identifier := s }) := rfl

theorem modifyTable_run (f : Table → Table) (st : State) :
    modifyTable f st = Res.ok ((), { st with table := f st.table }) := rfl

theorem goPanic_run {α : Type} (st : State) : (goPanic : M α) st = Res.panic := rfl

theorem outOfFuel_run {α : Type} (st : State) : (outOfFuel : M α) st = Res.timeout := rfl

/-! ## Independence of the Unicode tables on ASCII input -/

theorem Res.Forall_bind {α β : Type} {P : α → Prop} {Q : β → Prop} (r : Res α)
    (f : α → Res β) (hr : r.Forall P) (hf : ∀ a, P a → (f a).Forall Q) :
    (r.bind f).Forall Q := by
  induction r with
  | ok a => exact hf a hr
  | panic => trivial
  | timeout => trivial
  | ifCap n r ih => exact ih hr

theorem Res.bind_congr {α β : Type} {P : α → Prop} (r : Res α) (f g : α → Res β)
    (hr : r.Forall P) (hfg : ∀ a, P a → f a = g a) : r.bind f = r.bind g := by
  induction r with
  | ok a => exact hfg a hr
  | panic => rfl
  | timeout => rfl
  | ifCap n r ih => simp only [Res.bind_ifCap, ih hr]

theorem cong_pure {α : Type} (a : α) : Cong (pure a : M α) (pure a) :=
  fun _ _ => ⟨rfl, rfl⟩

theorem cong_bind {α β : Type} {x y : M α} {f g : α → M β} (hx : Cong x y)
    (hf : ∀ a, Cong (f a) (g a)) : Cong (x >>= f) (y >>= g) := by
  intro st hst
  obtain ⟨hxy, hkeep⟩ := hx st hst
  simp only [bind_run]
  rw [← hxy]
  constructor
  · apply Res.bind_congr (x st) _ _ hkeep
    intro p hp
    exact (hf p.1 p.2 (by rw [hp]; exact hst)).1
  · apply Res.Forall_bind (x st) _ hkeep
    intro p hp
    have := (hf p.1 p.2 (by rw [hp]; exact hst)).2
    rw [hp] at this
    exact this

theorem cong_ite {α : Type} {c : Prop} [Decidable c] {x y x1 y1 : M α}
    (h : c → Cong x y) (h1 : ¬ c → Cong x1 y1) :
    Cong (if c then x else x1) (if c then y else y1) := by
  by_cases hc : c
  · simp only [hc, if_true]; exact h hc
  · simp only [hc, if_false]; exact h1 hc

theorem cong_getState : Cong getState getState := fun _ _ => ⟨rfl, rfl⟩

theorem cong_skip1 : Cong skip1 skip1 := fun _ _ => ⟨rfl, rfl⟩

theorem cong_setOffset (n : Nat) : Cong (setOffset n) (setOffset n) := fun _ _ => ⟨rfl, rfl⟩

theorem cong_setIdentifier (s : String) : Cong (setIdentifier s) (setIdentifier s) :=
  fun _ _ => ⟨rfl, rfl⟩

theorem cong_modifyTable (f : Table → Table) : Cong (modifyTable f) (modifyTable f) :=
  fun _ _ => ⟨rfl, rfl⟩

theorem cong_goPanic {α : Type} : Cong (goPanic : M α) goPanic := fun _ _ => ⟨rfl, trivial⟩

theorem cong_outOfFuel {α : Type} : Cong (outOfFuel : M α) outOfFuel :=
  fun _ _ => ⟨rfl, trivial⟩

/-- A rune read from an ASCII buffer is ASCII: the continuation only has to
agree on ASCII runes. -/
theorem cong_peek_bind {β : Type} {f g : Char → M β}
    (h : ∀ c : Char, c.toNat < 128 → Cong (f c) (g c)) : Cong (peek >>= f) (peek >>= g) := by
  intro st hst
  simp only [bind_run, peek]
  cases hget : st.buffer.get? st.offset with
  | none => exact ⟨rfl, trivial⟩
  | some c =>
    have hc : c.toNat < 128 := hst c (List.get?_mem hget)
    exact h c hc st hst

theorem cong_peek2_bind {β : Type} {f g : Char → M β}
    (h : ∀ c : Char, c.toNat < 128 → Cong (f c) (g c)) : Cong (peek2 >>= f) (peek2 >>= g) := by
  intro st hst
  simp only [bind_run, peek2]
  cases hget : st.buffer.get? (st.offset + 1) with
  | none => exact ⟨rfl, trivial⟩
  | some c =>
    have hc : c.toNat < 128 := hst c (List.get?_mem hget)
    exact h c hc st hst

theorem cong_next_bind {β : Type} {f g : Char → M β}
    (h : ∀ c : Char, c.toNat < 128 → Cong (f c) (g c)) : Cong (next >>= f) (next >>= g) := by
  intro st hst
  simp only [bind_run, next]
  cases hget : st.buffer.get? st.offset with
  | none => exact ⟨rfl, trivial⟩
  | some c =>
    have hc : c.toNat < 128 := hst c (List.get?_mem hget)
    exact h c hc { st with offset := st.offset + 1 } hst

theorem cong_of_bind_pure {α : Type} {x y : M α}
    (h : Cong (x >>= fun a => (pure a : M α)) (y >>= fun a => (pure a : M α))) : Cong x y := by
  have e : ∀ z : M α, (z >>= fun a => (pure a : M α)) = z := by
    intro z
    funext st
    simp only [bind_run, pure_run]
    generalize z st = r
    induction r with
    | ok a => rfl
    | panic => rfl
    | timeout => rfl
    | ifCap n r ih => simp only [Res.bind_ifCap, ih]
  rw [e x, e y] at h
  exact h

theorem cong_peek : Cong peek peek := cong_of_bind_pure (cong_peek_bind fun c _ => cong_pure c)

theorem cong_peek2 : Cong peek2 peek2 :=
  cong_of_bind_pure (cong_peek2_bind fun c _ => cong_pure c)

theorem cong_next : Cong next next := cong_of_bind_pure (cong_next_bind fun c _ => cong_pure c)

/-- The text of a slice of an ASCII buffer is ASCII. -/
theorem cong_sliceString_bind {β : Type} (lo : Int) (hi : Nat) {f g : String → M β}
    (h : ∀ s : String, AsciiText s.data → Cong (f s) (g s)) :
    Cong (sliceString lo hi >>= f) (sliceString lo hi >>= g) := by
  intro st hst
  simp only [bind_run, sliceString]
  split
  · split
    · apply h _ _ st hst
      intro c hc
      exact hst c (List.mem_of_mem_drop (List.mem_of_mem_take hc))
    · have hs : AsciiText (List.take (hi - lo.toNat) (List.drop lo.toNat
          (st.buffer ++ List.replicate (hi - st.buffer.length) '\x00'))) := by
        intro c hc
        have := List.mem_of_mem_drop (List.mem_of_mem_take hc)
        rcases List.mem_append.1 this with h1 | h1
        · exact hst c h1
        · rw [(List.mem_replicate.1 h1).2]; decide
      have := h _ hs st hst
      simp only [Res.bind_ifCap, Res.bind_ok]
      exact ⟨by rw [this.1], this.2⟩
  · exact ⟨rfl, trivial⟩

theorem cong_sliceString (lo : Int) (hi : Nat) : Cong (sliceString lo hi) (sliceString lo hi) :=
  cong_of_bind_pure (cong_sliceString_bind lo hi fun s _ => cong_pure s)

end Sqlite3CreateTableParser

namespace Sqlite3CreateTableParser

open tokenT ErrorCode OrderClause ConflictClause FkAction FkDefType ConstraintType

/-! ## The lexer and parser do not depend on the tables beyond ASCII -/

theorem unicodeIsLetter_ascii (E E' : GoEnv) {c : Char} (hc : c.toNat < 128) :
    unicodeIsLetter E c = unicodeIsLetter E' c := by
  simp only [unicodeIsLetter, hc, if_true]

theorem unicodeIsDigit_ascii (E E' : GoEnv) {c : Char} (hc : c.toNat < 128) :
    unicodeIsDigit E c = unicodeIsDigit E' c := by
  simp only [unicodeIsDigit, hc, if_true]

theorem unicodeToLower_ascii (E E' : GoEnv) {c : Char} (hc : c.toNat < 128) :
    unicodeToLower E c = unicodeToLower E' c := by
  simp only [unicodeToLower, hc, if_true]

theorem symbolIsAlpha_ascii (E E' : GoEnv) {c : Char} (hc : c.toNat < 128) :
    symbolIsAlpha E c = symbolIsAlpha E' c := by
  simp only [symbolIsAlpha, unicodeIsLetter_ascii E E' hc]

theorem symbolIsIdentifier_ascii (E E' : GoEnv) {c : Char} (hc : c.toNat < 128) :
    symbolIsIdentifier E c = symbolIsIdentifier E' c := by
  simp only [symbolIsIdentifier, unicodeIsLetter_ascii E E' hc, unicodeIsDigit_ascii E E' hc]

theorem stringsToLower_ascii (E E' : GoEnv) {s : String} (hs : AsciiText s.data) :
    stringsToLower E s = stringsToLower E' s := by
  unfold stringsToLower
  congr 1
  apply List.map_congr_left
  intro c hc
  exact unicodeToLower_ascii E E' (hs c hc)

theorem strNoCaseNcmp_ascii (E E' : GoEnv) {s1 s2 : String} (n : Int)
    (h1 : AsciiText s1.data) (h2 : AsciiText s2.data) :
    strNoCaseNcmp E s1 s2 n = strNoCaseNcmp E' s1 s2 n := by
  unfold strNoCaseNcmp
  rw [stringsToLower_ascii E E' h1, stringsToLower_ascii E E' h2]

theorem keywordCase_ascii (E E' : GoEnv) {ptr : String} (n : Int) (hptr : AsciiText ptr.data)
    (l : List (String × tokenT)) (hl : ∀ p ∈ l, AsciiText p.1.data) :
    keywordCase E ptr n l = keywordCase E' ptr n l := by
  induction l with
  | nil => rfl
  | cons p rest ih =>
    obtain ⟨w, t⟩ := p
    simp only [keywordCase]
    rw [strNoCaseNcmp_ascii E E' n hptr (hl (w, t) (List.mem_cons_self _ _)),
      ih fun q hq => hl q (List.mem_cons_of_mem _ hq)]

theorem lexerKeyword_ascii (E E' : GoEnv) {ptr : String} (n : Int) (hptr : AsciiText ptr.data) :
    lexerKeyword E ptr n = lexerKeyword E' ptr n := by
  unfold lexerKeyword
  repeat' with_reducible first
    | exact keywordCase_ascii E E' n hptr _ (by decide)
    | apply ite_congr rfl (fun _ => ?_) (fun _ => ?_)
    | rfl

theorem cong_symbolIsComment (c : Char) : Cong (symbolIsComment c) (symbolIsComment c) := by
  unfold symbolIsComment
  repeat' with_reducible first
    | exact cong_pure _
    | exact cong_peek2
    | apply cong_bind
    | apply cong_ite
    | intro _

theorem cong_lexerCommentLoop (b : Bool) (fuel : Nat) :
    Cong (lexerCommentLoop b fuel) (lexerCommentLoop b fuel) := by
  induction fuel with
  | zero => exact cong_outOfFuel
  | succ n ih =>
    unfold lexerCommentLoop
    repeat' with_reducible first
      | exact cong_pure _
      | exact cong_next
      | exact ih
      | apply cong_bind
      | apply cong_ite
      | intro _

theorem cong_lexerComment : Cong lexerComment lexerComment := by
  unfold lexerComment
  repeat' with_reducible first
    | exact cong_pure _
    | exact cong_next
    | exact cong_getState
    | exact cong_lexerCommentLoop _ _
    | apply cong_bind
    | apply cong_ite
    | intro _

theorem cong_lexerPunctuation : Cong lexerPunctuation lexerPunctuation := by
  unfold lexerPunctuation
  repeat' with_reducible first
    | exact cong_pure _
    | exact cong_next
    | apply cong_bind
    | apply cong_ite
    | intro _

theorem cong_lexerAlphaLoop (E E' : GoEnv) (fuel : Nat) :
    Cong (lexerAlphaLoop E fuel) (lexerAlphaLoop E' fuel) := by
  induction fuel with
  | zero => exact cong_outOfFuel
  | succ n ih =>
    unfold lexerAlphaLoop
    apply cong_peek_bind
    intro c hc
    rw [symbolIsIdentifier_ascii E E' hc]
    repeat' with_reducible first
      | exact cong_pure _
      | exact cong_skip1
      | exact ih
      | apply cong_bind
      | apply cong_ite
      | intro _

theorem cong_lexerAlpha (E E' : GoEnv) : Cong (lexerAlpha E) (lexerAlpha E') := by
  unfold lexerAlpha
  apply cong_bind cong_getState
  intro st0
  apply cong_bind (cong_lexerAlphaLoop E E' _)
  intro _
  apply cong_bind cong_getState
  intro st
  apply cong_sliceString_bind
  intro ptr hptr
  rw [lexerKeyword_ascii E E' _ hptr]
  split
  · exact cong_goPanic
  · repeat' with_reducible first
      | exact cong_pure _
      | exact cong_setIdentifier _
      | apply cong_bind
      | apply cong_ite
      | intro _

theorem cong_lexerEscapeLoop (e c : Char) (fuel : Nat) :
    Cong (lexerEscapeLoop e c fuel) (lexerEscapeLoop e c fuel) := by
  induction fuel generalizing c with
  | zero => exact cong_outOfFuel
  | succ n ih =>
    unfold lexerEscapeLoop
    repeat' with_reducible first
      | exact cong_pure _
      | exact cong_next
      | exact ih _
      | apply cong_bind
      | apply cong_ite
      | intro _

theorem cong_lexerEscape : Cong lexerEscape lexerEscape := by
  unfold lexerEscape
  repeat' with_reducible first
    | exact cong_pure _
    | exact cong_next
    | exact cong_getState
    | exact cong_setIdentifier _
    | exact cong_sliceString _ _
    | exact cong_lexerEscapeLoop _ _ _
    | apply cong_bind
    | apply cong_ite
    | intro _

theorem cong_lexerNextLoop (E E' : GoEnv) (fuel : Nat) :
    Cong (lexerNextLoop E fuel) (lexerNextLoop E' fuel) := by
  induction fuel with
  | zero => exact cong_outOfFuel
  | succ n ih =>
    unfold lexerNextLoop
    apply cong_bind cong_getState
    intro st
    apply cong_ite
    · intro _; exact cong_pure _
    intro _
    apply cong_peek_bind
    intro c hc
    rw [symbolIsAlpha_ascii E E' hc]
    repeat' with_reducible first
      | exact cong_pure _
      | exact cong_skip1
      | exact ih
      | exact cong_symbolIsComment _
      | exact cong_lexerComment
      | exact cong_lexerPunctuation
      | exact cong_lexerAlpha E E'
      | exact cong_lexerEscape
      | apply cong_bind
      | apply cong_ite
      | intro _

theorem cong_lexerNext (E E' : GoEnv) : Cong (lexerNext E) (lexerNext E') := by
  unfold lexerNext
  exact cong_bind cong_getState fun _ => cong_lexerNextLoop E E' _

theorem cong_lexerPeek (E E' : GoEnv) : Cong (lexerPeek E) (lexerPeek E') := by
  unfold lexerPeek
  repeat' with_reducible first
    | exact cong_pure _
    | exact cong_getState
    | exact cong_setOffset _
    | exact cong_lexerNext E E'
    | apply cong_bind
    | intro _

theorem cong_parseOptionalOrder (E E' : GoEnv) :
    Cong (parseOptionalOrder E) (parseOptionalOrder E') := by
  unfold parseOptionalOrder
  repeat' with_reducible first
    | exact cong_pure _
    | exact cong_getState
    | exact cong_next
    | exact cong_modifyTable _
    | exact cong_sliceString _ _
    | exact cong_lexerNext E E'
    | exact cong_lexerPeek E E'
    | apply cong_bind
    | apply cong_ite
    | intro _
    | split

theorem cong_parseOptionalConflictClause (E E' : GoEnv) :
    Cong (parseOptionalConflictClause E) (parseOptionalConflictClause E') := by
  unfold parseOptionalConflictClause
  repeat' with_reducible first
    | exact cong_pure _
    | exact cong_getState
    | exact cong_next
    | exact cong_modifyTable _
    | exact cong_sliceString _ _
    | exact cong_lexerNext E E'
    | exact cong_lexerPeek E E'
    | apply cong_bind
    | apply cong_ite
    | intro _
    | split

theorem cong_fkColumnsLoop (E E' : GoEnv) (token : tokenT) (fk : ForeignKey) (fuel : Nat) :
    Cong (fkColumnsLoop E token fk fuel) (fkColumnsLoop E' token fk fuel) := by
  induction fuel generalizing token fk with
  | zero => exact cong_outOfFuel
  | succ n ih =>
    unfold fkColumnsLoop
    repeat' with_reducible first
      | exact cong_pure _
      | exact cong_getState
      | exact cong_next
      | exact cong_modifyTable _
      | exact cong_sliceString _ _
      | exact cong_lexerNext E E'
      | exact cong_lexerPeek E E'
      | exact ih _ _
      | apply cong_bind
      | apply cong_ite
      | intro _
      | split

set_option maxHeartbeats 2000000 in
theorem cong_fkClausesLoop (E E' : GoEnv) (fk : ForeignKey) (fuel : Nat) :
    Cong (fkClausesLoop E fk fuel) (fkClausesLoop E' fk fuel) := by
  induction fuel generalizing fk with
  | zero => exact cong_outOfFuel
  | succ n ih =>
    unfold fkClausesLoop
    repeat' with_reducible first
      | exact cong_pure _
      | exact cong_getState
      | exact cong_next
      | exact cong_modifyTable _
      | exact cong_sliceString _ _
      | exact cong_lexerNext E E'
      | exact cong_lexerPeek E E'
      | exact ih _
      | apply cong_bind
      | apply cong_ite
      | intro _
      | split

theorem cong_parseForeignKeyClause (E E' : GoEnv) :
    Cong (parseForeignKeyClause E) (parseForeignKeyClause E') := by
  unfold parseForeignKeyClause
  repeat' with_reducible first
    | exact cong_pure _
    | exact cong_getState
    | exact cong_next
    | exact cong_modifyTable _
    | exact cong_sliceString _ _
    | exact cong_lexerNext E E'
    | exact cong_lexerPeek E E'
    | exact cong_fkColumnsLoop E E' _ _ _
    | exact cong_fkClausesLoop E E' _ _
    | apply cong_bind
    | apply cong_ite
    | intro _
    | split

theorem cong_parseIdxColumn (E E' : GoEnv) :
    Cong (parseIdxColumn E) (parseIdxColumn E') := by
  unfold parseIdxColumn
  repeat' with_reducible first
    | exact cong_pure _
    | exact cong_getState
    | exact cong_next
    | exact cong_modifyTable _
    | exact cong_sliceString _ _
    | exact cong_lexerNext E E'
    | exact cong_lexerPeek E E'
    | exact cong_parseOptionalOrder E E'
    | apply cong_bind
    | apply cong_ite
    | intro _
    | split

theorem cong_idxColumnsLoop (E E' : GoEnv) (token : tokenT) (c : TableConstraint) (fuel : Nat) :
    Cong (idxColumnsLoop E token c fuel) (idxColumnsLoop E' token c fuel) := by
  induction fuel generalizing token c with
  | zero => exact cong_outOfFuel
  | succ n ih =>
    unfold idxColumnsLoop
    repeat' with_reducible first
      | exact cong_pure _
      | exact cong_getState
      | exact cong_next
      | exact cong_modifyTable _
      | exact cong_sliceString _ _
      | exact cong_lexerNext E E'
      | exact cong_lexerPeek E E'
      | exact ih _ _
      | exact cong_parseIdxColumn E E'
      | apply cong_bind
      | apply cong_ite
      | intro _
      | split

theorem cong_fkNamesLoop (E E' : GoEnv) (token : tokenT) (c : TableConstraint) (fuel : Nat) :
    Cong (fkNamesLoop E token c fuel) (fkNamesLoop E' token c fuel) := by
  induction fuel generalizing token c with
  | zero => exact cong_outOfFuel
  | succ n ih =>
    unfold fkNamesLoop
    repeat' with_reducible first
      | exact cong_pure _
      | exact cong_getState
      | exact cong_next
      | exact cong_modifyTable _
      | exact cong_sliceString _ _
      | exact cong_lexerNext E E'
      | exact cong_lexerPeek E E'
      | exact ih _ _
      | apply cong_bind
      | apply cong_ite
      | intro _
      | split

theorem cong_parseTableConstraint (E E' : GoEnv) :
    Cong (parseTableConstraint E) (parseTableConstraint E') := by
  unfold parseTableConstraint
  repeat' with_reducible first
    | exact cong_pure _
    | exact cong_getState
    | exact cong_next
    | exact cong_modifyTable _
    | exact cong_sliceString _ _
    | exact cong_lexerNext E E'
    | exact cong_lexerPeek E E'
    | exact cong_parseIdxColumn E E'
    | exact cong_idxColumnsLoop E E' _ _ _
    | exact cong_fkNamesLoop E E' _ _ _
    | exact cong_parseOptionalConflictClause E E'
    | exact cong_parseForeignKeyClause E E'
    | apply cong_bind
    | apply cong_ite
    | intro _
    | split

theorem cong_parseLiteral (E E' : GoEnv) :
    Cong (parseLiteral E) (parseLiteral E') := by
  unfold parseLiteral
  repeat' with_reducible first
    | exact cong_pure _
    | exact cong_getState
    | exact cong_next
    | exact cong_modifyTable _
    | exact cong_sliceString _ _
    | exact cong_lexerNext E E'
    | exact cong_lexerPeek E E'
    | apply cong_bind
    | apply cong_ite
    | intro _
    | split

theorem cong_columnTypeLoop (E E' : GoEnv) (offset : Int) (fuel : Nat) :
    Cong (columnTypeLoop E offset fuel) (columnTypeLoop E' offset fuel) := by
  induction fuel generalizing offset with
  | zero => exact cong_outOfFuel
  | succ n ih =>
    unfold columnTypeLoop
    repeat' with_reducible first
      | exact cong_pure _
      | exact cong_getState
      | exact cong_next
      | exact cong_modifyTable _
      | exact cong_sliceString _ _
      | exact cong_lexerNext E E'
      | exact cong_lexerPeek E E'
      | exact ih _
      | apply cong_bind
      | apply cong_ite
      | intro _
      | split

theorem cong_columnLengthLoop (c : Char) (fuel : Nat) :
    Cong (columnLengthLoop c fuel) (columnLengthLoop c fuel) := by
  induction fuel generalizing c with
  | zero => exact cong_outOfFuel
  | succ n ih =>
    unfold columnLengthLoop
    repeat' with_reducible first
      | exact cong_pure _
      | exact cong_next
      | exact ih _
      | apply cong_bind
      | apply cong_ite
      | intro _

theorem cong_parseColumnType (E E' : GoEnv) (column : Column) :
    Cong (parseColumnType E column) (parseColumnType E' column) := by
  unfold parseColumnType
  repeat' with_reducible first
    | exact cong_pure _
    | exact cong_getState
    | exact cong_next
    | exact cong_modifyTable _
    | exact cong_sliceString _ _
    | exact cong_lexerNext E E'
    | exact cong_lexerPeek E E'
    | exact cong_columnTypeLoop E E' _ _
    | exact cong_columnLengthLoop _ _
    | apply cong_bind
    | apply cong_ite
    | intro _
    | split

theorem cong_columnConstraintCase (E E' : GoEnv) (token : tokenT) (column : Column) :
    Cong (columnConstraintCase E token column) (columnConstraintCase E' token column) := by
  unfold columnConstraintCase
  repeat' with_reducible first
    | exact cong_pure _
    | exact cong_getState
    | exact cong_next
    | exact cong_modifyTable _
    | exact cong_sliceString _ _
    | exact cong_lexerNext E E'
    | exact cong_lexerPeek E E'
    | exact cong_parseOptionalOrder E E'
    | exact cong_parseOptionalConflictClause E E'
    | exact cong_parseLiteral E E'
    | exact cong_parseForeignKeyClause E E'
    | apply cong_bind
    | apply cong_ite
    | intro _
    | split

theorem cong_columnConstraintsLoop (E E' : GoEnv) (column : Column) (fuel : Nat) :
    Cong (columnConstraintsLoop E column fuel) (columnConstraintsLoop E' column fuel) := by
  induction fuel generalizing column with
  | zero => exact cong_outOfFuel
  | succ n ih =>
    unfold columnConstraintsLoop
    repeat' with_reducible first
      | exact cong_pure _
      | exact cong_getState
      | exact cong_next
      | exact cong_modifyTable _
      | exact cong_sliceString _ _
      | exact cong_lexerNext E E'
      | exact cong_lexerPeek E E'
      | exact ih _
      | exact cong_columnConstraintCase E E' _ _
      | apply cong_bind
      | apply cong_ite
      | intro _
      | split

theorem cong_parseColumnConstraints (E E' : GoEnv) (column : Column) :
    Cong (parseColumnConstraints E column) (parseColumnConstraints E' column) := by
  unfold parseColumnConstraints
  repeat' with_reducible first
    | exact cong_pure _
    | exact cong_getState
    | exact cong_next
    | exact cong_modifyTable _
    | exact cong_sliceString _ _
    | exact cong_lexerNext E E'
    | exact cong_lexerPeek E E'
    | exact cong_columnConstraintsLoop E E' _ _
    | apply cong_bind
    | apply cong_ite
    | intro _
    | split

theorem cong_parseColumn (E E' : GoEnv) :
    Cong (parseColumn E) (parseColumn E') := by
  unfold parseColumn
  repeat' with_reducible first
    | exact cong_pure _
    | exact cong_getState
    | exact cong_next
    | exact cong_modifyTable _
    | exact cong_sliceString _ _
    | exact cong_lexerNext E E'
    | exact cong_lexerPeek E E'
    | exact cong_parseColumnType E E' _
    | exact cong_parseColumnConstraints E E' _
    | apply cong_bind
    | apply cong_ite
    | intro _
    | split

theorem cong_parseColumnsLoop (E E' : GoEnv) (fuel : Nat) :
    Cong (parseColumnsLoop E fuel) (parseColumnsLoop E' fuel) := by
  induction fuel with
  | zero => exact cong_outOfFuel
  | succ n ih =>
    unfold parseColumnsLoop
    repeat' with_reducible first
      | exact cong_pure _
      | exact cong_getState
      | exact cong_next
      | exact cong_modifyTable _
      | exact cong_sliceString _ _
      | exact cong_lexerNext E E'
      | exact cong_lexerPeek E E'
      | exact ih
      | exact cong_parseColumn E E'
      | apply cong_bind
      | apply cong_ite
      | intro _
      | split

theorem cong_parseConstraintsLoop (E E' : GoEnv) (token : tokenT) (fuel : Nat) :
    Cong (parseConstraintsLoop E token fuel) (parseConstraintsLoop E' token fuel) := by
  induction fuel generalizing token with
  | zero => exact cong_outOfFuel
  | succ n ih =>
    unfold parseConstraintsLoop
    repeat' with_reducible first
      | exact cong_pure _
      | exact cong_getState
      | exact cong_next
      | exact cong_modifyTable _
      | exact cong_sliceString _ _
      | exact cong_lexerNext E E'
      | exact cong_lexerPeek E E'
      | exact ih _
      | exact cong_parseTableConstraint E E'
      | apply cong_bind
      | apply cong_ite
      | intro _
      | split

theorem cong_parseTail (E E' : GoEnv) :
    Cong (parseTail E) (parseTail E') := by
  unfold parseTail
  repeat' with_reducible first
    | exact cong_pure _
    | exact cong_getState
    | exact cong_next
    | exact cong_modifyTable _
    | exact cong_sliceString _ _
    | exact cong_lexerNext E E'
    | exact cong_lexerPeek E E'
    | apply cong_bind
    | apply cong_ite
    | intro _
    | split

theorem cong_parseBody (E E' : GoEnv) :
    Cong (parseBody E) (parseBody E') := by
  unfold parseBody
  repeat' with_reducible first
    | exact cong_pure _
    | exact cong_getState
    | exact cong_next
    | exact cong_modifyTable _
    | exact cong_sliceString _ _
    | exact cong_lexerNext E E'
    | exact cong_lexerPeek E E'
    | exact cong_parseColumnsLoop E E' _
    | exact cong_parseConstraintsLoop E E' _ _
    | exact cong_parseTail E E'
    | apply cong_bind
    | apply cong_ite
    | intro _
    | split

theorem cong_parse (E E' : GoEnv) :
    Cong (parse E) (parse E') := by
  unfold parse
  repeat' with_reducible first
    | exact cong_pure _
    | exact cong_getState
    | exact cong_next
    | exact cong_modifyTable _
    | exact cong_sliceString _ _
    | exact cong_lexerNext E E'
    | exact cong_lexerPeek E E'
    | exact cong_parseBody E E'
    | apply cong_bind
    | apply cong_ite
    | intro _
    | split

/-- On ASCII text `ParseTable` gives the same result whatever the Unicode
tables beyond ASCII are. -/
theorem ParseTable_ascii (E E' : GoEnv) (sql : String) (length : Int)
    (h : AsciiText sql.data) : ParseTable E sql length = ParseTable E' sql length := by
  have hp : ∀ size : Int,
      parse E { buffer := sql.data, size := size, table := {} } =
        parse E' { buffer := sql.data, size := size, table := {} } :=
    fun size => (cong_parse E E' { buffer := sql.data, size := size, table := {} } h).1
  unfold ParseTable
  simp only [hp]

end Sqlite3CreateTableParser

namespace Sqlite3CreateTableParser

open tokenT ErrorCode OrderClause ConflictClause FkAction FkDefType ConstraintType

/-! ## Reading the buffer at a known position -/

theorem get?_at {B pre : List Char} {c : Char} {r : List Char} {k : Nat}
    (hB : B = pre ++ c :: r) (hk : k = pre.length) : B.get? k = some c := by
  subst hB hk
  rw [List.get?_eq_getElem?, List.getElem?_append_right (le_refl _)]
  simp

theorem get?_at_end {B : List Char} {k : Nat} (hk : B.length ≤ k) : B.get? k = none := by
  simp [hk]

theorem peek_at {B pre : List Char} {c : Char} {r : List Char} {k : Nat} (S : Int)
    (id : String) (tb : Table) (hB : B = pre ++ c :: r) (hk : k = pre.length) :
    peek ⟨B, S, k, id, tb⟩ = Res.ok (c, ⟨B, S, k, id, tb⟩) := by
  simp only [peek, get?_at hB hk]

theorem next_at {B pre : List Char} {c : Char} {r : List Char} {k : Nat} (S : Int)
    (id : String) (tb : Table) (hB : B = pre ++ c :: r) (hk : k = pre.length) :
    next ⟨B, S, k, id, tb⟩ = Res.ok (c, ⟨B, S, k + 1, id, tb⟩) := by
  simp only [next, get?_at hB hk]

theorem peek_at_end {B : List Char} {k : Nat} (S : Int) (id : String) (tb : Table)
    (hk : B.length ≤ k) : peek ⟨B, S, k, id, tb⟩ = Res.panic := by
  simp only [peek, get?_at_end hk]

theorem next_at_end {B : List Char} {k : Nat} (S : Int) (id : String) (tb : Table)
    (hk : B.length ≤ k) : next ⟨B, S, k, id, tb⟩ = Res.panic := by
  simp only [next, get?_at_end hk]

theorem sliceString_at {B pre w r : List Char} {k : Nat} (S : Int) (id : String) (tb : Table)
    (j : Nat) (hB : B = pre ++ w ++ r) (hk : k = pre.length) (hj : j = k + w.length) (n : Nat) :
    sliceString (k : Int) j ⟨B, S, n, id, tb⟩ = Res.ok (String.mk w, ⟨B, S, n, id, tb⟩) := by
  subst hB hk hj
  simp [sliceString]

/-! ## ASCII runes -/

theorem ascii_forall {P : Char → Prop} (h : ∀ n, n < 128 → P (Char.ofNat n)) (c : Char)
    (hc : c.toNat < 128) : P c := by
  have := h c.toNat hc
  rwa [Char.ofNat_toNat] at this

theorem wordChar_facts : ∀ n, n < 128 → isWordChar (Char.ofNat n) = true →
    symbolIsIdentifier asciiEnv (Char.ofNat n) = true := by decide

theorem wordStart_facts : ∀ n, n < 128 → isWordStart (Char.ofNat n) = true →
    (Char.ofNat n ≠ '\x00' ∧ symbolIsToSkip (Char.ofNat n) = false ∧ Char.ofNat n ≠ '-' ∧
      Char.ofNat n ≠ '/' ∧ symbolIsPunctuation (Char.ofNat n) = false ∧
      symbolIsAlpha asciiEnv (Char.ofNat n) = true ∧ isWordChar (Char.ofNat n) = true) := by
  decide

theorem delimiter_facts : ∀ n, n < 128 → isDelimiter (Char.ofNat n) = true →
    symbolIsIdentifier asciiEnv (Char.ofNat n) = false := by decide

theorem isWordChar_ascii {c : Char} (h : isWordChar c = true) : c.toNat < 128 := by
  simp only [isWordChar, Bool.and_eq_true, decide_eq_true_eq] at h
  exact h.1

theorem isWordStart_ascii {c : Char} (h : isWordStart c = true) : c.toNat < 128 := by
  simp only [isWordStart, Bool.and_eq_true, decide_eq_true_eq] at h
  exact h.1

theorem isDelimiter_ascii {c : Char} (h : isDelimiter c = true) : c.toNat < 128 := by
  simp only [isDelimiter, Bool.and_eq_true, decide_eq_true_eq] at h
  exact h.1

theorem symbolIsIdentifier_of_wordChar (E : GoEnv) {c : Char} (h : isWordChar c = true) :
    symbolIsIdentifier E c = true := by
  rw [symbolIsIdentifier_ascii E asciiEnv (isWordChar_ascii h)]
  exact ascii_forall (P := fun c => isWordChar c = true → symbolIsIdentifier asciiEnv c = true)
    wordChar_facts c (isWordChar_ascii h) h

theorem symbolIsIdentifier_of_delimiter (E : GoEnv) {c : Char} (h : isDelimiter c = true) :
    symbolIsIdentifier E c = false := by
  rw [symbolIsIdentifier_ascii E asciiEnv (isDelimiter_ascii h)]
  exact ascii_forall (P := fun c => isDelimiter c = true → symbolIsIdentifier asciiEnv c = false)
    delimiter_facts c (isDelimiter_ascii h) h

theorem wordStart_spec (E : GoEnv) {c : Char} (h : isWordStart c = true) :
    c ≠ '\x00' ∧ symbolIsToSkip c = false ∧ c ≠ '-' ∧ c ≠ '/' ∧ symbolIsPunctuation c = false ∧
      symbolIsAlpha E c = true ∧ isWordChar c = true := by
  rw [symbolIsAlpha_ascii E asciiEnv (isWordStart_ascii h)]
  exact ascii_forall (P := fun c => isWordStart c = true →
    (c ≠ '\x00' ∧ symbolIsToSkip c = false ∧ c ≠ '-' ∧ c ≠ '/' ∧ symbolIsPunctuation c = false ∧
      symbolIsAlpha asciiEnv c = true ∧ isWordChar c = true))
    wordStart_facts c (isWordStart_ascii h) h

theorem isAsciiWord_chars {w : List Char} (h : isAsciiWord w = true) :
    ∀ c ∈ w, isWordChar c = true := by
  cases w with
  | nil => simp [isAsciiWord] at h
  | cons a cs =>
    simp only [isAsciiWord, Bool.and_eq_true, List.all_eq_true] at h
    intro c hc
    rcases List.mem_cons.1 hc with rfl | hc
    · exact (wordStart_spec asciiEnv h.1).2.2.2.2.2.2
    · exact h.2 c hc

theorem isAsciiWord_asciiText {w : List Char} (h : isAsciiWord w = true) : AsciiText w :=
  fun c hc => isWordChar_ascii (isAsciiWord_chars h c hc)

theorem alpha_facts : ∀ n, n < 128 → symbolIsAlpha asciiEnv (Char.ofNat n) = true →
    (Char.ofNat n ≠ '\x00' ∧ symbolIsToSkip (Char.ofNat n) = false ∧ Char.ofNat n ≠ '-' ∧
      Char.ofNat n ≠ '/' ∧ symbolIsPunctuation (Char.ofNat n) = false) := by
  decide

/-- A rune that may start an unquoted identifier is no NUL, blank, comment
start or punctuation mark. -/
theorem alpha_spec (E : GoEnv) {c : Char} (h : symbolIsAlpha E c = true) :
    c ≠ '\x00' ∧ symbolIsToSkip c = false ∧ c ≠ '-' ∧ c ≠ '/' ∧
      symbolIsPunctuation c = false := by
  by_cases hc : c.toNat < 128
  · rw [symbolIsAlpha_ascii E asciiEnv hc] at h
    exact ascii_forall (P := fun c => symbolIsAlpha asciiEnv c = true →
      (c ≠ '\x00' ∧ symbolIsToSkip c = false ∧ c ≠ '-' ∧ c ≠ '/' ∧
        symbolIsPunctuation c = false)) alpha_facts c hc h
  · have hne : ∀ d : Char, d.toNat < 128 → c ≠ d := by
      intro d hd e
      exact hc (e ▸ hd)
    refine ⟨hne _ (by decide), ?_, hne _ (by decide), hne _ (by decide), ?_⟩
    · simp only [symbolIsToSkip, symbolIsSpace, symbolIsNewline, Bool.or_eq_false_iff,
        decide_eq_false_iff_not, not_or]
      exact ⟨⟨hne _ (by decide), hne _ (by decide), hne _ (by decide), hne _ (by decide)⟩,
        hne _ (by decide), hne _ (by decide)⟩
    · simp only [symbolIsPunctuation, decide_eq_false_iff_not, not_or]
      exact ⟨hne _ (by decide), hne _ (by decide), hne _ (by decide), hne _ (by decide),
        hne _ (by decide)⟩

theorem toSkip_ne_nul {c : Char} (h : symbolIsToSkip c = true) : c ≠ '\x00' := by
  intro e
  subst e
  revert h
  decide

/-! ## The lexer on a buffer of known shape -/

theorem isEOF_false {B : List Char} {S : Int} {k : Nat} (id : String) (tb : Table)
    (hS : (B.length : Int) ≤ S) (hk : k < B.length) : isEOF ⟨B, S, k, id, tb⟩ = false := by
  simp only [isEOF, beq_eq_false_iff_ne, ne_eq]
  omega

theorem symbolIsComment_other {c : Char} (h1 : c ≠ '-') (h2 : c ≠ '/') (st : State) :
    symbolIsComment c st = Res.ok (false, st) := by
  simp only [symbolIsComment, h1, h2, if_false, bind_run, pure_run, Res.bind_ok]
  rfl

/-- The identifier loop runs over the runes of a word and stops at the first
rune that cannot continue it. -/
theorem lexerAlphaLoop_run (E : GoEnv) {B : List Char} (w : List Char) :
    ∀ (pre : List Char) (d : Char) (r : List Char) (k : Nat) (S : Int) (id : String)
      (tb : Table) (fuel : Nat), B = pre ++ w ++ d :: r → k = pre.length →
      (∀ c ∈ w, symbolIsIdentifier E c = true) → symbolIsIdentifier E d = false →
      w.length < fuel →
      lexerAlphaLoop E fuel ⟨B, S, k, id, tb⟩ = Res.ok ((), ⟨B, S, k + w.length, id, tb⟩) := by
  induction w with
  | nil =>
    intro pre d r k S id tb fuel hB hk _ hd hf
    obtain ⟨n, rfl⟩ : ∃ n, fuel = n + 1 := ⟨fuel - 1, by simp at hf; omega⟩
    have hB' : B = pre ++ d :: r := by simpa using hB
    simp only [lexerAlphaLoop, bind_run, peek_at S id tb hB' hk, Res.bind_ok, hd, pure_run,
      List.length_nil, Nat.add_zero]
    rfl
  | cons c w ih =>
    intro pre d r k S id tb fuel hB hk hw hd hf
    obtain ⟨n, rfl⟩ : ∃ n, fuel = n + 1 := ⟨fuel - 1, by simp at hf; omega⟩
    have hB' : B = pre ++ c :: (w ++ d :: r) := by simpa using hB
    have hc : symbolIsIdentifier E c = true := hw c (List.mem_cons_self _ _)
    have hB2 : B = (pre ++ [c]) ++ w ++ d :: r := by simpa using hB
    have step := ih (pre ++ [c]) d r (k + 1) S id tb n hB2 (by simp [hk])
      (fun x hx => hw x (List.mem_cons_of_mem _ hx)) hd (by simp at hf; omega)
    have e2 : k + 1 + w.length = k + (c :: w).length := by
      simp only [List.length_cons]
      omega
    rw [e2] at step
    simp only [lexerAlphaLoop, bind_run, peek_at S id tb hB' hk, Res.bind_ok, hc, if_true,
      skip1_run, step]

/-- An unquoted word: `lexerAlpha` returns what `lexerKeyword` says about it
and, for an identifier, stores its text. -/
theorem lexerAlpha_run (E : GoEnv) {B : List Char} (pre w : List Char) (d : Char)
    (r : List Char) (k : Nat) (S : Int) (id : String) (tb : Table)
    (hB : B = pre ++ w ++ d :: r) (hk : k = pre.length)
    (hw : ∀ c ∈ w, symbolIsIdentifier E c = true) (hd : symbolIsIdentifier E d = false) :
    lexerAlpha E ⟨B, S, k, id, tb⟩ =
      match lexerKeyword E (String.mk w) (w.length : Int) with
      | none => Res.panic
      | some t =>
        if t ≠ tokIDENTIFIER then Res.ok (t, ⟨B, S, k + w.length, id, tb⟩)
        else Res.ok (tokIDENTIFIER, ⟨B, S, k + w.length, String.mk w, tb⟩) := by
  have hlen : w.length < loopFuel ⟨B, S, k, id, tb⟩ := by
    subst hB
    simp only [loopFuel, List.length_append, List.length_cons]
    omega
  have hloop := lexerAlphaLoop_run E w pre d r k S id tb _ hB hk hw hd hlen
  have hB' : B = pre ++ w ++ (d :: r) := hB
  have hslice := sliceString_at S id tb (k + w.length) hB' hk rfl (k + w.length)
  have hcast : ((k + w.length : Nat) : Int) - (k : Int) = (w.length : Int) := by
    push_cast
    omega
  simp only [lexerAlpha, bind_run, getState_run, Res.bind_ok, hloop, hslice, hcast]
  cases lexerKeyword E (String.mk w) (w.length : Int) with
  | none => rfl
  | some t =>
    by_cases ht : t = tokIDENTIFIER
    · subst ht
      simp only [ne_eq, not_true_eq_false, if_false, bind_run, setIdentifier_run, Res.bind_ok,
        pure_run]
    · simp only [ne_eq, ht, not_false_eq_true, if_true, pure_run]

/-- Blank runes before a token are skipped one per round. -/
theorem lexerNextLoop_skip (E : GoEnv) {B : List Char} (ws : List Char) :
    ∀ (pre r : List Char) (k : Nat) (S : Int) (id : String) (tb : Table) (fuel : Nat),
      B = pre ++ ws ++ r → k = pre.length → isBlank ws = true → (B.length : Int) ≤ S →
      lexerNextLoop E (ws.length + fuel) ⟨B, S, k, id, tb⟩ =
        lexerNextLoop E fuel ⟨B, S, k + ws.length, id, tb⟩ := by
  induction ws with
  | nil =>
    intro pre r k S id tb fuel _ _ _ _
    simp only [List.length_nil, Nat.zero_add, Nat.add_zero]
  | cons c ws ih =>
    intro pre r k S id tb fuel hB hk hws hS
    have hB' : B = pre ++ c :: (ws ++ r) := by simpa using hB
    have hlt : k < B.length := by
      subst hB' hk
      simp
    simp only [isBlank, List.all_cons, Bool.and_eq_true] at hws
    have hB2 : B = (pre ++ [c]) ++ ws ++ r := by simpa using hB
    have step := ih (pre ++ [c]) r (k + 1) S id tb fuel hB2 (by simp [hk]) hws.2 hS
    have e : (c :: ws).length + fuel = (ws.length + fuel) + 1 := by
      simp only [List.length_cons]
      omega
    have e2 : k + 1 + ws.length = k + (c :: ws).length := by
      simp only [List.length_cons]
      omega
    rw [e2] at step
    rw [e]
    simp only [lexerNextLoop, bind_run, getState_run, Res.bind_ok, isEOF_false id tb hS hlt,
      peek_at S id tb hB' hk, toSkip_ne_nul hws.1, hws.1, if_true, if_false, skip1_run, step,
      Bool.false_eq_true]

/-- `lexerNext` with blank runes in front: the loop continues at the token. -/
theorem lexerNext_skip (E : GoEnv) {B : List Char} (pre ws r : List Char) (k : Nat) (S : Int)
    (id : String) (tb : Table) (hB : B = pre ++ ws ++ r) (hk : k = pre.length)
    (hws : isBlank ws = true) (hS : (B.length : Int) ≤ S) :
    lexerNext E ⟨B, S, k, id, tb⟩ =
      lexerNextLoop E (pre.length + r.length + 1) ⟨B, S, k + ws.length, id, tb⟩ := by
  have e : loopFuel ⟨B, S, k, id, tb⟩ = ws.length + (pre.length + r.length + 1) := by
    subst hB
    simp only [loopFuel, List.length_append]
    omega
  simp only [lexerNext, bind_run, getState_run, Res.bind_ok]
  rw [e]
  exact lexerNextLoop_skip E ws pre r k S id tb _ hB hk hws hS

/-- At the first rune of a word the loop hands over to `lexerAlpha`. -/
theorem lexerNextLoop_alpha (E : GoEnv) {B : List Char} (pre : List Char) (c : Char)
    (r : List Char) (k : Nat) (S : Int) (id : String) (tb : Table) (n : Nat)
    (hB : B = pre ++ c :: r) (hk : k = pre.length) (hS : (B.length : Int) ≤ S)
    (hc : symbolIsAlpha E c = true) :
    lexerNextLoop E (n + 1) ⟨B, S, k, id, tb⟩ = lexerAlpha E ⟨B, S, k, id, tb⟩ := by
  have hlt : k < B.length := by
    subst hB hk
    simp
  obtain ⟨h0, hskip, h1, h2, hp⟩ := alpha_spec E hc
  simp only [lexerNextLoop, bind_run, getState_run, Res.bind_ok, isEOF_false id tb hS hlt,
    peek_at S id tb hB hk, h0, hskip, if_false, symbolIsComment_other h1 h2, hp, hc, if_true,
    Bool.false_eq_true]

/-- An unquoted word after blank runes. -/
theorem lexerNext_word (E : GoEnv) {B : List Char} (pre ws : List Char) (c : Char)
    (cs : List Char) (d : Char) (r : List Char) (k : Nat) (S : Int) (id : String) (tb : Table)
    (hB : B = pre ++ ws ++ (c :: cs) ++ d :: r) (hk : k = pre.length)
    (hws : isBlank ws = true) (hS : (B.length : Int) ≤ S) (hc : symbolIsAlpha E c = true)
    (hw : ∀ x ∈ c :: cs, symbolIsIdentifier E x = true) (hd : symbolIsIdentifier E d = false) :
    lexerNext E ⟨B, S, k, id, tb⟩ =
      match lexerKeyword E (String.mk (c :: cs)) ((c :: cs).length : Int) with
      | none => Res.panic
      | some t =>
        if t ≠ tokIDENTIFIER then
          Res.ok (t, ⟨B, S, k + ws.length + (c :: cs).length, id, tb⟩)
        else Res.ok (tokIDENTIFIER,
          ⟨B, S, k + ws.length + (c :: cs).length, String.mk (c :: cs), tb⟩) := by
  have hB1 : B = pre ++ ws ++ ((c :: cs) ++ d :: r) := by simpa using hB
  have hB2 : B = (pre ++ ws) ++ c :: (cs ++ d :: r) := by simpa using hB
  have hk2 : k + ws.length = (pre ++ ws).length := by simp [hk]
  rw [lexerNext_skip E pre ws _ k S id tb hB1 hk hws hS,
    lexerNextLoop_alpha E (pre ++ ws) c _ (k + ws.length) S id tb _ hB2 hk2 hS hc]
  exact lexerAlpha_run E (pre ++ ws) (c :: cs) d r (k + ws.length) S id tb hB hk2 hw hd

/-- `lexerPeek` is `lexerNext` with the offset put back. -/
theorem lexerPeek_of_next (E : GoEnv) {B : List Char} {S : Int} {k k1 : Nat}
    {id id1 : String} {tb tb1 : Table} {B1 : List Char} {S1 : Int} {t : tokenT}
    (h : lexerNext E ⟨B, S, k, id, tb⟩ = Res.ok (t, ⟨B1, S1, k1, id1, tb1⟩)) :
    lexerPeek E ⟨B, S, k, id, tb⟩ = Res.ok (t, ⟨B1, S1, k, id1, tb1⟩) := by
  simp only [lexerPeek, bind_run, getState_run, Res.bind_ok, h, setOffset_run, pure_run]

theorem lexerPeek_of_next_panic (E : GoEnv) {st : State} (h : lexerNext E st = Res.panic) :
    lexerPeek E st = Res.panic := by
  simp only [lexerPeek, bind_run, getState_run, Res.bind_ok, h, Res.bind_panic]

/-- A keyword after blank runes, followed by a delimiter. -/
theorem lexerNext_keyword (E : GoEnv) {B : List Char} (pre ws w : List Char) (d : Char)
    (r : List Char) (t : tokenT) (k : Nat) (S : Int) (id : String) (tb : Table)
    (hB : B = pre ++ ws ++ w ++ d :: r) (hk : k = pre.length) (hS : (B.length : Int) ≤ S)
    (hws : isBlank ws = true) (hw : isAsciiWord w = true) (hd : isDelimiter d = true)
    (hkw : lexerKeyword asciiEnv (String.mk w) (w.length : Int) = some t)
    (ht : t ≠ tokIDENTIFIER) :
    lexerNext E ⟨B, S, k, id, tb⟩ = Res.ok (t, ⟨B, S, k + ws.length + w.length, id, tb⟩) := by
  have hchars := isAsciiWord_chars hw
  have hascii := isAsciiWord_asciiText hw
  cases w with
  | nil => simp [isAsciiWord] at hw
  | cons c cs =>
    have hc : isWordStart c = true := by
      simp only [isAsciiWord, Bool.and_eq_true] at hw
      exact hw.1
    rw [lexerNext_word E pre ws c cs d r k S id tb hB hk hws hS (wordStart_spec E hc).2.2.2.2.2.1
      (fun x hx => symbolIsIdentifier_of_wordChar E (hchars x hx))
      (symbolIsIdentifier_of_delimiter E hd),
      @lexerKeyword_ascii E asciiEnv (String.mk (c :: cs)) _ hascii, hkw]
    simp only [ne_eq, ht, not_false_eq_true, if_true]

/-- An unquoted identifier after blank runes, followed by a delimiter. -/
theorem lexerNext_ident (E : GoEnv) {B : List Char} (pre ws w : List Char) (d : Char)
    (r : List Char) (k : Nat) (S : Int) (id : String) (tb : Table)
    (hB : B = pre ++ ws ++ w ++ d :: r) (hk : k = pre.length) (hS : (B.length : Int) ≤ S)
    (hws : isBlank ws = true) (hw : isPlainIdentifier w = true) (hd : isDelimiter d = true) :
    lexerNext E ⟨B, S, k, id, tb⟩ =
      Res.ok (tokIDENTIFIER, ⟨B, S, k + ws.length + w.length, String.mk w, tb⟩) := by
  simp only [isPlainIdentifier, Bool.and_eq_true, decide_eq_true_eq] at hw
  obtain ⟨hw, hkw⟩ := hw
  have hchars := isAsciiWord_chars hw
  have hascii := isAsciiWord_asciiText hw
  cases w with
  | nil => simp [isAsciiWord] at hw
  | cons c cs =>
    have hc : isWordStart c = true := by
      simp only [isAsciiWord, Bool.and_eq_true] at hw
      exact hw.1
    rw [lexerNext_word E pre ws c cs d r k S id tb hB hk hws hS (wordStart_spec E hc).2.2.2.2.2.1
      (fun x hx => symbolIsIdentifier_of_wordChar E (hchars x hx))
      (symbolIsIdentifier_of_delimiter E hd),
      @lexerKeyword_ascii E asciiEnv (String.mk (c :: cs)) _ hascii, hkw]
    simp only [ne_eq, not_true_eq_false, if_false]

theorem punct_facts : ∀ n, n < 128 → symbolIsPunctuation (Char.ofNat n) = true →
    (Char.ofNat n ≠ '\x00' ∧ symbolIsToSkip (Char.ofNat n) = false ∧ Char.ofNat n ≠ '-' ∧
      Char.ofNat n ≠ '/') := by
  decide

theorem punct_spec {c : Char} (h : symbolIsPunctuation c = true) :
    c ≠ '\x00' ∧ symbolIsToSkip c = false ∧ c ≠ '-' ∧ c ≠ '/' := by
  have hc : c.toNat < 128 := by
    simp only [symbolIsPunctuation, decide_eq_true_eq] at h
    rcases h with h | h | h | h | h <;> subst h <;> decide
  exact ascii_forall (P := fun c => symbolIsPunctuation c = true →
    (c ≠ '\x00' ∧ symbolIsToSkip c = false ∧ c ≠ '-' ∧ c ≠ '/')) punct_facts c hc h

/-- A punctuation mark after blank runes. -/
theorem lexerNext_punct (E : GoEnv) {B : List Char} (pre ws : List Char) (c : Char)
    (r : List Char) (k : Nat) (S : Int) (id : String) (tb : Table)
    (hB : B = pre ++ ws ++ c :: r) (hk : k = pre.length) (hS : (B.length : Int) ≤ S)
    (hws : isBlank ws = true) (hc : symbolIsPunctuation c = true) :
    lexerNext E ⟨B, S, k, id, tb⟩ =
      Res.ok (punctToken c, ⟨B, S, k + ws.length + 1, id, tb⟩) := by
  have hB2 : B = (pre ++ ws) ++ c :: r := by simpa using hB
  have hk2 : k + ws.length = (pre ++ ws).length := by simp [hk]
  have hlt : k + ws.length < B.length := by
    subst hB2
    rw [hk2]
    simp
  obtain ⟨h0, hskip, h1, h2⟩ := punct_spec hc
  rw [lexerNext_skip E pre ws _ k S id tb hB hk hws hS]
  simp only [lexerNextLoop, bind_run, getState_run, Res.bind_ok, isEOF_false id tb hS hlt,
    peek_at S id tb hB2 hk2, h0, hskip, if_false, symbolIsComment_other h1 h2, hc, if_true,
    Bool.false_eq_true, lexerPunctuation, next_at S id tb hB2 hk2, punctToken]
  repeat' split
  all_goals rfl

/-- The end of the input, after blank runes, when the size is the length of
the buffer. -/
theorem lexerNext_eof (E : GoEnv) {B : List Char} (pre ws : List Char) (k : Nat) (S : Int)
    (id : String) (tb : Table) (hB : B = pre ++ ws) (hk : k = pre.length)
    (hS : S = (B.length : Int)) (hws : isBlank ws = true) :
    lexerNext E ⟨B, S, k, id, tb⟩ = Res.ok (tokEOF, ⟨B, S, k + ws.length, id, tb⟩) := by
  have hB1 : B = pre ++ ws ++ [] := by simpa using hB
  rw [lexerNext_skip E pre ws [] k S id tb hB1 hk hws (by rw [hS])]
  have he : isEOF ⟨B, S, k + ws.length, id, tb⟩ = true := by
    simp only [isEOF, beq_iff_eq, hS, hB, hk, List.length_append]
  simp only [lexerNextLoop, bind_run, getState_run, Res.bind_ok, he, if_true, pure_run]

end Sqlite3CreateTableParser

namespace Sqlite3CreateTableParser

open tokenT ErrorCode OrderClause ConflictClause FkAction FkDefType ConstraintType

/-! ## Quoted identifiers -/

/-- The loop of `lexerEscape` runs over the quoted text and stops at the
closing delimiter. -/
theorem lexerEscapeLoop_run (esc : Char) {B : List Char} (s : List Char) :
    ∀ (pre : List Char) (c : Char) (r : List Char) (k : Nat) (S : Int) (id : String)
      (tb : Table) (fuel : Nat), B = pre ++ s ++ esc :: r → k = pre.length →
      (c ≠ '\x00' ∧ c ≠ esc) → (∀ x ∈ s, x ≠ '\x00' ∧ x ≠ esc) → s.length + 1 < fuel →
      lexerEscapeLoop esc c fuel ⟨B, S, k, id, tb⟩ =
        Res.ok (esc, ⟨B, S, k + s.length + 1, id, tb⟩) := by
  induction s with
  | nil =>
    intro pre c r k S id tb fuel hB hk hc _ hf
    obtain ⟨n, rfl⟩ : ∃ n, fuel = n + 2 := ⟨fuel - 2, by simp at hf; omega⟩
    have hB' : B = pre ++ esc :: r := by simpa using hB
    simp only [lexerEscapeLoop, hc.1, hc.2, ne_eq, not_false_eq_true, and_self, if_true,
      bind_run, next_at S id tb hB' hk, Res.bind_ok, not_true_eq_false, and_false, if_false,
      pure_run, List.length_nil, Nat.add_zero]
  | cons x s ih =>
    intro pre c r k S id tb fuel hB hk hc hs hf
    obtain ⟨n, rfl⟩ : ∃ n, fuel = n + 1 := ⟨fuel - 1, by simp at hf; omega⟩
    have hB' : B = pre ++ x :: (s ++ esc :: r) := by simpa using hB
    have hB2 : B = (pre ++ [x]) ++ s ++ esc :: r := by simpa using hB
    have step := ih (pre ++ [x]) x r (k + 1) S id tb n hB2 (by simp [hk])
      (hs x (List.mem_cons_self _ _)) (fun y hy => hs y (List.mem_cons_of_mem _ hy))
      (by simp at hf; omega)
    have e2 : k + 1 + s.length + 1 = k + (x :: s).length + 1 := by
      simp only [List.length_cons]
      omega
    rw [e2] at step
    simp only [lexerEscapeLoop, hc.1, hc.2, ne_eq, not_false_eq_true, and_self, if_true,
      bind_run, next_at S id tb hB' hk, Res.bind_ok, step]

/-- A quoted identifier: `lexerEscape` returns `tokIDENTIFIER`, stores the text
between the delimiters and stops just past the closing delimiter. -/
theorem lexerEscape_run {B : List Char} (pre : List Char) (q c : Char) (s r : List Char)
    (k : Nat) (S : Int) (id : String) (tb : Table)
    (hB : B = pre ++ q :: s ++ c :: r) (hk : k = pre.length)
    (hc : c = if q = '[' then ']' else q) (hs : ∀ x ∈ s, x ≠ '\x00' ∧ x ≠ c) :
    lexerEscape ⟨B, S, k, id, tb⟩ =
      Res.ok (tokIDENTIFIER, ⟨B, S, k + s.length + 2, String.mk s, tb⟩) := by
  have hB0 : B = pre ++ q :: (s ++ c :: r) := by simpa using hB
  have hlen : B.length = pre.length + s.length + r.length + 2 := by
    subst hB0
    simp only [List.length_append, List.length_cons]
    omega
  cases s with
  | nil =>
    have hB1 : B = (pre ++ [q]) ++ c :: r := by simpa using hB
    have hn := next_at S id tb hB1 (k := k + 1) (by simp [hk])
    have hB2 : B = (pre ++ [q]) ++ [] ++ (c :: r) := by simpa using hB
    have hsl := sliceString_at S id tb (k + 1) hB2 (k := k + 1) (by simp [hk]) (by simp)
      (k + 1 + 1)
    simp only [lexerEscape, bind_run, next_at S id tb hB0 hk, Res.bind_ok, getState_run, ← hc,
      hn, loopFuel, hlen, lexerEscapeLoop, ne_eq, not_true_eq_false, and_false, if_false,
      pure_run, Nat.add_sub_cancel, hsl, setIdentifier_run, List.length_nil, Nat.add_zero]
  | cons x s =>
    have hB1 : B = (pre ++ [q]) ++ x :: (s ++ c :: r) := by simpa using hB
    have hn := next_at S id tb hB1 (k := k + 1) (by simp [hk])
    have hB2 : B = (pre ++ [q, x]) ++ s ++ c :: r := by simpa using hB
    have hloop := lexerEscapeLoop_run c s (pre ++ [q, x]) x r (k + 1 + 1) S id tb
      (loopFuel ⟨B, S, k + 1, id, tb⟩) hB2 (by simp [hk]) (hs x (List.mem_cons_self _ _))
      (fun y hy => hs y (List.mem_cons_of_mem _ hy))
      (by simp only [loopFuel, hlen, List.length_cons]; omega)
    have hB3 : B = (pre ++ [q]) ++ (x :: s) ++ (c :: r) := by simpa using hB
    have hsl := sliceString_at S id tb (k + 1 + 1 + s.length + 1 - 1) hB3 (k := k + 1)
      (by simp [hk]) (by simp only [List.length_cons]; omega) (k + 1 + 1 + s.length + 1)
    have e : k + 1 + 1 + s.length + 1 = k + (x :: s).length + 2 := by
      simp only [List.length_cons]
      omega
    rw [e] at hloop hsl
    simp only [lexerEscape, bind_run, next_at S id tb hB0 hk, Res.bind_ok, getState_run, ← hc,
      hn, hloop, hsl, ne_eq, not_true_eq_false, if_false, setIdentifier_run, pure_run]

theorem escape_facts : ∀ n, n < 128 → symbolIsEscape (Char.ofNat n) = true →
    (Char.ofNat n ≠ '\x00' ∧ symbolIsToSkip (Char.ofNat n) = false ∧ Char.ofNat n ≠ '-' ∧
      Char.ofNat n ≠ '/' ∧ symbolIsPunctuation (Char.ofNat n) = false ∧
      symbolIsAlpha asciiEnv (Char.ofNat n) = false) := by
  decide

theorem escape_spec (E : GoEnv) {c : Char} (h : symbolIsEscape c = true) :
    c ≠ '\x00' ∧ symbolIsToSkip c = false ∧ c ≠ '-' ∧ c ≠ '/' ∧
      symbolIsPunctuation c = false ∧ symbolIsAlpha E c = false := by
  have hc : c.toNat < 128 := by
    simp only [symbolIsEscape, decide_eq_true_eq] at h
    rcases h with h | h | h | h <;> subst h <;> decide
  rw [symbolIsAlpha_ascii E asciiEnv hc]
  exact ascii_forall (P := fun c => symbolIsEscape c = true →
    (c ≠ '\x00' ∧ symbolIsToSkip c = false ∧ c ≠ '-' ∧ c ≠ '/' ∧
      symbolIsPunctuation c = false ∧ symbolIsAlpha asciiEnv c = false)) escape_facts c hc h

/-- A quoted identifier after blank runes. -/
theorem lexerNext_quoted (E : GoEnv) {B : List Char} (pre ws : List Char) (q c : Char)
    (s r : List Char) (k : Nat) (S : Int) (id : String) (tb : Table)
    (hB : B = pre ++ ws ++ q :: s ++ c :: r) (hk : k = pre.length)
    (hS : (B.length : Int) ≤ S) (hws : isBlank ws = true) (hq : symbolIsEscape q = true)
    (hc : c = if q = '[' then ']' else q) (hs : ∀ x ∈ s, x ≠ '\x00' ∧ x ≠ c) :
    lexerNext E ⟨B, S, k, id, tb⟩ =
      Res.ok (tokIDENTIFIER, ⟨B, S, k + ws.length + s.length + 2, String.mk s, tb⟩) := by
  have hB1 : B = pre ++ ws ++ (q :: s ++ c :: r) := by simpa using hB
  have hB2 : B = (pre ++ ws) ++ q :: (s ++ c :: r) := by simpa using hB
  have hB3 : B = (pre ++ ws) ++ q :: s ++ c :: r := by simpa using hB
  have hk2 : k + ws.length = (pre ++ ws).length := by simp [hk]
  have hlt : k + ws.length < B.length := by
    subst hB2
    rw [hk2]
    simp
  obtain ⟨h0, hskip, h1, h2, hp, ha⟩ := escape_spec E hq
  rw [lexerNext_skip E pre ws _ k S id tb hB1 hk hws hS]
  simp only [lexerNextLoop, bind_run, getState_run, Res.bind_ok, isEOF_false id tb hS hlt,
    peek_at S id tb hB2 hk2, h0, hskip, if_false, symbolIsComment_other h1 h2, hp, ha, hq,
    if_true, Bool.false_eq_true]
  exact lexerEscape_run (pre ++ ws) q c s r (k + ws.length) S id tb hB3 hk2 hc hs

end Sqlite3CreateTableParser

namespace Sqlite3CreateTableParser

open tokenT ErrorCode OrderClause ConflictClause FkAction FkDefType ConstraintType

/-! ## `ParseTable` on a non-empty text -/

/-- A string has at least as many bytes as code points. -/
theorem length_le_goLen (l : List Char) : l.length ≤ goLen (String.mk l) := by
  unfold goLen goBytes
  induction l with
  | nil => simp
  | cons c cs ih =>
    simp only [List.flatMap_cons, List.length_append, List.length_cons,
      String.length_utf8EncodeChar]
    have := Char.utf8Size_pos c
    simp only [List.flatMap] at ih ⊢
    omega

theorem isPlainIdentifier_ne_nil {w : List Char} (h : isPlainIdentifier w = true) : w ≠ [] := by
  intro e
  subst e
  simp [isPlainIdentifier, isAsciiWord] at h

theorem mk_ne_empty {w : List Char} (h : w ≠ []) : String.mk w ≠ "" := by
  intro e
  apply h
  simpa using congrArg String.data e

/-- With length 0 and a non-empty text, `ParseTable` runs `parse` on the
runes of the text with the number of bytes as size. -/
theorem ParseTable_run (E : GoEnv) (B : List Char) (hB : B ≠ []) :
    ParseTable E (String.mk B) 0 =
      (parse E ⟨B, (goLen (String.mk B) : Int), 0, "", {}⟩).bind
        fun p => Res.ok (some p.2.table, p.1) := by
  have h1 : String.mk B ≠ "" := mk_ne_empty hB
  have h2 : ((goLen (String.mk B) : Nat) : Int) ≠ 0 := by
    have := length_le_goLen B
    have : 0 < B.length := List.length_pos.2 hB
    omega
  simp only [ParseTable, h1, if_false, if_true, h2]

theorem utf8Size_facts : ∀ n, n < 128 → (Char.ofNat n).utf8Size = 1 := by decide

/-- An ASCII string has as many bytes as code points. -/
theorem goLen_ascii (l : List Char) (h : AsciiText l) : goLen (String.mk l) = l.length := by
  unfold goLen goBytes
  induction l with
  | nil => rfl
  | cons c cs ih =>
    have hc : c.utf8Size = 1 :=
      ascii_forall (P := fun c => c.utf8Size = 1) utf8Size_facts c (h c (List.mem_cons_self _ _))
    have := ih fun x hx => h x (List.mem_cons_of_mem _ hx)
    simp only [List.flatMap_cons, List.length_append, List.length_cons,
      String.length_utf8EncodeChar, hc] at this ⊢
    simp only [List.flatMap] at this ⊢
    omega

theorem isPlainIdentifier_asciiText {w : List Char} (h : isPlainIdentifier w = true) :
    AsciiText w := by
  simp only [isPlainIdentifier, Bool.and_eq_true] at h
  exact isAsciiWord_asciiText h.1

theorem asciiText_append {a b : List Char} (ha : AsciiText a) (hb : AsciiText b) :
    AsciiText (a ++ b) := by
  intro c hc
  rcases List.mem_append.1 hc with h | h
  · exact ha c h
  · exact hb c h

/-- `CREATE TABLE t AS ...`, on lists of runes: the parse stops at the look-ahead
that finds `AS`. -/
theorem ParseTable_create_table_as (E : GoEnv) (t tail : List Char)
    (ht : isPlainIdentifier t = true) :
    ParseTable E (String.mk ("CREATE TABLE ".data ++ t ++ " AS ".data ++ tail)) 0 =
      Res.ok (some { Name := String.mk t }, ERROR_UNSUPPORTEDSQL) := by
  have hne := isPlainIdentifier_ne_nil ht
  generalize hB : "CREATE TABLE ".data ++ t ++ " AS ".data ++ tail = B
  have hBne : B ≠ [] := by rw [← hB]; simp
  rw [ParseTable_run E B hBne]
  generalize hS : (goLen (String.mk B) : Int) = S
  have hSle : (B.length : Int) ≤ S := by
    rw [← hS]
    exact_mod_cast length_le_goLen B
  have h1 : ∀ id tb, lexerNext E ⟨B, S, 0, id, tb⟩ = Res.ok (tokCREATE, ⟨B, S, 6, id, tb⟩) := by
    intro id tb
    simpa using lexerNext_keyword E [] [] "CREATE".data ' '
      ("TABLE ".data ++ t ++ " AS ".data ++ tail) tokCREATE 0 S id tb (by simp [← hB]) rfl hSle
      (by decide) (by decide) (by decide) (by decide) (by decide)
  have h2 : ∀ id tb, lexerNext E ⟨B, S, 6, id, tb⟩ = Res.ok (tokTABLE, ⟨B, S, 12, id, tb⟩) := by
    intro id tb
    simpa using lexerNext_keyword E "CREATE".data [' '] "TABLE".data ' '
      (t ++ " AS ".data ++ tail) tokTABLE 6 S id tb (by simp [← hB]) rfl hSle
      (by decide) (by decide) (by decide) (by decide) (by decide)
  have h3 : ∀ id tb, lexerNext E ⟨B, S, 12, id, tb⟩ =
      Res.ok (tokIDENTIFIER, ⟨B, S, 12 + 1 + t.length, String.mk t, tb⟩) := by
    intro id tb
    simpa using lexerNext_ident E "CREATE TABLE".data [' '] t ' ' ("AS ".data ++ tail)
      12 S id tb (by simp [← hB]) rfl hSle (by decide) ht (by decide)
  have h4 : ∀ id tb, lexerNext E ⟨B, S, 12 + 1 + t.length, id, tb⟩ =
      Res.ok (tokAS, ⟨B, S, 12 + 1 + t.length + 1 + 2, id, tb⟩) := by
    intro id tb
    simpa using lexerNext_keyword E ("CREATE TABLE ".data ++ t) [' '] "AS".data ' ' tail
      tokAS (12 + 1 + t.length) S id tb (by simp [← hB]) (by simp; omega) hSle
      (by decide) (by decide) (by decide) (by decide) (by decide)
  have hname : String.mk t ≠ "" := by
    intro h
    apply hne
    simpa using congrArg String.data h
  simp [parse, parseBody, bind_run, pure_run, getState_run, modifyTable_run, h1, h2,
    lexerPeek_of_next E (h3 _ _), h3, lexerPeek_of_next E (h4 _ _), hname]

/-- Scenario A on lists of runes, with any table and column name. -/
theorem ParseTable_scenarioA (E : GoEnv) (t a : List Char) (ht : isPlainIdentifier t = true)
    (ha : isPlainIdentifier a = true) :
    ParseTable E (String.mk ("CREATE TABLE ".data ++ t ++ " (".data ++ a ++
        " INTEGER PRIMARY KEY AUTOINCREMENT)".data)) 0 =
      Res.ok (some { Name := String.mk t, NumColumns := 1,
                     Columns := [{ Name := String.mk a, Type_ := "INTEGER", IsPrimaryKey := true,
                                   IsAutoincrement := true }] }, ERROR_NONE) := by
  have hne := isPlainIdentifier_ne_nil ht
  generalize hB : "CREATE TABLE ".data ++ t ++ " (".data ++ a ++
        " INTEGER PRIMARY KEY AUTOINCREMENT)".data = B
  have hBne : B ≠ [] := by rw [← hB]; simp
  have hAscii : AsciiText B := by
    rw [← hB]
    exact asciiText_append (asciiText_append (asciiText_append (asciiText_append (by decide)
      (isPlainIdentifier_asciiText ht)) (by decide)) (isPlainIdentifier_asciiText ha)) (by decide)
  rw [ParseTable_run E B hBne, goLen_ascii B hAscii]
  generalize hS : (B.length : Int) = S
  have hSle : (B.length : Int) ≤ S := by rw [hS]
  obtain ⟨p1, hp1⟩ : ∃ p1, p1 = 12 + 1 + t.length := ⟨_, rfl⟩
  obtain ⟨p2, hp2⟩ : ∃ p2, p2 = p1 + 1 + 1 := ⟨_, rfl⟩
  obtain ⟨p3, hp3⟩ : ∃ p3, p3 = p2 + a.length := ⟨_, rfl⟩
  obtain ⟨p4, hp4⟩ : ∃ p4, p4 = p3 + 1 + 7 := ⟨_, rfl⟩
  obtain ⟨p5, hp5⟩ : ∃ p5, p5 = p4 + 1 + 7 := ⟨_, rfl⟩
  obtain ⟨p6, hp6⟩ : ∃ p6, p6 = p5 + 1 + 3 := ⟨_, rfl⟩
  obtain ⟨p7, hp7⟩ : ∃ p7, p7 = p6 + 1 + 13 := ⟨_, rfl⟩
  obtain ⟨p8, hp8⟩ : ∃ p8, p8 = p7 + 1 := ⟨_, rfl⟩
  have h1 : ∀ id tb, lexerNext E ⟨B, S, 0, id, tb⟩ = Res.ok (tokCREATE, ⟨B, S, 6, id, tb⟩) := by
    intro id tb
    simpa using lexerNext_keyword E [] [] "CREATE".data ' '
      ("TABLE ".data ++ t ++ " (".data ++ a ++ " INTEGER PRIMARY KEY AUTOINCREMENT)".data)
      tokCREATE 0 S id tb (by simp [← hB]) rfl hSle
      (by decide) (by decide) (by decide) (by decide) (by decide)
  have h2 : ∀ id tb, lexerNext E ⟨B, S, 6, id, tb⟩ = Res.ok (tokTABLE, ⟨B, S, 12, id, tb⟩) := by
    intro id tb
    simpa using lexerNext_keyword E "CREATE".data [' '] "TABLE".data ' '
      (t ++ " (".data ++ a ++ " INTEGER PRIMARY KEY AUTOINCREMENT)".data) tokTABLE 6 S id tb
      (by simp [← hB]) rfl hSle (by decide) (by decide) (by decide) (by decide) (by decide)
  have h3 : ∀ id tb, lexerNext E ⟨B, S, 12, id, tb⟩ =
      Res.ok (tokIDENTIFIER, ⟨B, S, p1, String.mk t, tb⟩) := by
    intro id tb
    rw [hp1]
    simpa using lexerNext_ident E "CREATE TABLE".data [' '] t ' '
      ("(".data ++ a ++ " INTEGER PRIMARY KEY AUTOINCREMENT)".data)
      12 S id tb (by simp [← hB]) rfl hSle (by decide) ht (by decide)
  have h4 : ∀ id tb, lexerNext E ⟨B, S, p1, id, tb⟩ =
      Res.ok (tokOPENparenthesis, ⟨B, S, p2, id, tb⟩) := by
    intro id tb
    rw [hp2]
    simpa [punctToken] using lexerNext_punct E ("CREATE TABLE ".data ++ t) [' '] '('
      (a ++ " INTEGER PRIMARY KEY AUTOINCREMENT)".data)
      p1 S id tb (by simp [← hB]) (by simp [hp1]; omega) hSle (by decide) (by decide)
  have h5 : ∀ id tb, lexerNext E ⟨B, S, p2, id, tb⟩ =
      Res.ok (tokIDENTIFIER, ⟨B, S, p3, String.mk a, tb⟩) := by
    intro id tb
    rw [hp3]
    simpa using lexerNext_ident E ("CREATE TABLE ".data ++ t ++ " (".data) [] a ' '
      ("INTEGER PRIMARY KEY AUTOINCREMENT)".data)
      p2 S id tb (by simp [← hB]) (by simp [hp2, hp1]; omega) hSle (by decide) ha (by decide)
  have h6 : ∀ id tb, lexerNext E ⟨B, S, p3, id, tb⟩ =
      Res.ok (tokIDENTIFIER, ⟨B, S, p4, "INTEGER", tb⟩) := by
    intro id tb
    rw [hp4]
    simpa using lexerNext_ident E ("CREATE TABLE ".data ++ t ++ " (".data ++ a) [' ']
      "INTEGER".data ' ' ("PRIMARY KEY AUTOINCREMENT)".data)
      p3 S id tb (by simp [← hB]) (by simp [hp3, hp2, hp1]; omega) hSle (by decide) (by decide)
      (by decide)
  have h7 : ∀ id tb, lexerNext E ⟨B, S, p4, id, tb⟩ =
      Res.ok (tokPRIMARY, ⟨B, S, p5, id, tb⟩) := by
    intro id tb
    rw [hp5]
    simpa using lexerNext_keyword E ("CREATE TABLE ".data ++ t ++ " (".data ++ a ++
      " INTEGER".data) [' '] "PRIMARY".data ' ' ("KEY AUTOINCREMENT)".data) tokPRIMARY
      p4 S id tb (by simp [← hB]) (by simp [hp4, hp3, hp2, hp1]; omega) hSle (by decide)
      (by decide) (by decide) (by decide) (by decide)
  have h8 : ∀ id tb, lexerNext E ⟨B, S, p5, id, tb⟩ =
      Res.ok (tokKEY, ⟨B, S, p6, id, tb⟩) := by
    intro id tb
    rw [hp6]
    simpa using lexerNext_keyword E ("CREATE TABLE ".data ++ t ++ " (".data ++ a ++
      " INTEGER PRIMARY".data) [' '] "KEY".data ' ' ("AUTOINCREMENT)".data) tokKEY
      p5 S id tb (by simp [← hB]) (by simp [hp5, hp4, hp3, hp2, hp1]; omega) hSle (by decide)
      (by decide) (by decide) (by decide) (by decide)
  have h9 : ∀ id tb, lexerNext E ⟨B, S, p6, id, tb⟩ =
      Res.ok (tokAUTOINCREMENT, ⟨B, S, p7, id, tb⟩) := by
    intro id tb
    rw [hp7]
    simpa using lexerNext_keyword E ("CREATE TABLE ".data ++ t ++ " (".data ++ a ++
      " INTEGER PRIMARY KEY".data) [' '] "AUTOINCREMENT".data ')' [] tokAUTOINCREMENT
      p6 S id tb (by simp [← hB]) (by simp [hp6, hp5, hp4, hp3, hp2, hp1]; omega) hSle
      (by decide) (by decide) (by decide) (by decide) (by decide)
  have h10 : ∀ id tb, lexerNext E ⟨B, S, p7, id, tb⟩ =
      Res.ok (tokCLOSEDparenthesis, ⟨B, S, p8, id, tb⟩) := by
    intro id tb
    rw [hp8]
    simpa [punctToken] using lexerNext_punct E ("CREATE TABLE ".data ++ t ++ " (".data ++ a ++
      " INTEGER PRIMARY KEY AUTOINCREMENT".data) [] ')' []
      p7 S id tb (by simp [← hB]) (by simp [hp7, hp6, hp5, hp4, hp3, hp2, hp1]; omega) hSle
      (by decide) (by decide)
  have h11 : ∀ id tb, lexerNext E ⟨B, S, p8, id, tb⟩ =
      Res.ok (tokEOF, ⟨B, S, p8, id, tb⟩) := by
    intro id tb
    simpa using lexerNext_eof E B [] p8 S id tb (by simp)
      (by simp [hp8, hp7, hp6, hp5, hp4, hp3, hp2, hp1, ← hB]; omega) hS.symm (by decide)
  obtain ⟨m, hm⟩ : ∃ m, B.length = m + 1 := by
    refine ⟨B.length - 1, ?_⟩
    have : 0 < B.length := List.length_pos.2 hBne
    omega
  have hg : goLen "INTEGER" = 7 := by decide
  have hslice : ∀ id tb, sliceString ((p4 : Int) - ((7 : Nat) : Int)) p4 ⟨B, S, p4, id, tb⟩ =
      Res.ok ("INTEGER", ⟨B, S, p4, id, tb⟩) := by
    intro id tb
    have e : (p4 : Int) - ((7 : Nat) : Int) = ((p3 + 1 : Nat) : Int) := by
      rw [hp4]
      push_cast
      omega
    rw [e]
    exact @sliceString_at B ("CREATE TABLE ".data ++ t ++ " (".data ++ a ++ " ".data)
      "INTEGER".data " PRIMARY KEY AUTOINCREMENT)".data (p3 + 1) S id tb p4
      (by simp [← hB]) (by simp [hp3, hp2, hp1]; omega) (by simp [hp4]) p4
  have c1 : tokenIsColumnConstraint tokPRIMARY = true := by decide
  have c2 : tokenIsColumnConstraint tokCLOSEDparenthesis = false := by decide
  have c3 : tokenIsTableConstraint tokCLOSEDparenthesis = false := by decide
  simp only [parse, bind_run, h1, h2, Res.bind_ok, pure_run, reduceCtorEq, ne_eq,
    not_true_eq_false, if_false, if_true, lexerPeek_of_next E (h3 _ _), not_false_eq_true,
    parseBody, h3, getState_run, mk_ne_empty hne, modifyTable_run,
    lexerPeek_of_next E (h4 _ _), h4, loopFuel, hm, parseColumnsLoop,
    lexerPeek_of_next E (h5 _ _), h5, parseColumn, lexerPeek_of_next E (h6 _ _), h6,
    parseColumnType, columnTypeLoop, lexerPeek_of_next E (h7 _ _), h7, hg, hslice,
    c1, c2, c3, parseColumnConstraints, columnConstraintsLoop, columnConstraintCase, h8,
    parseOptionalOrder, parseOptionalConflictClause, lexerPeek_of_next E (h9 _ _), h9,
    lexerPeek_of_next E (h10 _ _), h10, parseConstraintsLoop, parseTail,
    lexerPeek_of_next E (h11 _ _), false_or, or_false, or_self, Bool.false_eq_true]
  rfl

/-! ## The two test inputs -/

set_option maxRecDepth 1000000 in
/-- The DDL of `TestParserNonQuote` parses into two columns and three table
constraints. -/
theorem ParseTable_ddlNonQuote (E : GoEnv) :
    tableSummary (ParseTable E ddlNonQuote 0) =
      some (ERROR_NONE, "contact_groups", ["contact_id", "group_id"],
        [TABLECONSTRAINT_PRIMARYKEY, TABLECONSTRAINT_FOREIGNKEY, TABLECONSTRAINT_FOREIGNKEY]) := by
  rw [ParseTable_ascii E asciiEnv _ 0 (by decide!)]
  decide!

set_option maxRecDepth 1000000 in
/-- The DDL of `TestParserQouteIdentifier` parses into three columns and two
table constraints. -/
theorem ParseTable_ddlQuoteIdentifier (E : GoEnv) :
    tableSummary (ParseTable E ddlQuoteIdentifier 0) =
      some (ERROR_NONE, "customer", ["id", "first_name", "last_name"],
        [TABLECONSTRAINT_PRIMARYKEY, TABLECONSTRAINT_FOREIGNKEY]) := by
  rw [ParseTable_ascii E asciiEnv _ 0 (by decide!)]
  decide!

end Sqlite3CreateTableParser

namespace Sqlite3CreateTableParser

open tokenT ErrorCode OrderClause ConflictClause FkAction FkDefType ConstraintType

/-! ## Parsing statements of the shape of claim C1 -/

theorem ok_state_congr {α : Type} {a a' : α} {B : List Char} {S : Int} {k k' : Nat}
    {id : String} {tb : Table} (ha : a = a') (hk : k = k') :
    (Res.ok (a, ⟨B, S, k, id, tb⟩) : Res (α × State)) = Res.ok (a', ⟨B, S, k', id, tb⟩) := by
  subst ha hk
  rfl

theorem closer_facts {d : Char} (hd : d = ',' ∨ d = ')') :
    isDelimiter d = true ∧ symbolIsPunctuation d = true ∧
      (punctToken d = tokCOMMA ∨ punctToken d = tokCLOSEDparenthesis) := by
  rcases hd with h | h <;> subst h <;> decide

/-- The look-ahead at a punctuation mark. -/
theorem lexerPeek_punct (E : GoEnv) {B : List Char} (pre ws : List Char) (c : Char)
    (r : List Char) (k : Nat) (S : Int) (id : String) (tb : Table)
    (hB : B = pre ++ ws ++ c :: r) (hk : k = pre.length) (hS : (B.length : Int) ≤ S)
    (hws : isBlank ws = true) (hc : symbolIsPunctuation c = true) :
    lexerPeek E ⟨B, S, k, id, tb⟩ = Res.ok (punctToken c, ⟨B, S, k, id, tb⟩) :=
  lexerPeek_of_next E (lexerNext_punct E pre ws c r k S id tb hB hk hS hws hc)

/-- A bare column name inside `PRIMARY KEY (...)` or `UNIQUE (...)`. -/
theorem parseIdxColumn_name (E : GoEnv) {B : List Char} (pre ws n : List Char) (d : Char)
    (r : List Char) (k : Nat) (S : Int) (id : String) (tb : Table)
    (hB : B = pre ++ ws ++ n ++ d :: r) (hk : k = pre.length) (hS : (B.length : Int) ≤ S)
    (hws : isBlank ws = true) (hn : isPlainIdentifier n = true) (hd : d = ',' ∨ d = ')') :
    parseIdxColumn E ⟨B, S, k, id, tb⟩ =
      Res.ok (some (expectedIdx n), ⟨B, S, k + ws.length + n.length, String.mk n, tb⟩) := by
  obtain ⟨hdel, hp, htok⟩ := closer_facts hd
  have h1 := lexerNext_ident E pre ws n d r k S id tb hB hk hS hws hn hdel
  have hB2 : B = (pre ++ ws ++ n) ++ [] ++ d :: r := by simpa using hB
  have h2 := lexerPeek_punct E (pre ++ ws ++ n) [] d r (k + ws.length + n.length) S
    (String.mk n) tb hB2 (by simp only [hk, List.length_append, List.length_cons, List.length_nil] <;> omega) hS (by decide) hp
  have hne : punctToken d ≠ tokCOLLATE ∧ punctToken d ≠ tokASC ∧ punctToken d ≠ tokDESC := by
    rcases htok with h | h <;> rw [h] <;> decide
  simp only [parseIdxColumn, bind_run, h1, Res.bind_ok, ne_eq, not_true_eq_false, if_false,
    getState_run, h2, hne.1, hne.2.1, hne.2.2, pure_run, parseOptionalOrder, or_self,
    reduceCtorEq, expectedIdx]

/-- The further names are never more than the runes of their text. -/
theorem length_le_renderMore (ns : List (List Char)) : ns.length ≤ (renderMore ns).length := by
  induction ns with
  | nil => simp [renderMore]
  | cons n ns ih =>
    simp only [renderMore, List.length_cons, List.length_append]
    omega

/-- The loop over the further indexed columns: entered after a comma, it reads
`name` and every further `, name` up to the closing parenthesis. -/
theorem idxColumnsLoop_more (E : GoEnv) {B : List Char} (S : Int) (hS : (B.length : Int) ≤ S)
    (ns : List (List Char)) :
    ∀ (pre n r : List Char) (k : Nat) (id : String) (tb : Table) (c : TableConstraint)
      (fuel : Nat), B = pre ++ (' ' :: n ++ renderMore ns) ++ ')' :: r → k = pre.length →
      isPlainIdentifier n = true → ns.all isPlainIdentifier = true → ns.length + 1 < fuel →
      ∃ id', idxColumnsLoop E tokCOMMA c fuel ⟨B, S, k, id, tb⟩ =
        Res.ok (some { c with
            NumIndexed := c.NumIndexed + 1 + (ns.length : Int),
            IndexedColumns := c.IndexedColumns ++ (n :: ns).map expectedIdx },
          ⟨B, S, k + (' ' :: n ++ renderMore ns).length, id', tb⟩) := by
  induction ns with
  | nil =>
    intro pre n r k id tb c fuel hB hk hn _ hf
    obtain ⟨f, rfl⟩ : ∃ f, fuel = f + 2 := ⟨fuel - 2, by simp at hf; omega⟩
    have hB1 : B = pre ++ [' '] ++ n ++ ')' :: r := by simpa [renderMore] using hB
    have h1 := parseIdxColumn_name E pre [' '] n ')' r k S id tb hB1 hk hS (by decide) hn
      (Or.inr rfl)
    have hB2 : B = (pre ++ [' '] ++ n) ++ [] ++ ')' :: r := by simpa [renderMore] using hB
    have h2 := lexerPeek_punct E (pre ++ [' '] ++ n) [] ')' r (k + [' '].length + n.length) S
      (String.mk n) tb hB2 (by simp only [hk, List.length_append, List.length_cons, List.length_nil] <;> omega) hS (by decide) (by decide)
    refine ⟨String.mk n, ?_⟩
    simp only [idxColumnsLoop, if_true, bind_run, h1, Res.bind_ok, h2, punctToken, reduceCtorEq,
      if_false, pure_run, Char.reduceEq]
    refine ok_state_congr ?_ ?_
    · simp
    · simp only [renderMore, List.length_cons, List.length_append, List.length_nil]
      omega
  | cons n' ns ih =>
    intro pre n r k id tb c fuel hB hk hn hns hf
    obtain ⟨f, rfl⟩ : ∃ f, fuel = f + 1 := ⟨fuel - 1, by simp at hf; omega⟩
    simp only [List.all_cons, Bool.and_eq_true] at hns
    have hB1 : B = pre ++ [' '] ++ n ++ ',' :: (' ' :: n' ++ renderMore ns ++ ')' :: r) := by
      simpa [renderMore] using hB
    have h1 := parseIdxColumn_name E pre [' '] n ',' _ k S id tb hB1 hk hS (by decide) hn
      (Or.inl rfl)
    have hB2 : B = (pre ++ [' '] ++ n) ++ [] ++
        ',' :: (' ' :: n' ++ renderMore ns ++ ')' :: r) := by
      simpa [renderMore] using hB
    have h2 := lexerNext_punct E (pre ++ [' '] ++ n) [] ',' _ (k + [' '].length + n.length) S
      (String.mk n) tb hB2 (by simp only [hk, List.length_append, List.length_cons, List.length_nil] <;> omega) hS (by decide) (by decide)
    have hB3 : B = (pre ++ [' '] ++ n ++ [',']) ++ (' ' :: n' ++ renderMore ns) ++ ')' :: r := by
      simpa [renderMore] using hB
    obtain ⟨id', h3⟩ := ih (pre ++ [' '] ++ n ++ [',']) n' r
      (k + [' '].length + n.length + [].length + 1) (String.mk n) tb
      { c with NumIndexed := c.NumIndexed + 1,
               IndexedColumns := c.IndexedColumns ++ [expectedIdx n] } f hB3
      (by simp only [hk, List.length_append, List.length_cons, List.length_nil] <;> omega) hns.1 hns.2 (by simp at hf; omega)
    refine ⟨id', ?_⟩
    simp only [idxColumnsLoop, if_true, bind_run, h1, Res.bind_ok, lexerPeek_of_next E h2,
      h2, punctToken, if_true, pure_run]
    rw [h3]
    refine ok_state_congr ?_ ?_
    · simp only [List.length_cons, Nat.cast_add, Nat.cast_one, List.map_cons,
        List.append_assoc, List.singleton_append, Option.some.injEq, TableConstraint.mk.injEq,
        true_and, and_true]
      omega
    · simp only [renderMore, List.length_cons, List.length_append, List.length_nil]
      omega

/-- The loop over the further column names of a FOREIGN KEY constraint:
entered after a comma, it reads `name` and every further `, name` up to the
closing parenthesis. -/
theorem fkNamesLoop_more (E : GoEnv) {B : List Char} (S : Int) (hS : (B.length : Int) ≤ S)
    (ns : List (List Char)) :
    ∀ (pre n r : List Char) (k : Nat) (id : String) (tb : Table) (c : TableConstraint)
      (fuel : Nat), B = pre ++ (' ' :: n ++ renderMore ns) ++ ')' :: r → k = pre.length →
      isPlainIdentifier n = true → ns.all isPlainIdentifier = true → ns.length + 1 < fuel →
      ∃ id', fkNamesLoop E tokCOMMA c fuel ⟨B, S, k, id, tb⟩ =
        Res.ok (some { c with
            ForeignKeyNum := c.ForeignKeyNum + 1 + (ns.length : Int),
            ForeignKeyName := c.ForeignKeyName ++ (n :: ns).map String.mk },
          ⟨B, S, k + (' ' :: n ++ renderMore ns).length, id', tb⟩) := by
  induction ns with
  | nil =>
    intro pre n r k id tb c fuel hB hk hn _ hf
    obtain ⟨f, rfl⟩ : ∃ f, fuel = f + 2 := ⟨fuel - 2, by simp at hf; omega⟩
    have hB1 : B = pre ++ [' '] ++ n ++ ')' :: r := by simpa [renderMore] using hB
    have h1 := lexerNext_ident E pre [' '] n ')' r k S id tb hB1 hk hS (by decide) hn
      (by decide)
    have hB2 : B = (pre ++ [' '] ++ n) ++ [] ++ ')' :: r := by simpa [renderMore] using hB
    have h2 := lexerPeek_punct E (pre ++ [' '] ++ n) [] ')' r (k + [' '].length + n.length) S
      (String.mk n) tb hB2
      (by simp only [hk, List.length_append, List.length_cons, List.length_nil] <;> omega)
      hS (by decide) (by decide)
    refine ⟨String.mk n, ?_⟩
    simp only [fkNamesLoop, if_true, bind_run, h1, Res.bind_ok, h2, punctToken, reduceCtorEq,
      if_false, pure_run, Char.reduceEq, ne_eq, not_true_eq_false, getState_run]
    refine ok_state_congr ?_ ?_
    · simp
    · simp only [renderMore, List.length_cons, List.length_append, List.length_nil]
      omega
  | cons n' ns ih =>
    intro pre n r k id tb c fuel hB hk hn hns hf
    obtain ⟨f, rfl⟩ : ∃ f, fuel = f + 1 := ⟨fuel - 1, by simp at hf; omega⟩
    simp only [List.all_cons, Bool.and_eq_true] at hns
    have hB1 : B = pre ++ [' '] ++ n ++ ',' :: (' ' :: n' ++ renderMore ns ++ ')' :: r) := by
      simpa [renderMore] using hB
    have h1 := lexerNext_ident E pre [' '] n ',' _ k S id tb hB1 hk hS (by decide) hn
      (by decide)
    have hB2 : B = (pre ++ [' '] ++ n) ++ [] ++
        ',' :: (' ' :: n' ++ renderMore ns ++ ')' :: r) := by
      simpa [renderMore] using hB
    have h2 := lexerNext_punct E (pre ++ [' '] ++ n) [] ',' _ (k + [' '].length + n.length) S
      (String.mk n) tb hB2
      (by simp only [hk, List.length_append, List.length_cons, List.length_nil] <;> omega)
      hS (by decide) (by decide)
    have hB3 : B = (pre ++ [' '] ++ n ++ [',']) ++ (' ' :: n' ++ renderMore ns) ++ ')' :: r := by
      simpa [renderMore] using hB
    obtain ⟨id', h3⟩ := ih (pre ++ [' '] ++ n ++ [',']) n' r
      (k + [' '].length + n.length + [].length + 1) (String.mk n) tb
      { c with ForeignKeyNum := c.ForeignKeyNum + 1,
               ForeignKeyName := c.ForeignKeyName ++ [String.mk n] } f hB3
      (by simp only [hk, List.length_append, List.length_cons, List.length_nil] <;> omega)
      hns.1 hns.2 (by simp at hf; omega)
    refine ⟨id', ?_⟩
    simp only [fkNamesLoop, if_true, bind_run, h1, Res.bind_ok, lexerPeek_of_next E h2,
      h2, punctToken, if_true, pure_run, ne_eq, not_true_eq_false, if_false, getState_run]
    rw [h3]
    refine ok_state_congr ?_ ?_
    · simp only [List.length_cons, Nat.cast_add, Nat.cast_one, List.map_cons,
        List.append_assoc, List.singleton_append, Option.some.injEq, TableConstraint.mk.injEq,
        true_and, and_true]
      omega
    · simp only [renderMore, List.length_cons, List.length_append, List.length_nil]
      omega

/-- The loop over the further referenced columns of a foreign-key clause:
entered after a comma, it reads `name` and every further `, name` up to the
closing parenthesis, counting each of them. -/
theorem fkColumnsLoop_more (E : GoEnv) {B : List Char} (S : Int) (hS : (B.length : Int) ≤ S)
    (ns : List (List Char)) :
    ∀ (pre n r : List Char) (k : Nat) (id : String) (tb : Table) (fk : ForeignKey)
      (fuel : Nat), B = pre ++ (' ' :: n ++ renderMore ns) ++ ')' :: r → k = pre.length →
      isPlainIdentifier n = true → ns.all isPlainIdentifier = true → ns.length + 1 < fuel →
      ∃ id', fkColumnsLoop E tokCOMMA fk fuel ⟨B, S, k, id, tb⟩ =
        Res.ok (some { fk with
            NumColumns := fk.NumColumns + 1 + (ns.length : Int),
            ColumnName := fk.ColumnName ++ (n :: ns).map String.mk },
          ⟨B, S, k + (' ' :: n ++ renderMore ns).length, id', tb⟩) := by
  induction ns with
  | nil =>
    intro pre n r k id tb fk fuel hB hk hn _ hf
    obtain ⟨f, rfl⟩ : ∃ f, fuel = f + 2 := ⟨fuel - 2, by simp at hf; omega⟩
    have hB1 : B = pre ++ [' '] ++ n ++ ')' :: r := by simpa [renderMore] using hB
    have h1 := lexerNext_ident E pre [' '] n ')' r k S id tb hB1 hk hS (by decide) hn
      (by decide)
    have hB2 : B = (pre ++ [' '] ++ n) ++ [] ++ ')' :: r := by simpa [renderMore] using hB
    have h2 := lexerPeek_punct E (pre ++ [' '] ++ n) [] ')' r (k + [' '].length + n.length) S
      (String.mk n) tb hB2
      (by simp only [hk, List.length_append, List.length_cons, List.length_nil] <;> omega)
      hS (by decide) (by decide)
    refine ⟨String.mk n, ?_⟩
    simp only [fkColumnsLoop, if_true, bind_run, h1, Res.bind_ok, h2, punctToken, reduceCtorEq,
      if_false, pure_run, Char.reduceEq, ne_eq, not_true_eq_false, getState_run]
    refine ok_state_congr ?_ ?_
    · simp
    · simp only [renderMore, List.length_cons, List.length_append, List.length_nil]
      omega
  | cons n' ns ih =>
    intro pre n r k id tb fk fuel hB hk hn hns hf
    obtain ⟨f, rfl⟩ : ∃ f, fuel = f + 1 := ⟨fuel - 1, by simp at hf; omega⟩
    simp only [List.all_cons, Bool.and_eq_true] at hns
    have hB1 : B = pre ++ [' '] ++ n ++ ',' :: (' ' :: n' ++ renderMore ns ++ ')' :: r) := by
      simpa [renderMore] using hB
    have h1 := lexerNext_ident E pre [' '] n ',' _ k S id tb hB1 hk hS (by decide) hn
      (by decide)
    have hB2 : B = (pre ++ [' '] ++ n) ++ [] ++
        ',' :: (' ' :: n' ++ renderMore ns ++ ')' :: r) := by
      simpa [renderMore] using hB
    have h2 := lexerNext_punct E (pre ++ [' '] ++ n) [] ',' _ (k + [' '].length + n.length) S
      (String.mk n) tb hB2
      (by simp only [hk, List.length_append, List.length_cons, List.length_nil] <;> omega)
      hS (by decide) (by decide)
    have hB3 : B = (pre ++ [' '] ++ n ++ [',']) ++ (' ' :: n' ++ renderMore ns) ++ ')' :: r := by
      simpa [renderMore] using hB
    obtain ⟨id', h3⟩ := ih (pre ++ [' '] ++ n ++ [',']) n' r
      (k + [' '].length + n.length + [].length + 1) (String.mk n) tb
      { fk with NumColumns := fk.NumColumns + 1,
                ColumnName := fk.ColumnName ++ [String.mk n] } f hB3
      (by simp only [hk, List.length_append, List.length_cons, List.length_nil] <;> omega)
      hns.1 hns.2 (by simp at hf; omega)
    refine ⟨id', ?_⟩
    simp only [fkColumnsLoop, if_true, bind_run, h1, Res.bind_ok, lexerPeek_of_next E h2,
      h2, punctToken, if_true, pure_run, ne_eq, not_true_eq_false, if_false, getState_run]
    rw [h3]
    refine ok_state_congr ?_ ?_
    · simp only [List.length_cons, Nat.cast_add, Nat.cast_one, List.map_cons,
        List.append_assoc, List.singleton_append, Option.some.injEq, ForeignKey.mk.injEq,
        true_and, and_true]
      omega
    · simp only [renderMore, List.length_cons, List.length_append, List.length_nil]
      omega

/-- After the first name of a name list comes a comma or the closing
parenthesis. -/
theorem renderMore_head (ns : List (List Char)) (r : List Char) :
    ∃ d rest, renderMore ns ++ ')' :: r = d :: rest ∧ (d = ',' ∨ d = ')') := by
  cases ns with
  | nil => exact ⟨')', r, by simp [renderMore], Or.inr rfl⟩
  | cons n ns => exact ⟨',', ' ' :: n ++ renderMore ns ++ ')' :: r, by simp [renderMore], Or.inl rfl⟩

/-- The foreign-key clause ` r (c1, c2, ...)` followed by a comma or a closing
parenthesis: the counter `NumColumns` is the number of further columns. -/
theorem parseForeignKeyClause_shape (E : GoEnv) {B : List Char} (S : Int)
    (hS : (B.length : Int) ≤ S) (pre ref rf : List Char) (rm : List (List Char)) (d : Char)
    (r : List Char) (k : Nat) (id : String) (tb : Table)
    (hB : B = pre ++ (' ' :: ref ++ " (".data ++ rf ++ renderMore rm ++ [')']) ++ d :: r)
    (hk : k = pre.length) (href : isPlainIdentifier ref = true)
    (hrf : isPlainIdentifier rf = true) (hrm : rm.all isPlainIdentifier = true)
    (hd : d = ',' ∨ d = ')') :
    ∃ id', parseForeignKeyClause E ⟨B, S, k, id, tb⟩ =
      Res.ok (some { Table := String.mk ref, NumColumns := (rm.length : Int),
                     ColumnName := (rf :: rm).map String.mk },
        ⟨B, S, k + (' ' :: ref ++ " (".data ++ rf ++ renderMore rm ++ [')']).length, id', tb⟩) := by
  obtain ⟨hdel, hp, htok⟩ := closer_facts hd
  obtain ⟨p1, hp1⟩ : ∃ p1, p1 = k + [' '].length + ref.length := ⟨_, rfl⟩
  obtain ⟨p2, hp2⟩ : ∃ p2, p2 = p1 + [' '].length + 1 := ⟨_, rfl⟩
  obtain ⟨p3, hp3⟩ : ∃ p3, p3 = p2 + ([] : List Char).length + rf.length := ⟨_, rfl⟩
  have hlen : B.length = pre.length + ref.length + rf.length + (renderMore rm).length +
      r.length + 5 := by
    subst hB
    simp only [List.length_append, List.length_cons, String.data, List.length_nil]
    omega
  have h1 : lexerNext E ⟨B, S, k, id, tb⟩ =
      Res.ok (tokIDENTIFIER, ⟨B, S, p1, String.mk ref, tb⟩) := by
    rw [hp1]
    exact lexerNext_ident E pre [' '] ref ' ' _ k S id tb (by simpa using hB) hk hS (by decide)
      href (by decide)
  have h2 : ∀ id tb, lexerNext E ⟨B, S, p1, id, tb⟩ =
      Res.ok (tokOPENparenthesis, ⟨B, S, p2, id, tb⟩) := by
    intro id tb
    rw [hp2]
    exact lexerNext_punct E (pre ++ ' ' :: ref) [' '] '(' _ p1 S id tb (by simpa using hB)
      (by simp only [hp1, hk, List.length_append, List.length_cons, List.length_nil] <;> omega)
      hS (by decide) (by decide)
  obtain ⟨d1, rest1, hd1, hd1c⟩ := renderMore_head rm (d :: r)
  obtain ⟨hdel1, hpu1, htok1⟩ := closer_facts hd1c
  have hBd : B = (pre ++ ' ' :: ref ++ " (".data) ++ [] ++ rf ++ d1 :: rest1 := by
    rw [← hd1]
    simpa using hB
  have h3 : ∀ id tb, lexerNext E ⟨B, S, p2, id, tb⟩ =
      Res.ok (tokIDENTIFIER, ⟨B, S, p3, String.mk rf, tb⟩) := by
    intro id tb
    rw [hp3]
    exact lexerNext_ident E (pre ++ ' ' :: ref ++ " (".data) [] rf d1 rest1 p2 S id tb hBd
      (by simp only [hp2, hp1, hk, List.length_append, List.length_cons, List.length_nil,
        String.data] <;> omega) hS (by decide) hrf hdel1
  have hfinal : ∀ (q : Nat) (id : String) (tb : Table) (fk : ForeignKey),
      q = k + (' ' :: ref ++ " (".data ++ rf ++ renderMore rm ++ [')']).length →
      fkClausesLoop E fk (B.length + 1) ⟨B, S, q, id, tb⟩ = Res.ok (some fk, ⟨B, S, q, id, tb⟩) := by
    intro q id tb fk hq
    have hpk := lexerPeek_punct E
      (pre ++ (' ' :: ref ++ " (".data ++ rf ++ renderMore rm ++ [')'])) [] d r q S id tb
      (by simpa using hB)
      (by simp only [hq, hk, List.length_append, List.length_cons, List.length_nil] <;> omega)
      hS (by decide) hp
    have hne : punctToken d ≠ tokON ∧ punctToken d ≠ tokMATCH ∧ punctToken d ≠ tokNOT ∧
        punctToken d ≠ tokDEFERRABLE := by
      rcases htok with h | h <;> rw [h] <;> decide
    simp only [fkClausesLoop, bind_run, hpk, Res.bind_ok, hne.1, hne.2.1, hne.2.2.1,
      hne.2.2.2, or_self, if_false, pure_run]
  cases rm with
  | nil =>
    have hB4 : B = (pre ++ ' ' :: ref ++ " (".data ++ rf) ++ [] ++ ')' :: (d :: r) := by
      simpa [renderMore] using hB
    have h4 : ∀ id tb, lexerNext E ⟨B, S, p3, id, tb⟩ =
        Res.ok (tokCLOSEDparenthesis, ⟨B, S, p3 + ([] : List Char).length + 1, id, tb⟩) := by
      intro id tb
      exact lexerNext_punct E (pre ++ ' ' :: ref ++ " (".data ++ rf) [] ')' _ p3 S id tb hB4
        (by simp only [hp3, hp2, hp1, hk, List.length_append, List.length_cons,
          List.length_nil, String.data] <;> omega) hS (by decide) (by decide)
    refine ⟨String.mk rf, ?_⟩
    simp only [parseForeignKeyClause, bind_run, h1, Res.bind_ok, ne_eq, not_true_eq_false,
      if_false, getState_run, lexerPeek_of_next E (h2 _ _), if_true, h2, h3,
      lexerPeek_of_next E (h4 _ _), reduceCtorEq, pure_run, loopFuel, fkColumnsLoop, h4]
    rw [hfinal _ _ _ _ (by
      simp only [hp3, hp2, hp1, renderMore, List.length_append, List.length_cons,
        List.length_nil, String.data] <;> omega)]
    refine ok_state_congr ?_ ?_
    · simp
    · simp only [hp3, hp2, hp1, renderMore, List.length_append, List.length_cons,
        List.length_nil, String.data]
      omega
  | cons n' ns =>
    simp only [List.all_cons, Bool.and_eq_true] at hrm
    have hB4 : B = (pre ++ ' ' :: ref ++ " (".data ++ rf) ++ [] ++
        ',' :: (' ' :: n' ++ renderMore ns ++ ')' :: d :: r) := by
      simpa [renderMore] using hB
    have h4 : ∀ id tb, lexerNext E ⟨B, S, p3, id, tb⟩ =
        Res.ok (tokCOMMA, ⟨B, S, p3 + ([] : List Char).length + 1, id, tb⟩) := by
      intro id tb
      exact lexerNext_punct E (pre ++ ' ' :: ref ++ " (".data ++ rf) [] ',' _ p3 S id tb hB4
        (by simp only [hp3, hp2, hp1, hk, List.length_append, List.length_cons,
          List.length_nil, String.data] <;> omega) hS (by decide) (by decide)
    have hB5 : B = (pre ++ ' ' :: ref ++ " (".data ++ rf ++ [',']) ++
        (' ' :: n' ++ renderMore ns) ++ ')' :: (d :: r) := by
      simpa [renderMore] using hB
    obtain ⟨id5, h5⟩ := fkColumnsLoop_more E S hS ns (pre ++ ' ' :: ref ++ " (".data ++ rf ++ [','])
      n' (d :: r) (p3 + ([] : List Char).length + 1) (String.mk rf) tb
      { Table := String.mk ref, ColumnName := [String.mk rf] } (B.length + 1) hB5
      (by simp only [hp3, hp2, hp1, hk, List.length_append, List.length_cons,
          List.length_nil, String.data] <;> omega) hrm.1 hrm.2
      (by
        have := length_le_renderMore (n' :: ns)
        simp only [List.length_cons] at this
        omega)
    have hB6 : B = (pre ++ ' ' :: ref ++ " (".data ++ rf ++ [','] ++
        (' ' :: n' ++ renderMore ns)) ++ [] ++ ')' :: (d :: r) := by
      simpa [renderMore] using hB
    have h6 : ∀ id tb, lexerNext E
        ⟨B, S, p3 + ([] : List Char).length + 1 + (' ' :: n' ++ renderMore ns).length, id, tb⟩ =
        Res.ok (tokCLOSEDparenthesis,
          ⟨B, S, p3 + ([] : List Char).length + 1 + (' ' :: n' ++ renderMore ns).length +
            ([] : List Char).length + 1, id, tb⟩) := by
      intro id tb
      exact lexerNext_punct E _ [] ')' _ _ S id tb hB6
        (by simp only [hp3, hp2, hp1, hk, List.length_append, List.length_cons,
          List.length_nil, String.data] <;> omega) hS (by decide) (by decide)
    refine ⟨id5, ?_⟩
    simp only [parseForeignKeyClause, bind_run, h1, Res.bind_ok, ne_eq, not_true_eq_false,
      if_false, getState_run, lexerPeek_of_next E (h2 _ _), if_true, h2, h3,
      lexerPeek_of_next E (h4 _ _), reduceCtorEq, pure_run, loopFuel, h4]
    rw [h5]
    simp only [Res.bind_ok, h6, ne_eq, not_true_eq_false, if_false, bind_run, getState_run,
      loopFuel]
    rw [hfinal _ _ _ _ (by
      simp only [hp3, hp2, hp1, renderMore, List.length_append, List.length_cons,
        List.length_nil, String.data] <;> omega)]
    refine ok_state_congr ?_ ?_
    · simp
      omega
    · simp only [hp3, hp2, hp1, renderMore, List.length_append, List.length_cons,
        List.length_nil, String.data]
      omega

end Sqlite3CreateTableParser

namespace Sqlite3CreateTableParser

open tokenT ErrorCode OrderClause ConflictClause FkAction FkDefType ConstraintType

/-- The table constraint `PRIMARY KEY (c1, c2, ...)` followed by a comma or a
closing parenthesis. -/
theorem parseTableConstraint_primaryKey (E : GoEnv) {B : List Char} (S : Int)
    (hS : (B.length : Int) ≤ S) (pre f : List Char) (m : List (List Char)) (d : Char)
    (r : List Char) (k : Nat) (id : String) (tb : Table)
    (hB : B = pre ++ (' ' :: renderConstraint (ConstraintSpec.primaryKey f m)) ++ d :: r)
    (hk : k = pre.length) (hf : isPlainIdentifier f = true)
    (hm : m.all isPlainIdentifier = true) (hd : d = ',' ∨ d = ')') :
    ∃ id', parseTableConstraint E ⟨B, S, k, id, tb⟩ =
      Res.ok (some (expectedConstraint (ConstraintSpec.primaryKey f m)),
        ⟨B, S, k + (' ' :: renderConstraint (ConstraintSpec.primaryKey f m)).length, id', tb⟩) := by
  obtain ⟨hdel, hp, htok⟩ := closer_facts hd
  obtain ⟨d1, rest1, hd1, hd1c⟩ := renderMore_head m (d :: r)
  obtain ⟨q1, hq1⟩ : ∃ q1, q1 = k + [' '].length + "PRIMARY".data.length := ⟨_, rfl⟩
  have s1 : ∀ id tb, lexerNext E ⟨B, S, k, id, tb⟩ =
      Res.ok (tokPRIMARY, ⟨B, S, q1, id, tb⟩) := by
    intro id tb
    rw [hq1]
    exact lexerNext_keyword E (pre) [' '] "PRIMARY".data ' ' ("KEY (".data ++ f ++ renderMore m ++ [')'] ++ d :: r) tokPRIMARY k S id tb
      (by simpa [renderConstraint] using hB)
      (by simp only [hk, List.length_append, List.length_cons, List.length_nil, String.data] <;> omega)
      hS (by decide) (by decide) (by decide) (by decide) (by decide)
  obtain ⟨q2, hq2⟩ : ∃ q2, q2 = q1 + [' '].length + "KEY".data.length := ⟨_, rfl⟩
  have s2 : ∀ id tb, lexerNext E ⟨B, S, q1, id, tb⟩ =
      Res.ok (tokKEY, ⟨B, S, q2, id, tb⟩) := by
    intro id tb
    rw [hq2]
    exact lexerNext_keyword E (pre ++ " PRIMARY".data) [' '] "KEY".data ' ' ("(".data ++ f ++ renderMore m ++ [')'] ++ d :: r) tokKEY q1 S id tb
      (by simpa [renderConstraint] using hB)
      (by simp only [hq1, hk, List.length_append, List.length_cons, List.length_nil, String.data] <;> omega)
      hS (by decide) (by decide) (by decide) (by decide) (by decide)
  obtain ⟨q3, hq3⟩ : ∃ q3, q3 = q2 + [' '].length + 1 := ⟨_, rfl⟩
  have s3 : ∀ id tb, lexerNext E ⟨B, S, q2, id, tb⟩ =
      Res.ok (tokOPENparenthesis, ⟨B, S, q3, id, tb⟩) := by
    intro id tb
    rw [hq3]
    exact lexerNext_punct E (pre ++ " PRIMARY KEY".data) [' '] '(' (f ++ renderMore m ++ [')'] ++ d :: r) q2 S id tb
      (by simpa [renderConstraint] using hB)
      (by simp only [hq2, hq1, hk, List.length_append, List.length_cons, List.length_nil, String.data] <;> omega)
      hS (by decide) (by decide)
  obtain ⟨q4, hq4⟩ : ∃ q4, q4 = q3 + ([] : List Char).length + f.length := ⟨_, rfl⟩
  have hBd : B = (pre ++ " PRIMARY KEY (".data) ++ [] ++ f ++ d1 :: rest1 := by
    rw [← hd1]
    simpa [renderConstraint] using hB
  have sf : ∀ id tb, parseIdxColumn E ⟨B, S, q3, id, tb⟩ =
      Res.ok (some (expectedIdx f), ⟨B, S, q4, String.mk f, tb⟩) := by
    intro id tb
    rw [hq4]
    exact parseIdxColumn_name E (pre ++ " PRIMARY KEY (".data) [] f d1 rest1 q3 S id tb hBd
      (by simp only [hq3, hq2, hq1, hk, List.length_append, List.length_cons, List.length_nil, String.data] <;> omega) hS (by decide) hf hd1c
  have hconf : ∀ (q : Nat) (id : String) (tb : Table),
      q = k + (' ' :: renderConstraint (ConstraintSpec.primaryKey f m)).length →
      parseOptionalConflictClause E ⟨B, S, q, id, tb⟩ =
        Res.ok ((ERROR_NONE, CONFLICT_NONE), ⟨B, S, q, id, tb⟩) := by
    intro q id tb hq
    have hpk := lexerPeek_punct E (pre ++ (' ' :: renderConstraint (ConstraintSpec.primaryKey f m)))
      [] d r q S id tb (by simpa using hB)
      (by simp only [hq, hk, List.length_append, List.length_cons, List.length_nil] <;> omega)
      hS (by decide) hp
    have hne : punctToken d ≠ tokON := by
      rcases htok with h | h <;> rw [h] <;> decide
    simp only [parseOptionalConflictClause, bind_run, hpk, Res.bind_ok, hne, if_false, pure_run]
  have hlen : B.length = pre.length + (' ' :: renderConstraint (ConstraintSpec.primaryKey f m)).length +
      r.length + 1 := by
    subst hB
    simp only [List.length_append, List.length_cons]
    omega
  cases m with
  | nil =>
    obtain ⟨qc, hqc⟩ : ∃ qc, qc = q4 + ([] : List Char).length + 1 := ⟨_, rfl⟩
    have sc : ∀ id tb, lexerNext E ⟨B, S, q4, id, tb⟩ =
        Res.ok (tokCLOSEDparenthesis, ⟨B, S, qc, id, tb⟩) := by
      intro id tb
      rw [hqc]
      exact lexerNext_punct E (pre ++ " PRIMARY KEY (".data ++ f) [] ')' (d :: r) q4 S id tb
        (by simpa [renderConstraint, renderMore] using hB)
        (by simp only [hq4, hq3, hq2, hq1, hk, List.length_append, List.length_cons, List.length_nil, String.data] <;> omega)
        hS (by decide) (by decide)
    refine ⟨String.mk f, ?_⟩
    simp only [parseTableConstraint, bind_run, lexerPeek_of_next E (s1 _ _), Res.bind_ok,
      reduceCtorEq, if_false, if_true, pure_run, or_true, true_or, or_false, false_or, s1, s2, s3, ne_eq,
      not_true_eq_false, not_false_eq_true, sf, lexerPeek_of_next E (sc _ _), getState_run,
      loopFuel, idxColumnsLoop, sc]
    rw [hconf _ _ _ (by
      simp only [hqc, hq4, hq3, hq2, hq1, hk, renderConstraint, renderMore, List.length_append,
        List.length_cons, List.length_nil, String.data] <;> omega)]
    refine ok_state_congr ?_ ?_
    · simp [expectedConstraint]
    · simp only [hqc, hq4, hq3, hq2, hq1, renderConstraint, renderMore, List.length_append,
        List.length_cons, List.length_nil, String.data]
      omega
  | cons n' ns =>
    simp only [List.all_cons, Bool.and_eq_true] at hm
    obtain ⟨qc, hqc⟩ : ∃ qc, qc = q4 + ([] : List Char).length + 1 := ⟨_, rfl⟩
    have sc : ∀ id tb, lexerNext E ⟨B, S, q4, id, tb⟩ =
        Res.ok (tokCOMMA, ⟨B, S, qc, id, tb⟩) := by
      intro id tb
      rw [hqc]
      exact lexerNext_punct E (pre ++ " PRIMARY KEY (".data ++ f) [] ',' (' ' :: n' ++ renderMore ns ++ ')' :: d :: r) q4 S id tb
        (by simpa [renderConstraint, renderMore] using hB)
        (by simp only [hq4, hq3, hq2, hq1, hk, List.length_append, List.length_cons, List.length_nil, String.data] <;> omega)
        hS (by decide) (by decide)
    obtain ⟨id5, s5⟩ := idxColumnsLoop_more E S hS ns (pre ++ " PRIMARY KEY (".data ++ f ++ [','])
      n' (d :: r) qc (String.mk f) tb
      { Type_ := TABLECONSTRAINT_PRIMARYKEY, NumIndexed := 0 + 1, IndexedColumns := [expectedIdx f] }
      (B.length + 1) (by simpa [renderConstraint, renderMore] using hB)
      (by simp only [hqc, hq4, hq3, hq2, hq1, hk, List.length_append, List.length_cons, List.length_nil, String.data] <;> omega) hm.1 hm.2
      (by
        have := length_le_renderMore (n' :: ns)
        simp only [hlen, renderConstraint, renderMore, List.length_append, List.length_cons,
          List.length_nil] at this ⊢
        omega)
    obtain ⟨qe, hqe⟩ : ∃ qe, qe = qc + (' ' :: n' ++ renderMore ns).length +
      ([] : List Char).length + 1 := ⟨_, rfl⟩
    have se : ∀ id tb, lexerNext E ⟨B, S, qc + (' ' :: n' ++ renderMore ns).length, id, tb⟩ =
        Res.ok (tokCLOSEDparenthesis, ⟨B, S, qe, id, tb⟩) := by
      intro id tb
      rw [hqe]
      exact lexerNext_punct E (pre ++ " PRIMARY KEY (".data ++ f ++ [','] ++ (' ' :: n' ++ renderMore ns)) []
        ')' (d :: r) _ S id tb (by simpa [renderConstraint, renderMore] using hB)
        (by simp only [hqc, hq4, hq3, hq2, hq1, hk, List.length_append, List.length_cons, List.length_nil, String.data] <;> omega) hS (by decide) (by decide)
    refine ⟨id5, ?_⟩
    simp only [parseTableConstraint, bind_run, lexerPeek_of_next E (s1 _ _), Res.bind_ok,
      reduceCtorEq, if_false, if_true, pure_run, or_true, true_or, or_false, false_or, s1, s2, s3, ne_eq,
      not_true_eq_false, not_false_eq_true, sf, lexerPeek_of_next E (sc _ _), getState_run,
      loopFuel, sc]
    rw [s5]
    simp only [Res.bind_ok, se, ne_eq, not_true_eq_false, if_false, bind_run]
    rw [hconf _ _ _ (by
      simp only [hqe, hqc, hq4, hq3, hq2, hq1, hk, renderConstraint, renderMore, List.length_append,
        List.length_cons, List.length_nil, String.data] <;> omega)]
    refine ok_state_congr ?_ ?_
    · simp [expectedConstraint]
      omega
    · simp only [hqe, hqc, hq4, hq3, hq2, hq1, renderConstraint, renderMore, List.length_append,
        List.length_cons, List.length_nil, String.data]
      omega

/-- The table constraint `UNIQUE (c1, c2, ...)` followed by a comma or a
closing parenthesis. -/
theorem parseTableConstraint_unique (E : GoEnv) {B : List Char} (S : Int)
    (hS : (B.length : Int) ≤ S) (pre f : List Char) (m : List (List Char)) (d : Char)
    (r : List Char) (k : Nat) (id : String) (tb : Table)
    (hB : B = pre ++ (' ' :: renderConstraint (ConstraintSpec.unique f m)) ++ d :: r)
    (hk : k = pre.length) (hf : isPlainIdentifier f = true)
    (hm : m.all isPlainIdentifier = true) (hd : d = ',' ∨ d = ')') :
    ∃ id', parseTableConstraint E ⟨B, S, k, id, tb⟩ =
      Res.ok (some (expectedConstraint (ConstraintSpec.unique f m)),
        ⟨B, S, k + (' ' :: renderConstraint (ConstraintSpec.unique f m)).length, id', tb⟩) := by
  obtain ⟨hdel, hp, htok⟩ := closer_facts hd
  obtain ⟨d1, rest1, hd1, hd1c⟩ := renderMore_head m (d :: r)
  obtain ⟨q1, hq1⟩ : ∃ q1, q1 = k + [' '].length + "UNIQUE".data.length := ⟨_, rfl⟩
  have s1 : ∀ id tb, lexerNext E ⟨B, S, k, id, tb⟩ =
      Res.ok (tokUNIQUE, ⟨B, S, q1, id, tb⟩) := by
    intro id tb
    rw [hq1]
    exact lexerNext_keyword E (pre) [' '] "UNIQUE".data ' ' ("(".data ++ f ++ renderMore m ++ [')'] ++ d :: r) tokUNIQUE k S id tb
      (by simpa [renderConstraint] using hB)
      (by simp only [hk, List.length_append, List.length_cons, List.length_nil, String.data] <;> omega)
      hS (by decide) (by decide) (by decide) (by decide) (by decide)
  obtain ⟨q2, hq2⟩ : ∃ q2, q2 = q1 + [' '].length + 1 := ⟨_, rfl⟩
  have s2 : ∀ id tb, lexerNext E ⟨B, S, q1, id, tb⟩ =
      Res.ok (tokOPENparenthesis, ⟨B, S, q2, id, tb⟩) := by
    intro id tb
    rw [hq2]
    exact lexerNext_punct E (pre ++ " UNIQUE".data) [' '] '(' (f ++ renderMore m ++ [')'] ++ d :: r) q1 S id tb
      (by simpa [renderConstraint] using hB)
      (by simp only [hq1, hk, List.length_append, List.length_cons, List.length_nil, String.data] <;> omega)
      hS (by decide) (by decide)
  obtain ⟨q3, hq3⟩ : ∃ q3, q3 = q2 + ([] : List Char).length + f.length := ⟨_, rfl⟩
  have hBd : B = (pre ++ " UNIQUE (".data) ++ [] ++ f ++ d1 :: rest1 := by
    rw [← hd1]
    simpa [renderConstraint] using hB
  have sf : ∀ id tb, parseIdxColumn E ⟨B, S, q2, id, tb⟩ =
      Res.ok (some (expectedIdx f), ⟨B, S, q3, String.mk f, tb⟩) := by
    intro id tb
    rw [hq3]
    exact parseIdxColumn_name E (pre ++ " UNIQUE (".data) [] f d1 rest1 q2 S id tb hBd
      (by simp only [hq2, hq1, hk, List.length_append, List.length_cons, List.length_nil, String.data] <;> omega) hS (by decide) hf hd1c
  have hconf : ∀ (q : Nat) (id : String) (tb : Table),
      q = k + (' ' :: renderConstraint (ConstraintSpec.unique f m)).length →
      parseOptionalConflictClause E ⟨B, S, q, id, tb⟩ =
        Res.ok ((ERROR_NONE, CONFLICT_NONE), ⟨B, S, q, id, tb⟩) := by
    intro q id tb hq
    have hpk := lexerPeek_punct E (pre ++ (' ' :: renderConstraint (ConstraintSpec.unique f m)))
      [] d r q S id tb (by simpa using hB)
      (by simp only [hq, hk, List.length_append, List.length_cons, List.length_nil] <;> omega)
      hS (by decide) hp
    have hne : punctToken d ≠ tokON := by
      rcases htok with h | h <;> rw [h] <;> decide
    simp only [parseOptionalConflictClause, bind_run, hpk, Res.bind_ok, hne, if_false, pure_run]
  have hlen : B.length = pre.length + (' ' :: renderConstraint (ConstraintSpec.unique f m)).length +
      r.length + 1 := by
    subst hB
    simp only [List.length_append, List.length_cons]
    omega
  cases m with
  | nil =>
    obtain ⟨qc, hqc⟩ : ∃ qc, qc = q3 + ([] : List Char).length + 1 := ⟨_, rfl⟩
    have sc : ∀ id tb, lexerNext E ⟨B, S, q3, id, tb⟩ =
        Res.ok (tokCLOSEDparenthesis, ⟨B, S, qc, id, tb⟩) := by
      intro id tb
      rw [hqc]
      exact lexerNext_punct E (pre ++ " UNIQUE (".data ++ f) [] ')' (d :: r) q3 S id tb
        (by simpa [renderConstraint, renderMore] using hB)
        (by simp only [hq3, hq2, hq1, hk, List.length_append, List.length_cons, List.length_nil, String.data] <;> omega)
        hS (by decide) (by decide)
    refine ⟨String.mk f, ?_⟩
    simp only [parseTableConstraint, bind_run, lexerPeek_of_next E (s1 _ _), Res.bind_ok,
      reduceCtorEq, if_false, if_true, pure_run, or_true, true_or, or_false, false_or, s1, s2, ne_eq,
      not_true_eq_false, not_false_eq_true, sf, lexerPeek_of_next E (sc _ _), getState_run,
      loopFuel, idxColumnsLoop, sc]
    rw [hconf _ _ _ (by
      simp only [hqc, hq3, hq2, hq1, hk, renderConstraint, renderMore, List.length_append,
        List.length_cons, List.length_nil, String.data] <;> omega)]
    refine ok_state_congr ?_ ?_
    · simp [expectedConstraint]
    · simp only [hqc, hq3, hq2, hq1, renderConstraint, renderMore, List.length_append,
        List.length_cons, List.length_nil, String.data]
      omega
  | cons n' ns =>
    simp only [List.all_cons, Bool.and_eq_true] at hm
    obtain ⟨qc, hqc⟩ : ∃ qc, qc = q3 + ([] : List Char).length + 1 := ⟨_, rfl⟩
    have sc : ∀ id tb, lexerNext E ⟨B, S, q3, id, tb⟩ =
        Res.ok (tokCOMMA, ⟨B, S, qc, id, tb⟩) := by
      intro id tb
      rw [hqc]
      exact lexerNext_punct E (pre ++ " UNIQUE (".data ++ f) [] ',' (' ' :: n' ++ renderMore ns ++ ')' :: d :: r) q3 S id tb
        (by simpa [renderConstraint, renderMore] using hB)
        (by simp only [hq3, hq2, hq1, hk, List.length_append, List.length_cons, List.length_nil, String.data] <;> omega)
        hS (by decide) (by decide)
    obtain ⟨id5, s5⟩ := idxColumnsLoop_more E S hS ns (pre ++ " UNIQUE (".data ++ f ++ [','])
      n' (d :: r) qc (String.mk f) tb
      { Type_ := TABLECONSTRAINT_UNIQUE, NumIndexed := 0 + 1, IndexedColumns := [expectedIdx f] }
      (B.length + 1) (by simpa [renderConstraint, renderMore] using hB)
      (by simp only [hqc, hq3, hq2, hq1, hk, List.length_append, List.length_cons, List.length_nil, String.data] <;> omega) hm.1 hm.2
      (by
        have := length_le_renderMore (n' :: ns)
        simp only [hlen, renderConstraint, renderMore, List.length_append, List.length_cons,
          List.length_nil] at this ⊢
        omega)
    obtain ⟨qe, hqe⟩ : ∃ qe, qe = qc + (' ' :: n' ++ renderMore ns).length +
      ([] : List Char).length + 1 := ⟨_, rfl⟩
    have se : ∀ id tb, lexerNext E ⟨B, S, qc + (' ' :: n' ++ renderMore ns).length, id, tb⟩ =
        Res.ok (tokCLOSEDparenthesis, ⟨B, S, qe, id, tb⟩) := by
      intro id tb
      rw [hqe]
      exact lexerNext_punct E (pre ++ " UNIQUE (".data ++ f ++ [','] ++ (' ' :: n' ++ renderMore ns)) []
        ')' (d :: r) _ S id tb (by simpa [renderConstraint, renderMore] using hB)
        (by simp only [hqc, hq3, hq2, hq1, hk, List.length_append, List.length_cons, List.length_nil, String.data] <;> omega) hS (by decide) (by decide)
    refine ⟨id5, ?_⟩
    simp only [parseTableConstraint, bind_run, lexerPeek_of_next E (s1 _ _), Res.bind_ok,
      reduceCtorEq, if_false, if_true, pure_run, or_true, true_or, or_false, false_or, s1, s2, ne_eq,
      not_true_eq_false, not_false_eq_true, sf, lexerPeek_of_next E (sc _ _), getState_run,
      loopFuel, sc]
    rw [s5]
    simp only [Res.bind_ok, se, ne_eq, not_true_eq_false, if_false, bind_run]
    rw [hconf _ _ _ (by
      simp only [hqe, hqc, hq3, hq2, hq1, hk, renderConstraint, renderMore, List.length_append,
        List.length_cons, List.length_nil, String.data] <;> omega)]
    refine ok_state_congr ?_ ?_
    · simp [expectedConstraint]
      omega
    · simp only [hqe, hqc, hq3, hq2, hq1, renderConstraint, renderMore, List.length_append,
        List.length_cons, List.length_nil, String.data]
      omega

/-- The table constraint `FOREIGN KEY (c1, ...) REFERENCES r (d1, ...)`
followed by a comma or a closing parenthesis. -/
theorem parseTableConstraint_foreignKey (E : GoEnv) {B : List Char} (S : Int)
    (hS : (B.length : Int) ≤ S) (pre f : List Char) (m : List (List Char)) (rr rf : List Char)
    (rm : List (List Char)) (d : Char) (r : List Char) (k : Nat) (id : String) (tb : Table)
    (hB : B = pre ++ (' ' :: renderConstraint (ConstraintSpec.foreignKey f m rr rf rm)) ++ d :: r)
    (hk : k = pre.length) (hf : isPlainIdentifier f = true)
    (hm : m.all isPlainIdentifier = true) (hrr : isPlainIdentifier rr = true)
    (hrf : isPlainIdentifier rf = true) (hrm : rm.all isPlainIdentifier = true)
    (hd : d = ',' ∨ d = ')') :
    ∃ id', parseTableConstraint E ⟨B, S, k, id, tb⟩ =
      Res.ok (some (expectedConstraint (ConstraintSpec.foreignKey f m rr rf rm)),
        ⟨B, S, k + (' ' :: renderConstraint (ConstraintSpec.foreignKey f m rr rf rm)).length, id', tb⟩) := by
  obtain ⟨d1, rest1, hd1, hd1c⟩ := renderMore_head m (" REFERENCES ".data ++ rr ++ " (".data ++ rf ++ renderMore rm ++ [')'] ++ d :: r)
  obtain ⟨hdel1, hpu1, htok1⟩ := closer_facts hd1c
  obtain ⟨q1, hq1⟩ : ∃ q1, q1 = k + [' '].length + "FOREIGN".data.length := ⟨_, rfl⟩
  have s1 : ∀ id tb, lexerNext E ⟨B, S, k, id, tb⟩ =
      Res.ok (tokFOREIGN, ⟨B, S, q1, id, tb⟩) := by
    intro id tb
    rw [hq1]
    exact lexerNext_keyword E (pre) [' '] "FOREIGN".data ' ' ("KEY (".data ++ f ++ renderMore m ++ ')' :: (" REFERENCES ".data ++ rr ++ " (".data ++ rf ++ renderMore rm ++ [')'] ++ d :: r)) tokFOREIGN k S id tb
      (by simpa [renderConstraint] using hB)
      (by simp only [hk, List.length_append, List.length_cons, List.length_nil, String.data] <;> omega)
      hS (by decide) (by decide) (by decide) (by decide) (by decide)
  obtain ⟨q2, hq2⟩ : ∃ q2, q2 = q1 + [' '].length + "KEY".data.length := ⟨_, rfl⟩
  have s2 : ∀ id tb, lexerNext E ⟨B, S, q1, id, tb⟩ =
      Res.ok (tokKEY, ⟨B, S, q2, id, tb⟩) := by
    intro id tb
    rw [hq2]
    exact lexerNext_keyword E (pre ++ " FOREIGN".data) [' '] "KEY".data ' ' ("(".data ++ f ++ renderMore m ++ ')' :: (" REFERENCES ".data ++ rr ++ " (".data ++ rf ++ renderMore rm ++ [')'] ++ d :: r)) tokKEY q1 S id tb
      (by simpa [renderConstraint] using hB)
      (by simp only [hq1, hk, List.length_append, List.length_cons, List.length_nil, String.data] <;> omega)
      hS (by decide) (by decide) (by decide) (by decide) (by decide)
  obtain ⟨q3, hq3⟩ : ∃ q3, q3 = q2 + [' '].length + 1 := ⟨_, rfl⟩
  have s3 : ∀ id tb, lexerNext E ⟨B, S, q2, id, tb⟩ =
      Res.ok (tokOPENparenthesis, ⟨B, S, q3, id, tb⟩) := by
    intro id tb
    rw [hq3]
    exact lexerNext_punct E (pre ++ " FOREIGN KEY".data) [' '] '(' (f ++ renderMore m ++ ')' :: (" REFERENCES ".data ++ rr ++ " (".data ++ rf ++ renderMore rm ++ [')'] ++ d :: r)) q2 S id tb
      (by simpa [renderConstraint] using hB)
      (by simp only [hq2, hq1, hk, List.length_append, List.length_cons, List.length_nil, String.data] <;> omega)
      hS (by decide) (by decide)
  obtain ⟨q4, hq4⟩ : ∃ q4, q4 = q3 + ([] : List Char).length + f.length := ⟨_, rfl⟩
  have hBd : B = (pre ++ " FOREIGN KEY (".data) ++ [] ++ f ++ d1 :: rest1 := by
    rw [← hd1]
    simpa [renderConstraint] using hB
  have sf : ∀ id tb, lexerNext E ⟨B, S, q3, id, tb⟩ =
      Res.ok (tokIDENTIFIER, ⟨B, S, q4, String.mk (f), tb⟩) := by
    intro id tb
    rw [hq4]
    exact lexerNext_ident E (pre ++ " FOREIGN KEY (".data) [] (f) d1 (rest1) q3 S id tb
      hBd
      (by simp only [hq3, hq2, hq1, hk, List.length_append, List.length_cons, List.length_nil, String.data] <;> omega)
      hS (by decide) hf hdel1
  have hlen : B.length = pre.length + (' ' :: renderConstraint (ConstraintSpec.foreignKey f m rr rf rm)).length +
      r.length + 1 := by
    subst hB
    simp only [List.length_append, List.length_cons]
    omega
  cases m with
  | nil =>
    obtain ⟨qc, hqc⟩ : ∃ qc, qc = q4 + ([] : List Char).length + 1 := ⟨_, rfl⟩
    have sc : ∀ id tb, lexerNext E ⟨B, S, q4, id, tb⟩ =
        Res.ok (tokCLOSEDparenthesis, ⟨B, S, qc, id, tb⟩) := by
      intro id tb
      rw [hqc]
      exact lexerNext_punct E (pre ++ " FOREIGN KEY (".data ++ f) [] ')' (" REFERENCES ".data ++ rr ++ " (".data ++ rf ++ renderMore rm ++ [')'] ++ d :: r) q4 S id tb
        (by simpa [renderConstraint, renderMore] using hB)
        (by simp only [hq4, hq3, hq2, hq1, hk, List.length_append, List.length_cons, List.length_nil, String.data] <;> omega)
        hS (by decide) (by decide)
    obtain ⟨qr, hqr⟩ : ∃ qr, qr = qc + [' '].length + "REFERENCES".data.length := ⟨_, rfl⟩
    have sr : ∀ id tb, lexerNext E ⟨B, S, qc, id, tb⟩ =
        Res.ok (tokREFERENCES, ⟨B, S, qr, id, tb⟩) := by
      intro id tb
      rw [hqr]
      exact lexerNext_keyword E (pre ++ " FOREIGN KEY (".data ++ f ++ [')']) [' '] "REFERENCES".data ' ' (rr ++ " (".data ++ rf ++ renderMore rm ++ [')'] ++ d :: r) tokREFERENCES qc S id tb
        (by simpa [renderConstraint, renderMore] using hB)
        (by simp only [hqc, hq4, hq3, hq2, hq1, hk, List.length_append, List.length_cons, List.length_nil, String.data] <;> omega)
        hS (by decide) (by decide) (by decide) (by decide) (by decide)
    obtain ⟨idk, sk⟩ := parseForeignKeyClause_shape E S hS
      (pre ++ " FOREIGN KEY (".data ++ f ++ ") REFERENCES".data) rr rf rm d r qr (String.mk f) tb
      (by simpa [renderConstraint, renderMore] using hB)
      (by simp only [hqr, hqc, hq4, hq3, hq2, hq1, hk, List.length_append, List.length_cons, List.length_nil, String.data] <;> omega) hrr hrf hrm hd
    refine ⟨idk, ?_⟩
    simp only [parseTableConstraint, bind_run, lexerPeek_of_next E (s1 _ _), Res.bind_ok,
      reduceCtorEq, if_false, if_true, pure_run, or_true, true_or, or_false, false_or, s1, s2,
      s3, ne_eq, not_true_eq_false, not_false_eq_true, sf, lexerPeek_of_next E (sc _ _),
      getState_run, loopFuel, fkNamesLoop, sc, sr]
    rw [sk]
    refine ok_state_congr ?_ ?_
    · simp [expectedConstraint]
    · simp only [hqr, hqc, hq4, hq3, hq2, hq1, renderConstraint, renderMore, List.length_append,
        List.length_cons, List.length_nil, String.data]
      omega
  | cons n' ns =>
    simp only [List.all_cons, Bool.and_eq_true] at hm
    obtain ⟨qc, hqc⟩ : ∃ qc, qc = q4 + ([] : List Char).length + 1 := ⟨_, rfl⟩
    have sc : ∀ id tb, lexerNext E ⟨B, S, q4, id, tb⟩ =
        Res.ok (tokCOMMA, ⟨B, S, qc, id, tb⟩) := by
      intro id tb
      rw [hqc]
      exact lexerNext_punct E (pre ++ " FOREIGN KEY (".data ++ f) [] ',' (' ' :: n' ++ renderMore ns ++ ')' :: (" REFERENCES ".data ++ rr ++ " (".data ++ rf ++ renderMore rm ++ [')'] ++ d :: r)) q4 S id tb
        (by simpa [renderConstraint, renderMore] using hB)
        (by simp only [hq4, hq3, hq2, hq1, hk, List.length_append, List.length_cons, List.length_nil, String.data] <;> omega)
        hS (by decide) (by decide)
    obtain ⟨id5, s5⟩ := fkNamesLoop_more E S hS ns (pre ++ " FOREIGN KEY (".data ++ f ++ [','])
      n' (" REFERENCES ".data ++ rr ++ " (".data ++ rf ++ renderMore rm ++ [')'] ++ d :: r) qc (String.mk f) tb
      { Type_ := TABLECONSTRAINT_FOREIGNKEY, ForeignKeyNum := 0 + 1,
        ForeignKeyName := [String.mk f] }
      (B.length + 1) (by simpa [renderConstraint, renderMore] using hB)
      (by simp only [hqc, hq4, hq3, hq2, hq1, hk, List.length_append, List.length_cons, List.length_nil, String.data] <;> omega) hm.1 hm.2
      (by
        have := length_le_renderMore (n' :: ns)
        simp only [hlen, renderConstraint, renderMore, List.length_append, List.length_cons,
          List.length_nil] at this ⊢
        omega)
    obtain ⟨qe, hqe⟩ : ∃ qe, qe = qc + (' ' :: n' ++ renderMore ns).length +
      ([] : List Char).length + 1 := ⟨_, rfl⟩
    have se : ∀ id tb, lexerNext E ⟨B, S, qc + (' ' :: n' ++ renderMore ns).length, id, tb⟩ =
        Res.ok (tokCLOSEDparenthesis, ⟨B, S, qe, id, tb⟩) := by
      intro id tb
      rw [hqe]
      exact lexerNext_punct E (pre ++ " FOREIGN KEY (".data ++ f ++ [','] ++ (' ' :: n' ++ renderMore ns)) []
        ')' (" REFERENCES ".data ++ rr ++ " (".data ++ rf ++ renderMore rm ++ [')'] ++ d :: r) _ S id tb (by simpa [renderConstraint, renderMore] using hB)
        (by simp only [hqc, hq4, hq3, hq2, hq1, hk, List.length_append, List.length_cons, List.length_nil, String.data] <;> omega) hS (by decide) (by decide)
    obtain ⟨qr, hqr⟩ : ∃ qr, qr = qe + [' '].length + "REFERENCES".data.length := ⟨_, rfl⟩
    have sr : ∀ id tb, lexerNext E ⟨B, S, qe, id, tb⟩ =
        Res.ok (tokREFERENCES, ⟨B, S, qr, id, tb⟩) := by
      intro id tb
      rw [hqr]
      exact lexerNext_keyword E (pre ++ " FOREIGN KEY (".data ++ f ++ [','] ++ (' ' :: n' ++ renderMore ns) ++ [')']) [' '] "REFERENCES".data ' ' (rr ++ " (".data ++ rf ++ renderMore rm ++ [')'] ++ d :: r) tokREFERENCES qe S id tb
        (by simpa [renderConstraint, renderMore] using hB)
        (by simp only [hqe, hqc, hq4, hq3, hq2, hq1, hk, List.length_append, List.length_cons, List.length_nil, String.data] <;> omega)
        hS (by decide) (by decide) (by decide) (by decide) (by decide)
    obtain ⟨idk, sk⟩ := parseForeignKeyClause_shape E S hS
      (pre ++ " FOREIGN KEY (".data ++ f ++ [','] ++ (' ' :: n' ++ renderMore ns) ++ ") REFERENCES".data)
      rr rf rm d r qr id5 tb
      (by simpa [renderConstraint, renderMore] using hB)
      (by simp only [hqr, hqe, hqc, hq4, hq3, hq2, hq1, hk, List.length_append, List.length_cons, List.length_nil, String.data] <;> omega) hrr hrf hrm hd
    refine ⟨idk, ?_⟩
    simp only [parseTableConstraint, bind_run, lexerPeek_of_next E (s1 _ _), Res.bind_ok,
      reduceCtorEq, if_false, if_true, pure_run, or_true, true_or, or_false, false_or, s1, s2,
      s3, ne_eq, not_true_eq_false, not_false_eq_true, sf, lexerPeek_of_next E (sc _ _),
      getState_run, loopFuel, sc]
    rw [s5]
    simp only [Res.bind_ok, se, sr, ne_eq, not_true_eq_false, if_false, bind_run]
    rw [sk]
    refine ok_state_congr ?_ ?_
    · simp [expectedConstraint]
      omega
    · simp only [hqr, hqe, hqc, hq4, hq3, hq2, hq1, renderConstraint, renderMore,
        List.length_append, List.length_cons, List.length_nil, String.data]
      omega

end Sqlite3CreateTableParser

namespace Sqlite3CreateTableParser

open tokenT ErrorCode OrderClause ConflictClause FkAction FkDefType ConstraintType

theorem ok_state_table_congr {α : Type} {a a' : α} {B : List Char} {S : Int} {k k' : Nat}
    {id : String} {tb tb' : Table} (ha : a = a') (hk : k = k') (ht : tb = tb') :
    (Res.ok (a, ⟨B, S, k, id, tb⟩) : Res (α × State)) = Res.ok (a', ⟨B, S, k', id, tb'⟩) := by
  subst ha hk ht
  rfl

/-- A table constraint of any of the three kinds, followed by a comma or a
closing parenthesis. -/
theorem parseTableConstraint_shape (E : GoEnv) {B : List Char} (S : Int)
    (hS : (B.length : Int) ≤ S) (pre : List Char) (c : ConstraintSpec) (d : Char)
    (r : List Char) (k : Nat) (id : String) (tb : Table)
    (hB : B = pre ++ (' ' :: renderConstraint c) ++ d :: r) (hk : k = pre.length)
    (hok : c.ok = true) (hd : d = ',' ∨ d = ')') :
    ∃ id', parseTableConstraint E ⟨B, S, k, id, tb⟩ =
      Res.ok (some (expectedConstraint c),
        ⟨B, S, k + (' ' :: renderConstraint c).length, id', tb⟩) := by
  cases c with
  | primaryKey f m =>
    simp only [ConstraintSpec.ok, Bool.and_eq_true] at hok
    exact parseTableConstraint_primaryKey E S hS pre f m d r k id tb hB hk hok.1 hok.2 hd
  | unique f m =>
    simp only [ConstraintSpec.ok, Bool.and_eq_true] at hok
    exact parseTableConstraint_unique E S hS pre f m d r k id tb hB hk hok.1 hok.2 hd
  | foreignKey f m rr rf rm =>
    simp only [ConstraintSpec.ok, Bool.and_eq_true] at hok
    exact parseTableConstraint_foreignKey E S hS pre f m rr rf rm d r k id tb hB hk
      hok.1.1.1.1 hok.1.1.1.2 hok.1.1.2 hok.1.2 hok.2 hd

/-- The look-ahead in front of a table constraint finds one of the keywords
that start a table constraint. -/
theorem lexerPeek_constraint (E : GoEnv) {B : List Char} (S : Int)
    (hS : (B.length : Int) ≤ S) (pre : List Char) (c : ConstraintSpec) (r : List Char)
    (k : Nat) (hB : B = pre ++ (' ' :: renderConstraint c) ++ r) (hk : k = pre.length) :
    ∃ tok, tokenIsTableConstraint tok = true ∧
      ∀ id tb, lexerPeek E ⟨B, S, k, id, tb⟩ = Res.ok (tok, ⟨B, S, k, id, tb⟩) := by
  cases c with
  | primaryKey f m =>
    refine ⟨tokPRIMARY, by decide, fun id tb => ?_⟩
    exact lexerPeek_of_next E (lexerNext_keyword E pre [' '] "PRIMARY".data ' '
      ("KEY (".data ++ f ++ renderMore m ++ [')'] ++ r) tokPRIMARY k S id tb
      (by simpa [renderConstraint] using hB) hk hS (by decide) (by decide) (by decide)
      (by decide) (by decide))
  | unique f m =>
    refine ⟨tokUNIQUE, by decide, fun id tb => ?_⟩
    exact lexerPeek_of_next E (lexerNext_keyword E pre [' '] "UNIQUE".data ' '
      ("(".data ++ f ++ renderMore m ++ [')'] ++ r) tokUNIQUE k S id tb
      (by simpa [renderConstraint] using hB) hk hS (by decide) (by decide) (by decide)
      (by decide) (by decide))
  | foreignKey f m rr rf rm =>
    refine ⟨tokFOREIGN, by decide, fun id tb => ?_⟩
    exact lexerPeek_of_next E (lexerNext_keyword E pre [' '] "FOREIGN".data ' '
      ("KEY (".data ++ f ++ renderMore m ++ ") REFERENCES ".data ++ rr ++ " (".data ++ rf ++
        renderMore rm ++ [')'] ++ r) tokFOREIGN k S id tb
      (by simpa [renderConstraint] using hB) hk hS (by decide) (by decide) (by decide)
      (by decide) (by decide))

/-- The table constraints are never more than the runes of their text. -/
theorem length_le_renderConstraints (cs : List ConstraintSpec) :
    cs.length ≤ (renderConstraints cs).length := by
  induction cs with
  | nil => simp [renderConstraints]
  | cons c cs ih =>
    simp only [renderConstraints, List.length_cons, List.length_append]
    omega

/-- The loop over the table constraints: entered after a comma with the
keyword of the first constraint as token, it appends one `TableConstraint` per
constraint and stops in front of the closing parenthesis. -/
theorem parseConstraintsLoop_shape (E : GoEnv) {B : List Char} (S : Int)
    (hS : (B.length : Int) ≤ S) (cs : List ConstraintSpec) :
    ∀ (pre : List Char) (c : ConstraintSpec) (r : List Char) (k : Nat) (id : String)
      (tb : Table) (token : tokenT) (fuel : Nat),
      B = pre ++ (' ' :: renderConstraint c ++ renderConstraints cs) ++ ')' :: r →
      k = pre.length → c.ok = true → cs.all ConstraintSpec.ok = true →
      tokenIsTableConstraint token = true → cs.length + 1 < fuel →
      ∃ id', parseConstraintsLoop E token fuel ⟨B, S, k, id, tb⟩ =
        Res.ok (none, ⟨B, S, k + (' ' :: renderConstraint c ++ renderConstraints cs).length, id',
          { tb with NumConstraint := tb.NumConstraint + 1 + (cs.length : Int),
                    Constraints := tb.Constraints ++ (c :: cs).map expectedConstraint }⟩) := by
  induction cs with
  | nil =>
    intro pre c r k id tb token fuel hB hk hc _ htok hf
    obtain ⟨f, rfl⟩ : ∃ f, fuel = f + 1 := ⟨fuel - 1, by simp at hf; omega⟩
    obtain ⟨id1, h1⟩ := parseTableConstraint_shape E S hS pre c ')' r k id tb
      (by simpa [renderConstraints] using hB) hk hc (Or.inr rfl)
    have h2 : ∀ id tb, lexerPeek E ⟨B, S, k + (' ' :: renderConstraint c).length, id, tb⟩ =
        Res.ok (tokCLOSEDparenthesis, ⟨B, S, k + (' ' :: renderConstraint c).length, id, tb⟩) := by
      intro id tb
      exact lexerPeek_punct E (pre ++ (' ' :: renderConstraint c)) [] ')' r _ S id tb
        (by simpa [renderConstraints] using hB)
        (by simp only [hk, List.length_append, List.length_cons, List.length_nil] <;> omega)
        hS (by decide) (by decide)
    refine ⟨id1, ?_⟩
    simp only [parseConstraintsLoop, htok, if_true, bind_run, h1, Res.bind_ok, modifyTable_run,
      h2, reduceCtorEq, if_false, pure_run]
    refine ok_state_table_congr rfl ?_ ?_
    · simp only [renderConstraints, List.length_cons, List.length_append, List.length_nil]
    · simp
  | cons c' cs ih =>
    intro pre c r k id tb token fuel hB hk hc hcs htok hf
    obtain ⟨f, rfl⟩ : ∃ f, fuel = f + 1 := ⟨fuel - 1, by simp at hf; omega⟩
    simp only [List.all_cons, Bool.and_eq_true] at hcs
    obtain ⟨id1, h1⟩ := parseTableConstraint_shape E S hS pre c ','
      (' ' :: renderConstraint c' ++ renderConstraints cs ++ ')' :: r) k id tb
      (by simpa [renderConstraints] using hB) hk hc (Or.inl rfl)
    have h2 : ∀ id tb, lexerNext E ⟨B, S, k + (' ' :: renderConstraint c).length, id, tb⟩ =
        Res.ok (tokCOMMA, ⟨B, S, k + (' ' :: renderConstraint c).length +
          ([] : List Char).length + 1, id, tb⟩) := by
      intro id tb
      exact lexerNext_punct E (pre ++ (' ' :: renderConstraint c)) [] ','
        (' ' :: renderConstraint c' ++ renderConstraints cs ++ ')' :: r) _ S id tb
        (by simpa [renderConstraints] using hB)
        (by simp only [hk, List.length_append, List.length_cons, List.length_nil] <;> omega)
        hS (by decide) (by decide)
    obtain ⟨tok3, htok3, h3⟩ := lexerPeek_constraint E S hS
      (pre ++ (' ' :: renderConstraint c) ++ [',']) c' (renderConstraints cs ++ ')' :: r)
      (k + (' ' :: renderConstraint c).length + ([] : List Char).length + 1)
      (by simpa [renderConstraints] using hB)
      (by simp only [hk, List.length_append, List.length_cons, List.length_nil] <;> omega)
    obtain ⟨id4, h4⟩ := ih (pre ++ (' ' :: renderConstraint c) ++ [',']) c' r
      (k + (' ' :: renderConstraint c).length + ([] : List Char).length + 1) id1
      { tb with NumConstraint := tb.NumConstraint + 1,
                Constraints := tb.Constraints ++ [expectedConstraint c] } tok3 f
      (by simpa [renderConstraints] using hB)
      (by simp only [hk, List.length_append, List.length_cons, List.length_nil] <;> omega)
      hcs.1 hcs.2 htok3 (by simp at hf; omega)
    refine ⟨id4, ?_⟩
    simp only [parseConstraintsLoop, htok, if_true, bind_run, h1, Res.bind_ok, modifyTable_run,
      lexerPeek_of_next E (h2 _ _), h2, h3]
    rw [h4]
    refine ok_state_table_congr rfl ?_ ?_
    · simp only [renderConstraints, List.length_cons, List.length_append, List.length_nil]
      omega
    · simp only [List.length_cons, Nat.cast_add, Nat.cast_one, List.map_cons,
        List.append_assoc, List.singleton_append, Table.mk.injEq, true_and, and_true]
      omega

end Sqlite3CreateTableParser

namespace Sqlite3CreateTableParser

open tokenT ErrorCode OrderClause ConflictClause FkAction FkDefType ConstraintType

/-- A column definition `<name> <type>` followed by a comma or a closing
parenthesis. -/
theorem parseColumn_shape (E : GoEnv) {B : List Char} (S : Int) (hS : (B.length : Int) ≤ S)
    (pre ws : List Char) (c : ColumnSpec) (d : Char) (r : List Char) (k : Nat) (id : String)
    (tb : Table) (hB : B = pre ++ ws ++ (c.name ++ ' ' :: c.type) ++ d :: r)
    (hk : k = pre.length) (hws : isBlank ws = true) (hc : c.ok = true)
    (hd : d = ',' ∨ d = ')') :
    parseColumn E ⟨B, S, k, id, tb⟩ =
      Res.ok (some (expectedColumn c),
        ⟨B, S, k + ws.length + (c.name ++ ' ' :: c.type).length, String.mk c.type, tb⟩) := by
  simp only [ColumnSpec.ok, Bool.and_eq_true] at hc
  obtain ⟨hn, ht⟩ := hc
  obtain ⟨hd1, hd2, _⟩ := closer_facts hd
  obtain ⟨p1, hp1⟩ : ∃ p1, p1 = k + ws.length + c.name.length := ⟨_, rfl⟩
  obtain ⟨p2, hp2⟩ : ∃ p2, p2 = p1 + 1 + c.type.length := ⟨_, rfl⟩
  have h1 : ∀ id tb, lexerNext E ⟨B, S, k, id, tb⟩ =
      Res.ok (tokIDENTIFIER, ⟨B, S, p1, String.mk c.name, tb⟩) := by
    intro id tb
    rw [hp1]
    exact lexerNext_ident E pre ws c.name ' ' (c.type ++ d :: r) k S id tb
      (by simpa using hB) hk hS hws hn (by decide)
  have h2 : ∀ id tb, lexerNext E ⟨B, S, p1, id, tb⟩ =
      Res.ok (tokIDENTIFIER, ⟨B, S, p2, String.mk c.type, tb⟩) := by
    intro id tb
    rw [hp2]
    exact lexerNext_ident E (pre ++ ws ++ c.name) [' '] c.type d r p1 S id tb
      (by simpa using hB)
      (by simp only [hp1, hk, List.length_append, List.length_cons, List.length_nil] <;> omega)
      hS (by decide) ht hd1
  have h3 : ∀ id tb, lexerPeek E ⟨B, S, p2, id, tb⟩ =
      Res.ok (punctToken d, ⟨B, S, p2, id, tb⟩) := by
    intro id tb
    exact lexerPeek_punct E (pre ++ ws ++ c.name ++ ' ' :: c.type) [] d r p2 S id tb
      (by simpa using hB)
      (by simp only [hp2, hp1, hk, List.length_append, List.length_cons, List.length_nil] <;>
        omega)
      hS (by decide) hd2
  obtain ⟨m, hm⟩ : ∃ m, B.length = m + 1 := by
    refine ⟨B.length - 1, ?_⟩
    have : 0 < B.length := by
      rw [hB]
      simp
    omega
  have hg : goLen (String.mk c.type) = c.type.length :=
    goLen_ascii c.type (isPlainIdentifier_asciiText ht)
  have hslice : ∀ id tb, sliceString ((p2 : Int) - ((c.type.length : Nat) : Int)) p2
      ⟨B, S, p2, id, tb⟩ = Res.ok (String.mk c.type, ⟨B, S, p2, id, tb⟩) := by
    intro id tb
    have e : (p2 : Int) - ((c.type.length : Nat) : Int) = ((p1 + 1 : Nat) : Int) := by
      rw [hp2]
      push_cast
      omega
    rw [e]
    exact @sliceString_at B (pre ++ ws ++ c.name ++ [' ']) c.type (d :: r) (p1 + 1) S id tb p2
      (by simpa using hB)
      (by simp only [hp1, hk, List.length_append, List.length_cons, List.length_nil] <;> omega)
      hp2 p2
  have q1 : punctToken d ≠ tokIDENTIFIER := by
    rcases hd with h | h <;> subst h <;> decide
  have q2 : punctToken d ≠ tokOPENparenthesis := by
    rcases hd with h | h <;> subst h <;> decide
  have q3 : tokenIsColumnConstraint (punctToken d) = false := by
    rcases hd with h | h <;> subst h <;> decide
  simp only [parseColumn, bind_run, h1, Res.bind_ok, pure_run, reduceCtorEq, ne_eq,
    not_true_eq_false, if_false, if_true, getState_run, lexerPeek_of_next E (h2 _ _), h2,
    parseColumnType, columnTypeLoop, loopFuel, hm, hg, hslice, h3, q1, q2, q3,
    Bool.false_eq_true]
  refine ok_state_congr rfl ?_
  simp only [hp2, hp1, List.length_append, List.length_cons]
  omega

/-- The further column definitions are never more than the runes of their
text. -/
theorem length_le_renderMoreColumns (cs : List ColumnSpec) :
    cs.length ≤ (renderMoreColumns cs).length := by
  induction cs with
  | nil => simp [renderMoreColumns]
  | cons c cs ih =>
    simp only [renderMoreColumns, List.length_cons, List.length_append]
    omega

/-- The loop over the column definitions.  After the last column the text goes
on either with the closing parenthesis, where the loop stops in front of it,
or with a comma and a table constraint, where the loop stops behind the
comma with the keyword of the constraint as token. -/
theorem parseColumnsLoop_shape (E : GoEnv) {B : List Char} (S : Int)
    (hS : (B.length : Int) ≤ S) (tokEnd : tokenT) (add : Nat) (cs : List ColumnSpec) :
    ∀ (pre ws : List Char) (c : ColumnSpec) (d : Char) (r : List Char) (k : Nat) (id : String)
      (tb : Table) (fuel : Nat),
      B = pre ++ ws ++ (c.name ++ ' ' :: c.type ++ renderMoreColumns cs) ++ d :: r →
      k = pre.length → isBlank ws = true → c.ok = true → cs.all ColumnSpec.ok = true →
      (d = ',' ∨ d = ')') → cs.length + 1 < fuel →
      ((tokEnd = tokCLOSEDparenthesis ∧ add = 0 ∧ d = ')') ∨
        (tokenIsTableConstraint tokEnd = true ∧ add = 1 ∧ d = ',' ∧
          ∀ id tb, lexerPeek E ⟨B, S, k + ws.length +
              (c.name ++ ' ' :: c.type ++ renderMoreColumns cs).length + 1, id, tb⟩ =
            Res.ok (tokEnd, ⟨B, S, k + ws.length +
              (c.name ++ ' ' :: c.type ++ renderMoreColumns cs).length + 1, id, tb⟩))) →
      ∃ id', parseColumnsLoop E fuel ⟨B, S, k, id, tb⟩ =
        Res.ok (Except.ok tokEnd,
          ⟨B, S, k + ws.length + (c.name ++ ' ' :: c.type ++ renderMoreColumns cs).length + add,
            id', { tb with NumColumns := tb.NumColumns + 1 + (cs.length : Int),
                           Columns := tb.Columns ++ (c :: cs).map expectedColumn }⟩) := by
  induction cs with
  | nil =>
    intro pre ws c d r k id tb fuel hB hk hws hc _ hd hf hend
    obtain ⟨f, rfl⟩ : ∃ f, fuel = f + 1 := ⟨fuel - 1, by simp at hf; omega⟩
    have hc0 := hc
    simp only [ColumnSpec.ok, Bool.and_eq_true] at hc0
    have h0 : ∀ id tb, lexerNext E ⟨B, S, k, id, tb⟩ =
        Res.ok (tokIDENTIFIER, ⟨B, S, k + ws.length + c.name.length, String.mk c.name, tb⟩) := by
      intro id tb
      exact lexerNext_ident E pre ws c.name ' ' (c.type ++ d :: r) k S id tb
        (by simpa [renderMoreColumns] using hB) hk hS hws hc0.1 (by decide)
    have h1 := parseColumn_shape E S hS pre ws c d r k
    have h2 : ∀ id tb, lexerNext E
        ⟨B, S, k + ws.length + (c.name ++ ' ' :: c.type).length, id, tb⟩ =
        Res.ok (punctToken d, ⟨B, S, k + ws.length + (c.name ++ ' ' :: c.type).length +
          ([] : List Char).length + 1, id, tb⟩) := by
      intro id tb
      exact lexerNext_punct E (pre ++ ws ++ (c.name ++ ' ' :: c.type)) [] d r _ S id tb
        (by simpa [renderMoreColumns] using hB)
        (by simp only [hk, List.length_append, List.length_cons, List.length_nil] <;> omega)
        hS (by decide) (closer_facts hd).2.1
    simp only [renderMoreColumns, List.append_nil] at hend hB ⊢
    rcases hend with ⟨e1, e2, e3⟩ | ⟨e1, e2, e3, e4⟩
    · subst e1 e2 e3
      refine ⟨String.mk c.type, ?_⟩
      simp only [parseColumnsLoop, bind_run, lexerPeek_of_next E (h0 _ _), Res.bind_ok,
        reduceCtorEq, ne_eq, not_true_eq_false, if_false, if_true, h1 _ _ hB hk hws hc hd,
        modifyTable_run, lexerPeek_of_next E (h2 _ _), punctToken, pure_run]
      refine ok_state_table_congr rfl ?_ ?_
      · simp
      · simp
    · subst e2 e3
      refine ⟨String.mk c.type, ?_⟩
      simp only [List.length_nil, Nat.add_zero] at h2
      simp only [parseColumnsLoop, bind_run, lexerPeek_of_next E (h0 _ _), Res.bind_ok,
        reduceCtorEq, ne_eq, not_true_eq_false, if_false, if_true, h1 _ _ hB hk hws hc hd,
        modifyTable_run, lexerPeek_of_next E (h2 _ _), h2, punctToken, pure_run, e4, e1]
      refine ok_state_table_congr rfl rfl ?_
      simp
  | cons c' cs ih =>
    intro pre ws c d r k id tb fuel hB hk hws hc hcs hd hf hend
    obtain ⟨f, rfl⟩ : ∃ f, fuel = f + 1 := ⟨fuel - 1, by simp at hf; omega⟩
    simp only [List.all_cons, Bool.and_eq_true] at hcs
    have hc0 := hc
    simp only [ColumnSpec.ok, Bool.and_eq_true] at hc0
    have hc0' := hcs.1
    simp only [ColumnSpec.ok, Bool.and_eq_true] at hc0'
    obtain ⟨p1, hp1⟩ : ∃ p1, p1 = k + ws.length + (c.name ++ ' ' :: c.type).length := ⟨_, rfl⟩
    have hB1 : B = pre ++ ws ++ (c.name ++ ' ' :: c.type) ++ ',' ::
        (' ' :: (c'.name ++ ' ' :: c'.type ++ renderMoreColumns cs) ++ d :: r) := by
      simpa [renderMoreColumns] using hB
    have hB2 : B = (pre ++ ws ++ (c.name ++ ' ' :: c.type) ++ [',']) ++ [' '] ++
        (c'.name ++ ' ' :: c'.type ++ renderMoreColumns cs) ++ d :: r := by
      simpa [renderMoreColumns] using hB
    have hk2 : p1 + 1 = (pre ++ ws ++ (c.name ++ ' ' :: c.type) ++ [',']).length := by
      simp only [hp1, hk, List.length_append, List.length_cons, List.length_nil]
    have h0 : ∀ id tb, lexerNext E ⟨B, S, k, id, tb⟩ =
        Res.ok (tokIDENTIFIER, ⟨B, S, k + ws.length + c.name.length, String.mk c.name, tb⟩) := by
      intro id tb
      exact lexerNext_ident E pre ws c.name ' '
        (c.type ++ ',' :: (' ' :: (c'.name ++ ' ' :: c'.type ++ renderMoreColumns cs) ++ d :: r))
        k S id tb (by simpa using hB1) hk hS hws hc0.1 (by decide)
    have h1 : ∀ id tb, parseColumn E ⟨B, S, k, id, tb⟩ =
        Res.ok (some (expectedColumn c), ⟨B, S, p1, String.mk c.type, tb⟩) := by
      intro id tb
      rw [hp1]
      exact parseColumn_shape E S hS pre ws c ',' _ k id tb hB1 hk hws hc (Or.inl rfl)
    have h2 : ∀ id tb, lexerNext E ⟨B, S, p1, id, tb⟩ =
        Res.ok (tokCOMMA, ⟨B, S, p1 + 1, id, tb⟩) := by
      intro id tb
      exact lexerNext_punct E (pre ++ ws ++ (c.name ++ ' ' :: c.type)) [] ',' _ p1 S id tb
        (by simpa using hB1)
        (by simp only [hp1, hk, List.length_append, List.length_cons, List.length_nil] <;> omega)
        hS (by decide) (by decide)
    have h3 : ∀ id tb, lexerNext E ⟨B, S, p1 + 1, id, tb⟩ =
        Res.ok (tokIDENTIFIER, ⟨B, S, p1 + 1 + [' '].length + c'.name.length,
          String.mk c'.name, tb⟩) := by
      intro id tb
      exact lexerNext_ident E (pre ++ ws ++ (c.name ++ ' ' :: c.type) ++ [',']) [' '] c'.name ' '
        (c'.type ++ renderMoreColumns cs ++ d :: r) (p1 + 1) S id tb
        (by simpa using hB2) hk2 hS (by decide) hc0'.1 (by decide)
    have hend' : (tokEnd = tokCLOSEDparenthesis ∧ add = 0 ∧ d = ')') ∨
        (tokenIsTableConstraint tokEnd = true ∧ add = 1 ∧ d = ',' ∧
          ∀ id tb, lexerPeek E ⟨B, S, p1 + 1 + [' '].length +
              (c'.name ++ ' ' :: c'.type ++ renderMoreColumns cs).length + 1, id, tb⟩ =
            Res.ok (tokEnd, ⟨B, S, p1 + 1 + [' '].length +
              (c'.name ++ ' ' :: c'.type ++ renderMoreColumns cs).length + 1, id, tb⟩)) := by
      have e : k + ws.length +
          (c.name ++ ' ' :: c.type ++ renderMoreColumns (c' :: cs)).length + 1 =
          p1 + 1 + [' '].length +
            (c'.name ++ ' ' :: c'.type ++ renderMoreColumns cs).length + 1 := by
        simp only [hp1, renderMoreColumns, List.length_append, List.length_cons,
          List.length_nil]
        omega
      rw [e] at hend
      exact hend
    obtain ⟨id4, h4⟩ := ih (pre ++ ws ++ (c.name ++ ' ' :: c.type) ++ [',']) [' '] c' d r
      (p1 + 1) (String.mk c'.name)
      { tb with NumColumns := tb.NumColumns + 1, Columns := tb.Columns ++ [expectedColumn c] } f
      hB2 hk2 (by decide) hcs.1 hcs.2 hd (by simp at hf; omega) hend'
    refine ⟨id4, ?_⟩
    have q : tokenIsTableConstraint tokIDENTIFIER = false := by decide
    simp only [parseColumnsLoop, bind_run, lexerPeek_of_next E (h0 _ _), Res.bind_ok,
      reduceCtorEq, ne_eq, not_true_eq_false, if_false, if_true, h1, modifyTable_run,
      lexerPeek_of_next E (h2 _ _), h2, lexerPeek_of_next E (h3 _ _), q, Bool.false_eq_true]
    rw [h4]
    refine ok_state_table_congr rfl ?_ ?_
    · simp only [hp1, renderMoreColumns, List.length_append, List.length_cons, List.length_nil]
      omega
    · simp only [List.length_cons, Nat.cast_add, Nat.cast_one, List.map_cons,
        List.append_assoc, List.singleton_append, Table.mk.injEq, true_and, and_true]
      omega

end Sqlite3CreateTableParser

namespace Sqlite3CreateTableParser

open tokenT ErrorCode OrderClause ConflictClause FkAction FkDefType ConstraintType

/-! ## The rendered statement is ASCII -/

theorem asciiText_cons {a : Char} {l : List Char} (ha : a.toNat < 128) (hl : AsciiText l) :
    AsciiText (a :: l) := by
  intro c hc
  rcases List.mem_cons.1 hc with h | h
  · rw [h]
    exact ha
  · exact hl c h

theorem asciiText_renderMore (ns : List (List Char)) (h : ns.all isPlainIdentifier = true) :
    AsciiText (renderMore ns) := by
  induction ns with
  | nil => intro c hc; simp [renderMore] at hc
  | cons n ns ih =>
    simp only [List.all_cons, Bool.and_eq_true] at h
    simp only [renderMore]
    exact asciiText_cons (by decide) (asciiText_cons (by decide)
      (asciiText_append (isPlainIdentifier_asciiText h.1) (ih h.2)))

theorem asciiText_renderMoreColumns (cs : List ColumnSpec) (h : cs.all ColumnSpec.ok = true) :
    AsciiText (renderMoreColumns cs) := by
  induction cs with
  | nil => intro c hc; simp [renderMoreColumns] at hc
  | cons c cs ih =>
    simp only [List.all_cons, Bool.and_eq_true, ColumnSpec.ok] at h
    simp only [renderMoreColumns]
    exact asciiText_cons (by decide) (asciiText_cons (by decide)
      (asciiText_append (asciiText_append (isPlainIdentifier_asciiText h.1.1)
        (asciiText_cons (by decide) (isPlainIdentifier_asciiText h.1.2))) (ih h.2)))

theorem asciiText_renderConstraint (c : ConstraintSpec) (h : c.ok = true) :
    AsciiText (renderConstraint c) := by
  cases c with
  | primaryKey f m =>
    simp only [ConstraintSpec.ok, Bool.and_eq_true] at h
    exact asciiText_append (asciiText_append (asciiText_append (by decide)
      (isPlainIdentifier_asciiText h.1)) (asciiText_renderMore m h.2)) (by decide)
  | unique f m =>
    simp only [ConstraintSpec.ok, Bool.and_eq_true] at h
    exact asciiText_append (asciiText_append (asciiText_append (by decide)
      (isPlainIdentifier_asciiText h.1)) (asciiText_renderMore m h.2)) (by decide)
  | foreignKey f m rr rf rm =>
    simp only [ConstraintSpec.ok, Bool.and_eq_true] at h
    exact asciiText_append (asciiText_append (asciiText_append (asciiText_append
      (asciiText_append (asciiText_append (asciiText_append (asciiText_append (by decide)
      (isPlainIdentifier_asciiText h.1.1.1.1)) (asciiText_renderMore m h.1.1.1.2)) (by decide))
      (isPlainIdentifier_asciiText h.1.1.2)) (by decide)) (isPlainIdentifier_asciiText h.1.2))
      (asciiText_renderMore rm h.2)) (by decide)

theorem asciiText_renderConstraints (ks : List ConstraintSpec)
    (h : ks.all ConstraintSpec.ok = true) : AsciiText (renderConstraints ks) := by
  induction ks with
  | nil => intro c hc; simp [renderConstraints] at hc
  | cons k ks ih =>
    simp only [List.all_cons, Bool.and_eq_true] at h
    simp only [renderConstraints]
    exact asciiText_cons (by decide) (asciiText_cons (by decide)
      (asciiText_append (asciiText_renderConstraint k h.1) (ih h.2)))

theorem asciiText_renderStatement (t : List Char) (c : ColumnSpec) (cs : List ColumnSpec)
    (ks : List ConstraintSpec) (semicolon : Bool) (ht : isPlainIdentifier t = true)
    (hc : c.ok = true) (hcs : cs.all ColumnSpec.ok = true)
    (hks : ks.all ConstraintSpec.ok = true) :
    AsciiText (renderStatement t c cs ks semicolon) := by
  simp only [ColumnSpec.ok, Bool.and_eq_true] at hc
  unfold renderStatement
  refine asciiText_append (asciiText_append (asciiText_append (asciiText_append (asciiText_append
    (asciiText_append (asciiText_append (asciiText_append (by decide)
    (isPlainIdentifier_asciiText ht))
    (by decide)) (isPlainIdentifier_asciiText hc.1))
    (asciiText_cons (by decide) (isPlainIdentifier_asciiText hc.2)))
    (asciiText_renderMoreColumns cs hcs)) (asciiText_renderConstraints ks hks)) (by decide)) ?_
  cases semicolon <;> decide

/-! ## The end of the statement -/

theorem Res.bind_eq_of_ok {α β : Type} {r : Res α} {f : α → Res β} {a : α}
    (h : r = Res.ok a) : r.bind f = f a := by
  rw [h]
  rfl

/-- The closing parenthesis at the end of the text, with or without a
semicolon behind it. -/
theorem parseTail_shape (E : GoEnv) {B : List Char} (S : Int) (hS : S = (B.length : Int))
    (pre : List Char) (semicolon : Bool) (k : Nat) (id : String) (tb : Table)
    (hB : B = pre ++ ')' :: (if semicolon then [';'] else [])) (hk : k = pre.length) :
    ∃ k', parseTail E ⟨B, S, k, id, tb⟩ = Res.ok (ERROR_NONE, ⟨B, S, k', id, tb⟩) := by
  have hSle : (B.length : Int) ≤ S := by rw [hS]
  cases semicolon with
  | false =>
    simp only [Bool.false_eq_true, if_false] at hB
    have h1 : ∀ id tb, lexerNext E ⟨B, S, k, id, tb⟩ =
        Res.ok (tokCLOSEDparenthesis, ⟨B, S, k + ([] : List Char).length + 1, id, tb⟩) := by
      intro id tb
      exact lexerNext_punct E pre [] ')' [] k S id tb (by simpa using hB) hk hSle (by decide)
        (by decide)
    have h2 : ∀ id tb, lexerNext E ⟨B, S, k + ([] : List Char).length + 1, id, tb⟩ =
        Res.ok (tokEOF, ⟨B, S, k + ([] : List Char).length + 1 + ([] : List Char).length,
          id, tb⟩) := by
      intro id tb
      exact lexerNext_eof E B [] _ S id tb (by simp)
        (by simp only [hB, hk, List.length_append, List.length_cons, List.length_nil]) hS
        (by decide)
    refine ⟨k + ([] : List Char).length + 1, ?_⟩
    simp only [parseTail, bind_run, h1, Res.bind_ok, pure_run, reduceCtorEq, ne_eq,
      not_true_eq_false, if_false, if_true, lexerPeek_of_next E (h2 _ _)]
  | true =>
    simp only [if_true] at hB
    have h1 : ∀ id tb, lexerNext E ⟨B, S, k, id, tb⟩ =
        Res.ok (tokCLOSEDparenthesis, ⟨B, S, k + ([] : List Char).length + 1, id, tb⟩) := by
      intro id tb
      exact lexerNext_punct E pre [] ')' [';'] k S id tb (by simpa using hB) hk hSle (by decide)
        (by decide)
    have h2 : ∀ id tb, lexerNext E ⟨B, S, k + ([] : List Char).length + 1, id, tb⟩ =
        Res.ok (tokSEMICOLON, ⟨B, S, k + ([] : List Char).length + 1 +
          ([] : List Char).length + 1, id, tb⟩) := by
      intro id tb
      exact lexerNext_punct E (pre ++ [')']) [] ';' [] _ S id tb (by simpa using hB)
        (by simp only [hk, List.length_append, List.length_cons, List.length_nil]) hSle
        (by decide) (by decide)
    refine ⟨k + ([] : List Char).length + 1 + ([] : List Char).length + 1, ?_⟩
    simp only [parseTail, bind_run, h1, Res.bind_ok, pure_run, reduceCtorEq, ne_eq,
      not_true_eq_false, if_false, if_true, lexerPeek_of_next E (h2 _ _), h2]

/-! ## The whole statement -/

/-- The run of `parse` over a statement of the shape `CREATE TABLE t (` columns
and constraints `)`, from any table and identifier: it ends without an error
and has set the name and appended the columns and the constraints. -/
theorem parse_statement (E : GoEnv) {B : List Char} (S : Int) (hS : S = (B.length : Int))
    (t : List Char) (c : ColumnSpec) (cs : List ColumnSpec) (ks : List ConstraintSpec)
    (semicolon : Bool) (hB : renderStatement t c cs ks semicolon = B)
    (ht : isPlainIdentifier t = true) (hc : c.ok = true) (hcs : cs.all ColumnSpec.ok = true)
    (hks : ks.all ConstraintSpec.ok = true) (id0 : String) (tb0 : Table) :
    ∃ st, parse E ⟨B, S, 0, id0, tb0⟩ = Res.ok (ERROR_NONE, st) ∧
      st.table = { tb0 with Name := String.mk t,
                            NumColumns := tb0.NumColumns + 1 + (cs.length : Int),
                            Columns := tb0.Columns ++ (c :: cs).map expectedColumn,
                            NumConstraint := tb0.NumConstraint + (ks.length : Int),
                            Constraints := tb0.Constraints ++ ks.map expectedConstraint } := by
  have hne := isPlainIdentifier_ne_nil ht
  have hSle : (B.length : Int) ≤ S := by rw [hS]
  obtain ⟨tail, htail⟩ : ∃ tail, tail = ')' :: (if semicolon then [';'] else []) := ⟨_, rfl⟩
  have hB0 : B = "CREATE TABLE ".data ++ t ++ " (".data ++ (c.name ++ ' ' :: c.type ++
      renderMoreColumns cs) ++ renderConstraints ks ++ tail := by
    rw [← hB, htail]
    simp [renderStatement]
  obtain ⟨p1, hp1⟩ : ∃ p1, p1 = 12 + 1 + t.length := ⟨_, rfl⟩
  obtain ⟨p2, hp2⟩ : ∃ p2, p2 = p1 + 1 + 1 := ⟨_, rfl⟩
  obtain ⟨p3, hp3⟩ : ∃ p3, p3 = p2 + ([] : List Char).length +
      (c.name ++ ' ' :: c.type ++ renderMoreColumns cs).length := ⟨_, rfl⟩
  have h1 : ∀ id tb, lexerNext E ⟨B, S, 0, id, tb⟩ = Res.ok (tokCREATE, ⟨B, S, 6, id, tb⟩) := by
    intro id tb
    simpa using lexerNext_keyword E [] [] "CREATE".data ' '
      ("TABLE ".data ++ t ++ " (".data ++ (c.name ++ ' ' :: c.type ++ renderMoreColumns cs) ++
        renderConstraints ks ++ tail)
      tokCREATE 0 S id tb (by simp [hB0]) rfl hSle
      (by decide) (by decide) (by decide) (by decide) (by decide)
  have h2 : ∀ id tb, lexerNext E ⟨B, S, 6, id, tb⟩ = Res.ok (tokTABLE, ⟨B, S, 12, id, tb⟩) := by
    intro id tb
    simpa using lexerNext_keyword E "CREATE".data [' '] "TABLE".data ' '
      (t ++ " (".data ++ (c.name ++ ' ' :: c.type ++ renderMoreColumns cs) ++
        renderConstraints ks ++ tail) tokTABLE 6 S id tb
      (by simp [hB0]) rfl hSle (by decide) (by decide) (by decide) (by decide) (by decide)
  have h3 : ∀ id tb, lexerNext E ⟨B, S, 12, id, tb⟩ =
      Res.ok (tokIDENTIFIER, ⟨B, S, p1, String.mk t, tb⟩) := by
    intro id tb
    rw [hp1]
    simpa using lexerNext_ident E "CREATE TABLE".data [' '] t ' '
      ("(".data ++ (c.name ++ ' ' :: c.type ++ renderMoreColumns cs) ++
        renderConstraints ks ++ tail)
      12 S id tb (by simp [hB0]) rfl hSle (by decide) ht (by decide)
  have h4 : ∀ id tb, lexerNext E ⟨B, S, p1, id, tb⟩ =
      Res.ok (tokOPENparenthesis, ⟨B, S, p2, id, tb⟩) := by
    intro id tb
    rw [hp2]
    simpa [punctToken] using lexerNext_punct E ("CREATE TABLE ".data ++ t) [' '] '('
      ((c.name ++ ' ' :: c.type ++ renderMoreColumns cs) ++ renderConstraints ks ++ tail)
      p1 S id tb (by simp [hB0]) (by simp [hp1]; omega) hSle (by decide) (by decide)
  have hk2 : p2 = ("CREATE TABLE ".data ++ t ++ " (".data).length := by
    simp [hp2, hp1]
    omega
  have hlen : B.length = p3 + (renderConstraints ks).length + tail.length := by
    rw [hB0, hp3, hk2]
    simp only [List.length_append, List.length_nil]
    omega
  have hcsf : cs.length + 1 < B.length + 1 := by
    have := length_le_renderMoreColumns cs
    have e : (c.name ++ ' ' :: c.type ++ renderMoreColumns cs).length =
        c.name.length + 1 + c.type.length + (renderMoreColumns cs).length := by
      simp only [List.length_append, List.length_cons]
      omega
    have : 0 < tail.length := by
      rw [htail]
      simp
    omega
  have c3 : tokenIsTableConstraint tokCLOSEDparenthesis = false := by decide
  have q1 : tokIDENTIFIER ≠ tokIF := by decide
  have q2 : tokOPENparenthesis ≠ tokAS := by decide
  cases ks with
  | nil =>
    have hB1 : B = ("CREATE TABLE ".data ++ t ++ " (".data) ++ [] ++
        (c.name ++ ' ' :: c.type ++ renderMoreColumns cs) ++ ')' ::
          (if semicolon then [';'] else []) := by
      rw [hB0, htail]
      simp [renderConstraints]
    obtain ⟨id5, h5⟩ := parseColumnsLoop_shape E S hSle tokCLOSEDparenthesis 0 cs
      ("CREATE TABLE ".data ++ t ++ " (".data) [] c ')' (if semicolon then [';'] else []) p2
      (String.mk t) { tb0 with Name := String.mk t } (B.length + 1) hB1 hk2 (by decide) hc hcs
      (Or.inr rfl) hcsf (Or.inl ⟨rfl, rfl, rfl⟩)
    rw [← hp3] at h5
    dsimp only at h5
    obtain ⟨k7, h7⟩ := parseTail_shape E S hS
      ("CREATE TABLE ".data ++ t ++ " (".data ++ (c.name ++ ' ' :: c.type ++
        renderMoreColumns cs)) semicolon (p3 + 0) id5
      { tb0 with Name := String.mk t, NumColumns := tb0.NumColumns + 1 + (cs.length : Int),
                 Columns := tb0.Columns ++ (c :: cs).map expectedColumn }
      (by simpa using hB1)
      (by simp only [hp3, hk2, List.length_append, List.length_nil] <;> omega)
    refine ⟨⟨B, S, k7, id5, _⟩, ?_, rfl⟩
    simp only [parse, bind_run, h1, h2, Res.bind_ok, pure_run, reduceCtorEq, ne_eq,
      not_true_eq_false, if_false, if_true, lexerPeek_of_next E (h3 _ _), not_false_eq_true,
      parseBody, h3, getState_run, mk_ne_empty hne, modifyTable_run,
      lexerPeek_of_next E (h4 _ _), h4, loopFuel, q1, q2]
    refine Eq.trans (Res.bind_eq_of_ok h5) ?_
    simp only [bind_run, getState_run, Res.bind_ok, parseConstraintsLoop, c3,
      Bool.false_eq_true, if_false, pure_run]
    rw [h7]
    refine ok_state_table_congr rfl rfl ?_
    simp
  | cons k0 ks =>
    simp only [List.all_cons, Bool.and_eq_true] at hks
    have hB1 : B = ("CREATE TABLE ".data ++ t ++ " (".data) ++ [] ++
        (c.name ++ ' ' :: c.type ++ renderMoreColumns cs) ++ ',' ::
          (' ' :: renderConstraint k0 ++ renderConstraints ks ++ tail) := by
      rw [hB0]
      simp [renderConstraints]
    have hB2 : B = ("CREATE TABLE ".data ++ t ++ " (".data ++
        (c.name ++ ' ' :: c.type ++ renderMoreColumns cs) ++ [',']) ++
        (' ' :: renderConstraint k0) ++ (renderConstraints ks ++ tail) := by
      rw [hB0]
      simp [renderConstraints]
    have hB3 : B = ("CREATE TABLE ".data ++ t ++ " (".data ++
        (c.name ++ ' ' :: c.type ++ renderMoreColumns cs) ++ [',']) ++
        (' ' :: renderConstraint k0 ++ renderConstraints ks) ++ ')' ::
          (if semicolon then [';'] else []) := by
      rw [hB0, htail]
      simp [renderConstraints]
    have hk3 : p3 + 1 = ("CREATE TABLE ".data ++ t ++ " (".data ++
        (c.name ++ ' ' :: c.type ++ renderMoreColumns cs) ++ [',']).length := by
      simp only [hp3, hk2, List.length_append, List.length_cons, List.length_nil] <;> omega
    obtain ⟨tok, htok, hpeek⟩ := lexerPeek_constraint E S hSle _ k0
      (renderConstraints ks ++ tail) (p3 + 1) hB2 hk3
    obtain ⟨id5, h5⟩ := parseColumnsLoop_shape E S hSle tok 1 cs
      ("CREATE TABLE ".data ++ t ++ " (".data) [] c ','
      (' ' :: renderConstraint k0 ++ renderConstraints ks ++ tail) p2
      (String.mk t) { tb0 with Name := String.mk t } (B.length + 1) hB1 hk2 (by decide) hc hcs
      (Or.inl rfl) hcsf (Or.inr ⟨htok, rfl, rfl, by rw [← hp3]; exact hpeek⟩)
    rw [← hp3] at h5
    dsimp only at h5
    have hksf : ks.length + 1 < B.length + 1 := by
      have := length_le_renderConstraints ks
      have e : (renderConstraints (k0 :: ks)).length =
          2 + (renderConstraint k0).length + (renderConstraints ks).length := by
        simp only [renderConstraints, List.length_append, List.length_cons]
        omega
      omega
    obtain ⟨id6, h6⟩ := parseConstraintsLoop_shape E S hSle ks _ k0
      (if semicolon then [';'] else []) (p3 + 1) id5
      { tb0 with Name := String.mk t, NumColumns := tb0.NumColumns + 1 + (cs.length : Int),
                 Columns := tb0.Columns ++ (c :: cs).map expectedColumn }
      tok (B.length + 1) hB3 hk3 hks.1 hks.2 htok hksf
    dsimp only at h6
    obtain ⟨k7, h7⟩ := parseTail_shape E S hS
      ("CREATE TABLE ".data ++ t ++ " (".data ++ (c.name ++ ' ' :: c.type ++
        renderMoreColumns cs) ++ [','] ++ (' ' :: renderConstraint k0 ++ renderConstraints ks))
      semicolon (p3 + 1 + (' ' :: renderConstraint k0 ++ renderConstraints ks).length) id6
      { tb0 with Name := String.mk t, NumColumns := tb0.NumColumns + 1 + (cs.length : Int),
                 Columns := tb0.Columns ++ (c :: cs).map expectedColumn,
                 NumConstraint := tb0.NumConstraint + 1 + (ks.length : Int),
                 Constraints := tb0.Constraints ++ (k0 :: ks).map expectedConstraint }
      (by simpa using hB3)
      (by simp only [hp3, hk2, List.length_append, List.length_cons, List.length_nil] <;> omega)
    refine ⟨⟨B, S, k7, id6, _⟩, ?_, rfl⟩
    simp only [parse, bind_run, h1, h2, Res.bind_ok, pure_run, reduceCtorEq, ne_eq,
      not_true_eq_false, if_false, if_true, lexerPeek_of_next E (h3 _ _), not_false_eq_true,
      parseBody, h3, getState_run, mk_ne_empty hne, modifyTable_run,
      lexerPeek_of_next E (h4 _ _), h4, loopFuel, q1, q2]
    refine Eq.trans (Res.bind_eq_of_ok h5) ?_
    simp only [bind_run, getState_run, Res.bind_ok, loopFuel]
    refine Eq.trans (Res.bind_eq_of_ok h6) ?_
    simp only [bind_run, getState_run, Res.bind_ok, pure_run]
    rw [h7]
    refine ok_state_table_congr rfl rfl ?_
    simp only [List.length_cons, Nat.cast_add, Nat.cast_one, Table.mk.injEq, true_and, and_true]
    omega

/-- A statement of the shape `CREATE TABLE t (` columns and constraints `)`
parses without an error into the expected table. -/
theorem ParseTable_statement (E : GoEnv) (t : List Char) (c : ColumnSpec)
    (cs : List ColumnSpec) (ks : List ConstraintSpec) (semicolon : Bool)
    (ht : isPlainIdentifier t = true) (hc : c.ok = true) (hcs : cs.all ColumnSpec.ok = true)
    (hks : ks.all ConstraintSpec.ok = true) :
    ParseTable E (String.mk (renderStatement t c cs ks semicolon)) 0 =
      Res.ok (some (expectedTable t c cs ks), ERROR_NONE) := by
  generalize hB : renderStatement t c cs ks semicolon = B
  have hBne : B ≠ [] := by
    rw [← hB]
    simp [renderStatement]
  have hAscii : AsciiText B := by
    rw [← hB]
    exact asciiText_renderStatement t c cs ks semicolon ht hc hcs hks
  rw [ParseTable_run E B hBne, goLen_ascii B hAscii]
  obtain ⟨st, h, htab⟩ := parse_statement E (B.length : Int) rfl t c cs ks semicolon hB ht hc hcs
    hks "" {}
  rw [h]
  simp only [Res.bind, htab, expectedTable]
  simp

end Sqlite3CreateTableParser

namespace Sqlite3CreateTableParser

open tokenT ErrorCode OrderClause ConflictClause FkAction FkDefType ConstraintType

/-! ## The properties -/

/-- C1.  Column and constraint counts follow the source clauses.  The statement
is `CREATE TABLE t (`, then the column definition `c` and the further column
definitions `cs`, each of the form `<name> <type>`, then the table constraints
`ks`, each a `PRIMARY KEY (...)`, a `UNIQUE (...)` or a
`FOREIGN KEY (...) REFERENCES r (...)` clause, then `)` and, when `semicolon`
holds, a `;`; clauses are separated by a comma and a blank and words by one
blank.  When every name and every type is an unquoted ASCII identifier that is
no keyword, `ParseTable` with length 0 returns `ERROR_NONE` and a table with
exactly `cs.length + 1` columns and exactly `ks.length` constraints, which are
the columns and the constraints of the text in source order, and the two
counters of the table carry the same numbers.  The DDL of `TestParserNonQuote`
gives 2 columns and 3 constraints, the DDL of `TestParserQouteIdentifier` 3
columns and 2 constraints. -/
theorem C1_counts_follow_clauses (E : GoEnv) (t : List Char) (c : ColumnSpec)
    (cs : List ColumnSpec) (ks : List ConstraintSpec) (semicolon : Bool)
    (ht : isPlainIdentifier t = true) (hc : c.ok = true) (hcs : cs.all ColumnSpec.ok = true)
    (hks : ks.all ConstraintSpec.ok = true) :
    (∃ tb : Table,
      ParseTable E (String.mk (renderStatement t c cs ks semicolon)) 0 =
          Res.ok (some tb, ERROR_NONE) ∧
        tb.Columns.length = cs.length + 1 ∧ tb.Constraints.length = ks.length ∧
        tb.NumColumns = ((cs.length + 1 : Nat) : Int) ∧
        tb.NumConstraint = ((ks.length : Nat) : Int) ∧
        tb.Name = String.mk t ∧
        tb.Columns = (c :: cs).map expectedColumn ∧
        tb.Constraints = ks.map expectedConstraint) ∧
      (tableSummary (ParseTable E ddlNonQuote 0)).map
          (fun s => (s.1, s.2.2.1.length, s.2.2.2.length)) = some (ERROR_NONE, 2, 3) ∧
      (tableSummary (ParseTable E ddlQuoteIdentifier 0)).map
          (fun s => (s.1, s.2.2.1.length, s.2.2.2.length)) = some (ERROR_NONE, 3, 2) := by
  refine ⟨⟨expectedTable t c cs ks, ParseTable_statement E t c cs ks semicolon ht hc hcs hks,
    ?_, ?_, ?_, ?_, rfl, rfl, rfl⟩, ?_, ?_⟩
  · simp [expectedTable]
  · simp [expectedTable]
  · simp only [expectedTable]
    push_cast
    omega
  · simp [expectedTable]
  · rw [ParseTable_ddlNonQuote E]
    rfl
  · rw [ParseTable_ddlQuoteIdentifier E]
    rfl

/-- C1 at `CREATE TABLE t (a INTEGER, b TEXT, PRIMARY KEY (a, b), FOREIGN KEY
(b) REFERENCES r (x));`: two columns and two constraints. -/
theorem C1_counts_follow_clauses_witness :
    (isPlainIdentifier "t".data = true ∧
      ColumnSpec.ok ⟨"a".data, "INTEGER".data⟩ = true ∧
      [ColumnSpec.mk "b".data "TEXT".data].all ColumnSpec.ok = true ∧
      [ConstraintSpec.primaryKey "a".data ["b".data],
        ConstraintSpec.foreignKey "b".data [] "r".data "x".data []].all ConstraintSpec.ok =
          true) ∧
      ∃ tb : Table,
        ParseTable asciiEnv (String.mk (renderStatement "t".data ⟨"a".data, "INTEGER".data⟩
            [ColumnSpec.mk "b".data "TEXT".data]
            [ConstraintSpec.primaryKey "a".data ["b".data],
              ConstraintSpec.foreignKey "b".data [] "r".data "x".data []] true)) 0 =
            Res.ok (some tb, ERROR_NONE) ∧
          tb.Columns.length = 2 ∧ tb.Constraints.length = 2 :=
  ⟨⟨by decide, by decide, by decide, by decide⟩,
    (C1_counts_follow_clauses asciiEnv "t".data ⟨"a".data, "INTEGER".data⟩
      [ColumnSpec.mk "b".data "TEXT".data]
      [ConstraintSpec.primaryKey "a".data ["b".data],
        ConstraintSpec.foreignKey "b".data [] "r".data "x".data []] true
      (by decide) (by decide) (by decide) (by decide)).1.elim
      fun tb h => ⟨tb, h.1, h.2.1, h.2.2.1⟩⟩

/-- C2.  A quoted identifier yields the bare name under all four delimiter
forms: when the text `s` holds neither the closing delimiter nor NUL and the
buffer holds, at the offset, `s` wrapped in backticks, single quotes, double
quotes or `[ ]` (followed by any text), and the size of the state is not
below the number of runes of the buffer, as it is in every state `ParseTable`
builds with length 0, `lexerNext` returns `tokIDENTIFIER`, sets
`state.identifier` to exactly `s` and leaves the offset just past the closing
delimiter.  When `s` is also what the lexer reads as an unquoted
identifier, lexing `s` unquoted, followed by a rune that cannot continue an
identifier, gives the same token and the same identifier text.  The DDL of
`TestParserQouteIdentifier` parses without error into the table `customer`
with the columns `id`, `first_name`, `last_name`. -/
theorem C2_quoted_identifier_bare_name (E : GoEnv) (st : State) (pre s rest : List Char)
    (q c : Char) (hq : (q, c) ∈ quoteForms) (hclose : c ∉ s) (hnul : '\x00' ∉ s)
    (hbuf : st.buffer = pre ++ q :: s ++ c :: rest) (hoff : st.offset = pre.length)
    (hsize : (st.buffer.length : Int) ≤ st.size) :
    lexerNext E st =
        Res.ok (tokIDENTIFIER,
          { st with offset := st.offset + (s.length + 2), identifier := String.mk s }) ∧
      (IsUnquotedIdentifier E s →
        ∀ (st' : State) (pre' : List Char) (d : Char) (rest' : List Char),
          st'.buffer = pre' ++ s ++ d :: rest' → st'.offset = pre'.length →
          (st'.buffer.length : Int) ≤ st'.size → symbolIsIdentifier E d = false →
          lexerNext E st' =
            Res.ok (tokIDENTIFIER,
              { st' with offset := st'.offset + s.length, identifier := String.mk s })) ∧
      tableSummary (ParseTable E ddlQuoteIdentifier 0) =
        some (ERROR_NONE, "customer", ["id", "first_name", "last_name"],
          [TABLECONSTRAINT_PRIMARYKEY, TABLECONSTRAINT_FOREIGNKEY]) := by
  refine ⟨?_, ?_, ParseTable_ddlQuoteIdentifier E⟩
  · obtain ⟨B, S, k, id, tb⟩ := st
    simp only at hbuf hoff hsize
    have hesc : symbolIsEscape q = true ∧ c = if q = '[' then ']' else q := by
      simp only [quoteForms, List.mem_cons, Prod.mk.injEq, List.mem_singleton, List.not_mem_nil,
        or_false] at hq
      rcases hq with ⟨h1, h2⟩ | ⟨h1, h2⟩ | ⟨h1, h2⟩ | ⟨h1, h2⟩ <;> subst h1 <;> subst h2 <;>
        decide
    have hs : ∀ x ∈ s, x ≠ '\x00' ∧ x ≠ c := by
      intro x hx
      exact ⟨fun e => hnul (e ▸ hx), fun e => hclose (e ▸ hx)⟩
    have := lexerNext_quoted E pre [] q c s rest k S id tb (by simpa using hbuf) hoff hsize
      (by decide) hesc.1 hesc.2 hs
    simp only [List.length_nil, Nat.add_zero] at this
    rw [this, Nat.add_assoc]
  · rintro ⟨⟨a, cs, rfl, ha⟩, hw, hkw⟩ st' pre' d rest' hbuf' hoff' hsize' hd
    obtain ⟨B, S, k, id, tb⟩ := st'
    simp only at hbuf' hoff' hsize'
    have := lexerNext_word E pre' [] a cs d rest' k S id tb (by simpa using hbuf') hoff'
      (by decide) hsize' ha hw hd
    rw [this, hkw]
    simp only [ne_eq, not_true_eq_false, if_false, List.length_nil, Nat.add_zero]

/-- C2 at the first column name of `TestParserQouteIdentifier`: `"id"`
followed by ` INTEGER`, and `id` unquoted followed by a blank. -/
theorem C2_quoted_identifier_bare_name_witness :
    (('"', '"') ∈ quoteForms ∧ '"' ∉ "id".data ∧ '\x00' ∉ "id".data) ∧
      lexerNext asciiEnv (stateAt "\"id\" INTEGER" 0) =
        Res.ok (tokIDENTIFIER,
          { stateAt "\"id\" INTEGER" 0 with offset := 0 + (2 + 2), identifier := "id" }) ∧
      lexerNext asciiEnv (stateAt "id INTEGER" 0) =
        Res.ok (tokIDENTIFIER,
          { stateAt "id INTEGER" 0 with offset := 0 + 2, identifier := "id" }) := by
  have h := C2_quoted_identifier_bare_name asciiEnv (stateAt "\"id\" INTEGER" 0) [] "id".data
    " INTEGER".data '"' '"' (by decide) (by decide) (by decide) (by decide) (by decide)
    (by decide)
  refine ⟨⟨by decide, by decide, by decide⟩, h.1, ?_⟩
  exact h.2.1 ⟨⟨'i', ['d'], rfl, by decide⟩, by decide, by decide⟩ (stateAt "id INTEGER" 0) []
    ' ' "INTEGER".data (by decide) (by decide) (by decide) (by decide)

/-- C3.  Scenario A: `CREATE TABLE t (a INTEGER PRIMARY KEY AUTOINCREMENT)`
parses without error into a table named `t` with exactly one column, named
`a`, of type `INTEGER`, primary key and autoincrement, and with no table
constraints; the same holds for every other pair of unquoted ASCII
identifiers that are no keywords in place of `t` and `a`. -/
theorem C3_scenario_A (E : GoEnv) (t a : String) (ht : isPlainIdentifier t.data = true)
    (ha : isPlainIdentifier a.data = true) :
    ParseTable E ("CREATE TABLE " ++ t ++ " (" ++ a ++ " INTEGER PRIMARY KEY AUTOINCREMENT)") 0 =
      Res.ok (some { Name := t, NumColumns := 1,
                     Columns := [{ Name := a, Type_ := "INTEGER", IsPrimaryKey := true,
                                   IsAutoincrement := true }],
                     NumConstraint := 0, Constraints := [] }, ERROR_NONE) := by
  have e : "CREATE TABLE " ++ t ++ " (" ++ a ++ " INTEGER PRIMARY KEY AUTOINCREMENT)" =
      String.mk ("CREATE TABLE ".data ++ t.data ++ " (".data ++ a.data ++
        " INTEGER PRIMARY KEY AUTOINCREMENT)".data) := by
    apply String.ext
    simp only [String.data_append]
  rw [e]
  exact ParseTable_scenarioA E t.data a.data ht ha

/-- C3 at Scenario A itself. -/
theorem C3_scenario_A_witness :
    (isPlainIdentifier "t".data = true ∧ isPlainIdentifier "a".data = true) ∧
      ParseTable asciiEnv "CREATE TABLE t (a INTEGER PRIMARY KEY AUTOINCREMENT)" 0 =
        Res.ok (some { Name := "t", NumColumns := 1,
                       Columns := [{ Name := "a", Type_ := "INTEGER", IsPrimaryKey := true,
                                     IsAutoincrement := true }],
                       NumConstraint := 0, Constraints := [] }, ERROR_NONE) :=
  ⟨⟨by decide, by decide⟩, C3_scenario_A asciiEnv "t" "a" (by decide) (by decide)⟩

/-- C4 (the code departs from the claim).  The unsupported constructs do not
reach the caller as `ERROR_UNSUPPORTEDSQL`: on Scenario D, on a parenthesised
DEFAULT and on a table-level CHECK, `ParseTable` returns `ERROR_SYNTAX`.
`parseColumnConstraints` itself does return `ERROR_UNSUPPORTEDSQL` for the
column-level CHECK and for `DEFAULT (`, but `parseColumn` turns every error of
it into nil, which `parse` reports as `ERROR_SYNTAX`. -/
theorem C4_unsupported_reported_as_syntax (E : GoEnv) :
    ParseTable E "CREATE TABLE t (a TEXT CHECK(a != ''))" 0 =
        Res.ok (some { Name := "t" }, ERROR_SYNTAX) ∧
      ParseTable E "CREATE TABLE t (a TEXT DEFAULT (1))" 0 =
        Res.ok (some { Name := "t" }, ERROR_SYNTAX) ∧
      ParseTable E "CREATE TABLE t (a TEXT, CHECK (a > 1))" 0 =
        Res.ok
          (some { Name := "t", NumColumns := 1, Columns := [{ Name := "a", Type_ := "TEXT" }] },
            ERROR_SYNTAX) ∧
      (parseColumnConstraints E { Name := "a", Type_ := "TEXT" }
          (stateAt "CREATE TABLE t (a TEXT CHECK(a != ''))" 22)).val =
        Res.ok (ERROR_UNSUPPORTEDSQL, { Name := "a", Type_ := "TEXT" }) ∧
      (parseColumnConstraints E { Name := "a", Type_ := "TEXT" }
          (stateAt "CREATE TABLE t (a TEXT DEFAULT (1))" 22)).val =
        Res.ok (ERROR_UNSUPPORTEDSQL, { Name := "a", Type_ := "TEXT" }) ∧
      (parseColumn E (stateAt "CREATE TABLE t (a TEXT CHECK(a != ''))" 16)).val =
        Res.ok none := by
  refine ⟨?_, ?_, ?_, ?_, ?_, ?_⟩
  · exact (ParseTable_ascii E asciiEnv _ 0 (by decide)).trans (by decide!)
  · exact (ParseTable_ascii E asciiEnv _ 0 (by decide)).trans (by decide!)
  · exact (ParseTable_ascii E asciiEnv _ 0 (by decide)).trans (by decide!)
  · rw [(cong_parseColumnConstraints E asciiEnv _ _ (by decide)).1]
    decide!
  · rw [(cong_parseColumnConstraints E asciiEnv _ _ (by decide)).1]
    decide!
  · rw [(cong_parseColumn E asciiEnv _ (by decide)).1]
    decide!

/-- C5 (the code departs from the claim).  On Scenario F,
`CREATE TABLE t (a`, `ParseTable` does not return: `lexerAlpha` reads the rune
after `a`, which is past the end of the buffer, and the call panics.  The same
happens when the input ends inside a type name; with a blank after `a` the
end of the input is seen by `lexerNext` and the result is `ERROR_SYNTAX`. -/
theorem C5_missing_paren_panics (E : GoEnv) :
    ParseTable E "CREATE TABLE t (a" 0 = Res.panic ∧
      ParseTable E "CREATE TABLE t (a INTEGER" 0 = Res.panic ∧
      ParseTable E "CREATE TABLE t (a, b" 0 = Res.panic ∧
      ParseTable E "CREATE TABLE t (a " 0 =
        Res.ok (some { Name := "t", NumColumns := 1, Columns := [{ Name := "a" }] },
          ERROR_SYNTAX) := by
  refine ⟨?_, ?_, ?_, ?_⟩
  · exact (ParseTable_ascii E asciiEnv _ 0 (by decide)).trans (by decide!)
  · exact (ParseTable_ascii E asciiEnv _ 0 (by decide)).trans (by decide!)
  · exact (ParseTable_ascii E asciiEnv _ 0 (by decide)).trans (by decide!)
  · exact (ParseTable_ascii E asciiEnv _ 0 (by decide)).trans (by decide!)

/-- C6 (the code departs from the claim).  `parseForeignKeyClause` stores the
first referenced column without counting it: `REFERENCES contacts
(contact_id)` gives `NumColumns = 0` with one column name, and
`REFERENCES "contacts" ("contact_id", "test_field")` gives `NumColumns = 1`
with two. -/
theorem C6_foreign_key_counter_one_short (E : GoEnv) :
    (parseForeignKeyClause E (stateAt "REFERENCES contacts (contact_id)" 10)).val =
        Res.ok (some { Table := "contacts", NumColumns := 0, ColumnName := ["contact_id"] }) ∧
      (parseForeignKeyClause E
          (stateAt "REFERENCES \"contacts\" (\"contact_id\", \"test_field\")" 10)).val =
        Res.ok
          (some { Table := "contacts", NumColumns := 1, ColumnName := ["contact_id", "test_field"] })
      := by
  refine ⟨?_, ?_⟩
  · rw [(cong_parseForeignKeyClause E asciiEnv _ (by decide)).1]
    decide!
  · rw [(cong_parseForeignKeyClause E asciiEnv _ (by decide)).1]
    decide!

/-- C7 (the code departs from the claim).  After `--` the comment loop reads
two runes per round and tests only the first of each pair for a newline: a
line comment whose text has even length is not ended by its newline.  On
`--` newline `,` the call panics, where `,` alone gives `tokCOMMA`; on
`--ab` newline `,` newline newline `;` the comment runs on over the comma and
the token is `tokSEMICOLON`.  A comment text of odd length is skipped as the
claim says. -/
theorem C7_line_comment_of_even_length (E : GoEnv) :
    (lexerNext E (stateAt "--\n," 0)).val = Res.panic ∧
      (lexerNext E (stateAt "," 0)).val = Res.ok tokCOMMA ∧
      (lexerNext E (stateAt "--ab\n,\n\n;" 0)).val = Res.ok tokSEMICOLON ∧
      (lexerNext E (stateAt ",\n\n;" 0)).val = Res.ok tokCOMMA ∧
      (lexerNext E (stateAt "--x\n," 0)).val = Res.ok tokCOMMA ∧
      ParseTable E "CREATE TABLE t (a --\n)" 0 = Res.panic ∧
      ParseTable E "CREATE TABLE t (a \n)" 0 =
        Res.ok (some { Name := "t", NumColumns := 1, Columns := [{ Name := "a" }] },
          ERROR_NONE) := by
  refine ⟨?_, ?_, ?_, ?_, ?_, ?_, ?_⟩
  · rw [(cong_lexerNext E asciiEnv _ (by decide)).1]
    decide!
  · rw [(cong_lexerNext E asciiEnv _ (by decide)).1]
    decide!
  · rw [(cong_lexerNext E asciiEnv _ (by decide)).1]
    decide!
  · rw [(cong_lexerNext E asciiEnv _ (by decide)).1]
    decide!
  · rw [(cong_lexerNext E asciiEnv _ (by decide)).1]
    decide!
  · exact (ParseTable_ascii E asciiEnv _ 0 (by decide)).trans (by decide!)
  · exact (ParseTable_ascii E asciiEnv _ 0 (by decide)).trans (by decide!)

/-- C8 (the code departs from the claim).  Inside `/* */` the comment loop
reads two runes per round and looks for `*/` only as such a pair: a block
comment whose body has odd length is not ended by its `*/`.  On `/*a*/,` the
call panics, and on `/*a*/,/**/;` the comment runs on to the second `*/` and
the token is `tokSEMICOLON`; a body of even length is skipped as the claim
says. -/
theorem C8_block_comment_of_odd_length (E : GoEnv) :
    (lexerNext E (stateAt "/*a*/," 0)).val = Res.panic ∧
      (lexerNext E (stateAt "/*a*/,/**/;" 0)).val = Res.ok tokSEMICOLON ∧
      (lexerNext E (stateAt ",/**/;" 0)).val = Res.ok tokCOMMA ∧
      (lexerNext E (stateAt "/*ab*/," 0)).val = Res.ok tokCOMMA ∧
      ParseTable E "CREATE TABLE t (a /*x*/)" 0 = Res.panic ∧
      ParseTable E "CREATE TABLE t (a /*xy*/)" 0 =
        Res.ok (some { Name := "t", NumColumns := 1, Columns := [{ Name := "a" }] },
          ERROR_NONE) := by
  refine ⟨?_, ?_, ?_, ?_, ?_, ?_⟩
  · rw [(cong_lexerNext E asciiEnv _ (by decide)).1]
    decide!
  · rw [(cong_lexerNext E asciiEnv _ (by decide)).1]
    decide!
  · rw [(cong_lexerNext E asciiEnv _ (by decide)).1]
    decide!
  · rw [(cong_lexerNext E asciiEnv _ (by decide)).1]
    decide!
  · exact (ParseTable_ascii E asciiEnv _ 0 (by decide)).trans (by decide!)
  · exact (ParseTable_ascii E asciiEnv _ 0 (by decide)).trans (by decide!)

/-- C9 (the code departs from the claim).  `ParseTable` replaces the length 0
by `len(sql)`, and for that length the claim holds.  A negative length is not
replaced: it becomes the size of the state as it is, no offset ever equals
it, so `isEOF` is never true and `lexerNext`, called at the end of the buffer,
indexes the buffer there instead of returning `tokEOF`.  On
`CREATE TABLE t (a)` the look-ahead behind `)` is such a call: with length -1
`ParseTable` fails with an index out of range, with the full length 18 it
returns `ERROR_NONE`.  On `CREATE TABLE t (a);`, where no token is read at
the end of the buffer, length -1 and the full length 19 give the same
result. -/
theorem C9_negative_length_reads_past_the_buffer (E : GoEnv) :
    (∀ sql : String, ParseTable E sql 0 = ParseTable E sql (goLen sql : Int)) ∧
      (∀ (sql : String) (length : Int), sql ≠ "" → length < 0 →
        ParseTable E sql length =
            (parse E { buffer := sql.data, size := length, table := {} }).bind
              (fun p => Res.ok (some p.2.table, p.1)) ∧
          (∀ (k : Nat) (id : String) (tb : Table),
            isEOF ⟨sql.data, length, k, id, tb⟩ = false) ∧
          ∀ (id : String) (tb : Table),
            lexerNext E ⟨sql.data, length, sql.data.length, id, tb⟩ = Res.panic) ∧
      ParseTable E "CREATE TABLE t (a)" (-1) = Res.panic ∧
      ParseTable E "CREATE TABLE t (a)" (goLen "CREATE TABLE t (a)" : Int) =
        Res.ok (some { Name := "t", NumColumns := 1, Columns := [{ Name := "a" }] },
          ERROR_NONE) ∧
      ParseTable E "CREATE TABLE t (a);" (-1) =
        Res.ok (some { Name := "t", NumColumns := 1, Columns := [{ Name := "a" }] },
          ERROR_NONE) ∧
      ParseTable E "CREATE TABLE t (a);" (goLen "CREATE TABLE t (a);" : Int) =
        Res.ok (some { Name := "t", NumColumns := 1, Columns := [{ Name := "a" }] },
          ERROR_NONE) := by
  refine ⟨?_, ?_, ?_, ?_, ?_, ?_⟩
  · intro sql
    unfold ParseTable
    by_cases h : (goLen sql : Int) = 0
    · simp [h]
    · simp [h]
  · intro sql length hne hneg
    have hl0 : ¬ length = 0 := by omega
    have he : ∀ (k : Nat) (id : String) (tb : Table),
        isEOF ⟨sql.data, length, k, id, tb⟩ = false := by
      intro k id tb
      simp only [isEOF, beq_eq_false_iff_ne, ne_eq]
      omega
    refine ⟨?_, he, ?_⟩
    · unfold ParseTable
      simp only [hne, hl0, if_false]
    · intro id tb
      simp only [lexerNext, bind_run, getState_run, Res.bind_ok, loopFuel, lexerNextLoop, he,
        Bool.false_eq_true, if_false, peek_at_end length id tb (Nat.le_refl _), Res.bind_panic]
  · exact (ParseTable_ascii E asciiEnv _ _ (by decide)).trans (by decide!)
  · exact (ParseTable_ascii E asciiEnv _ _ (by decide)).trans (by decide!)
  · exact (ParseTable_ascii E asciiEnv _ _ (by decide)).trans (by decide!)
  · exact (ParseTable_ascii E asciiEnv _ _ (by decide)).trans (by decide!)

/-- C9 at `CREATE TABLE t (a)` with length -1: at offset 18, the end of the
buffer, `isEOF` is false and `lexerNext` fails. -/
theorem C9_negative_length_reads_past_the_buffer_witness :
    ("CREATE TABLE t (a)" ≠ "" ∧ (-1 : Int) < 0) ∧
      isEOF ⟨"CREATE TABLE t (a)".data, -1, 18, "", {}⟩ = false ∧
      lexerNext asciiEnv
          ⟨"CREATE TABLE t (a)".data, -1, "CREATE TABLE t (a)".data.length, "", {}⟩ =
        Res.panic :=
  ⟨⟨by decide, by decide⟩,
    ((C9_negative_length_reads_past_the_buffer asciiEnv).2.1 "CREATE TABLE t (a)" (-1)
      (by decide) (by decide)).2.1 18 "" {},
    ((C9_negative_length_reads_past_the_buffer asciiEnv).2.1 "CREATE TABLE t (a)" (-1)
      (by decide) (by decide)).2.2 "" {}⟩

/-- C10.  `CREATE TABLE t AS ` followed by any text is rejected as
unsupported: for every unquoted ASCII identifier `t` that is no keyword and
every `tail`, `ParseTable` returns `ERROR_UNSUPPORTEDSQL` with a table that
holds only the name.  The result does not depend on `tail`: the decision is
taken at the look-ahead that finds `AS`. -/
theorem C10_create_table_as_unsupported (E : GoEnv) (t tail : String)
    (ht : isPlainIdentifier t.data = true) :
    ParseTable E ("CREATE TABLE " ++ t ++ " AS " ++ tail) 0 =
      Res.ok (some { Name := t }, ERROR_UNSUPPORTEDSQL) := by
  have e : "CREATE TABLE " ++ t ++ " AS " ++ tail =
      String.mk ("CREATE TABLE ".data ++ t.data ++ " AS ".data ++ tail.data) := by
    apply String.ext
    simp only [String.data_append]
  rw [e]
  exact ParseTable_create_table_as E t.data tail.data ht

/-- C10 at Scenario E, `CREATE TABLE t AS SELECT * FROM x`. -/
theorem C10_create_table_as_unsupported_witness :
    isPlainIdentifier "t".data = true ∧
      ParseTable asciiEnv "CREATE TABLE t AS SELECT * FROM x" 0 =
        Res.ok (some { Name := "t" }, ERROR_UNSUPPORTEDSQL) :=
  ⟨by decide, C10_create_table_as_unsupported asciiEnv "t" "SELECT * FROM x" (by decide)⟩

end Sqlite3CreateTableParser

namespace Sqlite3CreateTableParser

open tokenT ErrorCode OrderClause ConflictClause FkAction FkDefType ConstraintType

/-! ## The table is written by `parse` alone -/

theorem keeps_pure {α : Type} (a : α) : KeepsTable (pure a : M α) := fun _ => rfl

theorem keeps_bind {α β : Type} {x : M α} {f : α → M β} (hx : KeepsTable x)
    (hf : ∀ a, KeepsTable (f a)) : KeepsTable (x >>= f) := by
  intro st
  simp only [bind_run]
  apply Res.Forall_bind (x st) _ (hx st)
  intro p hp
  have := hf p.1 p.2
  rw [hp] at this
  exact this

theorem keeps_ite {α : Type} {c : Prop} [Decidable c] {x y : M α}
    (h : c → KeepsTable x) (h1 : ¬ c → KeepsTable y) : KeepsTable (if c then x else y) := by
  by_cases hc : c
  · simp only [hc, if_true]; exact h hc
  · simp only [hc, if_false]; exact h1 hc

theorem keeps_getState : KeepsTable getState := fun _ => rfl

theorem keeps_skip1 : KeepsTable skip1 := fun _ => rfl

theorem keeps_setOffset (n : Nat) : KeepsTable (setOffset n) := fun _ => rfl

theorem keeps_setIdentifier (s : String) : KeepsTable (setIdentifier s) := fun _ => rfl

theorem keeps_goPanic {α : Type} : KeepsTable (goPanic : M α) := fun _ => trivial

theorem keeps_outOfFuel {α : Type} : KeepsTable (outOfFuel : M α) := fun _ => trivial

theorem keeps_peek : KeepsTable peek := by
  intro st
  simp only [peek]
  split
  · rfl
  · trivial

theorem keeps_peek2 : KeepsTable peek2 := by
  intro st
  simp only [peek2]
  split
  · rfl
  · trivial

theorem keeps_next : KeepsTable next := by
  intro st
  simp only [next]
  split
  · rfl
  · trivial

theorem keeps_sliceString (lo : Int) (hi : Nat) : KeepsTable (sliceString lo hi) := by
  intro st
  simp only [sliceString]
  split
  · split
    · rfl
    · rfl
  · trivial

theorem keeps_symbolIsComment (r : Char) : KeepsTable (symbolIsComment r) := by
  unfold symbolIsComment
  repeat' with_reducible first
    | exact keeps_pure _
    | exact keeps_getState
    | exact keeps_skip1
    | exact keeps_setOffset _
    | exact keeps_setIdentifier _
    | exact keeps_goPanic
    | exact keeps_outOfFuel
    | exact keeps_peek
    | exact keeps_peek2
    | exact keeps_next
    | exact keeps_sliceString _ _
    | apply keeps_bind
    | apply keeps_ite
    | intro _
    | split

theorem keeps_lexerCommentLoop (b : Bool) (fuel : Nat) : KeepsTable (lexerCommentLoop b fuel) := by
  induction fuel with
  | zero => exact keeps_outOfFuel
  | succ n ih =>
    unfold lexerCommentLoop
    repeat' with_reducible first
      | exact keeps_pure _
      | exact keeps_getState
      | exact keeps_skip1
      | exact keeps_setOffset _
      | exact keeps_setIdentifier _
      | exact keeps_goPanic
      | exact keeps_outOfFuel
      | exact keeps_peek
      | exact keeps_peek2
      | exact keeps_next
      | exact keeps_sliceString _ _
      | exact ih
      | apply keeps_bind
      | apply keeps_ite
      | intro _
      | split

theorem keeps_lexerComment : KeepsTable (lexerComment) := by
  unfold lexerComment
  repeat' with_reducible first
    | exact keeps_pure _
    | exact keeps_getState
    | exact keeps_skip1
    | exact keeps_setOffset _
    | exact keeps_setIdentifier _
    | exact keeps_goPanic
    | exact keeps_outOfFuel
    | exact keeps_peek
    | exact keeps_peek2
    | exact keeps_next
    | exact keeps_sliceString _ _
    | exact keeps_lexerCommentLoop _ _
    | apply keeps_bind
    | apply keeps_ite
    | intro _
    | split

theorem keeps_lexerPunctuation : KeepsTable (lexerPunctuation) := by
  unfold lexerPunctuation
  repeat' with_reducible first
    | exact keeps_pure _
    | exact keeps_getState
    | exact keeps_skip1
    | exact keeps_setOffset _
    | exact keeps_setIdentifier _
    | exact keeps_goPanic
    | exact keeps_outOfFuel
    | exact keeps_peek
    | exact keeps_peek2
    | exact keeps_next
    | exact keeps_sliceString _ _
    | apply keeps_bind
    | apply keeps_ite
    | intro _
    | split

theorem keeps_lexerAlphaLoop (E : GoEnv) (fuel : Nat) : KeepsTable (lexerAlphaLoop E fuel) := by
  induction fuel with
  | zero => exact keeps_outOfFuel
  | succ n ih =>
    unfold lexerAlphaLoop
    repeat' with_reducible first
      | exact keeps_pure _
      | exact keeps_getState
      | exact keeps_skip1
      | exact keeps_setOffset _
      | exact keeps_setIdentifier _
      | exact keeps_goPanic
      | exact keeps_outOfFuel
      | exact keeps_peek
      | exact keeps_peek2
      | exact keeps_next
      | exact keeps_sliceString _ _
      | exact ih
      | apply keeps_bind
      | apply keeps_ite
      | intro _
      | split

theorem keeps_lexerAlpha (E : GoEnv) : KeepsTable (lexerAlpha E) := by
  unfold lexerAlpha
  repeat' with_reducible first
    | exact keeps_pure _
    | exact keeps_getState
    | exact keeps_skip1
    | exact keeps_setOffset _
    | exact keeps_setIdentifier _
    | exact keeps_goPanic
    | exact keeps_outOfFuel
    | exact keeps_peek
    | exact keeps_peek2
    | exact keeps_next
    | exact keeps_sliceString _ _
    | exact keeps_lexerAlphaLoop E _
    | apply keeps_bind
    | apply keeps_ite
    | intro _
    | split

theorem keeps_lexerEscapeLoop (e c : Char) (fuel : Nat) : KeepsTable (lexerEscapeLoop e c fuel) := by
  induction fuel generalizing c with
  | zero => exact keeps_outOfFuel
  | succ n ih =>
    unfold lexerEscapeLoop
    repeat' with_reducible first
      | exact keeps_pure _
      | exact keeps_getState
      | exact keeps_skip1
      | exact keeps_setOffset _
      | exact keeps_setIdentifier _
      | exact keeps_goPanic
      | exact keeps_outOfFuel
      | exact keeps_peek
      | exact keeps_peek2
      | exact keeps_next
      | exact keeps_sliceString _ _
      | exact ih _
      | apply keeps_bind
      | apply keeps_ite
      | intro _
      | split

theorem keeps_lexerEscape : KeepsTable (lexerEscape) := by
  unfold lexerEscape
  repeat' with_reducible first
    | exact keeps_pure _
    | exact keeps_getState
    | exact keeps_skip1
    | exact keeps_setOffset _
    | exact keeps_setIdentifier _
    | exact keeps_goPanic
    | exact keeps_outOfFuel
    | exact keeps_peek
    | exact keeps_peek2
    | exact keeps_next
    | exact keeps_sliceString _ _
    | exact keeps_lexerEscapeLoop _ _ _
    | apply keeps_bind
    | apply keeps_ite
    | intro _
    | split

theorem keeps_lexerNextLoop (E : GoEnv) (fuel : Nat) : KeepsTable (lexerNextLoop E fuel) := by
  induction fuel with
  | zero => exact keeps_outOfFuel
  | succ n ih =>
    unfold lexerNextLoop
    repeat' with_reducible first
      | exact keeps_pure _
      | exact keeps_getState
      | exact keeps_skip1
      | exact keeps_setOffset _
      | exact keeps_setIdentifier _
      | exact keeps_goPanic
      | exact keeps_outOfFuel
      | exact keeps_peek
      | exact keeps_peek2
      | exact keeps_next
      | exact keeps_sliceString _ _
      | exact ih
      | exact keeps_symbolIsComment _
      | exact keeps_lexerComment
      | exact keeps_lexerPunctuation
      | exact keeps_lexerAlpha E
      | exact keeps_lexerEscape
      | apply keeps_bind
      | apply keeps_ite
      | intro _
      | split

theorem keeps_lexerNext (E : GoEnv) : KeepsTable (lexerNext E) := by
  unfold lexerNext
  repeat' with_reducible first
    | exact keeps_pure _
    | exact keeps_getState
    | exact keeps_skip1
    | exact keeps_setOffset _
    | exact keeps_setIdentifier _
    | exact keeps_goPanic
    | exact keeps_outOfFuel
    | exact keeps_peek
    | exact keeps_peek2
    | exact keeps_next
    | exact keeps_sliceString _ _
    | exact keeps_lexerNextLoop E _
    | apply keeps_bind
    | apply keeps_ite
    | intro _
    | split

theorem keeps_lexerPeek (E : GoEnv) : KeepsTable (lexerPeek E) := by
  unfold lexerPeek
  repeat' with_reducible first
    | exact keeps_pure _
    | exact keeps_getState
    | exact keeps_skip1
    | exact keeps_setOffset _
    | exact keeps_setIdentifier _
    | exact keeps_goPanic
    | exact keeps_outOfFuel
    | exact keeps_peek
    | exact keeps_peek2
    | exact keeps_next
    | exact keeps_sliceString _ _
    | exact keeps_lexerNext E
    | apply keeps_bind
    | apply keeps_ite
    | intro _
    | split

theorem keeps_parseOptionalOrder (E : GoEnv) : KeepsTable (parseOptionalOrder E) := by
  unfold parseOptionalOrder
  repeat' with_reducible first
    | exact keeps_pure _
    | exact keeps_getState
    | exact keeps_skip1
    | exact keeps_setOffset _
    | exact keeps_setIdentifier _
    | exact keeps_goPanic
    | exact keeps_outOfFuel
    | exact keeps_peek
    | exact keeps_peek2
    | exact keeps_next
    | exact keeps_sliceString _ _
    | exact keeps_lexerNext E
    | exact keeps_lexerPeek E
    | apply keeps_bind
    | apply keeps_ite
    | intro _
    | split

theorem keeps_parseOptionalConflictClause (E : GoEnv) : KeepsTable (parseOptionalConflictClause E) := by
  unfold parseOptionalConflictClause
  repeat' with_reducible first
    | exact keeps_pure _
    | exact keeps_getState
    | exact keeps_skip1
    | exact keeps_setOffset _
    | exact keeps_setIdentifier _
    | exact keeps_goPanic
    | exact keeps_outOfFuel
    | exact keeps_peek
    | exact keeps_peek2
    | exact keeps_next
    | exact keeps_sliceString _ _
    | exact keeps_lexerNext E
    | exact keeps_lexerPeek E
    | apply keeps_bind
    | apply keeps_ite
    | intro _
    | split

theorem keeps_fkColumnsLoop (E : GoEnv) (token : tokenT) (fk : ForeignKey) (fuel : Nat) : KeepsTable (fkColumnsLoop E token fk fuel) := by
  induction fuel generalizing token fk with
  | zero => exact keeps_outOfFuel
  | succ n ih =>
    unfold fkColumnsLoop
    repeat' with_reducible first
      | exact keeps_pure _
      | exact keeps_getState
      | exact keeps_skip1
      | exact keeps_setOffset _
      | exact keeps_setIdentifier _
      | exact keeps_goPanic
      | exact keeps_outOfFuel
      | exact keeps_peek
      | exact keeps_peek2
      | exact keeps_next
      | exact keeps_sliceString _ _
      | exact ih _ _
      | exact keeps_lexerNext E
      | exact keeps_lexerPeek E
      | apply keeps_bind
      | apply keeps_ite
      | intro _
      | split

set_option maxHeartbeats 2000000 in
theorem keeps_fkClausesLoop (E : GoEnv) (fk : ForeignKey) (fuel : Nat) : KeepsTable (fkClausesLoop E fk fuel) := by
  induction fuel generalizing fk with
  | zero => exact keeps_outOfFuel
  | succ n ih =>
    unfold fkClausesLoop
    repeat' with_reducible first
      | exact keeps_pure _
      | exact keeps_getState
      | exact keeps_skip1
      | exact keeps_setOffset _
      | exact keeps_setIdentifier _
      | exact keeps_goPanic
      | exact keeps_outOfFuel
      | exact keeps_peek
      | exact keeps_peek2
      | exact keeps_next
      | exact keeps_sliceString _ _
      | exact ih _
      | exact keeps_lexerNext E
      | exact keeps_lexerPeek E
      | apply keeps_bind
      | apply keeps_ite
      | intro _
      | split

theorem keeps_parseForeignKeyClause (E : GoEnv) : KeepsTable (parseForeignKeyClause E) := by
  unfold parseForeignKeyClause
  repeat' with_reducible first
    | exact keeps_pure _
    | exact keeps_getState
    | exact keeps_skip1
    | exact keeps_setOffset _
    | exact keeps_setIdentifier _
    | exact keeps_goPanic
    | exact keeps_outOfFuel
    | exact keeps_peek
    | exact keeps_peek2
    | exact keeps_next
    | exact keeps_sliceString _ _
    | exact keeps_lexerNext E
    | exact keeps_lexerPeek E
    | exact keeps_fkColumnsLoop E _ _ _
    | exact keeps_fkClausesLoop E _ _
    | apply keeps_bind
    | apply keeps_ite
    | intro _
    | split

theorem keeps_parseIdxColumn (E : GoEnv) : KeepsTable (parseIdxColumn E) := by
  unfold parseIdxColumn
  repeat' with_reducible first
    | exact keeps_pure _
    | exact keeps_getState
    | exact keeps_skip1
    | exact keeps_setOffset _
    | exact keeps_setIdentifier _
    | exact keeps_goPanic
    | exact keeps_outOfFuel
    | exact keeps_peek
    | exact keeps_peek2
    | exact keeps_next
    | exact keeps_sliceString _ _
    | exact keeps_lexerNext E
    | exact keeps_lexerPeek E
    | exact keeps_parseOptionalOrder E
    | apply keeps_bind
    | apply keeps_ite
    | intro _
    | split

theorem keeps_idxColumnsLoop (E : GoEnv) (token : tokenT) (c : TableConstraint) (fuel : Nat) : KeepsTable (idxColumnsLoop E token c fuel) := by
  induction fuel generalizing token c with
  | zero => exact keeps_outOfFuel
  | succ n ih =>
    unfold idxColumnsLoop
    repeat' with_reducible first
      | exact keeps_pure _
      | exact keeps_getState
      | exact keeps_skip1
      | exact keeps_setOffset _
      | exact keeps_setIdentifier _
      | exact keeps_goPanic
      | exact keeps_outOfFuel
      | exact keeps_peek
      | exact keeps_peek2
      | exact keeps_next
      | exact keeps_sliceString _ _
      | exact ih _ _
      | exact keeps_lexerNext E
      | exact keeps_lexerPeek E
      | exact keeps_parseIdxColumn E
      | apply keeps_bind
      | apply keeps_ite
      | intro _
      | split

theorem keeps_fkNamesLoop (E : GoEnv) (token : tokenT) (c : TableConstraint) (fuel : Nat) : KeepsTable (fkNamesLoop E token c fuel) := by
  induction fuel generalizing token c with
  | zero => exact keeps_outOfFuel
  | succ n ih =>
    unfold fkNamesLoop
    repeat' with_reducible first
      | exact keeps_pure _
      | exact keeps_getState
      | exact keeps_skip1
      | exact keeps_setOffset _
      | exact keeps_setIdentifier _
      | exact keeps_goPanic
      | exact keeps_outOfFuel
      | exact keeps_peek
      | exact keeps_peek2
      | exact keeps_next
      | exact keeps_sliceString _ _
      | exact ih _ _
      | exact keeps_lexerNext E
      | exact keeps_lexerPeek E
      | apply keeps_bind
      | apply keeps_ite
      | intro _
      | split

set_option maxHeartbeats 2000000 in
theorem keeps_parseTableConstraint (E : GoEnv) : KeepsTable (parseTableConstraint E) := by
  unfold parseTableConstraint
  repeat' with_reducible first
    | exact keeps_pure _
    | exact keeps_getState
    | exact keeps_skip1
    | exact keeps_setOffset _
    | exact keeps_setIdentifier _
    | exact keeps_goPanic
    | exact keeps_outOfFuel
    | exact keeps_peek
    | exact keeps_peek2
    | exact keeps_next
    | exact keeps_sliceString _ _
    | exact keeps_lexerNext E
    | exact keeps_lexerPeek E
    | exact keeps_parseIdxColumn E
    | exact keeps_idxColumnsLoop E _ _ _
    | exact keeps_fkNamesLoop E _ _ _
    | exact keeps_parseOptionalConflictClause E
    | exact keeps_parseForeignKeyClause E
    | apply keeps_bind
    | apply keeps_ite
    | intro _
    | split

theorem keeps_parseLiteral (E : GoEnv) : KeepsTable (parseLiteral E) := by
  unfold parseLiteral
  repeat' with_reducible first
    | exact keeps_pure _
    | exact keeps_getState
    | exact keeps_skip1
    | exact keeps_setOffset _
    | exact keeps_setIdentifier _
    | exact keeps_goPanic
    | exact keeps_outOfFuel
    | exact keeps_peek
    | exact keeps_peek2
    | exact keeps_next
    | exact keeps_sliceString _ _
    | exact keeps_lexerNext E
    | exact keeps_lexerPeek E
    | apply keeps_bind
    | apply keeps_ite
    | intro _
    | split

theorem keeps_columnTypeLoop (E : GoEnv) (offset : Int) (fuel : Nat) : KeepsTable (columnTypeLoop E offset fuel) := by
  induction fuel generalizing offset with
  | zero => exact keeps_outOfFuel
  | succ n ih =>
    unfold columnTypeLoop
    repeat' with_reducible first
      | exact keeps_pure _
      | exact keeps_getState
      | exact keeps_skip1
      | exact keeps_setOffset _
      | exact keeps_setIdentifier _
      | exact keeps_goPanic
      | exact keeps_outOfFuel
      | exact keeps_peek
      | exact keeps_peek2
      | exact keeps_next
      | exact keeps_sliceString _ _
      | exact ih _
      | exact keeps_lexerNext E
      | exact keeps_lexerPeek E
      | apply keeps_bind
      | apply keeps_ite
      | intro _
      | split

theorem keeps_columnLengthLoop (c : Char) (fuel : Nat) : KeepsTable (columnLengthLoop c fuel) := by
  induction fuel generalizing c with
  | zero => exact keeps_outOfFuel
  | succ n ih =>
    unfold columnLengthLoop
    repeat' with_reducible first
      | exact keeps_pure _
      | exact keeps_getState
      | exact keeps_skip1
      | exact keeps_setOffset _
      | exact keeps_setIdentifier _
      | exact keeps_goPanic
      | exact keeps_outOfFuel
      | exact keeps_peek
      | exact keeps_peek2
      | exact keeps_next
      | exact keeps_sliceString _ _
      | exact ih _
      | apply keeps_bind
      | apply keeps_ite
      | intro _
      | split

theorem keeps_parseColumnType (E : GoEnv) (column : Column) : KeepsTable (parseColumnType E column) := by
  unfold parseColumnType
  repeat' with_reducible first
    | exact keeps_pure _
    | exact keeps_getState
    | exact keeps_skip1
    | exact keeps_setOffset _
    | exact keeps_setIdentifier _
    | exact keeps_goPanic
    | exact keeps_outOfFuel
    | exact keeps_peek
    | exact keeps_peek2
    | exact keeps_next
    | exact keeps_sliceString _ _
    | exact keeps_lexerNext E
    | exact keeps_lexerPeek E
    | exact keeps_columnTypeLoop E _ _
    | exact keeps_columnLengthLoop _ _
    | apply keeps_bind
    | apply keeps_ite
    | intro _
    | split

set_option maxHeartbeats 2000000 in
theorem keeps_columnConstraintCase (E : GoEnv) (token : tokenT) (column : Column) : KeepsTable (columnConstraintCase E token column) := by
  unfold columnConstraintCase
  repeat' with_reducible first
    | exact keeps_pure _
    | exact keeps_getState
    | exact keeps_skip1
    | exact keeps_setOffset _
    | exact keeps_setIdentifier _
    | exact keeps_goPanic
    | exact keeps_outOfFuel
    | exact keeps_peek
    | exact keeps_peek2
    | exact keeps_next
    | exact keeps_sliceString _ _
    | exact keeps_lexerNext E
    | exact keeps_lexerPeek E
    | exact keeps_parseOptionalOrder E
    | exact keeps_parseOptionalConflictClause E
    | exact keeps_parseLiteral E
    | exact keeps_parseForeignKeyClause E
    | apply keeps_bind
    | apply keeps_ite
    | intro _
    | split

theorem keeps_columnConstraintsLoop (E : GoEnv) (column : Column) (fuel : Nat) : KeepsTable (columnConstraintsLoop E column fuel) := by
  induction fuel generalizing column with
  | zero => exact keeps_outOfFuel
  | succ n ih =>
    unfold columnConstraintsLoop
    repeat' with_reducible first
      | exact keeps_pure _
      | exact keeps_getState
      | exact keeps_skip1
      | exact keeps_setOffset _
      | exact keeps_setIdentifier _
      | exact keeps_goPanic
      | exact keeps_outOfFuel
      | exact keeps_peek
      | exact keeps_peek2
      | exact keeps_next
      | exact keeps_sliceString _ _
      | exact ih _
      | exact keeps_lexerNext E
      | exact keeps_lexerPeek E
      | exact keeps_columnConstraintCase E _ _
      | apply keeps_bind
      | apply keeps_ite
      | intro _
      | split

theorem keeps_parseColumnConstraints (E : GoEnv) (column : Column) : KeepsTable (parseColumnConstraints E column) := by
  unfold parseColumnConstraints
  repeat' with_reducible first
    | exact keeps_pure _
    | exact keeps_getState
    | exact keeps_skip1
    | exact keeps_setOffset _
    | exact keeps_setIdentifier _
    | exact keeps_goPanic
    | exact keeps_outOfFuel
    | exact keeps_peek
    | exact keeps_peek2
    | exact keeps_next
    | exact keeps_sliceString _ _
    | exact keeps_columnConstraintsLoop E _ _
    | apply keeps_bind
    | apply keeps_ite
    | intro _
    | split

theorem keeps_parseColumn (E : GoEnv) : KeepsTable (parseColumn E) := by
  unfold parseColumn
  repeat' with_reducible first
    | exact keeps_pure _
    | exact keeps_getState
    | exact keeps_skip1
    | exact keeps_setOffset _
    | exact keeps_setIdentifier _
    | exact keeps_goPanic
    | exact keeps_outOfFuel
    | exact keeps_peek
    | exact keeps_peek2
    | exact keeps_next
    | exact keeps_sliceString _ _
    | exact keeps_lexerNext E
    | exact keeps_lexerPeek E
    | exact keeps_parseColumnType E _
    | exact keeps_parseColumnConstraints E _
    | apply keeps_bind
    | apply keeps_ite
    | intro _
    | split

end Sqlite3CreateTableParser

namespace Sqlite3CreateTableParser

open tokenT ErrorCode OrderClause ConflictClause FkAction FkDefType ConstraintType

/-! ## Keywords -/

theorem toLower_ascii_facts : ∀ n, n < 128 → (Char.ofNat n).toLower.toNat < 128 := by decide

theorem toLower_fixed {c : Char} (h : ¬ c.toNat < 128) : c.toLower = c := by
  unfold Char.toLower
  simp only
  split
  · omega
  · rfl

/-- Without entries beyond ASCII, `unicode.ToLower` is the folding of the
ASCII letters. -/
theorem unicodeToLower_asciiEnv (c : Char) : unicodeToLower asciiEnv c = c.toLower := by
  unfold unicodeToLower
  split
  · rfl
  · rename_i h
    rw [toLower_fixed h]
    rfl

theorem stringsToLower_asciiEnv (s : String) :
    stringsToLower asciiEnv s = String.mk (s.data.map Char.toLower) := by
  unfold stringsToLower
  congr 1
  exact List.map_congr_left fun c _ => unicodeToLower_asciiEnv c

theorem toLower_idem_facts : ∀ n, n < 128 →
    (Char.ofNat n).toLower.toLower = (Char.ofNat n).toLower := by decide

theorem toLower_idem (c : Char) : c.toLower.toLower = c.toLower := by
  by_cases h : c.toNat < 128
  · exact ascii_forall (P := fun c => c.toLower.toLower = c.toLower) toLower_idem_facts c h
  · rw [toLower_fixed h, toLower_fixed h]

/-- The comparison does not see the case of ASCII letters: the word and its
folding give the same token. -/
theorem lexerKeyword_fold (s : List Char) (n : Int) :
    lexerKeyword asciiEnv (String.mk s) n =
      lexerKeyword asciiEnv (String.mk (s.map Char.toLower)) n := by
  have e : stringsToLower asciiEnv (String.mk s) =
      stringsToLower asciiEnv (String.mk (s.map Char.toLower)) := by
    rw [stringsToLower_asciiEnv, stringsToLower_asciiEnv]
    congr 1
    simp only [List.map_map]
    exact List.map_congr_left fun c _ => (toLower_idem c).symm
  have h : ∀ w, strNoCaseNcmp asciiEnv (String.mk s) w n =
      strNoCaseNcmp asciiEnv (String.mk (s.map Char.toLower)) w n := by
    intro w
    unfold strNoCaseNcmp
    rw [e]
  have hk : ∀ l, keywordCase asciiEnv (String.mk s) n l =
      keywordCase asciiEnv (String.mk (s.map Char.toLower)) n l := by
    intro l
    induction l with
    | nil => rfl
    | cons p rest ih =>
      obtain ⟨w, t⟩ := p
      simp only [keywordCase, h, ih]
  unfold lexerKeyword
  simp only [hk]

set_option maxRecDepth 100000 in
/-- Each reserved word, written in lower case, gives its token. -/
theorem lexerKeyword_reserved :
    ∀ p ∈ reservedWords, lexerKeyword asciiEnv p.1 (p.1.data.length : Int) = some p.2 := by
  decide!

theorem caseVariant_ascii {s : List Char} {w : List Char} (hw : AsciiText w)
    (h : s.map Char.toLower = w) : AsciiText s := by
  intro c hc
  by_contra hn
  have : c.toLower ∈ s.map Char.toLower := List.mem_map_of_mem _ hc
  rw [toLower_fixed hn, h] at this
  exact hn (hw c this)

/-- A case variant of a reserved word gives the token of the word, whatever
the Unicode tables. -/
theorem lexerKeyword_caseVariant (E : GoEnv) (w : String) (t : tokenT) (s : List Char)
    (hmem : (w, t) ∈ reservedWords) (hs : s.map Char.toLower = w.data) :
    lexerKeyword E (String.mk s) (goLen (String.mk s) : Int) = some t := by
  have hw : AsciiText w.data := by
    have : ∀ p ∈ reservedWords, AsciiText p.1.data := by decide
    exact this (w, t) hmem
  have hascii : AsciiText s := caseVariant_ascii hw hs
  have hlen : s.length = w.data.length := by
    rw [← hs, List.length_map]
  rw [goLen_ascii s hascii, lexerKeyword_ascii E asciiEnv _ hascii, lexerKeyword_fold, hs, hlen]
  exact lexerKeyword_reserved (w, t) hmem

theorem utf8_ascii_facts : ∀ n, n < 128 →
    String.utf8EncodeChar (Char.ofNat n) = [(Char.ofNat n).val.toUInt8] := by decide

theorem byte_toNat_facts : ∀ n, n < 128 → ((Char.ofNat n).val.toUInt8).toNat = n := by decide

theorem goBytes_ascii (l : List Char) (h : AsciiText l) :
    goBytes (String.mk l) = l.map fun c => c.val.toUInt8 := by
  unfold goBytes
  induction l with
  | nil => rfl
  | cons c cs ih =>
    have hc : String.utf8EncodeChar c = [c.val.toUInt8] :=
      ascii_forall (P := fun c => String.utf8EncodeChar c = [c.val.toUInt8]) utf8_ascii_facts c
        (h c (List.mem_cons_self _ _))
    have := ih fun x hx => h x (List.mem_cons_of_mem _ hx)
    simp only [List.flatMap_cons, hc, List.map_cons, List.singleton_append] at this ⊢
    rw [this]

theorem ofNat_toNat_facts : ∀ n, n < 128 → (Char.ofNat n).toNat = n := by decide

theorem byte_inj {c d : Char} (hc : c.toNat < 128) (hd : d.toNat < 128)
    (h : c.val.toUInt8 = d.val.toUInt8) : c = d := by
  have e1 : c.val.toUInt8.toNat = c.toNat := by
    have := ascii_forall (P := fun c => c.val.toUInt8.toNat = c.toNat)
      (fun n hn => by
        have h1 := byte_toNat_facts n hn
        have h2 : (Char.ofNat n).toNat = n := ofNat_toNat_facts n hn
        show (Char.ofNat n).val.toUInt8.toNat = (Char.ofNat n).toNat
        rw [h1, h2]) c hc
    exact this
  have e2 : d.val.toUInt8.toNat = d.toNat := by
    have := ascii_forall (P := fun c => c.val.toUInt8.toNat = c.toNat)
      (fun n hn => by
        have h1 := byte_toNat_facts n hn
        have h2 : (Char.ofNat n).toNat = n := ofNat_toNat_facts n hn
        show (Char.ofNat n).val.toUInt8.toNat = (Char.ofNat n).toNat
        rw [h1, h2]) d hd
    exact this
  have e : c.toNat = d.toNat := by rw [← e1, ← e2, h]
  rw [← Char.ofNat_toNat c, ← Char.ofNat_toNat d, e]

theorem bytes_inj : ∀ (l1 l2 : List Char), AsciiText l1 → AsciiText l2 →
    (l1.map fun c => c.val.toUInt8) = (l2.map fun c => c.val.toUInt8) → l1 = l2 := by
  intro l1
  induction l1 with
  | nil =>
    intro l2 _ _ h
    cases l2 with
    | nil => rfl
    | cons _ _ => simp at h
  | cons c cs ih =>
    intro l2 h1 h2 h
    cases l2 with
    | nil => simp at h
    | cons d ds =>
      simp only [List.map_cons, List.cons.injEq] at h
      rw [byte_inj (h1 c (List.mem_cons_self _ _)) (h2 d (List.mem_cons_self _ _)) h.1,
        ih ds (fun x hx => h1 x (List.mem_cons_of_mem _ hx))
          (fun x hx => h2 x (List.mem_cons_of_mem _ hx)) h.2]

/-- Two byte strings of the same length that differ are told apart by the
loop of `strNoCaseNcmp`, when the second holds no zero byte. -/
theorem strNoCaseNcmpLoop_miss : ∀ (s1 s2 p1 p2 : List UInt8) (n i : Nat),
    p1.length = i → p2.length = i → s1.length = n → s2.length = n → s1 ≠ s2 → (0 : UInt8) ∉ s2 →
    strNoCaseNcmpLoop (p1 ++ s1) (p2 ++ s2) n i = some 1 := by
  intro s1
  induction s1 with
  | nil =>
    intro s2 p1 p2 n i _ _ h1 h2 hne _
    exfalso
    apply hne
    simp only [List.length_nil] at h1
    subst h1
    exact (List.length_eq_zero.1 h2).symm
  | cons x s1 ih =>
    intro s2 p1 p2 n i hp1 hp2 h1 h2 hne hz
    cases s2 with
    | nil =>
      simp only [List.length_cons, List.length_nil] at h1 h2
      omega
    | cons y s2 =>
      obtain ⟨m, rfl⟩ : ∃ m, n = m + 1 := ⟨s1.length, by simpa using h1.symm⟩
      have g1 : (p1 ++ x :: s1).get? i = some x := by
        rw [← hp1, List.get?_eq_getElem?, List.getElem?_append_right (le_refl _)]
        simp
      have g2 : (p2 ++ y :: s2).get? i = some y := by
        rw [← hp2, List.get?_eq_getElem?, List.getElem?_append_right (le_refl _)]
        simp
      have hlt : i < (p2 ++ y :: s2).length := by
        simp only [List.length_append, List.length_cons]
        omega
      simp only [strNoCaseNcmpLoop, hlt, if_true, g1, g2, Option.some.injEq]
      by_cases hxy : x = y
      · have hx0 : x ≠ 0 := by
          rw [hxy]
          intro h0
          exact hz (h0 ▸ List.mem_cons_self _ _)
        have e1 : p1 ++ x :: s1 = (p1 ++ [x]) ++ s1 := by simp
        have e2 : p2 ++ y :: s2 = (p2 ++ [y]) ++ s2 := by simp
        subst hxy
        simp only [if_true, hx0, if_false]
        rw [e1, e2]
        exact ih s2 (p1 ++ [x]) (p2 ++ [x]) m (i + 1) (by simp [hp1]) (by simp [hp2])
          (by simpa using h1) (by simpa using h2)
          (fun h => hne (by rw [h]))
          (fun h => hz (List.mem_cons_of_mem _ h))
      · simp only [hxy, if_false]

theorem asciiText_toLower {s : List Char} (h : AsciiText s) : AsciiText (s.map Char.toLower) := by
  intro c hc
  obtain ⟨x, hx, rfl⟩ := List.mem_map.1 hc
  exact ascii_forall (P := fun c => c.toLower.toNat < 128) toLower_ascii_facts x (h x hx)

theorem reserved_facts : ∀ p ∈ reservedWords,
    AsciiText p.1.data ∧ p.1.data.map Char.toLower = p.1.data ∧ '\x00' ∉ p.1.data := by
  decide

/-- An ASCII word that is no case variant of the reserved word `w` of the
same length is told apart from it by `strNoCaseNcmp`. -/
theorem strNoCaseNcmp_miss (s : List Char) (w : String) (t : tokenT) (hs : AsciiText s)
    (hw : (w, t) ∈ reservedWords) (hlen : w.data.length = s.length)
    (hne : s.map Char.toLower ≠ w.data) :
    strNoCaseNcmp asciiEnv (String.mk s) w (s.length : Int) = some 1 := by
  obtain ⟨hw1, hw2, hw3⟩ := reserved_facts (w, t) hw
  have hpos : 0 < s.length := by
    rw [← hlen]
    have : ∀ p ∈ reservedWords, 0 < p.1.data.length := by decide
    exact this (w, t) hw
  have hn : ¬ ((s.length : Int) ≤ 0) := by omega
  have e1 : stringsToLower asciiEnv w = String.mk w.data := by
    rw [stringsToLower_asciiEnv, hw2]
  unfold strNoCaseNcmp
  simp only [hn, if_false, Int.toNat_ofNat]
  rw [stringsToLower_asciiEnv, e1, goBytes_ascii _ (asciiText_toLower hs), goBytes_ascii _ hw1]
  have := strNoCaseNcmpLoop_miss ((s.map Char.toLower).map fun c => c.val.toUInt8)
    (w.data.map fun c => c.val.toUInt8) [] [] s.length 0 rfl rfl (by simp) (by simp [hlen])
    (fun h => hne (bytes_inj _ _ (asciiText_toLower hs) hw1 h))
    (by
      intro h0
      obtain ⟨c, hc, hc0⟩ := List.mem_map.1 h0
      have : c = '\x00' := byte_inj (hw1 c hc) (by decide) (by rw [hc0]; rfl)
      exact hw3 (this ▸ hc))
  simpa using this

theorem keywordCase_miss (ptr : String) (n : Int) (l : List (String × tokenT))
    (h : ∀ p ∈ l, strNoCaseNcmp asciiEnv ptr p.1 n = some 1) :
    keywordCase asciiEnv ptr n l = some tokIDENTIFIER := by
  induction l with
  | nil => rfl
  | cons p rest ih =>
    obtain ⟨w, t⟩ := p
    have h1 := h (w, t) (List.mem_cons_self _ _)
    simp only at h1
    simp only [keywordCase, h1, one_ne_zero, if_false]
    exact ih fun q hq => h q (List.mem_cons_of_mem _ hq)

theorem keywordCase_miss_list (s : List Char) (hs : AsciiText s)
    (hmiss : ∀ w t, (w, t) ∈ reservedWords → s.map Char.toLower ≠ w.data)
    (l : List (String × tokenT))
    (hl : ∀ p ∈ l, p ∈ reservedWords ∧ (p.1.data.length : Int) = (s.length : Int)) :
    keywordCase asciiEnv (String.mk s) (s.length : Int) l = some tokIDENTIFIER := by
  apply keywordCase_miss
  intro p hp
  obtain ⟨h1, h2⟩ := hl p hp
  exact strNoCaseNcmp_miss s p.1 p.2 hs h1 (by exact_mod_cast h2) (hmiss p.1 p.2 h1)

/-- An ASCII word that is no case variant of a reserved word is an
identifier. -/
theorem lexerKeyword_miss (s : List Char) (hs : AsciiText s)
    (hmiss : ∀ w t, (w, t) ∈ reservedWords → s.map Char.toLower ≠ w.data) :
    lexerKeyword asciiEnv (String.mk s) (s.length : Int) = some tokIDENTIFIER := by
  unfold lexerKeyword
  repeat' split
  all_goals first
    | rfl
    | (rename_i h
       exact keywordCase_miss_list s hs hmiss _ (by
        rw [h]
        decide))

end Sqlite3CreateTableParser

namespace Sqlite3CreateTableParser

open tokenT ErrorCode OrderClause ConflictClause FkAction FkDefType ConstraintType

/-! ## Reading a text token by token -/

theorem At.drop {B : List Char} {k : Nat} (x : List Char) {T : List Char}
    (h : At B k (x ++ T)) : At B (k + x.length) T := by
  obtain ⟨pre, hB, hk⟩ := h
  exact ⟨pre ++ x, by simpa using hB, by simp [hk]⟩

theorem At.length_eq {B : List Char} {k : Nat} {T : List Char} (h : At B k T) :
    B.length = k + T.length := by
  obtain ⟨pre, hB, hk⟩ := h
  rw [hB, hk, List.length_append]

theorem At.of_eq {B : List Char} {k : Nat} {T T' : List Char} (h : At B k T) (e : T = T') :
    At B k T' := e ▸ h

theorem startsDelim_cons {d : Char} (r : List Char) (hd : isDelimiter d = true) :
    StartsDelim (d :: r) := ⟨d, r, rfl, hd⟩

/-- A keyword after blank runes, in a text that goes on with a rune that ends
the word. -/
theorem step_keyword (E : GoEnv) {B : List Char} {S : Int} (hS : (B.length : Int) ≤ S)
    {k : Nat} (ws w rest : List Char) (t : tokenT) (hat : At B k (ws ++ (w ++ rest)))
    (hws : isBlank ws = true) (hw : isAsciiWord w = true) (hrest : StartsDelim rest)
    (hkw : lexerKeyword asciiEnv (String.mk w) (w.length : Int) = some t)
    (ht : t ≠ tokIDENTIFIER) :
    (∀ id tb, lexerNext E ⟨B, S, k, id, tb⟩ =
      Res.ok (t, ⟨B, S, k + ws.length + w.length, id, tb⟩)) ∧
      At B (k + ws.length + w.length) rest := by
  obtain ⟨d, r, rfl, hd⟩ := hrest
  obtain ⟨pre, hB, hk⟩ := hat
  refine ⟨fun id tb => lexerNext_keyword E pre ws w d r t k S id tb (by simpa using hB) hk hS hws
    hw hd hkw ht, ⟨pre ++ ws ++ w, by simpa using hB, by simp [hk, Nat.add_assoc]⟩⟩

/-- An unquoted identifier after blank runes. -/
theorem step_ident (E : GoEnv) {B : List Char} {S : Int} (hS : (B.length : Int) ≤ S)
    {k : Nat} (ws w rest : List Char) (hat : At B k (ws ++ (w ++ rest)))
    (hws : isBlank ws = true) (hw : isPlainIdentifier w = true) (hrest : StartsDelim rest) :
    (∀ id tb, lexerNext E ⟨B, S, k, id, tb⟩ =
      Res.ok (tokIDENTIFIER, ⟨B, S, k + ws.length + w.length, String.mk w, tb⟩)) ∧
      At B (k + ws.length + w.length) rest := by
  obtain ⟨d, r, rfl, hd⟩ := hrest
  obtain ⟨pre, hB, hk⟩ := hat
  refine ⟨fun id tb => lexerNext_ident E pre ws w d r k S id tb (by simpa using hB) hk hS hws
    hw hd, ⟨pre ++ ws ++ w, by simpa using hB, by simp [hk, Nat.add_assoc]⟩⟩

/-- A punctuation mark after blank runes. -/
theorem step_punct (E : GoEnv) {B : List Char} {S : Int} (hS : (B.length : Int) ≤ S)
    {k : Nat} (ws : List Char) (c : Char) (rest : List Char) (t : tokenT)
    (hat : At B k (ws ++ c :: rest)) (hws : isBlank ws = true)
    (hc : symbolIsPunctuation c = true) (ht : punctToken c = t) :
    (∀ id tb, lexerNext E ⟨B, S, k, id, tb⟩ =
      Res.ok (t, ⟨B, S, k + ws.length + 1, id, tb⟩)) ∧ At B (k + ws.length + 1) rest := by
  obtain ⟨pre, hB, hk⟩ := hat
  refine ⟨fun id tb => ?_, ⟨pre ++ ws ++ [c], by simpa using hB, by simp [hk, Nat.add_assoc]⟩⟩
  rw [← ht]
  exact lexerNext_punct E pre ws c rest k S id tb (by simpa using hB) hk hS hws hc

/-- One clause ` ON DELETE action` or ` ON UPDATE action`: a round of the
loop of `parseForeignKeyClause` reads it and stores the action. -/
theorem fkClausesLoop_onClause (E : GoEnv) {B : List Char} {S : Int}
    (hS : (B.length : Int) ≤ S) (u : Bool) (a : FkAction) (ha : a ≠ FKACTION_NONE)
    (tail : List Char) (htail : StartsDelim tail) {k : Nat}
    (hat : At B k (renderOnClause (u, a) ++ tail)) (fk : ForeignKey) (fuel : Nat)
    (id : String) (tb : Table) :
    fkClausesLoop E fk (fuel + 1) ⟨B, S, k, id, tb⟩ =
        fkClausesLoop E (setFkAction u a fk) fuel
          ⟨B, S, k + (renderOnClause (u, a)).length, id, tb⟩ ∧
      At B (k + (renderOnClause (u, a)).length) tail := by
  cases u <;> cases a
  · exact absurd rfl ha
  · have h0 : At B k (' ' :: ("ON".data ++ (' ' :: ("DELETE".data ++ (' ' :: ("SET".data ++ (' ' :: ("NULL".data ++ (tail))))))))) :=
      hat.of_eq (by simp [renderOnClause, actionText])
    obtain ⟨s1, a1⟩ := step_keyword E hS [' '] "ON".data _ tokON h0
      (by decide) (by decide) (startsDelim_cons _ (by decide)) (by decide) (by decide)
    obtain ⟨s2, a2⟩ := step_keyword E hS [' '] "DELETE".data _ tokDELETE a1
      (by decide) (by decide) (startsDelim_cons _ (by decide)) (by decide) (by decide)
    obtain ⟨s3, a3⟩ := step_keyword E hS [' '] "SET".data _ tokSET a2
      (by decide) (by decide) (startsDelim_cons _ (by decide)) (by decide) (by decide)
    obtain ⟨s4, a4⟩ := step_keyword E hS [' '] "NULL".data _ tokNULL a3
      (by decide) (by decide) htail (by decide) (by decide)
    have e : k + (renderOnClause (false, FKACTION_SETNULL)).length = k + [' '].length + "ON".data.length + [' '].length + "DELETE".data.length + [' '].length + "SET".data.length + [' '].length + "NULL".data.length := by
      simp [renderOnClause, actionText, Nat.add_assoc]
    rw [e]
    refine ⟨?_, a4⟩
    simp only [fkClausesLoop, bind_run, lexerPeek_of_next E (s1 _ _), Res.bind_ok, s1, s2, s3, s4,
      reduceCtorEq, true_or, or_true, or_false, false_or, if_true, if_false, ne_eq,
      not_true_eq_false, not_false_eq_true, and_false, false_and, and_true, true_and,
      decide_True, decide_False, pure_run]
  · have h0 : At B k (' ' :: ("ON".data ++ (' ' :: ("DELETE".data ++ (' ' :: ("SET".data ++ (' ' :: ("DEFAULT".data ++ (tail))))))))) :=
      hat.of_eq (by simp [renderOnClause, actionText])
    obtain ⟨s1, a1⟩ := step_keyword E hS [' '] "ON".data _ tokON h0
      (by decide) (by decide) (startsDelim_cons _ (by decide)) (by decide) (by decide)
    obtain ⟨s2, a2⟩ := step_keyword E hS [' '] "DELETE".data _ tokDELETE a1
      (by decide) (by decide) (startsDelim_cons _ (by decide)) (by decide) (by decide)
    obtain ⟨s3, a3⟩ := step_keyword E hS [' '] "SET".data _ tokSET a2
      (by decide) (by decide) (startsDelim_cons _ (by decide)) (by decide) (by decide)
    obtain ⟨s4, a4⟩ := step_keyword E hS [' '] "DEFAULT".data _ tokDEFAULT a3
      (by decide) (by decide) htail (by decide) (by decide)
    have e : k + (renderOnClause (false, FKACTION_SETDEFAULT)).length = k + [' '].length + "ON".data.length + [' '].length + "DELETE".data.length + [' '].length + "SET".data.length + [' '].length + "DEFAULT".data.length := by
      simp [renderOnClause, actionText, Nat.add_assoc]
    rw [e]
    refine ⟨?_, a4⟩
    simp only [fkClausesLoop, bind_run, lexerPeek_of_next E (s1 _ _), Res.bind_ok, s1, s2, s3, s4,
      reduceCtorEq, true_or, or_true, or_false, false_or, if_true, if_false, ne_eq,
      not_true_eq_false, not_false_eq_true, and_false, false_and, and_true, true_and,
      decide_True, decide_False, pure_run]
  · have h0 : At B k (' ' :: ("ON".data ++ (' ' :: ("DELETE".data ++ (' ' :: ("CASCADE".data ++ (tail))))))) :=
      hat.of_eq (by simp [renderOnClause, actionText])
    obtain ⟨s1, a1⟩ := step_keyword E hS [' '] "ON".data _ tokON h0
      (by decide) (by decide) (startsDelim_cons _ (by decide)) (by decide) (by decide)
    obtain ⟨s2, a2⟩ := step_keyword E hS [' '] "DELETE".data _ tokDELETE a1
      (by decide) (by decide) (startsDelim_cons _ (by decide)) (by decide) (by decide)
    obtain ⟨s3, a3⟩ := step_keyword E hS [' '] "CASCADE".data _ tokCASCADE a2
      (by decide) (by decide) htail (by decide) (by decide)
    have e : k + (renderOnClause (false, FKACTION_CASCADE)).length = k + [' '].length + "ON".data.length + [' '].length + "DELETE".data.length + [' '].length + "CASCADE".data.length := by
      simp [renderOnClause, actionText, Nat.add_assoc]
    rw [e]
    refine ⟨?_, a3⟩
    simp only [fkClausesLoop, bind_run, lexerPeek_of_next E (s1 _ _), Res.bind_ok, s1, s2, s3,
      reduceCtorEq, true_or, or_true, or_false, false_or, if_true, if_false, ne_eq,
      not_true_eq_false, not_false_eq_true, and_false, false_and, and_true, true_and,
      decide_True, decide_False, pure_run]
  · have h0 : At B k (' ' :: ("ON".data ++ (' ' :: ("DELETE".data ++ (' ' :: ("RESTRICT".data ++ (tail))))))) :=
      hat.of_eq (by simp [renderOnClause, actionText])
    obtain ⟨s1, a1⟩ := step_keyword E hS [' '] "ON".data _ tokON h0
      (by decide) (by decide) (startsDelim_cons _ (by decide)) (by decide) (by decide)
    obtain ⟨s2, a2⟩ := step_keyword E hS [' '] "DELETE".data _ tokDELETE a1
      (by decide) (by decide) (startsDelim_cons _ (by decide)) (by decide) (by decide)
    obtain ⟨s3, a3⟩ := step_keyword E hS [' '] "RESTRICT".data _ tokRESTRICT a2
      (by decide) (by decide) htail (by decide) (by decide)
    have e : k + (renderOnClause (false, FKACTION_RESTRICT)).length = k + [' '].length + "ON".data.length + [' '].length + "DELETE".data.length + [' '].length + "RESTRICT".data.length := by
      simp [renderOnClause, actionText, Nat.add_assoc]
    rw [e]
    refine ⟨?_, a3⟩
    simp only [fkClausesLoop, bind_run, lexerPeek_of_next E (s1 _ _), Res.bind_ok, s1, s2, s3,
      reduceCtorEq, true_or, or_true, or_false, false_or, if_true, if_false, ne_eq,
      not_true_eq_false, not_false_eq_true, and_false, false_and, and_true, true_and,
      decide_True, decide_False, pure_run]
  · have h0 : At B k (' ' :: ("ON".data ++ (' ' :: ("DELETE".data ++ (' ' :: ("NO".data ++ (' ' :: ("ACTION".data ++ (tail))))))))) :=
      hat.of_eq (by simp [renderOnClause, actionText])
    obtain ⟨s1, a1⟩ := step_keyword E hS [' '] "ON".data _ tokON h0
      (by decide) (by decide) (startsDelim_cons _ (by decide)) (by decide) (by decide)
    obtain ⟨s2, a2⟩ := step_keyword E hS [' '] "DELETE".data _ tokDELETE a1
      (by decide) (by decide) (startsDelim_cons _ (by decide)) (by decide) (by decide)
    obtain ⟨s3, a3⟩ := step_keyword E hS [' '] "NO".data _ tokNO a2
      (by decide) (by decide) (startsDelim_cons _ (by decide)) (by decide) (by decide)
    obtain ⟨s4, a4⟩ := step_keyword E hS [' '] "ACTION".data _ tokACTION a3
      (by decide) (by decide) htail (by decide) (by decide)
    have e : k + (renderOnClause (false, FKACTION_NOACTION)).length = k + [' '].length + "ON".data.length + [' '].length + "DELETE".data.length + [' '].length + "NO".data.length + [' '].length + "ACTION".data.length := by
      simp [renderOnClause, actionText, Nat.add_assoc]
    rw [e]
    refine ⟨?_, a4⟩
    simp only [fkClausesLoop, bind_run, lexerPeek_of_next E (s1 _ _), Res.bind_ok, s1, s2, s3, s4,
      reduceCtorEq, true_or, or_true, or_false, false_or, if_true, if_false, ne_eq,
      not_true_eq_false, not_false_eq_true, and_false, false_and, and_true, true_and,
      decide_True, decide_False, pure_run]
  · exact absurd rfl ha
  · have h0 : At B k (' ' :: ("ON".data ++ (' ' :: ("UPDATE".data ++ (' ' :: ("SET".data ++ (' ' :: ("NULL".data ++ (tail))))))))) :=
      hat.of_eq (by simp [renderOnClause, actionText])
    obtain ⟨s1, a1⟩ := step_keyword E hS [' '] "ON".data _ tokON h0
      (by decide) (by decide) (startsDelim_cons _ (by decide)) (by decide) (by decide)
    obtain ⟨s2, a2⟩ := step_keyword E hS [' '] "UPDATE".data _ tokUPDATE a1
      (by decide) (by decide) (startsDelim_cons _ (by decide)) (by decide) (by decide)
    obtain ⟨s3, a3⟩ := step_keyword E hS [' '] "SET".data _ tokSET a2
      (by decide) (by decide) (startsDelim_cons _ (by decide)) (by decide) (by decide)
    obtain ⟨s4, a4⟩ := step_keyword E hS [' '] "NULL".data _ tokNULL a3
      (by decide) (by decide) htail (by decide) (by decide)
    have e : k + (renderOnClause (true, FKACTION_SETNULL)).length = k + [' '].length + "ON".data.length + [' '].length + "UPDATE".data.length + [' '].length + "SET".data.length + [' '].length + "NULL".data.length := by
      simp [renderOnClause, actionText, Nat.add_assoc]
    rw [e]
    refine ⟨?_, a4⟩
    simp only [fkClausesLoop, bind_run, lexerPeek_of_next E (s1 _ _), Res.bind_ok, s1, s2, s3, s4,
      reduceCtorEq, true_or, or_true, or_false, false_or, if_true, if_false, ne_eq,
      not_true_eq_false, not_false_eq_true, and_false, false_and, and_true, true_and,
      decide_True, decide_False, pure_run]
  · have h0 : At B k (' ' :: ("ON".data ++ (' ' :: ("UPDATE".data ++ (' ' :: ("SET".data ++ (' ' :: ("DEFAULT".data ++ (tail))))))))) :=
      hat.of_eq (by simp [renderOnClause, actionText])
    obtain ⟨s1, a1⟩ := step_keyword E hS [' '] "ON".data _ tokON h0
      (by decide) (by decide) (startsDelim_cons _ (by decide)) (by decide) (by decide)
    obtain ⟨s2, a2⟩ := step_keyword E hS [' '] "UPDATE".data _ tokUPDATE a1
      (by decide) (by decide) (startsDelim_cons _ (by decide)) (by decide) (by decide)
    obtain ⟨s3, a3⟩ := step_keyword E hS [' '] "SET".data _ tokSET a2
      (by decide) (by decide) (startsDelim_cons _ (by decide)) (by decide) (by decide)
    obtain ⟨s4, a4⟩ := step_keyword E hS [' '] "DEFAULT".data _ tokDEFAULT a3
      (by decide) (by decide) htail (by decide) (by decide)
    have e : k + (renderOnClause (true, FKACTION_SETDEFAULT)).length = k + [' '].length + "ON".data.length + [' '].length + "UPDATE".data.length + [' '].length + "SET".data.length + [' '].length + "DEFAULT".data.length := by
      simp [renderOnClause, actionText, Nat.add_assoc]
    rw [e]
    refine ⟨?_, a4⟩
    simp only [fkClausesLoop, bind_run, lexerPeek_of_next E (s1 _ _), Res.bind_ok, s1, s2, s3, s4,
      reduceCtorEq, true_or, or_true, or_false, false_or, if_true, if_false, ne_eq,
      not_true_eq_false, not_false_eq_true, and_false, false_and, and_true, true_and,
      decide_True, decide_False, pure_run]
  · have h0 : At B k (' ' :: ("ON".data ++ (' ' :: ("UPDATE".data ++ (' ' :: ("CASCADE".data ++ (tail))))))) :=
      hat.of_eq (by simp [renderOnClause, actionText])
    obtain ⟨s1, a1⟩ := step_keyword E hS [' '] "ON".data _ tokON h0
      (by decide) (by decide) (startsDelim_cons _ (by decide)) (by decide) (by decide)
    obtain ⟨s2, a2⟩ := step_keyword E hS [' '] "UPDATE".data _ tokUPDATE a1
      (by decide) (by decide) (startsDelim_cons _ (by decide)) (by decide) (by decide)
    obtain ⟨s3, a3⟩ := step_keyword E hS [' '] "CASCADE".data _ tokCASCADE a2
      (by decide) (by decide) htail (by decide) (by decide)
    have e : k + (renderOnClause (true, FKACTION_CASCADE)).length = k + [' '].length + "ON".data.length + [' '].length + "UPDATE".data.length + [' '].length + "CASCADE".data.length := by
      simp [renderOnClause, actionText, Nat.add_assoc]
    rw [e]
    refine ⟨?_, a3⟩
    simp only [fkClausesLoop, bind_run, lexerPeek_of_next E (s1 _ _), Res.bind_ok, s1, s2, s3,
      reduceCtorEq, true_or, or_true, or_false, false_or, if_true, if_false, ne_eq,
      not_true_eq_false, not_false_eq_true, and_false, false_and, and_true, true_and,
      decide_True, decide_False, pure_run]
  · have h0 : At B k (' ' :: ("ON".data ++ (' ' :: ("UPDATE".data ++ (' ' :: ("RESTRICT".data ++ (tail))))))) :=
      hat.of_eq (by simp [renderOnClause, actionText])
    obtain ⟨s1, a1⟩ := step_keyword E hS [' '] "ON".data _ tokON h0
      (by decide) (by decide) (startsDelim_cons _ (by decide)) (by decide) (by decide)
    obtain ⟨s2, a2⟩ := step_keyword E hS [' '] "UPDATE".data _ tokUPDATE a1
      (by decide) (by decide) (startsDelim_cons _ (by decide)) (by decide) (by decide)
    obtain ⟨s3, a3⟩ := step_keyword E hS [' '] "RESTRICT".data _ tokRESTRICT a2
      (by decide) (by decide) htail (by decide) (by decide)
    have e : k + (renderOnClause (true, FKACTION_RESTRICT)).length = k + [' '].length + "ON".data.length + [' '].length + "UPDATE".data.length + [' '].length + "RESTRICT".data.length := by
      simp [renderOnClause, actionText, Nat.add_assoc]
    rw [e]
    refine ⟨?_, a3⟩
    simp only [fkClausesLoop, bind_run, lexerPeek_of_next E (s1 _ _), Res.bind_ok, s1, s2, s3,
      reduceCtorEq, true_or, or_true, or_false, false_or, if_true, if_false, ne_eq,
      not_true_eq_false, not_false_eq_true, and_false, false_and, and_true, true_and,
      decide_True, decide_False, pure_run]
  · have h0 : At B k (' ' :: ("ON".data ++ (' ' :: ("UPDATE".data ++ (' ' :: ("NO".data ++ (' ' :: ("ACTION".data ++ (tail))))))))) :=
      hat.of_eq (by simp [renderOnClause, actionText])
    obtain ⟨s1, a1⟩ := step_keyword E hS [' '] "ON".data _ tokON h0
      (by decide) (by decide) (startsDelim_cons _ (by decide)) (by decide) (by decide)
    obtain ⟨s2, a2⟩ := step_keyword E hS [' '] "UPDATE".data _ tokUPDATE a1
      (by decide) (by decide) (startsDelim_cons _ (by decide)) (by decide) (by decide)
    obtain ⟨s3, a3⟩ := step_keyword E hS [' '] "NO".data _ tokNO a2
      (by decide) (by decide) (startsDelim_cons _ (by decide)) (by decide) (by decide)
    obtain ⟨s4, a4⟩ := step_keyword E hS [' '] "ACTION".data _ tokACTION a3
      (by decide) (by decide) htail (by decide) (by decide)
    have e : k + (renderOnClause (true, FKACTION_NOACTION)).length = k + [' '].length + "ON".data.length + [' '].length + "UPDATE".data.length + [' '].length + "NO".data.length + [' '].length + "ACTION".data.length := by
      simp [renderOnClause, actionText, Nat.add_assoc]
    rw [e]
    refine ⟨?_, a4⟩
    simp only [fkClausesLoop, bind_run, lexerPeek_of_next E (s1 _ _), Res.bind_ok, s1, s2, s3, s4,
      reduceCtorEq, true_or, or_true, or_false, false_or, if_true, if_false, ne_eq,
      not_true_eq_false, not_false_eq_true, and_false, false_and, and_true, true_and,
      decide_True, decide_False, pure_run]

theorem startsDelim_onClauses (cl : List (Bool × FkAction)) (d : Char) (rest : List Char)
    (hd : d = ',' ∨ d = ')') : StartsDelim (renderOnClauses cl ++ d :: rest) := by
  cases cl with
  | nil => exact ⟨d, rest, rfl, (closer_facts hd).1⟩
  | cons c cl => exact ⟨' ', _, rfl, by decide⟩

theorem length_le_renderOnClauses (cl : List (Bool × FkAction)) :
    cl.length ≤ (renderOnClauses cl).length := by
  induction cl with
  | nil => simp [renderOnClauses]
  | cons c cl ih =>
    simp only [renderOnClauses, renderOnClause, List.length_cons, List.length_append]
    omega

/-- A run of `ON DELETE` and `ON UPDATE` clauses followed by a comma or a
closing parenthesis: the loop of `parseForeignKeyClause` stores every action
in turn and stops in front of the closing rune. -/
theorem fkClausesLoop_onClauses (E : GoEnv) {B : List Char} {S : Int}
    (hS : (B.length : Int) ≤ S) (d : Char) (rest : List Char) (hd : d = ',' ∨ d = ')')
    (cl : List (Bool × FkAction)) :
    ∀ (fk : ForeignKey) (k fuel : Nat) (id : String) (tb : Table),
      At B k (renderOnClauses cl ++ d :: rest) → (∀ c ∈ cl, c.2 ≠ FKACTION_NONE) →
      cl.length < fuel →
      fkClausesLoop E fk fuel ⟨B, S, k, id, tb⟩ =
        Res.ok (some (applyOnClauses fk cl),
          ⟨B, S, k + (renderOnClauses cl).length, id, tb⟩) := by
  induction cl with
  | nil =>
    intro fk k fuel id tb hat _ hf
    obtain ⟨f, rfl⟩ : ∃ f, fuel = f + 1 := ⟨fuel - 1, by simp at hf; omega⟩
    obtain ⟨hdel, hp, htok⟩ := closer_facts hd
    obtain ⟨s1, _⟩ := step_punct E hS [] d rest (punctToken d) hat (by decide) hp rfl
    have hne : punctToken d ≠ tokON ∧ punctToken d ≠ tokMATCH ∧ punctToken d ≠ tokNOT ∧
        punctToken d ≠ tokDEFERRABLE := by
      rcases htok with h | h <;> rw [h] <;> decide
    simp only [fkClausesLoop, bind_run, lexerPeek_of_next E (s1 _ _), Res.bind_ok, hne.1,
      hne.2.1, hne.2.2.1, hne.2.2.2, or_self, if_false, pure_run, applyOnClauses,
      renderOnClauses, List.length_nil, Nat.add_zero]
  | cons c cl ih =>
    intro fk k fuel id tb hat hc hf
    obtain ⟨f, rfl⟩ : ∃ f, fuel = f + 1 := ⟨fuel - 1, by simp at hf; omega⟩
    obtain ⟨u, a⟩ := c
    have hat1 : At B k (renderOnClause (u, a) ++ (renderOnClauses cl ++ d :: rest)) :=
      hat.of_eq (by simp [renderOnClauses])
    obtain ⟨h1, a1⟩ := fkClausesLoop_onClause E hS u a (hc (u, a) (List.mem_cons_self _ _))
      _ (startsDelim_onClauses cl d rest hd) hat1 fk f id tb
    rw [h1, ih (setFkAction u a fk) _ f id tb a1
      (fun c hc' => hc c (List.mem_cons_of_mem _ hc')) (by simp at hf; omega)]
    refine ok_state_congr rfl ?_
    simp only [renderOnClauses, List.length_append]
    omega

/-- The foreign-key clause `r (c)` followed by a run of `ON DELETE` and
`ON UPDATE` clauses and a comma or a closing parenthesis. -/
theorem parseForeignKeyClause_onClauses (E : GoEnv) {B : List Char} {S : Int}
    (hS : (B.length : Int) ≤ S) (ws r c : List Char) (cl : List (Bool × FkAction)) (d : Char)
    (rest : List Char) (k : Nat) (id : String) (tb : Table)
    (hat : At B k (ws ++ (r ++ (' ' :: '(' :: (c ++ (')' ::
      (renderOnClauses cl ++ d :: rest)))))))
    (hws : isBlank ws = true) (hr : isPlainIdentifier r = true)
    (hc : isPlainIdentifier c = true) (hcl : ∀ x ∈ cl, x.2 ≠ FKACTION_NONE)
    (hd : d = ',' ∨ d = ')') :
    parseForeignKeyClause E ⟨B, S, k, id, tb⟩ =
      Res.ok (some (applyOnClauses
          { Table := String.mk r, NumColumns := 0, ColumnName := [String.mk c] } cl),
        ⟨B, S, k + ws.length + r.length + 2 + c.length + 1 + (renderOnClauses cl).length,
          String.mk c, tb⟩) := by
  obtain ⟨s1, a1⟩ := step_ident E hS ws r _ hat hws hr (startsDelim_cons _ (by decide))
  obtain ⟨s2, a2⟩ := step_punct E hS [' '] '(' _ tokOPENparenthesis a1 (by decide) (by decide)
    rfl
  obtain ⟨s3, a3⟩ := step_ident E hS [] c _ a2 (by decide) hc (startsDelim_cons _ (by decide))
  obtain ⟨s4, a4⟩ := step_punct E hS [] ')' _ tokCLOSEDparenthesis a3 (by decide) (by decide)
    rfl
  have hlen := a4.length_eq
  have hfuel : cl.length < B.length + 1 := by
    have := length_le_renderOnClauses cl
    simp only [List.length_append] at hlen
    omega
  have h5 := fkClausesLoop_onClauses E hS d rest hd cl
    { Table := String.mk r, NumColumns := 0, ColumnName := [String.mk c] } _ (B.length + 1)
    (String.mk c) tb a4 hcl hfuel
  simp only [parseForeignKeyClause, bind_run, s1, Res.bind_ok, ne_eq, not_true_eq_false,
    if_false, getState_run, lexerPeek_of_next E (s2 _ _), if_true, s2, s3,
    lexerPeek_of_next E (s4 _ _), reduceCtorEq, pure_run, loopFuel, fkColumnsLoop, s4]
  rw [h5]
  refine ok_state_congr rfl ?_
  simp only [List.length_cons, List.length_nil]

end Sqlite3CreateTableParser

namespace Sqlite3CreateTableParser

open tokenT ErrorCode OrderClause ConflictClause FkAction FkDefType ConstraintType

/-! ## The counters of a table constraint -/

theorem Res.Forall_true {α : Type} (r : Res α) : r.Forall fun _ => True := by
  induction r with
  | ok a => trivial
  | panic => trivial
  | timeout => trivial
  | ifCap n r ih => exact ih

theorem Res.Forall_mono {α : Type} {P Q : α → Prop} (r : Res α) (h : r.Forall P)
    (hPQ : ∀ a, P a → Q a) : r.Forall Q := by
  induction r with
  | ok a => exact hPQ a h
  | panic => trivial
  | timeout => trivial
  | ifCap n r ih => exact ih h

theorem Res.Forall_and {α : Type} {P Q : α → Prop} (r : Res α) (h : r.Forall P)
    (h' : r.Forall Q) : r.Forall fun a => P a ∧ Q a := by
  induction r with
  | ok a => exact ⟨h, h'⟩
  | panic => trivial
  | timeout => trivial
  | ifCap n r ih => exact ih h h'

theorem returns_pure {α : Type} {P : α → Prop} {a : α} (h : P a) : Returns P (pure a : M α) :=
  fun _ => h

theorem returns_bind_any {α β : Type} {Q : β → Prop} {x : M α} {f : α → M β}
    (hf : ∀ a, Returns Q (f a)) : Returns Q (x >>= f) := by
  intro st
  simp only [bind_run]
  exact Res.Forall_bind (x st) _ (Res.Forall_true _) fun p _ => hf p.1 p.2

theorem returns_bind {α β : Type} {P : α → Prop} {Q : β → Prop} {x : M α} {f : α → M β}
    (hx : Returns P x) (hf : ∀ a, P a → Returns Q (f a)) : Returns Q (x >>= f) := by
  intro st
  simp only [bind_run]
  exact Res.Forall_bind (x st) _ (hx st) fun p hp => hf p.1 hp p.2

theorem returns_ite {α : Type} {P : α → Prop} {c : Prop} [Decidable c] {x y : M α}
    (h : c → Returns P x) (h1 : ¬ c → Returns P y) : Returns P (if c then x else y) := by
  by_cases hc : c
  · simp only [hc, if_true]; exact h hc
  · simp only [hc, if_false]; exact h1 hc

theorem returns_outOfFuel {α : Type} {P : α → Prop} : Returns P (outOfFuel : M α) :=
  fun _ => trivial

theorem returns_none {α : Type} {P : α → Prop} :
    Returns (fun r : Option α => ∀ c, r = some c → P c) (pure none : M (Option α)) :=
  returns_pure (by simp)

theorem returns_some {α : Type} {P : α → Prop} {a : α} (h : P a) :
    Returns (fun r : Option α => ∀ c, r = some c → P c) (pure (some a) : M (Option α)) :=
  returns_pure (by
    intro c hc
    cases hc
    exact h)

theorem counted_of_fresh {c : TableConstraint} (h : constraintFresh c) : constraintCounted c := by
  obtain ⟨h1, h2, h3, h4⟩ := h
  simp [constraintCounted, h1, h2, h3, h4]

theorem counted_addIdx {c : TableConstraint} (h : constraintCounted c) (x : IdxColumn) :
    constraintCounted { c with NumIndexed := c.NumIndexed + 1,
                               IndexedColumns := c.IndexedColumns ++ [x] } := by
  obtain ⟨h1, h2⟩ := h
  simp only [constraintCounted, List.length_append, List.length_cons, List.length_nil, h1, h2]
  push_cast
  simp

theorem counted_addName {c : TableConstraint} (h : constraintCounted c) (x : String) :
    constraintCounted { c with ForeignKeyNum := c.ForeignKeyNum + 1,
                               ForeignKeyName := c.ForeignKeyName ++ [x] } := by
  obtain ⟨h1, h2⟩ := h
  simp only [constraintCounted, List.length_append, List.length_cons, List.length_nil, h1, h2]
  push_cast
  simp

theorem counted_firstIdx {c : TableConstraint} (h : constraintFresh c) (x : IdxColumn) :
    constraintCounted { c with NumIndexed := c.NumIndexed + 1, IndexedColumns := [x] } := by
  obtain ⟨h1, h2, h3, h4⟩ := h
  simp [constraintCounted, h1, h3, h4]

theorem counted_firstName {c : TableConstraint} (h : constraintFresh c) (x : String) :
    constraintCounted { c with ForeignKeyNum := c.ForeignKeyNum + 1, ForeignKeyName := [x] } := by
  obtain ⟨h1, h2, h3, h4⟩ := h
  simp [constraintCounted, h1, h2, h3]

/-- The loop over the further indexed columns keeps the counter `NumIndexed`
equal to the number of indexed columns. -/
theorem returns_idxColumnsLoop (E : GoEnv) (fuel : Nat) :
    ∀ (token : tokenT) (c : TableConstraint), constraintCounted c →
      Returns (fun r => ∀ c', r = some c' → constraintCounted c')
        (idxColumnsLoop E token c fuel) := by
  induction fuel with
  | zero => exact fun _ _ _ => returns_outOfFuel
  | succ n ih =>
    intro token c hc
    unfold idxColumnsLoop
    repeat' with_reducible first
      | exact returns_none
      | exact returns_some hc
      | exact ih _ _ (counted_addIdx hc _)
      | apply returns_bind_any
      | apply returns_ite
      | intro _
      | split

/-- The loop over the further column names of a FOREIGN KEY constraint keeps
the counter `ForeignKeyNum` equal to the number of names. -/
theorem returns_fkNamesLoop (E : GoEnv) (fuel : Nat) :
    ∀ (token : tokenT) (c : TableConstraint), constraintCounted c →
      Returns (fun r => ∀ c', r = some c' → constraintCounted c')
        (fkNamesLoop E token c fuel) := by
  induction fuel with
  | zero => exact fun _ _ _ => returns_outOfFuel
  | succ n ih =>
    intro token c hc
    unfold fkNamesLoop
    repeat' with_reducible first
      | exact returns_none
      | exact returns_some hc
      | exact ih _ _ (counted_addName hc _)
      | apply returns_bind_any
      | apply returns_ite
      | intro _
      | split

theorem fresh_default : constraintFresh ({} : TableConstraint) := ⟨rfl, rfl, rfl, rfl⟩

set_option maxHeartbeats 2000000 in
/-- The counters of a table constraint that `parseTableConstraint` returns
equal the lengths of their sequences. -/
theorem returns_parseTableConstraint (E : GoEnv) :
    Returns (fun r => ∀ c, r = some c → constraintCounted c) (parseTableConstraint E) := by
  unfold parseTableConstraint
  apply returns_bind_any
  intro token
  apply returns_bind
    (P := fun h : Option (tokenT × TableConstraint) => ∀ p, h = some p → constraintFresh p.2)
  · repeat' first
      | with_reducible exact returns_none
      | exact returns_some (P := fun p : tokenT × TableConstraint => constraintFresh p.2)
          fresh_default
      | with_reducible apply returns_bind_any
      | with_reducible apply returns_ite
      | with_reducible intro _
  intro head hhead
  split
  · exact returns_none
  · rename_i tok constraint
    have hfresh : constraintFresh constraint := hhead _ rfl
    apply returns_ite
    · intro _
      exact returns_bind_any fun _ => returns_none
    intro _
    apply returns_ite
    · intro _
      apply returns_bind_any
      intro token1
      apply returns_bind (P := fun h : Option TableConstraint => ∀ c, h = some c → constraintFresh c)
      · repeat' first
          | with_reducible exact returns_none
          | exact returns_some (P := constraintFresh) hfresh
          | with_reducible apply returns_bind_any
          | with_reducible apply returns_ite
          | with_reducible intro _
      intro typed htyped
      split
      · exact returns_none
      · rename_i constraint1
        have hfresh1 : constraintFresh constraint1 := htyped _ rfl
        apply returns_bind_any
        intro o
        apply returns_ite
        · intro _; exact returns_none
        intro _
        apply returns_bind_any
        intro r
        split
        · exact returns_none
        · rename_i column
          repeat' first
            | with_reducible exact returns_none
            | (refine returns_bind
                (returns_idxColumnsLoop E _ _ _ (counted_firstIdx hfresh1 column)) ?_
               intro r2 hr2
               split
               · exact returns_none
               · have hc2 := hr2 _ rfl
                 repeat' first
                   | with_reducible exact returns_none
                   | exact returns_some (P := constraintCounted) hc2
                   | with_reducible apply returns_bind_any
                   | with_reducible apply returns_ite
                   | with_reducible intro _
                   | with_reducible split)
            | with_reducible apply returns_bind_any
            | with_reducible apply returns_ite
            | with_reducible intro _
    intro _
    apply returns_ite
    · intro _
      apply returns_bind_any
      intro _
      apply returns_bind_any
      intro k
      apply returns_ite
      · intro _; exact returns_none
      intro _
      apply returns_bind_any
      intro o
      apply returns_ite
      · intro _; exact returns_none
      intro _
      apply returns_bind_any
      intro token2
      apply returns_ite
      · intro _; exact returns_none
      intro _
      apply returns_bind_any
      intro st
      repeat' first
        | with_reducible exact returns_none
        | (refine returns_bind (returns_fkNamesLoop E _ _ _
            (counted_firstName (c := { constraint with Type_ := TABLECONSTRAINT_FOREIGNKEY })
              hfresh st.identifier)) ?_
           intro r2 hr2
           split
           · exact returns_none
           · have hc2 := hr2 _ rfl
             repeat' first
               | with_reducible exact returns_none
               | exact returns_some (P := constraintCounted) hc2
               | with_reducible apply returns_bind_any
               | with_reducible apply returns_ite
               | with_reducible intro _
               | with_reducible split)
        | with_reducible apply returns_bind_any
        | with_reducible apply returns_ite
        | with_reducible intro _
    intro _
    exact returns_some (P := constraintCounted) (counted_of_fresh hfresh)

/-! ## The counters of the table -/

theorem grows_refl (t : Table) : Grows t t := ⟨id, id⟩

theorem grows_trans {t0 t1 t2 : Table} (h : Grows t0 t1) (h' : Grows t1 t2) : Grows t0 t2 :=
  ⟨fun x => h'.1 (h.1 x), fun x => h'.2 (h.2 x)⟩

theorem grows_addColumn (t : Table) (c : Column) :
    Grows t { t with NumColumns := t.NumColumns + 1, Columns := t.Columns ++ [c] } := by
  constructor
  · rintro ⟨h1, h2, h3⟩
    refine ⟨?_, h2, h3⟩
    simp only [List.length_append, List.length_cons, List.length_nil, h1]
    push_cast
    simp
  · intro _
    simp

theorem grows_addConstraint (t : Table) {c : TableConstraint} (hc : constraintCounted c) :
    Grows t { t with NumConstraint := t.NumConstraint + 1,
                     Constraints := t.Constraints ++ [c] } := by
  constructor
  · rintro ⟨h1, h2, h3⟩
    refine ⟨h1, ?_, ?_⟩
    · simp only [List.length_append, List.length_cons, List.length_nil, h2]
      push_cast
      simp
    · intro x hx
      rcases List.mem_append.1 hx with h | h
      · exact h3 x h
      · rw [List.mem_singleton.1 h]
        exact hc
  · exact id

theorem post_pure {α : Type} {V : α → Table → Prop} {t : Table} {a : α} {s : State}
    (hG : Grows t s.table) (hV : V a s.table) : Post V t ((pure a : M α) s) :=
  ⟨hG, hV⟩

theorem post_outOfFuel {α : Type} {V : α → Table → Prop} {t : Table} {s : State} :
    Post V t ((outOfFuel : M α) s) := trivial

theorem post_bind_keeps {α β : Type} {V : β → Table → Prop} {t : Table} {x : M α}
    {f : α → M β} {s : State} (hx : KeepsTable x)
    (h : ∀ a s1, s1.table = s.table → Post V t (f a s1)) : Post V t ((x >>= f) s) := by
  unfold Post
  simp only [bind_run]
  exact Res.Forall_bind (x s) _ (hx s) fun p hp => h p.1 p.2 hp

theorem post_bind_keeps_returns {α β : Type} {V : β → Table → Prop} {t : Table} {x : M α}
    {f : α → M β} {s : State} {P : α → Prop} (hx : KeepsTable x) (hr : Returns P x)
    (h : ∀ a s1, s1.table = s.table → P a → Post V t (f a s1)) : Post V t ((x >>= f) s) := by
  unfold Post
  simp only [bind_run]
  exact Res.Forall_bind (x s) _ (Res.Forall_and _ (hx s) (hr s)) fun p hp => h p.1 p.2 hp.1 hp.2

theorem post_bind_post {α β : Type} {V : β → Table → Prop} {W : α → Table → Prop} {t : Table}
    {x : M α} {f : α → M β} {s : State} (hx : Post W s.table (x s))
    (h : ∀ a s1, Grows s.table s1.table → W a s1.table → Post V t (f a s1)) :
    Post V t ((x >>= f) s) := by
  unfold Post
  simp only [bind_run]
  exact Res.Forall_bind (x s) _ hx fun p hp => h p.1 p.2 hp.1 hp.2

theorem post_modify {β : Type} {V : β → Table → Prop} {t : Table} {g : Table → Table}
    {f : Unit → M β} {s : State} (h : Post V t (f () { s with table := g s.table })) :
    Post V t ((modifyTable g >>= f) s) := h

theorem post_getState {β : Type} {V : β → Table → Prop} {t : Table} {f : State → M β}
    {s : State} (h : Post V t (f s s)) : Post V t ((getState >>= f) s) := h

theorem post_ite {α : Type} {V : α → Table → Prop} {t : Table} {c : Prop} [Decidable c]
    {x y : M α} {s : State} (h : c → Post V t (x s)) (h1 : ¬ c → Post V t (y s)) :
    Post V t ((if c then x else y) s) := by
  by_cases hc : c
  · simp only [hc, if_true]; exact h hc
  · simp only [hc, if_false]; exact h1 hc

theorem post_of_keeps {α : Type} {V : α → Table → Prop} {t : Table} {x : M α} {s : State}
    (hx : KeepsTable x) (hG : Grows t s.table) (hV : ∀ a, V a s.table) : Post V t (x s) :=
  Res.Forall_mono (x s) (hx s) fun p hp => by
    rw [hp]
    exact ⟨hG, hV p.1⟩

theorem post_weaken {α : Type} {V V1 : α → Table → Prop} {t t1 : Table}
    {r : Res (α × State)} (h : Post V1 t1 r)
    (hV : ∀ a t', Grows t1 t' → V1 a t' → Grows t t' ∧ V a t') : Post V t r :=
  Res.Forall_mono r h fun p hp => hV p.1 p.2.table hp.1 hp.2

/-- The loop over the column definitions: it leaves with a token only after it
has appended a column, and every append moves the counter with the
sequence. -/
theorem post_parseColumnsLoop (E : GoEnv) (fuel : Nat) :
    ∀ (st : State) (t : Table), Grows t st.table →
      Post (fun r t' => (∀ e, r = Except.error e → e = ERROR_SYNTAX) ∧
          ∀ tok, r = Except.ok tok → t'.Columns ≠ []) t (parseColumnsLoop E fuel st) := by
  induction fuel with
  | zero => exact fun _ _ _ => post_outOfFuel
  | succ n ih =>
    intro st t hG
    unfold parseColumnsLoop
    apply post_bind_keeps (keeps_lexerPeek E)
    intro token s1 h1
    have hG1 : Grows t s1.table := by rw [h1]; exact hG
    apply post_ite
    · intro _
      exact post_pure hG1 (by simp)
    intro _
    apply post_bind_keeps (keeps_parseColumn E)
    intro r s2 h2
    have hG2 : Grows t s2.table := by rw [h2]; exact hG1
    split
    · exact post_pure hG2 (by simp)
    · rename_i column
      apply post_modify
      apply post_bind_keeps (keeps_lexerPeek E)
      intro token2 s4 h4
      have hG4 : Grows t s4.table := by
        rw [h4]
        exact grows_trans hG2 (grows_addColumn _ _)
      have hC4 : s4.table.Columns ≠ [] := by
        rw [h4]
        simp
      apply post_ite
      · intro _
        apply post_bind_keeps (keeps_lexerNext E)
        intro _ s5 h5
        apply post_bind_keeps (keeps_lexerPeek E)
        intro token3 s6 h6
        have e6 : s6.table = s4.table := by rw [h6, h5]
        apply post_ite
        · intro _
          exact post_pure (by rw [e6]; exact hG4) ⟨by simp, fun _ _ => by rw [e6]; exact hC4⟩
        · intro _
          exact ih s6 t (by rw [e6]; exact hG4)
      intro _
      apply post_ite
      · intro _
        exact post_pure hG4 ⟨by simp, fun _ _ => hC4⟩
      · intro _
        exact post_pure hG4 (by simp)

/-- The loop over the table constraints: every append moves the counter with
the sequence, and the appended constraint has its counters right. -/
theorem post_parseConstraintsLoop (E : GoEnv) (fuel : Nat) :
    ∀ (token : tokenT) (st : State) (t : Table), Grows t st.table →
      Post (fun r _ => ∀ e, r = some e → e = ERROR_SYNTAX) t
        (parseConstraintsLoop E token fuel st) := by
  induction fuel with
  | zero => exact fun _ _ _ _ => post_outOfFuel
  | succ n ih =>
    intro token st t hG
    unfold parseConstraintsLoop
    apply post_ite
    · intro _
      apply post_bind_keeps_returns (keeps_parseTableConstraint E)
        (returns_parseTableConstraint E)
      intro r s1 h1 hr
      have hG1 : Grows t s1.table := by rw [h1]; exact hG
      split
      · exact post_pure hG1 (by simp)
      · rename_i constraint
        have hc : constraintCounted constraint := hr _ rfl
        apply post_modify
        apply post_bind_keeps (keeps_lexerPeek E)
        intro p s2 h2
        have hG2 : Grows t s2.table := by
          rw [h2]
          exact grows_trans hG1 (grows_addConstraint _ hc)
        apply post_ite
        · intro _
          apply post_bind_keeps (keeps_lexerNext E)
          intro _ s3 h3
          apply post_bind_keeps (keeps_lexerPeek E)
          intro token3 s4 h4
          exact ih token3 s4 t (by rw [h4, h3]; exact hG2)
        · intro _
          apply post_bind_keeps (keeps_lexerPeek E)
          intro p2 s3 h3
          have hG3 : Grows t s3.table := by rw [h3]; exact hG2
          apply post_ite
          · intro _
            exact post_pure hG3 (by simp)
          · intro _
            exact post_pure hG3 (by simp)
    · intro _
      exact post_pure hG (by simp)

/-- The end of `parse` only sets the flag `IsWithoutRowid`. -/
theorem post_parseTail (E : GoEnv) (st : State) (t : Table) (hG : Grows t st.table) :
    Post (fun _ _ => True) t (parseTail E st) := by
  unfold parseTail
  apply post_bind_keeps (keeps_lexerNext E)
  intro token s1 h1
  have hG1 : Grows t s1.table := by rw [h1]; exact hG
  apply post_ite
  · intro _
    exact post_pure hG1 trivial
  intro _
  apply post_bind_keeps (keeps_lexerPeek E)
  intro p s2 h2
  have hG2 : Grows t s2.table := by rw [h2]; exact hG1
  apply post_bind_post (W := fun _ _ => True)
  · apply post_ite
    · intro _
      apply post_bind_keeps (keeps_lexerNext E)
      intro _ s3 h3
      apply post_bind_keeps (keeps_lexerNext E)
      intro t4 s4 h4
      apply post_ite
      · intro _
        exact post_pure (by rw [h4, h3]; exact grows_refl _) trivial
      · intro _
        apply post_modify
        exact post_pure (by
          show Grows s2.table { s4.table with IsWithoutRowid := true }
          rw [h4, h3]
          exact ⟨id, id⟩) trivial
    · intro _
      exact post_pure (grows_refl _) trivial
  intro r s5 hG5 _
  have hG5' : Grows t s5.table := grows_trans hG2 hG5
  split
  · exact post_pure hG5' trivial
  · refine post_of_keeps ?_ hG5' fun _ => trivial
    repeat' with_reducible first
      | exact keeps_pure _
      | exact keeps_lexerNext E
      | exact keeps_lexerPeek E
      | apply keeps_bind
      | apply keeps_ite
      | intro _

/-- The part of `parse` from the table name on: it ends without an error only
after the loop over the column definitions has appended a column. -/
theorem post_parseBody (E : GoEnv) (st : State) (t : Table) (hG : Grows t st.table) :
    Post (fun e t' => e = ERROR_NONE → t'.Columns ≠ []) t (parseBody E st) := by
  unfold parseBody
  apply post_bind_keeps (keeps_lexerNext E)
  intro tok s1 h1
  have hG1 : Grows t s1.table := by rw [h1]; exact hG
  apply post_ite
  · intro _
    exact post_pure hG1 (by simp)
  intro _
  apply post_getState
  apply post_ite
  · intro _
    exact post_pure hG1 (by simp)
  intro _
  apply post_modify
  apply post_bind_keeps (keeps_lexerPeek E)
  intro p s2 h2
  have hG2 : Grows t s2.table := by
    rw [h2]
    exact grows_trans hG1 ⟨id, id⟩
  apply post_ite
  · intro _
    exact post_pure hG2 (by simp)
  intro _
  apply post_bind_keeps (keeps_lexerNext E)
  intro token s3 h3
  have hG3 : Grows t s3.table := by rw [h3]; exact hG2
  apply post_ite
  · intro _
    exact post_pure hG3 (by simp)
  intro _
  apply post_getState
  apply post_bind_post (post_parseColumnsLoop E _ s3 s3.table (grows_refl _))
  intro r s4 hG4 hV4
  have hG4' : Grows t s4.table := grows_trans hG3 hG4
  split
  · rename_i e
    have he : e = ERROR_SYNTAX := hV4.1 e rfl
    exact post_pure hG4' (by simp [he])
  · rename_i token2
    have hC4 : s4.table.Columns ≠ [] := hV4.2 token2 rfl
    apply post_getState
    apply post_bind_post (post_parseConstraintsLoop E _ token2 s4 s4.table (grows_refl _))
    intro r2 s5 hG5 hV5
    have hG5' : Grows t s5.table := grows_trans hG4' hG5
    have hC5 : s5.table.Columns ≠ [] := hG5.2 hC4
    split
    · rename_i e
      have he : e = ERROR_SYNTAX := hV5 e rfl
      exact post_pure hG5' (by simp [he])
    · exact post_weaken (post_parseTail E s5 s5.table (grows_refl _))
        fun a t' hG6 _ => ⟨grows_trans hG5' hG6, fun _ => hG6.2 hC5⟩

/-- The function `parse`: it ends without an error only with at least one
column in the table, and counters that were right stay right. -/
theorem post_parse (E : GoEnv) (st : State) (t : Table) (hG : Grows t st.table) :
    Post (fun e t' => e = ERROR_NONE → t'.Columns ≠ []) t (parse E st) := by
  unfold parse
  apply post_bind_keeps (keeps_lexerNext E)
  intro tok s1 h1
  have hG1 : Grows t s1.table := by rw [h1]; exact hG
  apply post_ite
  · intro _
    exact post_pure hG1 (by simp)
  intro _
  apply post_bind_keeps (keeps_lexerNext E)
  intro tok2 s2 h2
  have hG2 : Grows t s2.table := by rw [h2]; exact hG1
  apply post_bind_post (W := fun _ _ => True)
  · apply post_ite
    · intro _
      apply post_modify
      exact post_of_keeps (keeps_lexerNext E) ⟨id, id⟩ fun _ => trivial
    · intro _
      exact post_pure (grows_refl _) trivial
  intro tok3 s3 hG3 _
  have hG3' : Grows t s3.table := grows_trans hG2 hG3
  apply post_ite
  · intro _
    exact post_pure hG3' (by simp)
  intro _
  apply post_bind_keeps (keeps_lexerPeek E)
  intro p s4 h4
  have hG4 : Grows t s4.table := by rw [h4]; exact hG3'
  apply post_bind_post (W := fun r _ => ∀ e, r = some e → e = ERROR_SYNTAX)
  · apply post_ite
    · intro _
      apply post_bind_keeps (keeps_lexerNext E)
      intro _ s5 h5
      apply post_bind_keeps (keeps_lexerNext E)
      intro n6 s6 h6
      apply post_ite
      · intro _
        exact post_pure (by rw [h6, h5]; exact grows_refl _) (by simp)
      intro _
      apply post_bind_keeps (keeps_lexerNext E)
      intro e7 s7 h7
      apply post_ite
      · intro _
        exact post_pure (by rw [h7, h6, h5]; exact grows_refl _) (by simp)
      intro _
      apply post_modify
      exact post_pure (by
        show Grows s4.table { s7.table with IsIfNotExists := true }
        rw [h7, h6, h5]
        exact ⟨id, id⟩) (by simp)
    · intro _
      exact post_pure (grows_refl _) (by simp)
  intro r s8 hG8 hV8
  have hG8' : Grows t s8.table := grows_trans hG4 hG8
  split
  · rename_i e
    have he : e = ERROR_SYNTAX := hV8 e rfl
    exact post_pure hG8' (by simp [he])
  · exact post_parseBody E s8 t hG8'

theorem tableCounted_default : tableCounted ({} : Table) := by
  refine ⟨rfl, rfl, ?_⟩
  intro c hc
  cases hc

/-- Whenever `ParseTable` returns a table without an error, the table has at
least one column, and its counters and those of its constraints equal the
lengths of their sequences. -/
theorem ParseTable_post (E : GoEnv) (sql : String) (length : Int) :
    (ParseTable E sql length).Forall fun r =>
      ∀ tb, r = (some tb, ERROR_NONE) → tableCounted tb ∧ tb.Columns ≠ [] := by
  unfold ParseTable
  dsimp only
  repeat' split
  all_goals first
    | (intro tb h
       cases h)
    | (apply Res.Forall_bind _ _ (post_parse E _ {} (grows_refl _))
       intro p hp tb h
       simp only [Prod.mk.injEq, Option.some.injEq] at h
       obtain ⟨h1, h2⟩ := h
       subst h1
       exact ⟨hp.1.1 tableCounted_default, hp.2 h2⟩)

end Sqlite3CreateTableParser

namespace Sqlite3CreateTableParser

open tokenT ErrorCode OrderClause ConflictClause FkAction FkDefType ConstraintType

/-! ## The parenthesised length of a column type -/

/-- The loop of `parseColumnType` over the length is the loop of `lexerEscape`
with `)` as the closing delimiter. -/
theorem columnLengthLoop_eq (fuel : Nat) :
    ∀ (c : Char) (st : State), columnLengthLoop c fuel st = lexerEscapeLoop ')' c fuel st := by
  induction fuel with
  | zero => intro c st; rfl
  | succ n ih =>
    intro c st
    by_cases h : c ≠ '\x00' ∧ c ≠ ')'
    · simp only [columnLengthLoop, lexerEscapeLoop, h, and_self, if_true, bind_run, ne_eq,
        not_false_eq_true]
      cases next st with
      | ok p => exact ih p.1 p.2
      | panic => rfl
      | timeout => rfl
      | ifCap n r => simp only [Res.bind, ih]
    · simp only [columnLengthLoop, lexerEscapeLoop, h, if_false]

/-- A column type `T(x)`: `parseColumnType` stores `T` as the type and, as the
length, the text from the rune after `(` up to the offset reached after
reading `)`, that is `x` together with the closing parenthesis. -/
theorem parseColumnType_length (E : GoEnv) {B : List Char} {S : Int}
    (hS : (B.length : Int) ≤ S) (ws T x rest : List Char) (col : Column) (k : Nat)
    (id : String) (tb : Table) (hat : At B k (ws ++ (T ++ ('(' :: (x ++ (')' :: rest))))))
    (hws : isBlank ws = true) (hT : isPlainIdentifier T = true)
    (hx : ∀ c ∈ x, c ≠ '\x00' ∧ c ≠ ')') :
    parseColumnType E col ⟨B, S, k, id, tb⟩ =
      Res.ok ((ERROR_NONE,
          { col with Type_ := String.mk T, Length := String.mk (x ++ [')']) }),
        ⟨B, S, k + ws.length + T.length + 1 + x.length + 1, String.mk T, tb⟩) := by
  obtain ⟨s1, a1⟩ := step_ident E hS ws T _ hat hws hT (startsDelim_cons _ (by decide))
  obtain ⟨s2, a2⟩ := step_punct E hS [] '(' _ tokOPENparenthesis a1 (by decide) (by decide) rfl
  obtain ⟨p1, hp1⟩ : ∃ p1, p1 = k + ws.length + T.length := ⟨_, rfl⟩
  rw [← hp1] at s1 s2 a1 a2
  simp only [List.length_nil, Nat.add_zero] at s2 a2
  obtain ⟨pre, hB, hk⟩ := hat
  have hlen : B.length = k + ws.length + T.length + 1 + x.length + 1 + rest.length := by
    rw [hB, hk]
    simp only [List.length_append, List.length_cons]
    omega
  obtain ⟨m, hm⟩ : ∃ m, B.length = m + 1 := ⟨B.length - 1, by omega⟩
  have hg : goLen (String.mk T) = T.length := goLen_ascii T (isPlainIdentifier_asciiText hT)
  have hslice : ∀ id tb, sliceString ((p1 : Int) - ((T.length : Nat) : Int)) p1
      ⟨B, S, p1, id, tb⟩ = Res.ok (String.mk T, ⟨B, S, p1, id, tb⟩) := by
    intro id tb
    have e : (p1 : Int) - ((T.length : Nat) : Int) = ((k + ws.length : Nat) : Int) := by
      rw [hp1]
      push_cast
      omega
    rw [e]
    exact @sliceString_at B (pre ++ ws) T ('(' :: (x ++ (')' :: rest))) (k + ws.length) S id tb
      p1 (by simpa using hB) (by simp [hk]) hp1 p1
  have hslice2 : ∀ id tb n, sliceString ((p1 + 1 : Nat) : Int) ((p1 + 1 + x.length + 1 : Nat))
      ⟨B, S, n, id, tb⟩ = Res.ok (String.mk (x ++ [')']), ⟨B, S, n, id, tb⟩) := by
    intro id tb n
    exact @sliceString_at B (pre ++ ws ++ T ++ ['(']) (x ++ [')']) rest (p1 + 1) S id tb
      (p1 + 1 + x.length + 1) (by simpa using hB)
      (by simp only [hp1, hk, List.length_append, List.length_cons, List.length_nil])
      (by simp only [List.length_append, List.length_cons, List.length_nil]; omega) n
  have hloop : ∀ id tb, ∃ c0 k1,
      next ⟨B, S, p1 + 1, id, tb⟩ = Res.ok (c0, ⟨B, S, k1, id, tb⟩) ∧
        columnLengthLoop c0 (B.length + 1) ⟨B, S, k1, id, tb⟩ =
          Res.ok (')', ⟨B, S, p1 + 1 + x.length + 1, id, tb⟩) := by
    intro id tb
    cases x with
    | nil =>
      have hn := @next_at B (pre ++ ws ++ T ++ ['(']) ')' rest (p1 + 1) S id tb
        (by simpa using hB)
        (by simp only [hp1, hk, List.length_append, List.length_cons, List.length_nil])
      refine ⟨_, _, hn, ?_⟩
      simp only [columnLengthLoop, ne_eq, not_true_eq_false, and_false, if_false, pure_run,
        List.length_nil, Nat.add_zero]
    | cons y s =>
      have hn := @next_at B (pre ++ ws ++ T ++ ['(']) y (s ++ ')' :: rest) (p1 + 1) S id tb
        (by simpa using hB)
        (by simp only [hp1, hk, List.length_append, List.length_cons, List.length_nil])
      have hl := lexerEscapeLoop_run ')' s (pre ++ ws ++ T ++ ['(', y]) y rest (p1 + 1 + 1) S id
        tb (B.length + 1) (by simpa using hB)
        (by simp only [hp1, hk, List.length_append, List.length_cons, List.length_nil])
        (hx y (List.mem_cons_self _ _)) (fun z hz => hx z (List.mem_cons_of_mem _ hz))
        (by simp only [List.length_cons] at hlen; omega)
      refine ⟨_, _, hn, ?_⟩
      rw [columnLengthLoop_eq, hl]
      refine ok_state_congr rfl ?_
      simp only [List.length_cons]
      omega
  obtain ⟨c0, k1, hn, hl⟩ := hloop (String.mk T) tb
  simp only [parseColumnType, columnTypeLoop, bind_run, getState_run, Res.bind_ok, loopFuel, hm,
    lexerPeek_of_next E (s1 _ _), s1, if_true, hg, lexerPeek_of_next E (s2 _ _), reduceCtorEq,
    if_false, pure_run, hslice, s2]
  rw [← hm]
  simp only [hn, hl, Res.bind_ok, ne_eq, not_true_eq_false, if_false, bind_run, getState_run,
    pure_run, hslice2]
  refine ok_state_congr rfl ?_
  simp only [hp1]

/-! ## Statements that are no `CREATE TABLE` -/

theorem goLen_ne_zero {sql : String} (h : sql ≠ "") : (goLen sql : Int) ≠ 0 := by
  obtain ⟨l⟩ := sql
  cases l with
  | nil => exact absurd rfl h
  | cons c cs =>
    have : 0 < (String.utf8EncodeChar c).length := by
      rw [String.length_utf8EncodeChar]
      exact Char.utf8Size_pos c
    simp only [goLen, goBytes, List.flatMap_cons, List.length_append, ne_eq]
    omega

theorem table_of_lexerNext (E : GoEnv) {st st1 : State} {t : tokenT}
    (h : lexerNext E st = Res.ok (t, st1)) : st1.table = st.table := by
  have := keeps_lexerNext E st
  rw [h] at this
  exact this

theorem parse_not_create (E : GoEnv) {st st1 : State} {t : tokenT}
    (h : lexerNext E st = Res.ok (t, st1)) (ht : t ≠ tokCREATE) :
    parse E st = Res.ok (ERROR_UNSUPPORTEDSQL, st1) := by
  simp only [parse, bind_run, h, Res.bind_ok, ne_eq, ht, not_false_eq_true, if_true, pure_run]

theorem parse_create_other (E : GoEnv) {st st1 st2 : State} {t : tokenT}
    (h1 : lexerNext E st = Res.ok (tokCREATE, st1)) (h2 : lexerNext E st1 = Res.ok (t, st2))
    (ht : t ≠ tokTEMP) (ht2 : t ≠ tokTABLE) :
    parse E st = Res.ok (ERROR_UNSUPPORTEDSQL, st2) := by
  simp only [parse, bind_run, h1, Res.bind_ok, ne_eq, not_true_eq_false, if_false, h2, ht,
    pure_run, ht2, not_false_eq_true, if_true]

theorem parse_create_temp_other (E : GoEnv) {st st1 st2 st3 : State} {t : tokenT}
    (h1 : lexerNext E st = Res.ok (tokCREATE, st1))
    (h2 : lexerNext E st1 = Res.ok (tokTEMP, st2))
    (h3 : lexerNext E { st2 with table := { st2.table with IsTemporary := true } } =
      Res.ok (t, st3))
    (ht : t ≠ tokTABLE) :
    parse E st = Res.ok (ERROR_UNSUPPORTEDSQL, st3) := by
  simp only [parse, bind_run, h1, Res.bind_ok, ne_eq, not_true_eq_false, if_false, h2, if_true,
    modifyTable_run, h3, ht, not_false_eq_true, pure_run]

theorem ParseTable_of_parse (E : GoEnv) {sql : String} (hne : sql ≠ "") {e : ErrorCode}
    {st : State} (h : parse E (stateAt sql 0) = Res.ok (e, st)) :
    ParseTable E sql 0 = Res.ok (some st.table, e) := by
  have h0 := goLen_ne_zero hne
  have hst : ({ buffer := sql.data, size := (goLen sql : Int), table := {} } : State) =
      stateAt sql 0 := rfl
  simp only [ParseTable, hne, if_false, if_true, h0, hst, h, Res.bind_ok]

/-! ## Keywords and the Unicode tables -/

theorem strNoCaseNcmp_lower (E E' : GoEnv) {s1 s2 : String} (n : Int)
    (h1 : stringsToLower E s1 = stringsToLower E' s1) (h2 : AsciiText s2.data) :
    strNoCaseNcmp E s1 s2 n = strNoCaseNcmp E' s1 s2 n := by
  unfold strNoCaseNcmp
  rw [h1, stringsToLower_ascii E E' h2]

theorem keywordCase_lower (E E' : GoEnv) {ptr : String} (n : Int)
    (hptr : stringsToLower E ptr = stringsToLower E' ptr)
    (l : List (String × tokenT)) (hl : ∀ p ∈ l, AsciiText p.1.data) :
    keywordCase E ptr n l = keywordCase E' ptr n l := by
  induction l with
  | nil => rfl
  | cons p rest ih =>
    obtain ⟨w, t⟩ := p
    simp only [keywordCase]
    rw [strNoCaseNcmp_lower E E' n hptr (hl (w, t) (List.mem_cons_self _ _)),
      ih fun q hq => hl q (List.mem_cons_of_mem _ hq)]

/-- The function `lexerKeyword` depends on the Unicode tables only through the
lowered text of its argument. -/
theorem lexerKeyword_lower (E E' : GoEnv) {ptr : String} (n : Int)
    (hptr : stringsToLower E ptr = stringsToLower E' ptr) :
    lexerKeyword E ptr n = lexerKeyword E' ptr n := by
  unfold lexerKeyword
  repeat' with_reducible first
    | exact keywordCase_lower E E' n hptr _ (by decide)
    | apply ite_congr rfl (fun _ => ?_) (fun _ => ?_)
    | rfl

theorem kelvinEnv_folds : FoldsToAscii kelvinEnv := by
  unfold FoldsToAscii
  decide

theorem stringsToLower_folds (E : GoEnv) (h : FoldsToAscii E) (s : String)
    (hs : ∀ c ∈ s.data, c.toNat < 128 ∨ c = kelvinSign ∨ c = dottedCapitalI) :
    stringsToLower E s = stringsToLower kelvinEnv s := by
  unfold stringsToLower
  congr 1
  apply List.map_congr_left
  intro c hc
  rcases hs c hc with h1 | h1 | h1
  · exact unicodeToLower_ascii E kelvinEnv h1
  · subst h1
    have : ¬ kelvinSign.toNat < 128 := by decide
    simp only [unicodeToLower, this, if_false, h.2.1]
    decide
  · subst h1
    have : ¬ dottedCapitalI.toNat < 128 := by decide
    simp only [unicodeToLower, this, if_false, h.2.2.2]
    decide

end Sqlite3CreateTableParser

namespace Sqlite3CreateTableParser

open tokenT ErrorCode OrderClause ConflictClause FkAction FkDefType ConstraintType

/-! ## A column definition behind the table constraints -/

/-- The loop over the table constraints when the text goes on, behind the last
constraint, with a comma and a token that starts no table constraint: the loop
stops behind the comma. -/
theorem parseConstraintsLoop_misplaced (E : GoEnv) {B : List Char} (S : Int)
    (hS : (B.length : Int) ≤ S) (tokEnd : tokenT)
    (hEnd : tokenIsTableConstraint tokEnd = false) (cs : List ConstraintSpec) :
    ∀ (pre : List Char) (c : ConstraintSpec) (r : List Char) (k : Nat) (id : String)
      (tb : Table) (token : tokenT) (fuel : Nat),
      B = pre ++ (' ' :: renderConstraint c ++ renderConstraints cs) ++ ',' :: r →
      k = pre.length → c.ok = true → cs.all ConstraintSpec.ok = true →
      tokenIsTableConstraint token = true → cs.length + 1 < fuel →
      (∀ id tb, ∃ id', lexerPeek E
          ⟨B, S, k + (' ' :: renderConstraint c ++ renderConstraints cs).length + 1, id, tb⟩ =
        Res.ok (tokEnd,
          ⟨B, S, k + (' ' :: renderConstraint c ++ renderConstraints cs).length + 1, id',
            tb⟩)) →
      ∃ id', parseConstraintsLoop E token fuel ⟨B, S, k, id, tb⟩ =
        Res.ok (none,
          ⟨B, S, k + (' ' :: renderConstraint c ++ renderConstraints cs).length + 1, id',
            { tb with NumConstraint := tb.NumConstraint + 1 + (cs.length : Int),
                      Constraints := tb.Constraints ++ (c :: cs).map expectedConstraint }⟩) := by
  induction cs with
  | nil =>
    intro pre c r k id tb token fuel hB hk hc _ htok hf hpeek
    obtain ⟨f, rfl⟩ : ∃ f, fuel = f + 2 := ⟨fuel - 2, by simp at hf; omega⟩
    obtain ⟨id1, h1⟩ := parseTableConstraint_shape E S hS pre c ',' r k id tb
      (by simpa [renderConstraints] using hB) hk hc (Or.inl rfl)
    have h2 : ∀ id tb, lexerNext E ⟨B, S, k + (' ' :: renderConstraint c).length, id, tb⟩ =
        Res.ok (tokCOMMA, ⟨B, S, k + (' ' :: renderConstraint c).length +
          ([] : List Char).length + 1, id, tb⟩) := by
      intro id tb
      exact lexerNext_punct E (pre ++ (' ' :: renderConstraint c)) [] ',' r _ S id tb
        (by simpa [renderConstraints] using hB)
        (by simp only [hk, List.length_append, List.length_cons, List.length_nil] <;> omega)
        hS (by decide) (by decide)
    simp only [renderConstraints, List.append_nil] at hpeek ⊢
    simp only [List.length_nil, Nat.add_zero] at h2
    obtain ⟨id3, h3⟩ := hpeek id1
      { tb with NumConstraint := tb.NumConstraint + 1,
                Constraints := tb.Constraints ++ [expectedConstraint c] }
    refine ⟨id3, ?_⟩
    simp only [parseConstraintsLoop, htok, if_true, bind_run, h1, Res.bind_ok, modifyTable_run,
      lexerPeek_of_next E (h2 _ _), h2, h3, hEnd, Bool.false_eq_true, if_false, pure_run]
    refine ok_state_table_congr rfl rfl ?_
    simp
  | cons c' cs ih =>
    intro pre c r k id tb token fuel hB hk hc hcs htok hf hpeek
    obtain ⟨f, rfl⟩ : ∃ f, fuel = f + 1 := ⟨fuel - 1, by simp at hf; omega⟩
    simp only [List.all_cons, Bool.and_eq_true] at hcs
    obtain ⟨id1, h1⟩ := parseTableConstraint_shape E S hS pre c ','
      (' ' :: renderConstraint c' ++ renderConstraints cs ++ ',' :: r) k id tb
      (by simpa [renderConstraints] using hB) hk hc (Or.inl rfl)
    have h2 : ∀ id tb, lexerNext E ⟨B, S, k + (' ' :: renderConstraint c).length, id, tb⟩ =
        Res.ok (tokCOMMA, ⟨B, S, k + (' ' :: renderConstraint c).length +
          ([] : List Char).length + 1, id, tb⟩) := by
      intro id tb
      exact lexerNext_punct E (pre ++ (' ' :: renderConstraint c)) [] ','
        (' ' :: renderConstraint c' ++ renderConstraints cs ++ ',' :: r) _ S id tb
        (by simpa [renderConstraints] using hB)
        (by simp only [hk, List.length_append, List.length_cons, List.length_nil] <;> omega)
        hS (by decide) (by decide)
    obtain ⟨tok3, htok3, h3⟩ := lexerPeek_constraint E S hS
      (pre ++ (' ' :: renderConstraint c) ++ [',']) c' (renderConstraints cs ++ ',' :: r)
      (k + (' ' :: renderConstraint c).length + ([] : List Char).length + 1)
      (by simpa [renderConstraints] using hB)
      (by simp only [hk, List.length_append, List.length_cons, List.length_nil] <;> omega)
    have e5 : k + (' ' :: renderConstraint c).length + ([] : List Char).length + 1 +
        (' ' :: renderConstraint c' ++ renderConstraints cs).length + 1 =
        k + (' ' :: renderConstraint c ++ renderConstraints (c' :: cs)).length + 1 := by
      simp only [renderConstraints, List.length_cons, List.length_append, List.length_nil]
      omega
    obtain ⟨id4, h4⟩ := ih (pre ++ (' ' :: renderConstraint c) ++ [',']) c' r
      (k + (' ' :: renderConstraint c).length + ([] : List Char).length + 1) id1
      { tb with NumConstraint := tb.NumConstraint + 1,
                Constraints := tb.Constraints ++ [expectedConstraint c] } tok3 f
      (by simpa [renderConstraints] using hB)
      (by simp only [hk, List.length_append, List.length_cons, List.length_nil] <;> omega)
      hcs.1 hcs.2 htok3 (by simp at hf; omega)
      (by rw [e5]; exact hpeek)
    refine ⟨id4, ?_⟩
    simp only [parseConstraintsLoop, htok, if_true, bind_run, h1, Res.bind_ok, modifyTable_run,
      lexerPeek_of_next E (h2 _ _), h2, h3]
    rw [h4]
    refine ok_state_table_congr rfl e5 ?_
    simp only [List.length_cons, Nat.cast_add, Nat.cast_one, List.map_cons,
      List.append_assoc, List.singleton_append, Table.mk.injEq, true_and, and_true]
    omega

/-- The run of `parse` over a statement in which a word that starts no table
constraint follows the table constraints: the constraint loop is left behind
the comma, the next token is not the closing parenthesis, and `parse` returns
`ERROR_SYNTAX` with the columns and constraints read so far. -/
theorem parse_misplaced (E : GoEnv) {B : List Char} (S : Int) (hS : (B.length : Int) ≤ S)
    (t : List Char) (c : ColumnSpec) (cs : List ColumnSpec) (k0 : ConstraintSpec)
    (ks : List ConstraintSpec) (b : List Char) (d : Char) (tail : List Char)
    (hB : renderMisplaced t c cs (k0 :: ks) b (d :: tail) = B)
    (ht : isPlainIdentifier t = true) (hc : c.ok = true) (hcs : cs.all ColumnSpec.ok = true)
    (hk0 : k0.ok = true) (hks : ks.all ConstraintSpec.ok = true)
    (hb : isPlainIdentifier b = true) (hd : isDelimiter d = true) (id0 : String)
    (tb0 : Table) :
    ∃ st, parse E ⟨B, S, 0, id0, tb0⟩ = Res.ok (ERROR_SYNTAX, st) ∧
      st.table = { tb0 with Name := String.mk t,
                            NumColumns := tb0.NumColumns + 1 + (cs.length : Int),
                            Columns := tb0.Columns ++ (c :: cs).map expectedColumn,
                            NumConstraint := tb0.NumConstraint + 1 + (ks.length : Int),
                            Constraints := tb0.Constraints ++
                              (k0 :: ks).map expectedConstraint } := by
  have hne := isPlainIdentifier_ne_nil ht
  obtain ⟨tl, htl⟩ : ∃ tl, tl = ',' :: ' ' :: (b ++ d :: tail) := ⟨_, rfl⟩
  have hB0 : B = "CREATE TABLE ".data ++ t ++ " (".data ++ (c.name ++ ' ' :: c.type ++
      renderMoreColumns cs) ++ renderConstraints (k0 :: ks) ++ tl := by
    rw [← hB, htl]
    simp [renderMisplaced]
  obtain ⟨p1, hp1⟩ : ∃ p1, p1 = 12 + 1 + t.length := ⟨_, rfl⟩
  obtain ⟨p2, hp2⟩ : ∃ p2, p2 = p1 + 1 + 1 := ⟨_, rfl⟩
  obtain ⟨p3, hp3⟩ : ∃ p3, p3 = p2 + ([] : List Char).length +
      (c.name ++ ' ' :: c.type ++ renderMoreColumns cs).length := ⟨_, rfl⟩
  have h1 : ∀ id tb, lexerNext E ⟨B, S, 0, id, tb⟩ = Res.ok (tokCREATE, ⟨B, S, 6, id, tb⟩) := by
    intro id tb
    simpa using lexerNext_keyword E [] [] "CREATE".data ' '
      ("TABLE ".data ++ t ++ " (".data ++ (c.name ++ ' ' :: c.type ++ renderMoreColumns cs) ++
        renderConstraints (k0 :: ks) ++ tl)
      tokCREATE 0 S id tb (by simp [hB0]) rfl hS
      (by decide) (by decide) (by decide) (by decide) (by decide)
  have h2 : ∀ id tb, lexerNext E ⟨B, S, 6, id, tb⟩ = Res.ok (tokTABLE, ⟨B, S, 12, id, tb⟩) := by
    intro id tb
    simpa using lexerNext_keyword E "CREATE".data [' '] "TABLE".data ' '
      (t ++ " (".data ++ (c.name ++ ' ' :: c.type ++ renderMoreColumns cs) ++
        renderConstraints (k0 :: ks) ++ tl) tokTABLE 6 S id tb
      (by simp [hB0]) rfl hS (by decide) (by decide) (by decide) (by decide) (by decide)
  have h3 : ∀ id tb, lexerNext E ⟨B, S, 12, id, tb⟩ =
      Res.ok (tokIDENTIFIER, ⟨B, S, p1, String.mk t, tb⟩) := by
    intro id tb
    rw [hp1]
    simpa using lexerNext_ident E "CREATE TABLE".data [' '] t ' '
      ("(".data ++ (c.name ++ ' ' :: c.type ++ renderMoreColumns cs) ++
        renderConstraints (k0 :: ks) ++ tl)
      12 S id tb (by simp [hB0]) rfl hS (by decide) ht (by decide)
  have h4 : ∀ id tb, lexerNext E ⟨B, S, p1, id, tb⟩ =
      Res.ok (tokOPENparenthesis, ⟨B, S, p2, id, tb⟩) := by
    intro id tb
    rw [hp2]
    simpa [punctToken] using lexerNext_punct E ("CREATE TABLE ".data ++ t) [' '] '('
      ((c.name ++ ' ' :: c.type ++ renderMoreColumns cs) ++ renderConstraints (k0 :: ks) ++ tl)
      p1 S id tb (by simp [hB0]) (by simp [hp1]; omega) hS (by decide) (by decide)
  have hk2 : p2 = ("CREATE TABLE ".data ++ t ++ " (".data).length := by
    simp [hp2, hp1]
    omega
  have hlen : B.length = p3 + (renderConstraints (k0 :: ks)).length + tl.length := by
    rw [hB0, hp3, hk2]
    simp only [List.length_append, List.length_nil]
    omega
  have hcsf : cs.length + 1 < B.length + 1 := by
    have := length_le_renderMoreColumns cs
    have e : (c.name ++ ' ' :: c.type ++ renderMoreColumns cs).length =
        c.name.length + 1 + c.type.length + (renderMoreColumns cs).length := by
      simp only [List.length_append, List.length_cons]
      omega
    have : 0 < tl.length := by
      rw [htl]
      simp
    omega
  have q1 : tokIDENTIFIER ≠ tokIF := by decide
  have q2 : tokOPENparenthesis ≠ tokAS := by decide
  have hB1 : B = ("CREATE TABLE ".data ++ t ++ " (".data) ++ [] ++
      (c.name ++ ' ' :: c.type ++ renderMoreColumns cs) ++ ',' ::
        (' ' :: renderConstraint k0 ++ renderConstraints ks ++ tl) := by
    rw [hB0]
    simp [renderConstraints]
  have hB2 : B = ("CREATE TABLE ".data ++ t ++ " (".data ++
      (c.name ++ ' ' :: c.type ++ renderMoreColumns cs) ++ [',']) ++
      (' ' :: renderConstraint k0) ++ (renderConstraints ks ++ tl) := by
    rw [hB0]
    simp [renderConstraints]
  have hB3 : B = ("CREATE TABLE ".data ++ t ++ " (".data ++
      (c.name ++ ' ' :: c.type ++ renderMoreColumns cs) ++ [',']) ++
      (' ' :: renderConstraint k0 ++ renderConstraints ks) ++ ',' ::
        (' ' :: (b ++ d :: tail)) := by
    rw [hB0, htl]
    simp [renderConstraints]
  have hk3 : p3 + 1 = ("CREATE TABLE ".data ++ t ++ " (".data ++
      (c.name ++ ' ' :: c.type ++ renderMoreColumns cs) ++ [',']).length := by
    simp only [hp3, hk2, List.length_append, List.length_cons, List.length_nil] <;> omega
  obtain ⟨tok, htok, hpeek⟩ := lexerPeek_constraint E S hS _ k0
    (renderConstraints ks ++ tl) (p3 + 1) hB2 hk3
  obtain ⟨id5, h5⟩ := parseColumnsLoop_shape E S hS tok 1 cs
    ("CREATE TABLE ".data ++ t ++ " (".data) [] c ','
    (' ' :: renderConstraint k0 ++ renderConstraints ks ++ tl) p2
    (String.mk t) { tb0 with Name := String.mk t } (B.length + 1) hB1 hk2 (by decide) hc hcs
    (Or.inl rfl) hcsf (Or.inr ⟨htok, rfl, rfl, by rw [← hp3]; exact hpeek⟩)
  rw [← hp3] at h5
  dsimp only at h5
  have hksf : ks.length + 1 < B.length + 1 := by
    have := length_le_renderConstraints ks
    have e : (renderConstraints (k0 :: ks)).length =
        2 + (renderConstraint k0).length + (renderConstraints ks).length := by
      simp only [renderConstraints, List.length_append, List.length_cons]
      omega
    omega
  obtain ⟨p4, hp4⟩ : ∃ p4, p4 = p3 + 1 +
      (' ' :: renderConstraint k0 ++ renderConstraints ks).length + 1 := ⟨_, rfl⟩
  have hB4 : B = ("CREATE TABLE ".data ++ t ++ " (".data ++
      (c.name ++ ' ' :: c.type ++ renderMoreColumns cs) ++ [','] ++
      (' ' :: renderConstraint k0 ++ renderConstraints ks) ++ [',']) ++ [' '] ++ b ++
        d :: tail := by
    rw [hB3]
    simp
  have hk4 : p4 = ("CREATE TABLE ".data ++ t ++ " (".data ++
      (c.name ++ ' ' :: c.type ++ renderMoreColumns cs) ++ [','] ++
      (' ' :: renderConstraint k0 ++ renderConstraints ks) ++ [',']).length := by
    simp only [hp4, hp3, hk2, List.length_append, List.length_cons, List.length_nil] <;> omega
  have h7 : ∀ id tb, lexerNext E ⟨B, S, p4, id, tb⟩ =
      Res.ok (tokIDENTIFIER, ⟨B, S, p4 + [' '].length + b.length, String.mk b, tb⟩) := by
    intro id tb
    exact lexerNext_ident E _ [' '] b d tail p4 S id tb hB4 hk4 hS (by decide) hb hd
  obtain ⟨id6, h6⟩ := parseConstraintsLoop_misplaced E S hS tokIDENTIFIER (by decide) ks _ k0
    (' ' :: (b ++ d :: tail)) (p3 + 1) id5
    { tb0 with Name := String.mk t, NumColumns := tb0.NumColumns + 1 + (cs.length : Int),
               Columns := tb0.Columns ++ (c :: cs).map expectedColumn }
    tok (B.length + 1) hB3 hk3 hk0 hks htok hksf
    (by
      intro id tb
      rw [← hp4]
      exact ⟨_, lexerPeek_of_next E (h7 id tb)⟩)
  rw [← hp4] at h6
  dsimp only at h6
  refine ⟨⟨B, S, p4 + [' '].length + b.length, String.mk b, _⟩, ?_, rfl⟩
  simp only [parse, bind_run, h1, h2, Res.bind_ok, pure_run, reduceCtorEq, ne_eq,
    not_true_eq_false, if_false, if_true, lexerPeek_of_next E (h3 _ _), not_false_eq_true,
    parseBody, h3, getState_run, mk_ne_empty hne, modifyTable_run,
    lexerPeek_of_next E (h4 _ _), h4, loopFuel, q1, q2]
  refine Eq.trans (Res.bind_eq_of_ok h5) ?_
  simp only [bind_run, getState_run, Res.bind_ok, loopFuel]
  refine Eq.trans (Res.bind_eq_of_ok h6) ?_
  simp only [parseTail, bind_run, h7, Res.bind_ok, reduceCtorEq, ne_eq, not_false_eq_true,
    if_true, pure_run]

/-- A statement with a word behind the table constraints where a column
definition would start is rejected with `ERROR_SYNTAX`; the table holds the
columns and constraints read before. -/
theorem ParseTable_misplaced (E : GoEnv) (t : List Char) (c : ColumnSpec)
    (cs : List ColumnSpec) (k0 : ConstraintSpec) (ks : List ConstraintSpec) (b : List Char)
    (d : Char) (tail : List Char)
    (ht : isPlainIdentifier t = true) (hc : c.ok = true) (hcs : cs.all ColumnSpec.ok = true)
    (hk0 : k0.ok = true) (hks : ks.all ConstraintSpec.ok = true)
    (hb : isPlainIdentifier b = true) (hd : isDelimiter d = true) :
    ParseTable E (String.mk (renderMisplaced t c cs (k0 :: ks) b (d :: tail))) 0 =
      Res.ok (some (expectedTable t c cs (k0 :: ks)), ERROR_SYNTAX) := by
  generalize hB : renderMisplaced t c cs (k0 :: ks) b (d :: tail) = B
  have hBne : B ≠ [] := by
    rw [← hB]
    simp [renderMisplaced]
  rw [ParseTable_run E B hBne]
  obtain ⟨st, h, htab⟩ := parse_misplaced E (goLen (String.mk B) : Int)
    (by have := length_le_goLen B; omega) t c cs k0 ks b d tail hB ht hc hcs hk0 hks hb hd "" {}
  rw [h]
  simp only [Res.bind, htab, expectedTable]
  simp
  omega

/-! ## What the constraint loop and the end of `parse` leave alone -/

theorem preserves_of_keeps {α : Type} {R : Table → Prop} {x : M α} (h : KeepsTable x) :
    Preserves R x := by
  intro st hR
  refine Res.Forall_mono _ (h st) ?_
  intro p hp
  show R p.2.table
  rw [hp]
  exact hR

theorem preserves_pure {α : Type} {R : Table → Prop} (a : α) : Preserves R (pure a : M α) :=
  fun _ hR => hR

theorem preserves_outOfFuel {α : Type} {R : Table → Prop} : Preserves R (outOfFuel : M α) :=
  fun _ _ => trivial

theorem preserves_bind {α β : Type} {R : Table → Prop} {x : M α} {f : α → M β}
    (hx : Preserves R x) (hf : ∀ a, Preserves R (f a)) : Preserves R (x >>= f) := by
  intro st hR
  simp only [bind_run]
  exact Res.Forall_bind (x st) _ (hx st hR) fun p hp => hf p.1 p.2 hp

theorem preserves_ite {α : Type} {R : Table → Prop} {c : Prop} [Decidable c] {x y : M α}
    (h : c → Preserves R x) (h1 : ¬ c → Preserves R y) :
    Preserves R (if c then x else y) := by
  by_cases hc : c
  · simp only [hc, if_true]; exact h hc
  · simp only [hc, if_false]; exact h1 hc

theorem preserves_modifyTable {R : Table → Prop} {f : Table → Table}
    (h : ∀ t, R t → R (f t)) : Preserves R (modifyTable f) :=
  fun st hR => h st.table hR

/-- The loop over the table constraints keeps every property of the table
that appending a constraint keeps. -/
theorem preserves_parseConstraintsLoop (E : GoEnv) (R : Table → Prop)
    (hadd : ∀ (t : Table) (c : TableConstraint), R t →
      R { t with NumConstraint := t.NumConstraint + 1, Constraints := t.Constraints ++ [c] })
    (fuel : Nat) : ∀ token : tokenT, Preserves R (parseConstraintsLoop E token fuel) := by
  induction fuel with
  | zero => exact fun _ => preserves_outOfFuel
  | succ n ih =>
    intro token
    unfold parseConstraintsLoop
    apply preserves_ite
    · intro _
      apply preserves_bind (preserves_of_keeps (keeps_parseTableConstraint E))
      intro r
      split
      · exact preserves_pure _
      · rename_i constraint
        apply preserves_bind (preserves_modifyTable fun t ht => hadd t constraint ht)
        intro _
        apply preserves_bind (preserves_of_keeps (keeps_lexerPeek E))
        intro p
        apply preserves_ite
        · intro _
          apply preserves_bind (preserves_of_keeps (keeps_lexerNext E))
          intro _
          apply preserves_bind (preserves_of_keeps (keeps_lexerPeek E))
          intro token3
          exact ih token3
        · intro _
          apply preserves_bind (preserves_of_keeps (keeps_lexerPeek E))
          intro _
          apply preserves_ite
          · intro _
            exact preserves_pure _
          · intro _
            exact preserves_pure _
    · intro _
      exact preserves_pure _

/-- The end of `parse` keeps every property of the table that setting the
flag `IsWithoutRowid` keeps. -/
theorem preserves_parseTail (E : GoEnv) (R : Table → Prop)
    (hflag : ∀ t : Table, R t → R { t with IsWithoutRowid := true }) :
    Preserves R (parseTail E) := by
  unfold parseTail
  repeat' with_reducible first
    | exact preserves_pure _
    | exact preserves_of_keeps (keeps_lexerNext E)
    | exact preserves_of_keeps (keeps_lexerPeek E)
    | exact preserves_modifyTable hflag
    | apply preserves_bind
    | apply preserves_ite
    | intro _
    | split

/-! ## The size of the state and the end of the buffer -/

theorem utf8Size_two_le {c : Char} (h : 128 ≤ c.toNat) : 2 ≤ c.utf8Size := by
  have h1 : ¬ c.val ≤ 0x7F := by
    intro h2
    have : c.val.toNat ≤ 0x7F := h2
    have e : c.toNat = c.val.toNat := rfl
    omega
  unfold Char.utf8Size
  dsimp only
  split_ifs with a
  · exact absurd a h1
  all_goals decide

theorem bytes_length_le (l : List Char) :
    l.length ≤ (l.flatMap String.utf8EncodeChar).length := by
  induction l with
  | nil => simp
  | cons c cs ih =>
    have := Char.utf8Size_pos c
    rw [List.flatMap_cons, List.length_append, List.length_cons, String.length_utf8EncodeChar]
    omega

theorem bytes_length_lt (l : List Char) (h : ¬ AsciiText l) :
    l.length < (l.flatMap String.utf8EncodeChar).length := by
  induction l with
  | nil => exact absurd (fun c hc => absurd hc (List.not_mem_nil c)) h
  | cons c cs ih =>
    rw [List.flatMap_cons, List.length_append, List.length_cons, String.length_utf8EncodeChar]
    by_cases hc : c.toNat < 128
    · have hcs : ¬ AsciiText cs := fun hcs => h (asciiText_cons hc hcs)
      have := ih hcs
      have := Char.utf8Size_pos c
      omega
    · have h1 := utf8Size_two_le (c := c) (by omega)
      have h2 := bytes_length_le cs
      omega

/-- A string that holds a code point beyond ASCII has more bytes than code
points. -/
theorem length_lt_goLen (l : List Char) (h : ¬ AsciiText l) :
    l.length < goLen (String.mk l) :=
  bytes_length_lt l h

/-- At the end of the buffer, with a size that is not the number of runes,
`isEOF` is false and `lexerNext` reads past the buffer. -/
theorem lexerNext_end_panic (E : GoEnv) (B : List Char) (S : Int) (k : Nat) (id : String)
    (tb : Table) (hk : B.length ≤ k) (hS : (k : Int) ≠ S) :
    lexerNext E ⟨B, S, k, id, tb⟩ = Res.panic := by
  have he : isEOF ⟨B, S, k, id, tb⟩ = false := by
    simp only [isEOF, beq_eq_false_iff_ne, ne_eq]
    exact hS
  simp only [lexerNext, bind_run, getState_run, Res.bind_ok, loopFuel, lexerNextLoop, he,
    Bool.false_eq_true, if_false, peek_at_end S id tb hk, Res.bind_panic]

/-- The run of `parse` over `CREATE TABLE "s" (a INTEGER)`: everything up to
the closing parenthesis is read, and the look-ahead behind it is at the end of
the buffer.  When the size is the number of runes the look-ahead gives
`tokEOF` and `parse` returns `ERROR_NONE`; when the size is larger it reads
past the buffer. -/
theorem parse_quotedName (E : GoEnv) {B : List Char} (S : Int) (hS : (B.length : Int) ≤ S)
    (s : List Char) (hB : renderQuotedName s = B) (hs : s ≠ [])
    (hq : ∀ x ∈ s, x ≠ '\x00' ∧ x ≠ '"') (id0 : String) (tb0 : Table) :
    (S = (B.length : Int) →
      ∃ st, parse E ⟨B, S, 0, id0, tb0⟩ = Res.ok (ERROR_NONE, st) ∧
        st.table = { tb0 with Name := String.mk s, NumColumns := tb0.NumColumns + 1,
                              Columns := tb0.Columns ++ [{ Name := "a", Type_ := "INTEGER" }] }) ∧
      (S ≠ (B.length : Int) → parse E ⟨B, S, 0, id0, tb0⟩ = Res.panic) := by
  have hB0 : B = "CREATE TABLE \"".data ++ s ++ "\" (a INTEGER)".data := by
    rw [← hB]
    rfl
  obtain ⟨p1, hp1⟩ : ∃ p1, p1 = 12 + 1 + s.length + 2 := ⟨_, rfl⟩
  obtain ⟨p2, hp2⟩ : ∃ p2, p2 = p1 + 1 + 1 := ⟨_, rfl⟩
  have hlen : B.length = p2 + 10 := by
    rw [hB0, hp2, hp1]
    simp
    omega
  have h1 : ∀ id tb, lexerNext E ⟨B, S, 0, id, tb⟩ = Res.ok (tokCREATE, ⟨B, S, 6, id, tb⟩) := by
    intro id tb
    simpa using lexerNext_keyword E [] [] "CREATE".data ' '
      ("TABLE \"".data ++ s ++ "\" (a INTEGER)".data)
      tokCREATE 0 S id tb (by simp [hB0]) rfl hS
      (by decide) (by decide) (by decide) (by decide) (by decide)
  have h2 : ∀ id tb, lexerNext E ⟨B, S, 6, id, tb⟩ = Res.ok (tokTABLE, ⟨B, S, 12, id, tb⟩) := by
    intro id tb
    simpa using lexerNext_keyword E "CREATE".data [' '] "TABLE".data ' '
      ('"' :: s ++ "\" (a INTEGER)".data) tokTABLE 6 S id tb
      (by simp [hB0]) rfl hS (by decide) (by decide) (by decide) (by decide) (by decide)
  have h3 : ∀ id tb, lexerNext E ⟨B, S, 12, id, tb⟩ =
      Res.ok (tokIDENTIFIER, ⟨B, S, p1, String.mk s, tb⟩) := by
    intro id tb
    rw [hp1]
    exact lexerNext_quoted E "CREATE TABLE".data [' '] '"' '"' s " (a INTEGER)".data 12 S id tb
      (by simp [hB0]) rfl hS (by decide) (by decide) (by decide) hq
  have h4 : ∀ id tb, lexerNext E ⟨B, S, p1, id, tb⟩ =
      Res.ok (tokOPENparenthesis, ⟨B, S, p2, id, tb⟩) := by
    intro id tb
    rw [hp2]
    simpa [punctToken] using lexerNext_punct E ("CREATE TABLE \"".data ++ s ++ ['"']) [' '] '('
      "a INTEGER)".data p1 S id tb (by simp [hB0]) (by simp [hp1]; omega) hS (by decide)
      (by decide)
  have hk2 : p2 = ("CREATE TABLE \"".data ++ s ++ "\" (".data).length := by
    simp [hp2, hp1]
    omega
  have hB1 : B = ("CREATE TABLE \"".data ++ s ++ "\" (".data) ++ [] ++
      ("a".data ++ ' ' :: "INTEGER".data ++ renderMoreColumns []) ++ ')' :: [] := by
    rw [hB0]
    simp [renderMoreColumns]
  obtain ⟨id5, h5⟩ := parseColumnsLoop_shape E S hS tokCLOSEDparenthesis 0 []
    ("CREATE TABLE \"".data ++ s ++ "\" (".data) [] ⟨"a".data, "INTEGER".data⟩ ')' [] p2
    (String.mk s) { tb0 with Name := String.mk s } (B.length + 1) hB1 hk2 (by decide)
    (by decide) (by decide) (Or.inr rfl) (by simp only [List.length_nil]; omega)
    (Or.inl ⟨rfl, rfl, rfl⟩)
  have e5 : p2 + ([] : List Char).length +
      ("a".data ++ ' ' :: "INTEGER".data ++ renderMoreColumns []).length + 0 = p2 + 9 := rfl
  dsimp only at h5
  rw [e5] at h5
  have h6 : ∀ id tb, lexerNext E ⟨B, S, p2 + 9, id, tb⟩ =
      Res.ok (tokCLOSEDparenthesis, ⟨B, S, p2 + 9 + ([] : List Char).length + 1, id, tb⟩) := by
    intro id tb
    exact lexerNext_punct E ("CREATE TABLE \"".data ++ s ++ "\" (a INTEGER".data) [] ')' []
      (p2 + 9) S id tb (by simp [hB0])
      (by simp [hp2, hp1]; omega) hS (by decide) (by decide)
  have e6 : p2 + 9 + ([] : List Char).length + 1 = B.length := by
    rw [hlen]
    rfl
  rw [e6] at h6
  have c3 : tokenIsTableConstraint tokCLOSEDparenthesis = false := by decide
  have q1 : tokIDENTIFIER ≠ tokIF := by decide
  have q2 : tokOPENparenthesis ≠ tokAS := by decide
  have hmain : parse E ⟨B, S, 0, id0, tb0⟩ =
      parseTail E ⟨B, S, p2 + 9, id5,
        { tb0 with Name := String.mk s, NumColumns := tb0.NumColumns + 1,
                   Columns := tb0.Columns ++ [{ Name := "a", Type_ := "INTEGER" }] }⟩ := by
    simp only [parse, bind_run, h1, h2, Res.bind_ok, pure_run, reduceCtorEq, ne_eq,
      not_true_eq_false, if_false, if_true, lexerPeek_of_next E (h3 _ _), not_false_eq_true,
      parseBody, h3, getState_run, mk_ne_empty hs, modifyTable_run,
      lexerPeek_of_next E (h4 _ _), h4, loopFuel, q1, q2]
    refine Eq.trans (Res.bind_eq_of_ok h5) ?_
    simp only [bind_run, getState_run, Res.bind_ok, parseConstraintsLoop, c3,
      Bool.false_eq_true, if_false, pure_run]
    congr 1
    simp [expectedColumn]
  rw [hmain]
  refine ⟨fun hSe => ?_, fun hSne => ?_⟩
  · have h7 : ∀ id tb, lexerNext E ⟨B, S, B.length, id, tb⟩ =
        Res.ok (tokEOF, ⟨B, S, B.length + ([] : List Char).length, id, tb⟩) := by
      intro id tb
      exact lexerNext_eof E B [] B.length S id tb (by simp) rfl hSe (by decide)
    refine ⟨⟨B, S, B.length, id5, _⟩, ?_, rfl⟩
    simp only [parseTail, bind_run, h6, Res.bind_ok, ne_eq, not_true_eq_false, if_false,
      lexerPeek_of_next E (h7 _ _), reduceCtorEq, pure_run]
  · have h7 : ∀ id tb, lexerNext E ⟨B, S, B.length, id, tb⟩ = Res.panic := by
      intro id tb
      exact lexerNext_end_panic E B S B.length id tb (Nat.le_refl _) (fun e => hSne e.symm)
    simp only [parseTail, bind_run, h6, Res.bind_ok, ne_eq, not_true_eq_false, if_false,
      lexerPeek_of_next_panic E (h7 _ _), Res.bind_panic]

/-- The statement `CREATE TABLE "s" (a INTEGER)`: with an ASCII name `ParseTable`
returns the table, with a name that holds a code point beyond ASCII it reads
past the buffer. -/
theorem ParseTable_quotedName (E : GoEnv) (s : List Char) (hs : s ≠ [])
    (hq : ∀ x ∈ s, x ≠ '\x00' ∧ x ≠ '"') :
    (AsciiText s → ParseTable E (String.mk (renderQuotedName s)) 0 =
      Res.ok (some { Name := String.mk s, NumColumns := 1,
                     Columns := [{ Name := "a", Type_ := "INTEGER" }] }, ERROR_NONE)) ∧
      (¬ AsciiText s → ParseTable E (String.mk (renderQuotedName s)) 0 = Res.panic) := by
  generalize hB : renderQuotedName s = B
  have hBne : B ≠ [] := by
    rw [← hB]
    simp [renderQuotedName]
  have hle := length_le_goLen B
  obtain ⟨hok, hpanic⟩ := parse_quotedName E (goLen (String.mk B) : Int) (by omega) s hB hs hq
    "" {}
  rw [ParseTable_run E B hBne]
  refine ⟨fun ha => ?_, fun hna => ?_⟩
  · have hBa : AsciiText B := by
      rw [← hB]
      exact asciiText_append (asciiText_append (by decide) ha) (by decide)
    obtain ⟨st, h, htab⟩ := hok (by rw [goLen_ascii B hBa])
    rw [h]
    simp only [Res.bind, htab]
    simp
  · have hBna : ¬ AsciiText B := by
      intro hBa
      apply hna
      intro c hc
      apply hBa c
      rw [← hB]
      simp only [renderQuotedName, List.mem_append]
      exact Or.inl (Or.inr hc)
    have := length_lt_goLen B hBna
    rw [hpanic (by omega)]
    rfl

end Sqlite3CreateTableParser

namespace Sqlite3CreateTableParser

open tokenT ErrorCode OrderClause ConflictClause FkAction FkDefType ConstraintType

/-! ## The claims on empty input, literals, keywords and foreign keys -/

/-- C11.  Empty input is "no error, no table": for every length,
`ParseTable("", length)` returns a nil table together with `ERROR_NONE`. -/
theorem C11_empty_input (E : GoEnv) (length : Int) :
    ParseTable E "" length = Res.ok (none, ERROR_NONE) := by
  simp only [ParseTable, if_true]

/-- C12 (the code departs from the claim).  `parseLiteral` accepts one token
kind only, `tokIDENTIFIER`.  The lexer reads `0` and `1.5` as `tokERROR` and
`NULL` as `tokNULL`, so `parseColumnConstraints` returns `ERROR_SYNTAX` on
`DEFAULT 0` and leaves `DefaultExpr` empty, and `ParseTable` returns
`ERROR_SYNTAX` on `DEFAULT 0`, `DEFAULT 1.5` and `DEFAULT NULL`; only the
quoted string, which the lexer reads as an identifier, is stored. -/
theorem C12_default_rejects_numbers_and_null (E : GoEnv) :
    ParseTable E "CREATE TABLE t (a INTEGER DEFAULT 0)" 0 =
        Res.ok (some { Name := "t" }, ERROR_SYNTAX) ∧
      ParseTable E "CREATE TABLE t (a INTEGER DEFAULT 1.5)" 0 =
        Res.ok (some { Name := "t" }, ERROR_SYNTAX) ∧
      ParseTable E "CREATE TABLE t (a INTEGER DEFAULT NULL)" 0 =
        Res.ok (some { Name := "t" }, ERROR_SYNTAX) ∧
      (parseColumnConstraints E { Name := "a", Type_ := "INTEGER" }
          (stateAt "CREATE TABLE t (a INTEGER DEFAULT 0)" 25)).val =
        Res.ok (ERROR_SYNTAX, { Name := "a", Type_ := "INTEGER" }) ∧
      (lexerNext E (stateAt "CREATE TABLE t (a INTEGER DEFAULT 0)" 33)).val =
        Res.ok tokERROR ∧
      (lexerNext E (stateAt "CREATE TABLE t (a INTEGER DEFAULT NULL)" 33)).val =
        Res.ok tokNULL ∧
      ParseTable E "CREATE TABLE t (a INTEGER DEFAULT 'abc')" 0 =
        Res.ok (some { Name := "t", NumColumns := 1,
                       Columns := [{ Name := "a", Type_ := "INTEGER", DefaultExpr := "abc" }] },
          ERROR_NONE) := by
  refine ⟨?_, ?_, ?_, ?_, ?_, ?_, ?_⟩
  · exact (ParseTable_ascii E asciiEnv _ 0 (by decide)).trans (by decide!)
  · exact (ParseTable_ascii E asciiEnv _ 0 (by decide)).trans (by decide!)
  · exact (ParseTable_ascii E asciiEnv _ 0 (by decide)).trans (by decide!)
  · rw [(cong_parseColumnConstraints E asciiEnv _ _ (by decide)).1]
    decide!
  · rw [(cong_lexerNext E asciiEnv _ (by decide)).1]
    decide!
  · rw [(cong_lexerNext E asciiEnv _ (by decide)).1]
    decide!
  · exact (ParseTable_ascii E asciiEnv _ 0 (by decide)).trans (by decide!)

/-- C13.  Keyword matching is case-insensitive and complete.  `reservedWords`
lists the 42 words `lexerKeyword` tests, each with its token, none of them
`tokIDENTIFIER`, and `temp` and `temporary` both with `tokTEMP`.  For each of
these words `w` and every string `s` equal to `w` up to the case of its ASCII
letters, `lexerKeyword(s, len(s))` returns the token of `w`; and for every
ASCII string `s` that is a case variant of none of them,
`lexerKeyword(s, len(s))` returns `tokIDENTIFIER`. -/
theorem C13_keywords_case_insensitive_and_complete (E : GoEnv) :
    reservedWords.length = 42 ∧
      (∀ p ∈ reservedWords, p.2 ≠ tokIDENTIFIER) ∧
      (("temp", tokTEMP) ∈ reservedWords ∧ ("temporary", tokTEMP) ∈ reservedWords) ∧
      (∀ p ∈ reservedWords, ∀ s : List Char, IsCaseVariant s p.1 →
        lexerKeyword E (String.mk s) (goLen (String.mk s) : Int) = some p.2) ∧
      (∀ s : List Char, AsciiText s → (∀ p ∈ reservedWords, ¬ IsCaseVariant s p.1) →
        lexerKeyword E (String.mk s) (goLen (String.mk s) : Int) = some tokIDENTIFIER) := by
  refine ⟨by decide, by decide, ⟨by decide, by decide⟩, ?_, ?_⟩
  · rintro ⟨w, t⟩ hp s hs
    exact lexerKeyword_caseVariant E w t s hp hs
  · intro s hs hmiss
    rw [goLen_ascii s hs, lexerKeyword_ascii E asciiEnv _ hs]
    exact lexerKeyword_miss s hs fun w t hmem => hmiss (w, t) hmem

/-- C13 at `CrEaTe`, a case variant of `create`, and at `contact_id`, a case
variant of no reserved word. -/
theorem C13_keywords_case_insensitive_and_complete_witness :
    (("create", tokCREATE) ∈ reservedWords ∧ IsCaseVariant "CrEaTe".data "create") ∧
      lexerKeyword asciiEnv "CrEaTe" (goLen "CrEaTe" : Int) = some tokCREATE ∧
      (AsciiText "contact_id".data ∧
        ∀ p ∈ reservedWords, ¬ IsCaseVariant "contact_id".data p.1) ∧
      lexerKeyword asciiEnv "contact_id" (goLen "contact_id" : Int) = some tokIDENTIFIER :=
  ⟨⟨by decide, by decide⟩,
    (C13_keywords_case_insensitive_and_complete asciiEnv).2.2.2.1 ("create", tokCREATE)
      (by decide) "CrEaTe".data (by decide),
    ⟨by decide, by decide⟩,
    (C13_keywords_case_insensitive_and_complete asciiEnv).2.2.2.2 "contact_id".data
      (by decide) (by decide)⟩

/-- C14 (the code departs from the claim).  `strNoCaseNcmp` lowers its
arguments with `strings.ToLower`, which folds by the Unicode tables, not the
ASCII letters alone.  With the entries Go's tables have at U+212A KELVIN SIGN
and U+0130 (both letters, lowered to `k` and `i`), `lexerKeyword` returns
`tokKEY` for `KEY` written with U+212A in place of `K` and `tokIF` for `IF`
written with U+0130 in place of `I`, and `lexerNext` reads these words as the
keywords `KEY` and `IF`. -/
theorem C14_keywords_fold_beyond_ascii (E : GoEnv) (h : FoldsToAscii E) :
    lexerKeyword E (String.mk [kelvinSign, 'E', 'Y']) 3 = some tokKEY ∧
      lexerKeyword E (String.mk [dottedCapitalI, 'F']) 2 = some tokIF ∧
      (lexerNext E (stateAt (String.mk [kelvinSign, 'E', 'Y', ' ']) 0)).val = Res.ok tokKEY ∧
      (lexerNext E (stateAt (String.mk [dottedCapitalI, 'F', ' ']) 0)).val = Res.ok tokIF := by
  have hk : lexerKeyword E (String.mk [kelvinSign, 'E', 'Y']) 3 = some tokKEY := by
    rw [lexerKeyword_lower E kelvinEnv 3 (stringsToLower_folds E h _ (by decide))]
    decide!
  have hi : lexerKeyword E (String.mk [dottedCapitalI, 'F']) 2 = some tokIF := by
    rw [lexerKeyword_lower E kelvinEnv 2 (stringsToLower_folds E h _ (by decide))]
    decide!
  have hKl : symbolIsIdentifier E kelvinSign = true ∧ symbolIsAlpha E kelvinSign = true := by
    have : ¬ kelvinSign.toNat < 128 := by decide
    have h2 : kelvinSign ≠ '_' := by decide
    simp only [symbolIsIdentifier, symbolIsAlpha, unicodeIsLetter, this, if_false, h.1,
      Bool.true_or, h2, and_self]
  have hIl : symbolIsIdentifier E dottedCapitalI = true ∧
      symbolIsAlpha E dottedCapitalI = true := by
    have : ¬ dottedCapitalI.toNat < 128 := by decide
    have h2 : dottedCapitalI ≠ '_' := by decide
    simp only [symbolIsIdentifier, symbolIsAlpha, unicodeIsLetter, this, if_false, h.2.2.1,
      Bool.true_or, h2, and_self]
  refine ⟨hk, hi, ?_, ?_⟩
  · have hw : ∀ x ∈ [kelvinSign, 'E', 'Y'], symbolIsIdentifier E x = true := by
      intro x hx
      simp only [List.mem_cons, List.mem_singleton, List.not_mem_nil, or_false] at hx
      rcases hx with rfl | rfl | rfl
      · exact hKl.1
      · exact symbolIsIdentifier_of_wordChar E (by decide)
      · exact symbolIsIdentifier_of_wordChar E (by decide)
    have := @lexerNext_word E [kelvinSign, 'E', 'Y', ' '] [] [] kelvinSign ['E', 'Y'] ' ' [] 0
      (goLen (String.mk [kelvinSign, 'E', 'Y', ' ']) : Int) "" {} rfl rfl (by decide)
      (by decide) hKl.2 hw (symbolIsIdentifier_of_delimiter E (by decide))
    simp only [stateAt, Res.val]
    rw [this]
    rw [show ((([kelvinSign, 'E', 'Y'] : List Char).length : Nat) : Int) = 3 from rfl, hk]
    rfl
  · have hw : ∀ x ∈ [dottedCapitalI, 'F'], symbolIsIdentifier E x = true := by
      intro x hx
      simp only [List.mem_cons, List.mem_singleton, List.not_mem_nil, or_false] at hx
      rcases hx with rfl | rfl
      · exact hIl.1
      · exact symbolIsIdentifier_of_wordChar E (by decide)
    have := @lexerNext_word E [dottedCapitalI, 'F', ' '] [] [] dottedCapitalI ['F'] ' ' [] 0
      (goLen (String.mk [dottedCapitalI, 'F', ' ']) : Int) "" {} rfl rfl (by decide)
      (by decide) hIl.2 hw (symbolIsIdentifier_of_delimiter E (by decide))
    simp only [stateAt, Res.val]
    rw [this]
    rw [show ((([dottedCapitalI, 'F'] : List Char).length : Nat) : Int) = 2 from rfl, hi]
    rfl

/-- C14 at the tables `kelvinEnv`, which hold just these two entries beyond
ASCII. -/
theorem C14_keywords_fold_beyond_ascii_witness :
    FoldsToAscii kelvinEnv ∧
      lexerKeyword kelvinEnv (String.mk [kelvinSign, 'E', 'Y']) 3 = some tokKEY :=
  ⟨kelvinEnv_folds, (C14_keywords_fold_beyond_ascii kelvinEnv kelvinEnv_folds).1⟩

set_option maxRecDepth 1000000 in
/-- C15.  A foreign-key clause records its `ON DELETE` and `ON UPDATE`
actions.  On `r (c)` followed by any run of `ON DELETE` and `ON UPDATE`
clauses with actions among CASCADE, RESTRICT, SET NULL, SET DEFAULT and NO
ACTION, and then by `,` or `)`, `parseForeignKeyClause` returns the foreign
key of table `r` and column `c` in which every clause has stored its action in
turn.  So `ON DELETE d ON UPDATE u` gives `OnDelete = d` and `OnUpdate = u`
for every pair of actions, and when `ON DELETE` (or `ON UPDATE`) occurs twice
the later action is the one kept.  In Scenario B the first `FOREIGN KEY`
constraint has `OnDelete = FKACTION_CASCADE` and
`OnUpdate = FKACTION_NOACTION`. -/
theorem C15_foreign_key_actions_recorded (E : GoEnv) :
    (∀ (st : State) (r c : List Char) (cl : List (Bool × FkAction)),
        HoldsReference st r c cl → (∀ x ∈ cl, x.2 ≠ FKACTION_NONE) →
        (parseForeignKeyClause E st).val =
          Res.ok (some (applyOnClauses
            { Table := String.mk r, ColumnName := [String.mk c] } cl))) ∧
      (∀ (st : State) (r c : List Char) (d u : FkAction),
        d ≠ FKACTION_NONE → u ≠ FKACTION_NONE →
        HoldsReference st r c [(false, d), (true, u)] →
        (parseForeignKeyClause E st).val =
          Res.ok (some { Table := String.mk r, ColumnName := [String.mk c],
                         OnDelete := d, OnUpdate := u })) ∧
      (∀ (st : State) (r c : List Char) (a b : FkAction),
        a ≠ FKACTION_NONE → b ≠ FKACTION_NONE →
        (HoldsReference st r c [(false, a), (false, b)] →
          (parseForeignKeyClause E st).val =
            Res.ok (some { Table := String.mk r, ColumnName := [String.mk c],
                           OnDelete := b })) ∧
        (HoldsReference st r c [(true, a), (true, b)] →
          (parseForeignKeyClause E st).val =
            Res.ok (some { Table := String.mk r, ColumnName := [String.mk c],
                           OnUpdate := b }))) ∧
      (parsedTable (ParseTable E scenarioB 0)).bind firstForeignKey =
        some { Table := "contacts", ColumnName := ["contact_id"],
               OnDelete := FKACTION_CASCADE, OnUpdate := FKACTION_NOACTION } := by
  have hgen : ∀ (st : State) (r c : List Char) (cl : List (Bool × FkAction)),
      HoldsReference st r c cl → (∀ x ∈ cl, x.2 ≠ FKACTION_NONE) →
      (parseForeignKeyClause E st).val =
        Res.ok (some (applyOnClauses
          { Table := String.mk r, ColumnName := [String.mk c] } cl)) := by
    rintro ⟨B, S, k, id, tb⟩ r c cl ⟨pre, ws, d, rest, hbuf, hoff, hsize, hws, hr, hc, hd⟩ hcl
    simp only at hbuf hoff hsize
    rw [parseForeignKeyClause_onClauses E hsize ws r c cl d rest k id tb
      ⟨pre, by simpa using hbuf, hoff⟩ hws hr hc hcl hd]
    rfl
  refine ⟨hgen, ?_, ?_, ?_⟩
  · intro st r c d u hd hu hst
    rw [hgen st r c _ hst (by
      intro x hx
      simp only [List.mem_cons, List.mem_singleton, List.not_mem_nil, or_false] at hx
      rcases hx with rfl | rfl
      · exact hd
      · exact hu)]
    rfl
  · intro st r c a b ha hb
    have hab : ∀ v : Bool, ∀ x ∈ [(v, a), (v, b)], x.2 ≠ FKACTION_NONE := by
      intro v x hx
      simp only [List.mem_cons, List.mem_singleton, List.not_mem_nil, or_false] at hx
      rcases hx with rfl | rfl
      · exact ha
      · exact hb
    refine ⟨fun hst => ?_, fun hst => ?_⟩
    · rw [hgen st r c _ hst (hab false)]
      rfl
    · rw [hgen st r c _ hst (hab true)]
      rfl
  · rw [ParseTable_ascii E asciiEnv _ 0 (by decide)]
    decide!

/-- C15 at `r (c) ON DELETE SET NULL ON UPDATE NO ACTION,`. -/
theorem C15_foreign_key_actions_recorded_witness :
    (FKACTION_SETNULL ≠ FKACTION_NONE ∧ FKACTION_NOACTION ≠ FKACTION_NONE ∧
        HoldsReference (stateAt "r (c) ON DELETE SET NULL ON UPDATE NO ACTION," 0) "r".data
          "c".data [(false, FKACTION_SETNULL), (true, FKACTION_NOACTION)]) ∧
      (parseForeignKeyClause asciiEnv
          (stateAt "r (c) ON DELETE SET NULL ON UPDATE NO ACTION," 0)).val =
        Res.ok (some { Table := "r", ColumnName := ["c"], OnDelete := FKACTION_SETNULL,
                       OnUpdate := FKACTION_NOACTION }) :=
  have hst : HoldsReference (stateAt "r (c) ON DELETE SET NULL ON UPDATE NO ACTION," 0)
      "r".data "c".data [(false, FKACTION_SETNULL), (true, FKACTION_NOACTION)] :=
    ⟨[], [], ',', [], by decide, by decide, by decide, by decide, by decide, by decide,
      by decide⟩
  ⟨⟨by decide, by decide, hst⟩,
    (C15_foreign_key_actions_recorded asciiEnv).2.1 _ "r".data "c".data FKACTION_SETNULL
      FKACTION_NOACTION (by decide) (by decide) hst⟩

/-- C16 (the code departs from the claim).  After `ON DELETE` or `ON UPDATE`
a token that starts none of the five actions is read and dropped: the chain
of comparisons has no final `else`, and the loop goes on.
`parseForeignKeyClause` on `r ON DELETE foo)` returns the clause of table `r`
with no action, and `ParseTable` returns `ERROR_NONE` on a column constraint
and on a table constraint with such a clause.  The sibling branches do fail:
`ON DELETE SET foo` and `ON foo` give no clause and `ERROR_SYNTAX`. -/
theorem C16_unknown_action_is_skipped (E : GoEnv) :
    (parseForeignKeyClause E (stateAt "REFERENCES r ON DELETE foo)" 10)).val =
        Res.ok (some { Table := "r" }) ∧
      ParseTable E "CREATE TABLE t (a INTEGER REFERENCES r ON DELETE foo)" 0 =
        Res.ok (some { Name := "t", NumColumns := 1,
                       Columns := [{ Name := "a", Type_ := "INTEGER",
                                     ForeignKeyClause := some { Table := "r" } }] },
          ERROR_NONE) ∧
      ParseTable E
          "CREATE TABLE t (a INTEGER, FOREIGN KEY (a) REFERENCES r (b) ON UPDATE foo)" 0 =
        Res.ok (some { Name := "t", NumColumns := 1,
                       Columns := [{ Name := "a", Type_ := "INTEGER" }],
                       NumConstraint := 1,
                       Constraints := [{ Type_ := TABLECONSTRAINT_FOREIGNKEY,
                                         ForeignKeyNum := 1, ForeignKeyName := ["a"],
                                         ForeignKeyClause :=
                                           some { Table := "r", ColumnName := ["b"] } }] },
          ERROR_NONE) ∧
      (parseForeignKeyClause E (stateAt "REFERENCES r ON DELETE SET foo)" 10)).val =
        Res.ok none ∧
      (parseForeignKeyClause E (stateAt "REFERENCES r ON foo)" 10)).val = Res.ok none ∧
      ParseTable E "CREATE TABLE t (a INTEGER REFERENCES r ON DELETE SET foo)" 0 =
        Res.ok (some { Name := "t" }, ERROR_SYNTAX) := by
  refine ⟨?_, ?_, ?_, ?_, ?_, ?_⟩
  · rw [(cong_parseForeignKeyClause E asciiEnv _ (by decide)).1]
    decide!
  · exact (ParseTable_ascii E asciiEnv _ 0 (by decide)).trans (by decide!)
  · exact (ParseTable_ascii E asciiEnv _ 0 (by decide)).trans (by decide!)
  · rw [(cong_parseForeignKeyClause E asciiEnv _ (by decide)).1]
    decide!
  · rw [(cong_parseForeignKeyClause E asciiEnv _ (by decide)).1]
    decide!
  · exact (ParseTable_ascii E asciiEnv _ 0 (by decide)).trans (by decide!)

/-- C17 (the code departs from the claim).  For every column type `T(x)`
where `T` is an unquoted identifier and `x` holds neither `)` nor NUL,
`parseColumnType` returns `ERROR_NONE`, stores `T` as the type and leaves the
offset just past the `)`, but the length it stores is `x` followed by the
closing parenthesis: the slice ends at the offset reached after the `)` was
read.  `VARCHAR(10)` gives the length `10)`, also through `ParseTable`. -/
theorem C17_length_holds_closing_parenthesis (E : GoEnv) (st : State)
    (pre ws T x rest : List Char) (col : Column)
    (hbuf : st.buffer = pre ++ ws ++ T ++ '(' :: x ++ ')' :: rest)
    (hoff : st.offset = pre.length) (hsize : (st.buffer.length : Int) ≤ st.size)
    (hws : isBlank ws = true) (hT : isPlainIdentifier T = true)
    (hx : ∀ c ∈ x, c ≠ '\x00' ∧ c ≠ ')') :
    parseColumnType E col st =
        Res.ok ((ERROR_NONE,
            { col with Type_ := String.mk T, Length := String.mk (x ++ [')']) }),
          { st with offset := st.offset + ws.length + T.length + 1 + x.length + 1,
                    identifier := String.mk T }) ∧
      ParseTable E "CREATE TABLE t (a VARCHAR(10))" 0 =
        Res.ok (some { Name := "t", NumColumns := 1,
                       Columns := [{ Name := "a", Type_ := "VARCHAR", Length := "10)" }] },
          ERROR_NONE) := by
  refine ⟨?_, (ParseTable_ascii E asciiEnv _ 0 (by decide)).trans (by decide!)⟩
  obtain ⟨B, S, k, id, tb⟩ := st
  simp only at hbuf hoff hsize
  exact parseColumnType_length E hsize ws T x rest col k id tb
    ⟨pre, by simpa using hbuf, hoff⟩ hws hT hx

/-- C17 at `VARCHAR(10)` in the column definition `a VARCHAR(10)`. -/
theorem C17_length_holds_closing_parenthesis_witness :
    (isBlank " ".data = true ∧ isPlainIdentifier "VARCHAR".data = true ∧
        ∀ c ∈ "10".data, c ≠ '\x00' ∧ c ≠ ')') ∧
      parseColumnType asciiEnv { Name := "a" } (stateAt "a VARCHAR(10))" 1) =
        Res.ok ((ERROR_NONE, { Name := "a", Type_ := "VARCHAR", Length := "10)" }),
          { stateAt "a VARCHAR(10))" 1 with offset := 1 + 1 + 7 + 1 + 2 + 1,
                                             identifier := "VARCHAR" }) :=
  ⟨⟨by decide, by decide, by decide⟩,
    (C17_length_holds_closing_parenthesis asciiEnv (stateAt "a VARCHAR(10))" 1) "a".data
      " ".data "VARCHAR".data "10".data ")".data { Name := "a" } (by decide) (by decide)
      (by decide) (by decide) (by decide) (by decide)).1⟩

/-- C18 (counterexample).  The input `foo bar` is not empty and its first
token is an identifier, not `CREATE`, and `ParseTable` returns
`ERROR_UNSUPPORTEDSQL`, not `ERROR_SYNTAX`; so it does on `#`, on `(` and on
`CREATE INDEX i ON t (a)`, and on `CREATE TEMP VIEW v`, where the flag
`IsTemporary` is already set. -/
theorem C18_not_create_table_counterexample :
    ∃ sql : String, sql ≠ "" ∧ ∀ E : GoEnv,
      (lexerNext E (stateAt sql 0)).val = Res.ok tokIDENTIFIER ∧
        ParseTable E sql 0 = Res.ok (some {}, ERROR_UNSUPPORTEDSQL) ∧
        ParseTable E "#" 0 = Res.ok (some {}, ERROR_UNSUPPORTEDSQL) ∧
        ParseTable E "(" 0 = Res.ok (some {}, ERROR_UNSUPPORTEDSQL) ∧
        ParseTable E "CREATE INDEX i ON t (a)" 0 = Res.ok (some {}, ERROR_UNSUPPORTEDSQL) ∧
        ParseTable E "CREATE TEMP VIEW v" 0 =
          Res.ok (some { IsTemporary := true }, ERROR_UNSUPPORTEDSQL) := by
  refine ⟨"foo bar", by decide, fun E => ⟨?_, ?_, ?_, ?_, ?_, ?_⟩⟩
  · rw [(cong_lexerNext E asciiEnv _ (by decide)).1]
    decide!
  · exact (ParseTable_ascii E asciiEnv _ 0 (by decide)).trans (by decide!)
  · exact (ParseTable_ascii E asciiEnv _ 0 (by decide)).trans (by decide!)
  · exact (ParseTable_ascii E asciiEnv _ 0 (by decide)).trans (by decide!)
  · exact (ParseTable_ascii E asciiEnv _ 0 (by decide)).trans (by decide!)
  · exact (ParseTable_ascii E asciiEnv _ 0 (by decide)).trans (by decide!)

/-- C18 (as amended).  A statement that is no `CREATE TABLE` is reported as
unsupported.  For every non-empty input, when `lexerNext` returns a first
token that is not `CREATE`, `ParseTable` returns `ERROR_UNSUPPORTEDSQL` with
an empty table; when the first token is `CREATE` and the second is neither
`TEMP` nor `TABLE`, likewise; and when the tokens are `CREATE`, `TEMP` (which
stands for `TEMP` and `TEMPORARY`) and a third token that is not `TABLE`,
`ParseTable` returns `ERROR_UNSUPPORTEDSQL` with a table in which only
`IsTemporary` is set. -/
theorem C18_not_create_table_is_unsupported (E : GoEnv) (sql : String) (hne : sql ≠ "") :
    (∀ (t : tokenT) (st1 : State), lexerNext E (stateAt sql 0) = Res.ok (t, st1) →
        t ≠ tokCREATE → ParseTable E sql 0 = Res.ok (some {}, ERROR_UNSUPPORTEDSQL)) ∧
      (∀ (t : tokenT) (st1 st2 : State),
        lexerNext E (stateAt sql 0) = Res.ok (tokCREATE, st1) →
        lexerNext E st1 = Res.ok (t, st2) → t ≠ tokTEMP → t ≠ tokTABLE →
        ParseTable E sql 0 = Res.ok (some {}, ERROR_UNSUPPORTEDSQL)) ∧
      (∀ (t : tokenT) (st1 st2 st3 : State),
        lexerNext E (stateAt sql 0) = Res.ok (tokCREATE, st1) →
        lexerNext E st1 = Res.ok (tokTEMP, st2) →
        lexerNext E { st2 with table := { st2.table with IsTemporary := true } } =
          Res.ok (t, st3) →
        t ≠ tokTABLE →
        ParseTable E sql 0 = Res.ok (some { IsTemporary := true }, ERROR_UNSUPPORTEDSQL)) := by
  refine ⟨?_, ?_, ?_⟩
  · intro t st1 h1 ht
    rw [ParseTable_of_parse E hne (parse_not_create E h1 ht), table_of_lexerNext E h1]
    rfl
  · intro t st1 st2 h1 h2 ht ht2
    rw [ParseTable_of_parse E hne (parse_create_other E h1 h2 ht ht2),
      table_of_lexerNext E h2, table_of_lexerNext E h1]
    rfl
  · intro t st1 st2 st3 h1 h2 h3 ht
    rw [ParseTable_of_parse E hne (parse_create_temp_other E h1 h2 h3 ht),
      table_of_lexerNext E h3]
    simp only [table_of_lexerNext E h2, table_of_lexerNext E h1]
    rfl

/-- C18 (as amended) at `CREATE INDEX i ON t (a)`: the second token is
`tokIDENTIFIER`. -/
theorem C18_not_create_table_is_unsupported_witness :
    ("CREATE INDEX i ON t (a)" ≠ "" ∧
        lexerNext asciiEnv (stateAt "CREATE INDEX i ON t (a)" 0) =
          Res.ok (tokCREATE, stateAt "CREATE INDEX i ON t (a)" 6) ∧
        lexerNext asciiEnv (stateAt "CREATE INDEX i ON t (a)" 6) =
          Res.ok (tokIDENTIFIER,
            { stateAt "CREATE INDEX i ON t (a)" 12 with identifier := "INDEX" })) ∧
      ParseTable asciiEnv "CREATE INDEX i ON t (a)" 0 =
        Res.ok (some {}, ERROR_UNSUPPORTEDSQL) :=
  ⟨⟨by decide, by decide!, by decide!⟩,
    (C18_not_create_table_is_unsupported asciiEnv "CREATE INDEX i ON t (a)" (by decide)).2.1
      tokIDENTIFIER (stateAt "CREATE INDEX i ON t (a)" 6)
      { stateAt "CREATE INDEX i ON t (a)" 12 with identifier := "INDEX" } (by decide!)
      (by decide!) (by decide) (by decide)⟩

/-- C19.  A successfully parsed table has at least one column: for every
`sql` and `length`, when `ParseTable(sql, length)` returns a table together
with `ERROR_NONE`, the `Columns` of the table are not empty and `NumColumns`
is at least 1. -/
theorem C19_parsed_table_has_a_column (E : GoEnv) (sql : String) (length : Int) (tb : Table)
    (h : ParseTable E sql length = Res.ok (some tb, ERROR_NONE)) :
    tb.Columns ≠ [] ∧ 1 ≤ tb.NumColumns := by
  have hp := ParseTable_post E sql length
  rw [h] at hp
  obtain ⟨hc, hne⟩ := hp tb rfl
  refine ⟨hne, ?_⟩
  rw [hc.1]
  cases hcol : tb.Columns with
  | nil => exact absurd hcol hne
  | cons c cs =>
    simp only [List.length_cons]
    omega

/-- C19 at `CREATE TABLE t (a)`. -/
theorem C19_parsed_table_has_a_column_witness :
    ParseTable asciiEnv "CREATE TABLE t (a)" 0 =
        Res.ok (some { Name := "t", NumColumns := 1, Columns := [{ Name := "a" }] },
          ERROR_NONE) ∧
      ({ Name := "t", NumColumns := 1, Columns := [{ Name := "a" }] } : Table).Columns ≠ [] ∧
      1 ≤ ({ Name := "t", NumColumns := 1, Columns := [{ Name := "a" }] } : Table).NumColumns :=
  ⟨by decide!,
    C19_parsed_table_has_a_column asciiEnv "CREATE TABLE t (a)" 0
      { Name := "t", NumColumns := 1, Columns := [{ Name := "a" }] } (by decide!)⟩

/-- C20.  The length counters of `Table` and `TableConstraint` equal their
sequence lengths: when `ParseTable` returns a table together with
`ERROR_NONE`, `NumColumns = len(Columns)`, `NumConstraint = len(Constraints)`,
and every element of `Constraints` has `NumIndexed = len(IndexedColumns)` and
`ForeignKeyNum = len(ForeignKeyName)`. -/
theorem C20_counters_equal_lengths (E : GoEnv) (sql : String) (length : Int) (tb : Table)
    (h : ParseTable E sql length = Res.ok (some tb, ERROR_NONE)) :
    tb.NumColumns = (tb.Columns.length : Int) ∧
      tb.NumConstraint = (tb.Constraints.length : Int) ∧
      ∀ c ∈ tb.Constraints,
        c.NumIndexed = (c.IndexedColumns.length : Int) ∧
          c.ForeignKeyNum = (c.ForeignKeyName.length : Int) := by
  have hp := ParseTable_post E sql length
  rw [h] at hp
  exact (hp tb rfl).1

/-- C20 at `CREATE TABLE t (a, PRIMARY KEY (a), FOREIGN KEY (a) REFERENCES r
(b))`: one column, two constraints, one indexed column in the first and one
foreign-key column in the second. -/
theorem C20_counters_equal_lengths_witness :
    ∃ tb : Table,
      ParseTable asciiEnv
          "CREATE TABLE t (a, PRIMARY KEY (a), FOREIGN KEY (a) REFERENCES r (b))" 0 =
        Res.ok (some tb, ERROR_NONE) ∧
      tb.Columns.length = 1 ∧ tb.Constraints.length = 2 ∧
      tb.NumColumns = (tb.Columns.length : Int) ∧
      tb.NumConstraint = (tb.Constraints.length : Int) ∧
      ∀ c ∈ tb.Constraints,
        c.NumIndexed = (c.IndexedColumns.length : Int) ∧
          c.ForeignKeyNum = (c.ForeignKeyName.length : Int) :=
  ⟨{ Name := "t", NumColumns := 1, Columns := [{ Name := "a" }], NumConstraint := 2,
     Constraints := [{ Type_ := TABLECONSTRAINT_PRIMARYKEY, NumIndexed := 1,
                       IndexedColumns := [{ Name := "a" }] },
                     { Type_ := TABLECONSTRAINT_FOREIGNKEY, ForeignKeyNum := 1,
                       ForeignKeyName := ["a"],
                       ForeignKeyClause := some { Table := "r", ColumnName := ["b"] } }] },
    by decide!, rfl, rfl,
    C20_counters_equal_lengths asciiEnv
      "CREATE TABLE t (a, PRIMARY KEY (a), FOREIGN KEY (a) REFERENCES r (b))" 0 _
      (by decide!)⟩

end Sqlite3CreateTableParser

namespace Sqlite3CreateTableParser

open tokenT ErrorCode OrderClause ConflictClause FkAction FkDefType ConstraintType

/-! ## The claims on clause order, optional clauses and the end of the buffer -/

/-- C21.  Column definitions must precede table constraints.  For every
statement `CREATE TABLE t (` columns `,` one or more table constraints `, b`
and any text behind `b`, where `b` is an unquoted word that starts a column
definition, `ParseTable` returns `ERROR_SYNTAX`, with the columns and
constraints read before `b`.  The tokens that start a table constraint are
exactly CONSTRAINT, PRIMARY, UNIQUE, CHECK and FOREIGN; the loop over the
table constraints, entered once such a token follows a comma, and the end of
`parse` behind it never change `Columns` or `NumColumns`.  The statement
`CREATE TABLE t (a, UNIQUE (a), b)` and its like with the four other keywords
give `ERROR_SYNTAX`. -/
theorem C21_columns_precede_constraints (E : GoEnv) :
    (∀ (t : List Char) (c : ColumnSpec) (cs : List ColumnSpec) (k : ConstraintSpec)
        (ks : List ConstraintSpec) (b : List Char) (d : Char) (tail : List Char),
        isPlainIdentifier t = true → c.ok = true → cs.all ColumnSpec.ok = true →
        k.ok = true → ks.all ConstraintSpec.ok = true → isPlainIdentifier b = true →
        isDelimiter d = true →
        ParseTable E (String.mk (renderMisplaced t c cs (k :: ks) b (d :: tail))) 0 =
          Res.ok (some (expectedTable t c cs (k :: ks)), ERROR_SYNTAX)) ∧
      (∀ token : tokenT, tokenIsTableConstraint token = true ↔
        token ∈ [tokCONSTRAINT, tokPRIMARY, tokUNIQUE, tokCHECK, tokFOREIGN]) ∧
      (∀ (token : tokenT) (fuel : Nat) (st : State),
        (parseConstraintsLoop E token fuel st).Forall fun p =>
          p.2.table.Columns = st.table.Columns ∧ p.2.table.NumColumns = st.table.NumColumns) ∧
      (∀ st : State,
        (parseTail E st).Forall fun p =>
          p.2.table.Columns = st.table.Columns ∧ p.2.table.NumColumns = st.table.NumColumns) ∧
      tableSummary (ParseTable E "CREATE TABLE t (a, UNIQUE (a), b)" 0) =
        some (ERROR_SYNTAX, "t", ["a"], [TABLECONSTRAINT_UNIQUE]) ∧
      tableSummary (ParseTable E "CREATE TABLE t (a, PRIMARY KEY (a), b INTEGER)" 0) =
        some (ERROR_SYNTAX, "t", ["a"], [TABLECONSTRAINT_PRIMARYKEY]) ∧
      tableSummary (ParseTable E "CREATE TABLE t (a, CONSTRAINT x UNIQUE (a), b)" 0) =
        some (ERROR_SYNTAX, "t", ["a"], [TABLECONSTRAINT_UNIQUE]) ∧
      tableSummary
          (ParseTable E "CREATE TABLE t (a, FOREIGN KEY (a) REFERENCES r (c), b)" 0) =
        some (ERROR_SYNTAX, "t", ["a"], [TABLECONSTRAINT_FOREIGNKEY]) ∧
      tableSummary (ParseTable E "CREATE TABLE t (a, CHECK (a > 0), b)" 0) =
        some (ERROR_SYNTAX, "t", ["a"], []) := by
  refine ⟨?_, ?_, ?_, ?_, ?_, ?_, ?_, ?_, ?_⟩
  · intro t c cs k ks b d tail ht hc hcs hk hks hb hd
    exact ParseTable_misplaced E t c cs k ks b d tail ht hc hcs hk hks hb hd
  · intro token
    cases token <;> decide
  · intro token fuel st
    exact preserves_parseConstraintsLoop E
      (fun t => t.Columns = st.table.Columns ∧ t.NumColumns = st.table.NumColumns)
      (fun _ _ h => h) fuel token st ⟨rfl, rfl⟩
  · intro st
    exact preserves_parseTail E
      (fun t => t.Columns = st.table.Columns ∧ t.NumColumns = st.table.NumColumns)
      (fun _ h => h) st ⟨rfl, rfl⟩
  · rw [ParseTable_ascii E asciiEnv _ 0 (by decide)]
    decide!
  · rw [ParseTable_ascii E asciiEnv _ 0 (by decide)]
    decide!
  · rw [ParseTable_ascii E asciiEnv _ 0 (by decide)]
    decide!
  · rw [ParseTable_ascii E asciiEnv _ 0 (by decide)]
    decide!
  · rw [ParseTable_ascii E asciiEnv _ 0 (by decide)]
    decide!

/-- C21 at `CREATE TABLE t (a INTEGER, UNIQUE (a), b TEXT)`. -/
theorem C21_columns_precede_constraints_witness :
    (isPlainIdentifier "t".data = true ∧ ColumnSpec.ok ⟨"a".data, "INTEGER".data⟩ = true ∧
        ConstraintSpec.ok (ConstraintSpec.unique "a".data []) = true ∧
        isPlainIdentifier "b".data = true ∧ isDelimiter ' ' = true) ∧
      String.mk (renderMisplaced "t".data ⟨"a".data, "INTEGER".data⟩ []
          [ConstraintSpec.unique "a".data []] "b".data " TEXT)".data) =
        "CREATE TABLE t (a INTEGER, UNIQUE (a), b TEXT)" ∧
      ParseTable asciiEnv
          (String.mk (renderMisplaced "t".data ⟨"a".data, "INTEGER".data⟩ []
            [ConstraintSpec.unique "a".data []] "b".data (' ' :: "TEXT)".data))) 0 =
        Res.ok (some (expectedTable "t".data ⟨"a".data, "INTEGER".data⟩ []
          [ConstraintSpec.unique "a".data []]), ERROR_SYNTAX) :=
  ⟨⟨by decide, by decide, by decide, by decide, by decide⟩, by decide,
    (C21_columns_precede_constraints asciiEnv).1 "t".data ⟨"a".data, "INTEGER".data⟩ []
      (ConstraintSpec.unique "a".data []) [] "b".data ' ' "TEXT)".data (by decide) (by decide)
      (by decide) (by decide) (by decide) (by decide) (by decide)⟩

set_option maxRecDepth 1000000 in
/-- C22 (the code departs from the claim).  Of the 24 combinations of the
optional parts in `CREATE [TEMP|TEMPORARY] TABLE [IF NOT EXISTS] t (a)
[WITHOUT ROWID] [;]`, the 18 that do not end in `WITHOUT ROWID` parse as
claimed: `ERROR_NONE`, the name `t`, the one column `a` and exactly the flags
of the parts present.  The 6 that end in `WITHOUT ROWID` with no `;` behind it
do not return: `lexerAlpha` looks for the rune after `ROWID` and reads past
the buffer. -/
theorem C22_optional_clauses_set_their_flags (E : GoEnv) (temp : Option Bool)
    (ifNotExists withoutRowid semicolon : Bool) :
    ParseTable E (renderOptional temp ifNotExists withoutRowid semicolon) 0 =
      if withoutRowid = true ∧ semicolon = false then Res.panic
      else Res.ok (some (expectedOptional temp ifNotExists withoutRowid), ERROR_NONE) := by
  have h : ∀ i w s,
      ParseTable E (renderOptional none i w s) 0 = ParseTable asciiEnv (renderOptional none i w s) 0 ∧
      ParseTable E (renderOptional (some false) i w s) 0 =
        ParseTable asciiEnv (renderOptional (some false) i w s) 0 ∧
      ParseTable E (renderOptional (some true) i w s) 0 =
        ParseTable asciiEnv (renderOptional (some true) i w s) 0 := by
    intro i w s
    cases i <;> cases w <;> cases s <;>
      exact ⟨ParseTable_ascii E asciiEnv _ 0 (by decide),
        ParseTable_ascii E asciiEnv _ 0 (by decide), ParseTable_ascii E asciiEnv _ 0 (by decide)⟩
  rcases temp with _ | _ | _
  · rw [(h ifNotExists withoutRowid semicolon).1]
    cases ifNotExists <;> cases withoutRowid <;> cases semicolon <;> decide!
  · rw [(h ifNotExists withoutRowid semicolon).2.1]
    cases ifNotExists <;> cases withoutRowid <;> cases semicolon <;> decide!
  · rw [(h ifNotExists withoutRowid semicolon).2.2]
    cases ifNotExists <;> cases withoutRowid <;> cases semicolon <;> decide!

/-- C23 (the code departs from the claim).  `peek`, `peek2` and `next` index
the buffer without a test: at an offset that is not smaller than
`len(buffer)` they fail.  `ParseTable` makes such accesses on ASCII input that
ends inside an identifier, a keyword, a line comment, a block comment, a
quoted identifier or a parenthesised length, or whose last character is `-`
or `/`: each of these calls ends with an index out of range, not with an
error code. -/
theorem C23_reads_past_the_buffer (E : GoEnv) :
    (∀ st : State, st.buffer.length ≤ st.offset → peek st = Res.panic ∧ next st = Res.panic) ∧
      (∀ st : State, st.buffer.length ≤ st.offset + 1 → peek2 st = Res.panic) ∧
      ParseTable E "CREATE TABLE t (a" 0 = Res.panic ∧
      lexerNext E (stateAt "CREATE TABLE t (a" 16) = Res.panic ∧
      ParseTable E "CREATE TABLE t" 0 = Res.panic ∧
      ParseTable E "CREATE" 0 = Res.panic ∧
      ParseTable E "CREATE TABLE t (a) -- x" 0 = Res.panic ∧
      ParseTable E "CREATE TABLE t (a) /* x" 0 = Res.panic ∧
      ParseTable E "CREATE TABLE \"t" 0 = Res.panic ∧
      ParseTable E "CREATE TABLE t (a VARCHAR(10" 0 = Res.panic ∧
      ParseTable E "CREATE TABLE t (a) -" 0 = Res.panic ∧
      ParseTable E "CREATE TABLE t (a) /" 0 = Res.panic := by
  refine ⟨?_, ?_, ?_, ?_, ?_, ?_, ?_, ?_, ?_, ?_, ?_, ?_⟩
  · rintro ⟨B, S, k, id, tb⟩ hk
    exact ⟨peek_at_end S id tb hk, next_at_end S id tb hk⟩
  · rintro ⟨B, S, k, id, tb⟩ hk
    simp only [peek2, get?_at_end hk]
  · exact (ParseTable_ascii E asciiEnv _ 0 (by decide)).trans (by decide!)
  · rw [(cong_lexerNext E asciiEnv _ (by decide)).1]
    decide!
  · exact (ParseTable_ascii E asciiEnv _ 0 (by decide)).trans (by decide!)
  · exact (ParseTable_ascii E asciiEnv _ 0 (by decide)).trans (by decide!)
  · exact (ParseTable_ascii E asciiEnv _ 0 (by decide)).trans (by decide!)
  · exact (ParseTable_ascii E asciiEnv _ 0 (by decide)).trans (by decide!)
  · exact (ParseTable_ascii E asciiEnv _ 0 (by decide)).trans (by decide!)
  · exact (ParseTable_ascii E asciiEnv _ 0 (by decide)).trans (by decide!)
  · exact (ParseTable_ascii E asciiEnv _ 0 (by decide)).trans (by decide!)
  · exact (ParseTable_ascii E asciiEnv _ 0 (by decide)).trans (by decide!)

/-- C23 at the end of `CREATE TABLE t (a`: the offset 17 is the length of the
buffer. -/
theorem C23_reads_past_the_buffer_witness :
    (stateAt "CREATE TABLE t (a" 17).buffer.length ≤ (stateAt "CREATE TABLE t (a" 17).offset ∧
      peek (stateAt "CREATE TABLE t (a" 17) = Res.panic ∧
      next (stateAt "CREATE TABLE t (a" 17) = Res.panic :=
  ⟨by decide,
    (C23_reads_past_the_buffer asciiEnv).1 (stateAt "CREATE TABLE t (a" 17) (by decide)⟩

/-- C24 (the code departs from the claim).  With length 0 `ParseTable` runs
`parse` on a state whose size is `len(sql)`, the number of bytes, and whose
buffer holds the code points.  On ASCII text the two agree, and `lexerNext`
at the end of the buffer returns `tokEOF`.  On every text with a code point
beyond ASCII the size is larger than the buffer is long: at the end of the
buffer `isEOF` is false and `lexerNext` reads past the buffer.  So
`CREATE TABLE "s" (a INTEGER)` parses when the quoted name `s` is ASCII and
fails with an index out of range when `s` holds a code point beyond ASCII. -/
theorem C24_size_is_the_byte_length (E : GoEnv) :
    (∀ sql : String, sql ≠ "" →
        ParseTable E sql 0 =
          (parse E (stateAt sql 0)).bind fun p => Res.ok (some p.2.table, p.1)) ∧
      (∀ sql : String,
        (stateAt sql 0).size = (goLen sql : Int) ∧ (stateAt sql 0).buffer = sql.data) ∧
      (∀ sql : String, AsciiText sql.data →
        (stateAt sql 0).size = ((stateAt sql 0).buffer.length : Int) ∧
          isEOF (stateAt sql sql.data.length) = true ∧
          lexerNext E (stateAt sql sql.data.length) =
            Res.ok (tokEOF, stateAt sql sql.data.length)) ∧
      (∀ sql : String, ¬ AsciiText sql.data →
        ((stateAt sql 0).buffer.length : Int) < (stateAt sql 0).size ∧
          isEOF (stateAt sql sql.data.length) = false ∧
          lexerNext E (stateAt sql sql.data.length) = Res.panic) ∧
      (∀ s : List Char, s ≠ [] → (∀ x ∈ s, x ≠ '\x00' ∧ x ≠ '"') →
        (AsciiText s → ParseTable E (String.mk (renderQuotedName s)) 0 =
          Res.ok (some { Name := String.mk s, NumColumns := 1,
                         Columns := [{ Name := "a", Type_ := "INTEGER" }] }, ERROR_NONE)) ∧
        (¬ AsciiText s → ParseTable E (String.mk (renderQuotedName s)) 0 = Res.panic)) := by
  refine ⟨?_, fun sql => ⟨rfl, rfl⟩, ?_, ?_, ?_⟩
  · rintro ⟨B⟩ hne
    have hB : B ≠ [] := fun e => hne (by rw [e])
    exact ParseTable_run E B hB
  · rintro ⟨B⟩ ha
    have hg : goLen (String.mk B) = B.length := goLen_ascii B ha
    refine ⟨?_, ?_, ?_⟩
    · simp only [stateAt, hg]
    · simp only [stateAt, isEOF, hg, beq_self_eq_true]
    · have := @lexerNext_eof E B B [] B.length (goLen (String.mk B) : Int) "" {} (by simp) rfl
        (by rw [hg]) (by decide)
      simpa [stateAt] using this
  · rintro ⟨B⟩ hna
    have hg : B.length < goLen (String.mk B) := length_lt_goLen B hna
    refine ⟨?_, ?_, ?_⟩
    · simp only [stateAt]
      omega
    · simp only [stateAt, isEOF, beq_eq_false_iff_ne, ne_eq]
      omega
    · exact lexerNext_end_panic E B _ B.length "" {} (Nat.le_refl _) (by omega)
  · intro s hs hq
    exact ParseTable_quotedName E s hs hq

/-- C24 at the text `é` and at the statement `CREATE TABLE "é" (a INTEGER)`. -/
theorem C24_size_is_the_byte_length_witness :
    (¬ AsciiText "é".data ∧ "é".data ≠ [] ∧ ∀ x ∈ "é".data, x ≠ '\x00' ∧ x ≠ '"') ∧
      (((stateAt "é" 0).buffer.length : Int) < (stateAt "é" 0).size ∧
        isEOF (stateAt "é" "é".data.length) = false ∧
        lexerNext asciiEnv (stateAt "é" "é".data.length) = Res.panic) ∧
      ParseTable asciiEnv (String.mk (renderQuotedName "é".data)) 0 = Res.panic :=
  ⟨⟨by decide, by decide, by decide⟩,
    (C24_size_is_the_byte_length asciiEnv).2.2.2.1 "é" (by decide),
    ((C24_size_is_the_byte_length asciiEnv).2.2.2.2 "é".data (by decide) (by decide)).2
      (by decide)⟩

end Sqlite3CreateTableParser

